import Mathlib

/-!
# muc type library: a shallow embedding of `src/type/type.c` and `src/type/abi.c`

Type terms live in a heap (`Heap`, a list of nodes); a `type` is the address of
a node, so that the pointer comparisons of the C code (`a == b`) are address
comparisons here.  Constructors allocate at the end of the heap.

Conventions of the embedding:

* functions that can `assert`, read a field of the wrong union variant, divide
  by zero or recurse return `Option`; `none` stands for "the C call does not
  return a value" (abort, undefined behaviour or exhausted call depth);
* recursive C functions take a `fuel : Nat` that bounds the call depth; every
  call inside a recursive cycle consumes one unit;
* `size_t` arithmetic is arithmetic of `Nat` modulo `SIZE_MOD = 2 ^ 64`;
* the member count `n` of a compound, enum or argument list is the length of
  its member table (the constructors keep the two equal), `0` when the table
  is absent.
-/

namespace Muc

/-! ## Data model (`type.h`, `struct type` in `type.c`) -/

/-- The enumeration `enum type_kind` of `type.h` (without `TYPE_NR_KINDS`). -/
inductive type_kind where
  | TYPE_VOID | TYPE_UNION | TYPE_STRUCT | TYPE_ARRAY | TYPE_POINTER
  | TYPE_FUNCTION | TYPE_BOOL | TYPE_CHAR | TYPE_ENUM | TYPE_ARGLIST
  | TYPE_SCHAR | TYPE_SHORT | TYPE_INT | TYPE_LONG | TYPE_LONGLONG
  | TYPE_FLOAT | TYPE_DOUBLE | TYPE_LONGDOUBLE
  | TYPE_MODIFIED
  deriving DecidableEq, Repr

/-- The enumeration `enum type_category` of `type.h`. -/
inductive type_category_e where
  | TC_ARRAY | TC_POINTER | TC_FUNCTION | TC_UNION | TC_STRUCT | TC_ATOMIC | TC_SELF
  deriving DecidableEq, Repr

open type_kind type_category_e

/-- A `type` of the C code is a pointer to a node: here its address in the heap. -/
abbrev type := Nat

/-- A member of a struct, union or argument list (`struct type_member` with the
`typ` variant of its union).  The name is `none` for a `NULL` name. -/
structure type_member where
  name : Option String
  typ : type
  deriving DecidableEq, Repr

/-- One `struct type` node.  Each constructor is one variant of the anonymous
union in `struct type`, together with the kinds that use it.
* `basic k`: a node produced by `type_basic(k)` / `type_void()`, no payload;
* `pointer referenced`;
* `array length element targ`: `length` is `-1` for an incomplete and `-2` for
  a variable-length array, `targ` the dependency handle (`none` is `NULL`);
* `function ret args`: `args` is `none` for a `NULL` argument list;
* `arglist members vna`: kind `TYPE_ARGLIST`, tag `NULL`, every member with a
  type;
* `arglist_null members vna`: an argument list of which a member type is
  `NULL` (`type_arglist` stores `args[i]` as it is given, and `type_composite`
  passes the `NULL` composite of a parameter); a member is its name and its
  type, `none` for `NULL`;
* `compound kind tag members`: `type_compound`, `members = none` is the `NULL`
  table of an incomplete struct or union;
* `enum tag members`: an enum, members carry values instead of types;
* `modified flags base bits`: `bits` is `none` while the field is
  uninitialised (it is only written by `type_bitfield`). -/
inductive Node where
  | basic (kind : type_kind)
  | pointer (referenced : type)
  | array (length : Int) (element : type) (targ : Option Nat)
  | function (ret : type) (args : Option type)
  | arglist (members : List type_member) (vna : Bool)
  | arglist_null (members : List (Option String × Option type)) (vna : Bool)
  | compound (kind : type_kind) (tag : String) (members : Option (List type_member))
  | enum (tag : String) (members : Option (List (String × Int)))
  | modified (flags : Nat) (base : type) (bits : Option Int)
  deriving DecidableEq, Repr

/-- The field `kind` of a node. -/
def Node.kind : Node → type_kind
  | .basic k => k
  | .pointer _ => TYPE_POINTER
  | .array _ _ _ => TYPE_ARRAY
  | .function _ _ => TYPE_FUNCTION
  | .arglist _ _ => TYPE_ARGLIST
  | .arglist_null _ _ => TYPE_ARGLIST
  | .compound k _ _ => k
  | .enum _ _ => TYPE_ENUM
  | .modified _ _ _ => TYPE_MODIFIED

/-- The memory holding the type terms; the node of address `p` is `h[p]`. -/
abbrev Heap := List Node

/-- Dereference an address.  An address outside the heap reads as a payload-free
`void` node (such a pointer is not a valid `type`). -/
def Heap.node (h : Heap) (p : type) : Node :=
  h.getD p (.basic TYPE_VOID)

/-- Allocation (`type_alloc` followed by the field writes): the new node gets
the next free address. -/
def Heap.alloc (h : Heap) (n : Node) : Heap × type :=
  (h ++ [n], h.length)

/-! ## Flags -/

def UNSIGNED : Nat := 1
def COMPLEX : Nat := 2
def CONST : Nat := 4
def VOLATILE : Nat := 8
def RESTRICT : Nat := 16
def ATOMIC : Nat := 32
def BITFIELD : Nat := 64
def WIDE : Nat := 128

/-- C truth value of an `unsigned int` converted to `bool`. -/
def c_bool (x : Nat) : Bool := x != 0

/-- The complement `~m` of an `unsigned int` (32 bits). -/
def c_not32 (m : Nat) : Nat := 4294967295 - m % 4294967296

/-! ## Inspection (`type.c`) -/

/-- Embedding of `type_base`: `(TYPE_MODIFIED == t->kind) ? t->base : t`. -/
def type_base (h : Heap) (t : type) : type :=
  match h.node t with
  | .modified _ b _ => b
  | _ => t

/-- Embedding of `type_flags`: `(TYPE_MODIFIED == t->kind) ? t->flags : 0`. -/
def type_flags (h : Heap) (t : type) : Nat :=
  match h.node t with
  | .modified f _ _ => f
  | _ => 0

/-- Embedding of `type_classify`: `type_base(t)->kind`. -/
def type_classify (h : Heap) (t : type) : type_kind :=
  (h.node (type_base h t)).kind

/-- Embedding of `type_has_class_p`. -/
def type_has_class_p (h : Heap) (t : type) (k : type_kind) : Bool :=
  k == type_classify h t

def type_function_p (h : Heap) (t : type) : Bool := type_has_class_p h t TYPE_FUNCTION
def type_pointer_p (h : Heap) (t : type) : Bool := type_has_class_p h t TYPE_POINTER
def type_struct_p (h : Heap) (t : type) : Bool := type_has_class_p h t TYPE_STRUCT
def type_union_p (h : Heap) (t : type) : Bool := type_has_class_p h t TYPE_UNION
def type_array_p (h : Heap) (t : type) : Bool := type_has_class_p h t TYPE_ARRAY
def type_arglist_p (h : Heap) (t : type) : Bool := type_has_class_p h t TYPE_ARGLIST
def type_enum_p (h : Heap) (t : type) : Bool := type_has_class_p h t TYPE_ENUM

/-- Embedding of `type_float_p`. -/
def type_float_p (h : Heap) (t : type) : Bool :=
  match type_classify h t with
  | TYPE_FLOAT | TYPE_DOUBLE | TYPE_LONGDOUBLE => true
  | _ => false

def type_complex_p (h : Heap) (t : type) : Bool := c_bool (type_flags h t &&& COMPLEX)
def type_atomic_p (h : Heap) (t : type) : Bool := c_bool (type_flags h t &&& ATOMIC)
def type_const_p (h : Heap) (t : type) : Bool := c_bool (type_flags h t &&& CONST)
def type_volatile_p (h : Heap) (t : type) : Bool := c_bool (type_flags h t &&& VOLATILE)
def type_restrict_p (h : Heap) (t : type) : Bool := c_bool (type_flags h t &&& RESTRICT)
def type_wide_p (h : Heap) (t : type) : Bool := c_bool (type_flags h t &&& WIDE)
def type_bitfield_p (h : Heap) (t : type) : Bool := c_bool (type_flags h t &&& BITFIELD)

/-- Embedding of `type_signed_p`. -/
def type_signed_p (h : Heap) (t : type) : Bool :=
  if c_bool (type_flags h t &&& UNSIGNED) then false
  else
    match (h.node (type_base h t)).kind with
    | TYPE_SCHAR | TYPE_SHORT | TYPE_INT | TYPE_LONG | TYPE_LONGLONG => true
    | _ => false

/-- Embedding of `type_unsigned_p`. -/
def type_unsigned_p (h : Heap) (t : type) : Bool :=
  (TYPE_BOOL == type_classify h t)
    || (type_signed_p h (type_base h t) && c_bool (type_flags h t &&& UNSIGNED))

/-- Embedding of `type_compound_p`. -/
def type_compound_p (h : Heap) (t : type) : Bool :=
  type_union_p h t || type_struct_p h t

/-- Embedding of `type_aggregate_p`. -/
def type_aggregate_p (h : Heap) (t : type) : Bool :=
  type_array_p h t || type_struct_p h t

/-- The field `length` of the base node, when it is an array node. -/
def base_length (h : Heap) (t : type) : Option Int :=
  match h.node (type_base h t) with
  | .array l _ _ => some l
  | _ => none

/-- Embedding of `type_array_vla_p`. -/
def type_array_vla_p (h : Heap) (t : type) : Bool :=
  if !type_array_p h t then false
  else base_length h t == some (-2)

/-- Embedding of `type_category`. -/
def type_category (h : Heap) (t : type) : type_category_e :=
  if type_atomic_p h t then TC_ATOMIC
  else
    match type_classify h t with
    | TYPE_STRUCT => TC_STRUCT
    | TYPE_UNION => TC_UNION
    | TYPE_POINTER => TC_POINTER
    | TYPE_ARRAY => TC_ARRAY
    | TYPE_FUNCTION => TC_FUNCTION
    | _ => TC_SELF

/-- Embedding of `type_qualified_p`. -/
def type_qualified_p (h : Heap) (t : type) : Bool :=
  type_const_p h t || type_volatile_p h t || type_restrict_p h t || type_wide_p h t

/-- Embedding of `type_character_p`. -/
def type_character_p (h : Heap) (t : type) : Bool :=
  (TYPE_CHAR == type_classify h t) || (TYPE_SCHAR == type_classify h t)

/-- Embedding of `type_integer_p`. -/
def type_integer_p (h : Heap) (t : type) : Bool :=
  type_enum_p h t || type_signed_p h t || type_unsigned_p h t || type_character_p h t

/-- Embedding of `type_basic_p`. -/
def type_basic_p (h : Heap) (t : type) : Bool :=
  (TYPE_CHAR == type_classify h t) || type_signed_p h t || type_unsigned_p h t
    || type_float_p h t

/-- Embedding of `type_arithmetic_p`. -/
def type_arithmetic_p (h : Heap) (t : type) : Bool :=
  type_integer_p h t || type_float_p h t

/-- The member table `type_base(t)->members` of a struct, union or argument
list; `none` when the table is `NULL` or the base node has no member table
of types. -/
def base_members (h : Heap) (t : type) : Option (List type_member) :=
  match h.node (type_base h t) with
  | .compound _ _ ms => ms
  | .arglist ms _ => some ms
  | _ => none

/-- Embedding of `type_complete_p`. -/
def type_complete_p (h : Heap) (t : type) : Bool :=
  if type_basic_p h t then true
  else
    match type_classify h t with
    | TYPE_VOID => false
    | TYPE_ARRAY => !(base_length h t == some (-1))
    | TYPE_STRUCT | TYPE_UNION => (base_members h t).isSome
    | _ => true

/-- Embedding of `type_function_return` (asserts `type_function_p`). -/
def type_function_return (h : Heap) (t : type) : Option type :=
  match h.node (type_base h t) with
  | .function r _ => some r
  | _ => none

/-- Embedding of `type_pointer_referenced` (asserts `type_pointer_p`). -/
def type_pointer_referenced (h : Heap) (t : type) : Option type :=
  match h.node (type_base h t) with
  | .pointer r => some r
  | _ => none

/-- Embedding of `type_array_element` (asserts `type_array_p`). -/
def type_array_element (h : Heap) (t : type) : Option type :=
  match h.node (type_base h t) with
  | .array _ e _ => some e
  | _ => none

/-- Embedding of `type_array_length` (asserts `type_array_p` and `0 <= l`). -/
def type_array_length (h : Heap) (t : type) : Option Int :=
  match h.node (type_base h t) with
  | .array l _ _ => if 0 ≤ l then some l else none
  | _ => none

/-- Embedding of `type_function_arguments` (asserts `type_function_p`); the
inner option is the possibly `NULL` argument list. -/
def type_function_arguments (h : Heap) (t : type) : Option (Option type) :=
  match h.node (type_base h t) with
  | .function _ a => some a
  | _ => none

/-- Embedding of `type_compound_tag` (asserts compound or enum). -/
def type_compound_tag (h : Heap) (t : type) : Option String :=
  match h.node (type_base h t) with
  | .compound _ tag _ => some tag
  | .enum tag _ => some tag
  | _ => none

/-- Embedding of `type_member_count` (asserts compound, enum or argument list):
the field `n` of the base node. -/
def type_member_count (h : Heap) (t : type) : Option Nat :=
  match h.node (type_base h t) with
  | .compound _ _ ms => some (ms.getD []).length
  | .arglist ms _ => some ms.length
  | .arglist_null ms _ => some ms.length
  | .enum _ ms => some (ms.getD []).length
  | _ => none

/-- The member table of an argument list that holds a `NULL` type. -/
def null_members (h : Heap) (t : type) : Option (List (Option String × Option type)) :=
  match h.node (type_base h t) with
  | .arglist_null ms _ => some ms
  | _ => none

/-- Embedding of `type_member_type` (asserts `0 <= n` and compound or argument
list); reading past the table or through a `NULL` table has no value.  The
result is a term: where the type of the member is `NULL` there is no value
(the loops over argument lists read `member_types`). -/
def type_member_type (h : Heap) (t : type) (n : Int) : Option type :=
  if n < 0 then none
  else
    match base_members h t with
    | some ms => (ms.get? n.toNat).map (·.typ)
    | none => (null_members h t).bind fun ms => (ms.get? n.toNat).bind (·.2)

/-- Embedding of `type_member_name`, for struct, union and argument list nodes. -/
def type_member_name (h : Heap) (t : type) (n : Int) : Option (Option String) :=
  if n < 0 then none
  else
    match base_members h t with
    | some ms => (ms.get? n.toNat).map (·.name)
    | none => (null_members h t).bind fun ms => (ms.get? n.toNat).map (·.1)

/-- Embedding of `type_bitfield_bits`: asserts `type_bitfield_p(t)` and reads
`t->bits`, which has no value while uninitialised. -/
def type_bitfield_bits (h : Heap) (t : type) : Option Int :=
  if !type_bitfield_p h t then none
  else
    match h.node t with
    | .modified _ _ bits => bits
    | _ => none

/-- Embedding of `type_struct_has_fam_p` (asserts `type_struct_p`). -/
def type_struct_has_fam_p (h : Heap) (t : type) : Option Bool :=
  if !type_struct_p h t then none
  else do
    let N ← type_member_count h t
    let last ← type_member_type h t ((N : Int) - 1)
    if type_array_p h last && !type_complete_p h last then some true
    else some false

/-- Generic form of the loops `for (i...) if (!p(member i)) return false;`
followed by `return true`. -/
def all_members (p : type → Option Bool) : List type_member → Option Bool
  | [] => some true
  | m :: rest =>
    match p m.typ with
    | none => none
    | some false => some false
    | some true => all_members p rest

/-- Embedding of `type_known_const_size_p`; `fuel` bounds the call depth. -/
def type_known_const_size_p : Nat → Heap → type → Option Bool
  | 0, _, _ => none
  | fuel + 1, h, t =>
    if !type_complete_p h t then some false
    else do
      let members_ok ←
        (if type_compound_p h t then
          all_members (type_known_const_size_p fuel h) ((base_members h t).getD [])
        else some true)
      if !members_ok then some false
      else if type_array_p h t then
        if type_array_vla_p h t then some false
        else do
          let e ← type_array_element h t
          type_known_const_size_p fuel h e
      else some true

/-- Embedding of `type_real`.  The assertion reads the field `flags` of the
base node, which has a value only when the base node is itself a modified node. -/
def type_real (h : Heap) (t : type) : Option type :=
  if !type_float_p h t then none
  else
    match h.node t with
    | .modified flags base _ =>
      if !c_bool (flags &&& COMPLEX) then some t
      else
        match h.node base with
        | .modified bflags _ _ =>
          if bflags == (flags &&& c_not32 COMPLEX) then some base else none
        | _ => none
    | _ => some t

/-! ## ABI layout (`abi.c`) -/

/-- The table of `struct abi`: size and alignment for every kind. -/
structure Abi where
  size : type_kind → Nat
  alignment : type_kind → Nat

/-- Number of values of `size_t` (64-bit host). -/
def SIZE_MOD : Nat := 18446744073709551616

def CHAR_BIT : Nat := 8

def INT_MAX : Int := 2147483647

/-- Conversion of a `size_t` value to `int` (32-bit two's complement). -/
def c_int_of_size (x : Nat) : Int :=
  let y := x % 4294967296
  if y < 2147483648 then (y : Int) else (y : Int) - 4294967296

/-- The macro `MAX(x, y)`. -/
def MAX (x y : Nat) : Nat := if x > y then x else y

/-- The loops of `sizeof_union` and `alignof_union`:
`for (i...) max = MAX(max, f(type_member_type(t, i)))`. -/
def max_members (f : type → Option Nat) : List type_member → Nat → Option Nat
  | [], acc => some acc
  | m :: rest, acc =>
    match f m.typ with
    | none => none
    | some v => max_members f rest (MAX acc v)

/-- Embedding of `alignof_union`; `al` is the recursive callee `type_alignof`. -/
def alignof_union (al : type → Option Nat) (h : Heap) (t : type) : Option Nat :=
  match type_member_count h t with
  | none => none
  | some _ => max_members al ((base_members h t).getD []) 0

/-- Embedding of `alignof_struct`. -/
def alignof_struct (al : type → Option Nat) (h : Heap) (t : type) : Option Nat :=
  alignof_union al h t

/-- Embedding of `type_alignof`; `fuel` bounds the nesting depth. -/
def type_alignof : Nat → Abi → Heap → type → Option Nat
  | 0, _, _, _ => none
  | fuel + 1, abi, h, t =>
    match type_category h t with
    | TC_UNION => alignof_union (type_alignof fuel abi h) h t
    | TC_STRUCT => alignof_struct (type_alignof fuel abi h) h t
    | TC_ARRAY =>
      match type_array_element h t with
      | none => none
      | some e => type_alignof fuel abi h e
    | TC_FUNCTION => none
    | TC_POINTER => some (abi.alignment TYPE_POINTER)
    | TC_ATOMIC => none
    | TC_SELF => some (abi.alignment (type_classify h t))

/-- Outcome of one iteration of the member loop of `type_offsetof_n`. -/
inductive LoopStep where
  | next (sum : Nat) (bits : Int)
  | ret (sum : Nat)
  deriving DecidableEq, Repr

/-- The part of the loop body of `type_offsetof_n` after the bitfield block:
alignment padding, the test `i == n`, and the addition of the member size. -/
def offsetof_place (sz al : type → Option Nat) (n : Int) (m : type) (i : Nat)
    (sum : Nat) (bits : Int) : Option LoopStep :=
  match al m with
  | none => none
  | some a =>
    if a = 0 then none
    else
      let pad := (a - sum % a) % a
      if !(decide (0 < i) || pad == 0) then none
      else
        let sum1 := (sum + pad) % SIZE_MOD
        if (i : Int) = n then some (.ret sum1)
        else
          match sz m with
          | none => none
          | some s => some (.next ((sum1 + s) % SIZE_MOD) bits)

/-- One iteration of the member loop of `type_offsetof_n` for member `m` at
index `i`. -/
def offsetof_step (sz al : type → Option Nat) (h : Heap) (n : Int) (m : type) (i : Nat)
    (sum : Nat) (bits : Int) : Option LoopStep :=
  if type_bitfield_p h m then
    match type_bitfield_bits h m with
    | none => none
    | some nbits =>
      if nbits ≠ 0 ∧ bits ≥ nbits then
        if bits - nbits ≤ INT_MAX then some (.next sum (bits - nbits)) else none
      else
        match sz m with
        | none => none
        | some s =>
          offsetof_place sz al n m i sum (c_int_of_size ((s * CHAR_BIT) % SIZE_MOD))
  else offsetof_place sz al n m i sum bits

/-- The member loop of `type_offsetof_n`, over the members from index `i` on. -/
def offsetof_loop (sz al : type → Option Nat) (h : Heap) (n : Int) :
    List type_member → Nat → Nat → Int → Option Nat
  | [], _, sum, _ => some sum
  | m :: rest, i, sum, bits =>
    match offsetof_step sz al h n m.typ i sum bits with
    | none => none
    | some (.ret s) => some s
    | some (.next s b) => offsetof_loop sz al h n rest (i + 1) s b

/-- Body of `type_offsetof_n`, with the callees `type_sizeof` and `type_alignof`
as parameters. -/
def offsetof_n_body (sz al : type → Option Nat) (h : Heap) (t : type) (n : Int) :
    Option Nat :=
  if !type_compound_p h t then none
  else
    match type_member_count h t with
    | none => none
    | some N =>
      if !(n < (N : Int)) then none
      else if type_union_p h t then some 0
      else offsetof_loop sz al h n ((base_members h t).getD []) 0 0 0

/-- Embedding of `sizeof_union`; `sz` is the recursive callee `type_sizeof`. -/
def sizeof_union (sz : type → Option Nat) (h : Heap) (t : type) : Option Nat :=
  match type_member_count h t with
  | none => none
  | some _ => max_members sz ((base_members h t).getD []) 0

/-- Embedding of `sizeof_struct`; `off` is `type_offsetof_n`, `sz` is
`type_sizeof`. -/
def sizeof_struct (off : type → Int → Option Nat) (sz : type → Option Nat) (h : Heap)
    (t : type) : Option Nat :=
  match type_member_count h t with
  | none => none
  | some N =>
    if !(0 < N) then none
    else
      match off t ((N : Int) - 1) with
      | none => none
      | some off0 =>
        match type_struct_has_fam_p h t with
        | none => none
        | some fam =>
          let off1 : Option Nat :=
            if !fam then
              match type_member_type h t ((N : Int) - 1) with
              | none => none
              | some last =>
                match sz last with
                | none => none
                | some s => some ((off0 + s) % SIZE_MOD)
            else some off0
          match off1 with
          | none => none
          | some r => if 0 < r then some r else none

/-- Embedding of `type_sizeof`; `fuel` bounds the nesting depth. -/
def type_sizeof : Nat → Abi → Heap → type → Option Nat
  | 0, _, _, _ => none
  | fuel + 1, abi, h, t =>
    if type_known_const_size_p (fuel + 1) h t != some true then none
    else if type_arithmetic_p h t && type_complex_p h t then
      match type_real h t with
      | none => none
      | some r =>
        match type_sizeof fuel abi h r with
        | none => none
        | some s => some ((2 * s) % SIZE_MOD)
    else
      match type_category h t with
      | TC_UNION => sizeof_union (type_sizeof fuel abi h) h t
      | TC_STRUCT =>
        sizeof_struct
          (offsetof_n_body (type_sizeof fuel abi h) (type_alignof fuel abi h) h)
          (type_sizeof fuel abi h) h t
      | TC_ARRAY =>
        match type_array_length h t with
        | none => none
        | some l =>
          match type_array_element h t with
          | none => none
          | some e =>
            match type_sizeof fuel abi h e with
            | none => none
            | some s => some ((l.toNat * s) % SIZE_MOD)
      | TC_FUNCTION => none
      | TC_POINTER =>
        match type_pointer_referenced h t with
        | none => none
        | some r =>
          some (((if type_wide_p h r then 2 else 1) * abi.size TYPE_POINTER) % SIZE_MOD)
      | TC_ATOMIC => none
      | TC_SELF => some (abi.size (type_classify h t))

/-- Embedding of `type_offsetof_n`; `fuel` bounds the nesting depth of the
member types. -/
def type_offsetof_n (fuel : Nat) (abi : Abi) (h : Heap) (t : type) (n : Int) : Option Nat :=
  offsetof_n_body (type_sizeof fuel abi h) (type_alignof fuel abi h) h t n

/-! ## Constructors (`type.c`) -/

/-- Embedding of `type_basic`. -/
def type_basic (h : Heap) (kind : type_kind) : Heap × type :=
  h.alloc (.basic kind)

/-- Embedding of `type_void`. -/
def type_void (h : Heap) : Heap × type :=
  h.alloc (.basic TYPE_VOID)

/-- Embedding of `type_pointer`. -/
def type_pointer (h : Heap) (t : type) : Heap × type :=
  h.alloc (.pointer t)

/-- Embedding of `type_array`. -/
def type_array (h : Heap) (N : Int) (t : type) : Heap × type :=
  h.alloc (.array N t none)

/-- Embedding of `type_incomplete_array`. -/
def type_incomplete_array (h : Heap) (t : type) : Heap × type :=
  h.alloc (.array (-1) t none)

/-- Embedding of `type_variable_array`. -/
def type_variable_array (h : Heap) (t : type) (targ : Option Nat) : Heap × type :=
  h.alloc (.array (-2) t targ)

/-- Embedding of `type_arglist`: one member per argument, `names[i]` may be `NULL`. -/
def type_arglist (h : Heap) (args : List type_member) : Heap × type :=
  h.alloc (.arglist args false)

/-- Embedding of `type_function2`. -/
def type_function2 (h : Heap) (ret : type) (args : List type_member) : Heap × type :=
  let (h1, al) := type_arglist h args
  h1.alloc (.function ret (some al))

/-- Embedding of `type_function`: all names are `NULL`. -/
def type_function (h : Heap) (ret : type) (args : List type) : Heap × type :=
  type_function2 h ret (args.map fun a => ⟨none, a⟩)

/-- The members of a table in which no type is `NULL`; `none` when one is. -/
def typed_members : List (Option String × Option type) → Option (List type_member)
  | [] => some []
  | (n, some t) :: ms => (typed_members ms).map fun r => ⟨n, t⟩ :: r
  | (_, none) :: _ => none

/-- Embedding of `type_arglist` for arguments of which one may be `NULL`: the
node stores `args[i]` as it is given. -/
def type_arglist_null (h : Heap) (args : List (Option String × Option type)) : Heap × type :=
  match typed_members args with
  | some ms => type_arglist h ms
  | none => h.alloc (.arglist_null args false)

/-- Embedding of `type_function` (through `type_function2`) for arguments of
which one may be `NULL`; all names are `NULL`. -/
def type_function_null (h : Heap) (ret : type) (args : List (Option type)) : Heap × type :=
  let (h1, al) := type_arglist_null h (args.map fun a => (none, a))
  h1.alloc (.function ret (some al))

/-- Embedding of `type_struct`. -/
def type_struct (h : Heap) (tag : String) (e : List type_member) : Heap × type :=
  h.alloc (.compound TYPE_STRUCT tag (some e))

/-- Embedding of `type_struct_inc`. -/
def type_struct_inc (h : Heap) (tag : String) : Heap × type :=
  h.alloc (.compound TYPE_STRUCT tag none)

/-- Embedding of `type_union`. -/
def type_union (h : Heap) (tag : String) (e : List type_member) : Heap × type :=
  h.alloc (.compound TYPE_UNION tag (some e))

/-- Embedding of `type_union_inc`. -/
def type_union_inc (h : Heap) (tag : String) : Heap × type :=
  h.alloc (.compound TYPE_UNION tag none)

/-- Embedding of `type_enum`. -/
def type_enum (h : Heap) (tag : String) (e : List (String × Int)) : Heap × type :=
  h.alloc (.enum tag (some e))

/-- Embedding of `type_enum_inc`. -/
def type_enum_inc (h : Heap) (tag : String) : Heap × type :=
  h.alloc (.enum tag none)

/-- Embedding of `type_modify`: the new node takes the base of an already
modified argument and the union of the flags; `bits` is left unwritten. -/
def type_modify (h : Heap) (t : type) (flags : Nat) : Heap × type :=
  match h.node t with
  | .modified f b _ => h.alloc (.modified (f ||| flags) b none)
  | _ => h.alloc (.modified flags t none)

/-- Embedding of `type_unsigned`. -/
def type_unsigned (h : Heap) (t : type) : Heap × type :=
  if type_unsigned_p h t then (h, t) else type_modify h t UNSIGNED

/-- Embedding of `type_complex` (asserts `type_float_p`). -/
def type_complex (h : Heap) (t : type) : Option (Heap × type) :=
  if type_float_p h t then some (type_modify h t COMPLEX) else none

/-- Embedding of `type_atomic`. -/
def type_atomic (h : Heap) (t : type) : Heap × type := type_modify h t ATOMIC

/-- Embedding of `type_bitfield`: `type_modify` followed by the write of `bits`. -/
def type_bitfield (h : Heap) (t : type) (bits : Int) : Heap × type :=
  match h.node t with
  | .modified f b _ => h.alloc (.modified (f ||| BITFIELD) b (some bits))
  | _ => h.alloc (.modified BITFIELD t (some bits))

/-- Embedding of `type_unqualified`. -/
def type_unqualified (h : Heap) (t : type) : Heap × type :=
  let flags := type_flags h t
  if flags = 0 then (h, t)
  else
    let flags1 := flags &&& c_not32 (CONST ||| VOLATILE ||| RESTRICT ||| WIDE)
    if flags1 = 0 then (h, type_base h t)
    else type_modify h (type_base h t) flags1

def type_const (h : Heap) (t : type) : Heap × type := type_modify h t CONST
def type_volatile (h : Heap) (t : type) : Heap × type := type_modify h t VOLATILE
def type_restrict (h : Heap) (t : type) : Heap × type := type_modify h t RESTRICT
def type_wide (h : Heap) (t : type) : Heap × type := type_modify h t WIDE

/-! ## Identity and compatibility (`type.c`) -/

/-- The types `type_member_type(t, i)` of the members of an argument list, in
the order of the table; each is a possibly `NULL` pointer. -/
def member_types (h : Heap) (t : type) : List (Option type) :=
  match h.node (type_base h t) with
  | .arglist_null ms _ => ms.map (·.2)
  | _ => ((base_members h t).getD []).map fun m => some m.typ

/-- The comparison `type_identical_p(x, y)` of two possibly `NULL` pointers (the
argument lists of two function terms, the types of two members of argument
lists): equal pointers (both `NULL`) are identical, a single `NULL` is
dereferenced by `type_flags`. -/
def identical_args (idp : type → type → Option Bool) :
    Option type → Option type → Option Bool
  | some aa, some ab => idp aa ab
  | none, none => some true
  | _, _ => none

/-- The argument-list loop of `type_identical_p`: member types compared pairwise
(the counts have been found equal before). -/
def all_identical (idp : type → type → Option Bool) :
    List (Option type) → List (Option type) → Option Bool
  | ma :: as, mb :: bs =>
    match identical_args idp ma mb with
    | none => none
    | some false => some false
    | some true => all_identical idp as bs
  | _, _ => some true

/-- Embedding of `type_identical_p`; `fuel` bounds the call depth. -/
def type_identical_p : Nat → Heap → type → type → Option Bool
  | 0, _, _, _ => none
  | fuel + 1, h, a, b =>
    if a = b then some true
    else if type_flags h a ≠ type_flags h b then some false
    else if type_classify h a ≠ type_classify h b then some false
    else if type_category h a ≠ type_category h b then none
    else
      match type_category h a with
      | TC_POINTER => do
        let ra ← type_pointer_referenced h a
        let rb ← type_pointer_referenced h b
        type_identical_p fuel h ra rb
      | TC_ARRAY =>
        if type_array_vla_p h a ≠ type_array_vla_p h b then some false
        else if type_complete_p h a ≠ type_complete_p h b then some false
        else do
          let k ← type_known_const_size_p (fuel + 1) h a
          if !k then some false
          else do
            let la ← type_array_length h a
            let lb ← type_array_length h b
            if la ≠ lb then some false
            else do
              let ea ← type_array_element h a
              let eb ← type_array_element h b
              type_identical_p fuel h ea eb
      | TC_FUNCTION => do
        let ra ← type_function_return h a
        let rb ← type_function_return h b
        let r ← type_identical_p fuel h ra rb
        if !r then some false
        else do
          let aa ← type_function_arguments h a
          let ab ← type_function_arguments h b
          identical_args (type_identical_p fuel h) aa ab
      | TC_STRUCT => some false
      | TC_UNION => some false
      | TC_ATOMIC => type_identical_p fuel h (type_base h a) (type_base h b)
      | TC_SELF =>
        if type_arglist_p h a then do
          let na ← type_member_count h a
          let nb ← type_member_count h b
          if na ≠ nb then some false
          else
            all_identical (type_identical_p fuel h) (member_types h a) (member_types h b)
        else some true

/-- The chain of `struct pair` frames: the pairs visited in the current descent. -/
abbrev Pairs := List (type × type)

/-- The scan `for (; NULL != v; v = v->link)` of `struct_compatible_p`. -/
def pair_seen (a b : type) (v : Pairs) : Bool :=
  v.any fun p => (a == p.1 && b == p.2) || (a == p.2 && b == p.1)

/-- The comparison `0 != strcmp(x, y)` of two names; `strcmp` has no value on a
`NULL` pointer. -/
def names_differ : Option String → Option String → Option Bool
  | some x, some y => some (x != y)
  | _, _ => none

/-- The member loop of `struct_compatible_p` under the extended chain `v2`. -/
def members_compatible (inner : type → type → Pairs → Option Bool) (v2 : Pairs) :
    List type_member → List type_member → Option Bool
  | ma :: as, mb :: bs => do
    let d ← names_differ ma.name mb.name
    if d then some false
    else do
      let r ← inner ma.typ mb.typ v2
      if !r then some false
      else members_compatible inner v2 as bs
  | _, _ => some true

/-- The raw fields `tag` and `members` of a node of the compound variant (the
fields `a->tag`, `a->n`, `a->members` read without `type_base`). -/
def raw_compound (h : Heap) (t : type) : Option (String × Option (List type_member)) :=
  match h.node t with
  | .compound _ tag ms => some (tag, ms)
  | _ => none

/-- Embedding of `struct_compatible_p`; `inner` is the recursive callee
`type_compatible_inner`.  The fields `tag`, `n`, `members` are read from the
nodes `a` and `b` themselves (not from their bases). -/
def struct_compatible_p (inner : type → type → Pairs → Option Bool) (h : Heap)
    (a b : type) (v : Pairs) : Option Bool :=
  if pair_seen a b v then some true
  else do
    let ca ← raw_compound h a
    let cb ← raw_compound h b
    if ca.1 ≠ cb.1 then some false
    else if !type_complete_p h a || !type_complete_p h b then some true
    else if (ca.2.getD []).length ≠ (cb.2.getD []).length then some false
    else members_compatible inner ((a, b) :: v) (ca.2.getD []) (cb.2.getD [])

/-- The two temporaries `type_unqualified(x)`, `type_unqualified(y)` of a call
`type_compatible_p(type_unqualified(x), type_unqualified(y))`: the extended
heap and the two results. -/
def unqualified_pair (h : Heap) (x y : type) : Heap × type × type :=
  ((type_unqualified (type_unqualified h x).1 y).1, (type_unqualified h x).2,
    (type_unqualified (type_unqualified h x).1 y).2)

/-- The parameter loop of the function case of `type_compatible_inner`:
`type_compatible_p(type_unqualified(pa), type_unqualified(pb))` pairwise.
`compat h1 x y` is `type_compatible_p` on the heap `h1`.  A parameter type
that is `NULL` is dereferenced by `type_unqualified`. -/
def args_compatible (compat : Heap → type → type → Option Bool) (h : Heap) :
    List (Option type) → List (Option type) → Option Bool
  | ma :: as, mb :: bs => do
    let x ← ma
    let y ← mb
    let r ← compat (unqualified_pair h x y).1
      (unqualified_pair h x y).2.1 (unqualified_pair h x y).2.2
    if !r then some false
    else args_compatible compat h as bs
  | _, _ => some true

/-- The raw field `members` (with `n` entries) of an argument-list node
(`argsa->n`, read without `type_base`). -/
def raw_members (h : Heap) (t : type) : Option (List type_member) :=
  match h.node t with
  | .arglist ms _ => some ms
  | .compound _ _ ms => some (ms.getD [])
  | _ => none

/-- The types of the raw field `members` (with `n` entries) of an
argument-list node, each a possibly `NULL` pointer. -/
def raw_types (h : Heap) (t : type) : Option (List (Option type)) :=
  match h.node t with
  | .arglist_null ms _ => some (ms.map (·.2))
  | _ => (raw_members h t).map fun ms => ms.map fun m => some m.typ

/-- The part of the function case of `type_compatible_inner` after the return
types: `NULL` argument lists, arity, parameters. -/
def function_args_compatible (compat : Heap → type → type → Option Bool) (h : Heap) :
    Option type → Option type → Option Bool
  | some argsa, some argsb => do
    let msa ← raw_types h argsa
    let msb ← raw_types h argsb
    if msa.length ≠ msb.length then some false
    else args_compatible compat h msa msb
  | _, _ => some true

/-- The test `type_bitfield_p(a) && (type_bitfield_bits(a) != type_bitfield_bits(b))`. -/
def bits_differ (h : Heap) (a b : type) : Option Bool :=
  if type_bitfield_p h a then do
    let x ← type_bitfield_bits h a
    let y ← type_bitfield_bits h b
    some (x != y)
  else some false

/-- Embedding of `type_compatible_inner`; `fuel` bounds the call depth.  Calls
of `type_compatible_p` inside the body are calls of `type_compatible_inner`
with the empty chain.  Nodes allocated for temporaries (`type_unqualified`,
`type_basic`) live in a local extension of the heap. -/
def type_compatible_inner : Nat → Heap → type → type → Pairs → Option Bool
  | 0, _, _, _, _ => none
  | fuel + 1, h, a, b, v => do
    let i ← type_identical_p (fuel + 1) h a b
    if i then some true
    else if type_flags h a ≠ type_flags h b then some false
    else do
      let d ← bits_differ h a b
      if d then some false
      else if type_classify h a ≠ type_classify h b then some false
      else if type_category h a ≠ type_category h b then none
      else
        match type_category h a with
        | TC_ARRAY => do
          let ea ← type_array_element h a
          let eb ← type_array_element h b
          let ie ← type_identical_p (fuel + 1) h ea eb
          if !ie then some false
          else do
            let ka ← type_known_const_size_p (fuel + 1) h a
            if !ka then some true
            else do
              let kb ← type_known_const_size_p (fuel + 1) h b
              if !kb then some true
              else do
                let la ← type_array_length h a
                let lb ← type_array_length h b
                some (la == lb)
        | TC_FUNCTION => do
          let ra ← type_function_return h a
          let rb ← type_function_return h b
          let r ← type_compatible_inner fuel (unqualified_pair h ra rb).1
            (unqualified_pair h ra rb).2.1 (unqualified_pair h ra rb).2.2 []
          if !r then some false
          else do
            let argsa ← type_function_arguments h a
            let argsb ← type_function_arguments h b
            function_args_compatible
              (fun h1 x y => type_compatible_inner fuel h1 x y []) h argsa argsb
        | TC_STRUCT => struct_compatible_p (type_compatible_inner fuel h) h a b v
        | TC_UNION => do
          let ta ← type_compound_tag h a
          let tb ← type_compound_tag h b
          some (ta == tb)
        | _ =>
          if type_enum_p h a || type_enum_p h b then
            type_compatible_inner fuel (type_basic h TYPE_INT).1
              (if !type_enum_p h a then a else b) (type_basic h TYPE_INT).2 []
          else some false

/-- Embedding of `type_compatible_p`. -/
def type_compatible_p (fuel : Nat) (h : Heap) (a b : type) : Option Bool :=
  type_compatible_inner fuel h a b []

/-! ## Conversions and composite types (`type.c`) -/

/-- Embedding of `type_rank` (asserts `type_integer_p`; the `default` case of the
switch is `assert(0)`). -/
def type_rank (h : Heap) (t : type) : Option Nat :=
  if !type_integer_p h t then none
  else
    match type_classify h t with
    | TYPE_BOOL => some 1
    | TYPE_CHAR => some 2
    | TYPE_SCHAR => some 2
    | TYPE_SHORT => some 3
    | TYPE_ENUM => some 4
    | TYPE_INT => some 4
    | TYPE_LONG => some 5
    | TYPE_LONGLONG => some 6
    | _ => none

/-- Embedding of `type_int_promotion` (asserts `type_integer_p(x)` and
`!type_bitfield_p(x)`).  The node `INT` is allocated before the ranks are
compared, whatever the result. -/
def type_int_promotion (h : Heap) (x : type) : Option (Heap × type) :=
  if !type_integer_p h x then none
  else if type_bitfield_p h x then none
  else do
    let rx ← type_rank (type_basic h TYPE_INT).1 x
    let ri ← type_rank (type_basic h TYPE_INT).1 (type_basic h TYPE_INT).2
    if rx < ri then some (type_basic h TYPE_INT)
    else if rx = ri then
      if type_signed_p (type_basic h TYPE_INT).1 x then some (type_basic h TYPE_INT)
      else some (type_unsigned (type_basic h TYPE_INT).1 (type_basic h TYPE_INT).2)
    else some ((type_basic h TYPE_INT).1, x)

/-- The loop over `T[3]` in the floating branch of `type_usual_conversion`;
leaving the loop without a match reaches the final `assert(0)`. -/
def usual_float_loop (h : Heap) (a b : type) : List type_kind → Option (Heap × type)
  | [] => none
  | k :: rest =>
    if k == type_classify h a || k == type_classify h b then some (type_basic h k)
    else usual_float_loop h a b rest

/-- The comparison `type_rank(x) >= type_rank(y)`. -/
def rank_ge (h : Heap) (x y : type) : Option Bool := do
  let rx ← type_rank h x
  let ry ← type_rank h y
  some (decide (rx ≥ ry))

/-- The comparison `type_rank(x) > type_rank(y)`. -/
def rank_gt (h : Heap) (x y : type) : Option Bool := do
  let rx ← type_rank h x
  let ry ← type_rank h y
  some (decide (rx > ry))

/-- The integer branch of `type_usual_conversion` after the two promotions and
the identity test: the chain of `if (...) return ...;` ending in `assert(0)`.
The right operand of `&&` is evaluated only when the left one holds. -/
def usual_integer_chain (h : Heap) (a b : type) : Option (Heap × type) :=
  if type_signed_p h a == type_signed_p h b then do
    let ge ← rank_ge h a b
    if ge then some (h, a) else some (h, b)
  else do
    let ua ← (if type_unsigned_p h a then rank_ge h a b else some false)
    if ua then some (h, a)
    else do
      let ub ← (if type_unsigned_p h b then rank_ge h b a else some false)
      if ub then some (h, b)
      else do
        let sa ← (if type_signed_p h a then rank_gt h a b else some false)
        if sa then some (h, a)
        else do
          let sb ← (if type_signed_p h b then rank_gt h b a else some false)
          if sb then some (h, b)
          else if type_signed_p h a then some (type_unsigned h a)
          else if type_signed_p h b then some (type_unsigned h b)
          else none

/-- Embedding of `type_usual_conversion` (asserts `type_arithmetic_p` of both
operands); `fuel` is the call depth granted to `type_identical_p`. -/
def type_usual_conversion (fuel : Nat) (h : Heap) (a b : type) : Option (Heap × type) :=
  if !type_arithmetic_p h a then none
  else if !type_arithmetic_p h b then none
  else if type_float_p h a || type_float_p h b then
    usual_float_loop h a b [TYPE_LONGDOUBLE, TYPE_DOUBLE, TYPE_FLOAT]
  else do
    let pa ← type_int_promotion h a
    let pb ← type_int_promotion pa.1 b
    let i ← type_identical_p fuel pb.1 pa.2 pb.2
    if i then some (pb.1, pa.2)
    else usual_integer_chain pb.1 pa.2 pb.2

/-- The parameter loop of the function case of `type_composite`:
`cargs[i] = type_composite(type_unqualified(pa), type_unqualified(pb))`, each
call on the heap left by the previous one.  `comp` is the recursive callee; a
`NULL` composite is stored in `cargs[i]` like any other.  A parameter type
that is `NULL` is dereferenced by `type_unqualified`. -/
def composite_args (comp : Heap → type → type → Option (Heap × Option type)) :
    Heap → List (Option type) → List (Option type) → Option (Heap × List (Option type))
  | h, ma :: as, mb :: bs => do
    let x ← ma
    let y ← mb
    let c ← comp (unqualified_pair h x y).1
      (unqualified_pair h x y).2.1 (unqualified_pair h x y).2.2
    let rest ← composite_args comp c.1 as bs
    some (rest.1, c.2 :: rest.2)
  | h, _, _ => some (h, [])

/-- Embedding of `type_composite` (asserts `type_compatible_p(a, b)`); `fuel`
bounds the call depth.  The result is the heap after the call and the returned
pointer, `none` for `NULL`; `type_ref` returns its argument.  The temporaries of
the assertion are not kept.  In the array case the elements are identical once
the assertion has passed, so their composite is the second element and never
`NULL`; in the function case a `NULL` parameter composite is stored in the
argument list that `type_function` builds. -/
def type_composite : Nat → Heap → type → type → Option (Heap × Option type)
  | 0, _, _, _ => none
  | fuel + 1, h, a, b => do
    let c ← type_compatible_p (fuel + 1) h a b
    if !c then none
    else do
      let i ← type_identical_p (fuel + 1) h a b
      if i then some (h, some b)
      else
        match type_category h a with
        | TC_ARRAY => do
          let ka ← type_known_const_size_p (fuel + 1) h a
          let k ← (if ka then some true else type_known_const_size_p (fuel + 1) h b)
          if !k then none
          else do
            let length ← (if ka then type_array_length h a else type_array_length h b)
            let ea ← type_array_element h a
            let eb ← type_array_element h b
            let e ← type_composite fuel h ea eb
            let el ← e.2
            some ((type_array e.1 length el).1, some (type_array e.1 length el).2)
        | TC_FUNCTION => do
          let argsa ← type_function_arguments h a
          let argsb ← type_function_arguments h b
          match argsa, argsb with
          | none, _ => some (h, some b)
          | some _, none => some (h, some a)
          | some aa, some ab => do
            let msa ← raw_types h aa
            let msb ← raw_types h ab
            if msa.length ≠ msb.length then none
            else do
              let cargs ← composite_args (type_composite fuel) h msa msb
              let ret ← type_function_return cargs.1 a
              some ((type_function_null cargs.1 ret cargs.2).1,
                some (type_function_null cargs.1 ret cargs.2).2)
        | _ => some (h, none)

/-! ## Relations and well-formedness used in the statements -/

/-- The result `y` agrees with `x` wherever `x` is a value. -/
def Steady {α : Type} (x y : Option α) : Prop := ∀ r, x = some r → y = some r

/-- `type_identical_p(a, b)` returns true (at some call depth). -/
def Identical (h : Heap) (a b : type) : Prop :=
  ∃ fuel, type_identical_p fuel h a b = some true

/-- `type_compatible_p(a, b)` returns true (at some call depth). -/
def Compatible (h : Heap) (a b : type) : Prop :=
  ∃ fuel, type_compatible_p fuel h a b = some true

/-- `type_known_const_size_p(t)` returns true (at some call depth). -/
def KnownConstSize (h : Heap) (t : type) : Prop :=
  ∃ fuel, type_known_const_size_p fuel h t = some true

/-- The addresses a node refers to. -/
def Node.children : Node → List type
  | .basic _ => []
  | .pointer r => [r]
  | .array _ e _ => [e]
  | .function r a => r :: a.toList
  | .arglist ms _ => ms.map (·.typ)
  | .arglist_null ms _ => ms.filterMap (·.2)
  | .compound _ _ ms => (ms.getD []).map (·.typ)
  | .enum _ _ => []
  | .modified _ b _ => [b]

/-- Every node refers only to nodes allocated before it.  This holds for every
heap produced by the constructors: terms are immutable and a constructor
receives its children as arguments. -/
def Heap.ordered (h : Heap) : Bool :=
  (List.range h.length).all fun p => (h.node p).children.all fun q => decide (q < p)

/-- A node of the data model: a payload-free node carries a basic kind, a
compound node is a struct or a union, and every member of an argument list has
a type (no type in the table is `NULL`). -/
def Node.kind_ok : Node → Bool
  | .basic k =>
    match k with
    | TYPE_VOID | TYPE_BOOL | TYPE_CHAR | TYPE_SCHAR | TYPE_SHORT | TYPE_INT | TYPE_LONG
    | TYPE_LONGLONG | TYPE_FLOAT | TYPE_DOUBLE | TYPE_LONGDOUBLE => true
    | _ => false
  | .compound k _ _ => k == TYPE_STRUCT || k == TYPE_UNION
  | .arglist_null _ _ => false
  | _ => true

/-- Every node is one the constructors produce, and no modified node has a
modified base (`type_modify` flattens). -/
def Heap.flat (h : Heap) : Bool :=
  h.all fun n =>
    n.kind_ok &&
      match n with
      | .modified _ b _ => (h.node b).kind != TYPE_MODIFIED
      | _ => true

/-! ## Concrete scenarios -/

/-- A 64-bit host table: 4-byte int, 1-byte char, 8-byte pointer. -/
def abi_lp64 : Abi where
  size
    | TYPE_BOOL => 1 | TYPE_CHAR => 1 | TYPE_SCHAR => 1 | TYPE_SHORT => 2
    | TYPE_INT => 4 | TYPE_LONG => 8 | TYPE_LONGLONG => 8 | TYPE_FLOAT => 4
    | TYPE_DOUBLE => 8 | TYPE_LONGDOUBLE => 16 | TYPE_POINTER => 8 | TYPE_ENUM => 4
    | _ => 1
  alignment
    | TYPE_BOOL => 1 | TYPE_CHAR => 1 | TYPE_SCHAR => 1 | TYPE_SHORT => 2
    | TYPE_INT => 4 | TYPE_LONG => 8 | TYPE_LONGLONG => 8 | TYPE_FLOAT => 4
    | TYPE_DOUBLE => 8 | TYPE_LONGDOUBLE => 16 | TYPE_POINTER => 8 | TYPE_ENUM => 4
    | _ => 1

/-- Scenario S1: `struct S { int a; char b; void* c; }`. -/
def scenario_S : Heap × type :=
  let (h, i) := type_basic [] TYPE_INT
  let (h, c) := type_basic h TYPE_CHAR
  let (h, v) := type_void h
  let (h, p) := type_pointer h v
  type_struct h "S" [⟨some "a", i⟩, ⟨some "b", c⟩, ⟨some "c", p⟩]

/-- The struct `struct A { _Atomic int a; }`. -/
def scenario_atomic_member : Heap × type :=
  let (h, i) := type_basic [] TYPE_INT
  let (h, a) := type_atomic h i
  type_struct h "A" [⟨some "a", a⟩]

/-- Scenario S3:
`struct B { unsigned a:3; unsigned b:5; unsigned c:1; unsigned :0; unsigned d:4; }`;
the second component is `unsigned int`, the third the struct. -/
def scenario_B : Heap × type × type :=
  let (h, i) := type_basic [] TYPE_INT
  let (h, u) := type_unsigned h i
  let (h, fa) := type_bitfield h u 3
  let (h, fb) := type_bitfield h u 5
  let (h, fc) := type_bitfield h u 1
  let (h, fz) := type_bitfield h u 0
  let (h, fd) := type_bitfield h u 4
  let (h, b) := type_struct h "B"
    [⟨some "a", fa⟩, ⟨some "b", fb⟩, ⟨some "c", fc⟩, ⟨some "", fz⟩, ⟨some "d", fd⟩]
  (h, u, b)

/-- Scenario S2: `struct V { int n; char data[]; }`. -/
def scenario_V : Heap × type :=
  let (h, i) := type_basic [] TYPE_INT
  let (h, c) := type_basic h TYPE_CHAR
  let (h, d) := type_incomplete_array h c
  type_struct h "V" [⟨some "n", i⟩, ⟨some "data", d⟩]

/-- One instance of `struct N { int v; struct N* next; }`, built on top of `h`;
`next` points to a fresh (incomplete) struct term tagged `N`. -/
def build_N (h : Heap) : Heap × type :=
  let (h, i) := type_basic h TYPE_INT
  let (h, n) := type_struct_inc h "N"
  let (h, p) := type_pointer h n
  type_struct h "N" [⟨some "v", i⟩, ⟨some "next", p⟩]

/-- Scenario S4: two independently constructed instances of `struct N`. -/
def scenario_N : Heap × type × type :=
  let (h, a) := build_N []
  let (h, b) := build_N h
  (h, a, b)

/-- An enum `enum E { A = 0, B = 1 }` and a basic `int`. -/
def scenario_enum_int : Heap × type × type :=
  let (h, e) := type_enum [] "E" [("A", 0), ("B", 1)]
  let (h, i) := type_basic h TYPE_INT
  (h, e, i)

/-- Two bitfield terms over `unsigned int`, of 3 and of 5 bits. -/
def scenario_bitfields : Heap × type × type :=
  let (h, i) := type_basic [] TYPE_INT
  let (h, u) := type_unsigned h i
  let (h, a) := type_bitfield h u 3
  let (h, b) := type_bitfield h u 5
  (h, a, b)

/-- Two separately allocated basic `int` terms. -/
def scenario_two_ints : Heap × type × type :=
  let (h, a) := type_basic [] TYPE_INT
  let (h, b) := type_basic h TYPE_INT
  (h, a, b)

/-- A complete `struct T { int x; }` and a separately built incomplete
`struct T`. -/
def scenario_complete_incomplete : Heap × type × type :=
  let (h, i) := type_basic [] TYPE_INT
  let (h, a) := type_struct h "T" [⟨some "x", i⟩]
  let (h, b) := type_struct_inc h "T"
  (h, a, b)

/-- Two separately built instances of `struct P { int x; int y; }`. -/
def scenario_two_structs : Heap × type × type :=
  let (h, i) := type_basic [] TYPE_INT
  let (h, a) := type_struct h "P" [⟨some "x", i⟩, ⟨some "y", i⟩]
  let (h, j) := type_basic h TYPE_INT
  let (h, b) := type_struct h "P" [⟨some "x", j⟩, ⟨some "y", j⟩]
  (h, a, b)

/-- The arrays `int[10]`, a second `int[10]` and `int[]`, separately built. -/
def scenario_arrays : Heap × type × type × type :=
  let (h, i) := type_basic [] TYPE_INT
  let (h, a) := type_array h 10 i
  let (h, j) := type_basic h TYPE_INT
  let (h, b) := type_array h 10 j
  let (h, c) := type_incomplete_array h i
  (h, a, b, c)

/-- Equal results of the three layout functions at every call depth. -/
def SameLayout (abi : Abi) (h : Heap) (a b : type) : Prop :=
  (∀ f, type_known_const_size_p f h a = type_known_const_size_p f h b)
  ∧ (∀ f, type_sizeof f abi h a = type_sizeof f abi h b)
  ∧ (∀ f, type_alignof f abi h a = type_alignof f abi h b)

/-- Two members with the same layout, neither a bitfield, both complete. -/
def MemberSame (abi : Abi) (h : Heap) (ma mb : type_member) : Prop :=
  SameLayout abi h ma.typ mb.typ
  ∧ type_bitfield_p h ma.typ = false ∧ type_bitfield_p h mb.typ = false
  ∧ type_complete_p h ma.typ = true ∧ type_complete_p h mb.typ = true

/-- The term is not a union and, if it is a struct, none of its members is a
bitfield and every member is again plain (to nesting depth `fuel`). -/
def layout_plain : Nat → Heap → type → Bool
  | 0, _, _ => false
  | fuel + 1, h, t =>
    if type_union_p h t then false
    else if type_struct_p h t then
      ((base_members h t).getD []).all fun m =>
        !type_bitfield_p h m.typ && layout_plain fuel h m.typ
    else true

/-- Two unions with the tag `U`: `union U { int a; }` and `union U { double d; }`. -/
def scenario_unions : Heap × type × type :=
  let (h, i) := type_basic [] TYPE_INT
  let (h, d) := type_basic h TYPE_DOUBLE
  let (h, a) := type_union h "U" [⟨some "a", i⟩]
  let (h, b) := type_union h "U" [⟨some "d", d⟩]
  (h, a, b)

/-- Two separately built incomplete arrays `int[]` over the same element term. -/
def scenario_incomplete_arrays : Heap × type × type :=
  let (h, i) := type_basic [] TYPE_INT
  let (h, a) := type_incomplete_array h i
  let (h, b) := type_incomplete_array h i
  (h, a, b)

/-- The values of `sum` and `bits` with which the member loop of
`type_offsetof_n` enters its iteration number `k` (counted from the head of
the list), for a target index that lies beyond the members passed. -/
def offsetof_entry (sz al : type → Option Nat) (h : Heap) :
    List type_member → Nat → Nat → Int → Nat → Option (Nat × Int)
  | _, _, sum, bits, 0 => some (sum, bits)
  | [], _, _, _, _ + 1 => none
  | m :: rest, i, sum, bits, k + 1 =>
    match offsetof_step sz al h (-1) m.typ i sum bits with
    | some (.next s b) => offsetof_entry sz al h rest (i + 1) s b k
    | _ => none

/-- The member `m` continues the storage unit that has `bits` bits left: the
first branch of the bitfield block of `type_offsetof_n`. -/
def bitfield_absorbed (h : Heap) (m : type) (bits : Int) : Bool :=
  type_bitfield_p h m &&
    match type_bitfield_bits h m with
    | some nbits => decide (nbits ≠ 0 ∧ bits ≥ nbits)
    | none => false

/-- The struct `struct L { int x; _Atomic int a; }`. -/
def scenario_atomic_last : Heap × type :=
  let (h, i) := type_basic [] TYPE_INT
  let (h, a) := type_atomic h i
  type_struct h "L" [⟨some "x", i⟩, ⟨some "a", a⟩]

/-- Arithmetic terms: `int` (address 0), `long` (1), `unsigned long` (2),
`float` (3), `double` (4), `_Atomic long` (5). -/
def scenario_arith : Heap :=
  let (h, _) := type_basic [] TYPE_INT
  let (h, l) := type_basic h TYPE_LONG
  let (h, _) := type_unsigned h l
  let (h, _) := type_basic h TYPE_FLOAT
  let (h, _) := type_basic h TYPE_DOUBLE
  let (h, _) := type_atomic h l
  h

/-- Two function terms with the parameter list `(int)`: the first returns the
incomplete array `int[]`, the second `int[10]`.  The components are the heap,
`int[]`, `int[10]` and the two function terms. -/
def scenario_functions : Heap × type × type × type × type :=
  let (h, i) := type_basic [] TYPE_INT
  let (h, ai) := type_incomplete_array h i
  let (h, a10) := type_array h 10 i
  let (h, fa) := type_function h ai [i]
  let (h, fb) := type_function h a10 [i]
  (h, ai, a10, fa, fb)

/-- The basic arithmetic kinds and `enum`. -/
def arithmetic_kind : type_kind → Bool
  | TYPE_BOOL | TYPE_CHAR | TYPE_SCHAR | TYPE_SHORT | TYPE_INT | TYPE_LONG | TYPE_LONGLONG
  | TYPE_FLOAT | TYPE_DOUBLE | TYPE_LONGDOUBLE | TYPE_ENUM => true
  | _ => false

/-- The flags `UNSIGNED`, `COMPLEX` and `BITFIELD` occur only over arithmetic
kinds: a modified node that is not atomic and whose flags go beyond the
qualifiers has a base of an arithmetic kind. -/
def Heap.modifiers_ok (h : Heap) : Bool :=
  h.all fun n =>
    match n with
    | .modified f b _ =>
      c_bool (f &&& ATOMIC)
        || (f &&& c_not32 (CONST ||| VOLATILE ||| RESTRICT ||| WIDE)) == 0
        || arithmetic_kind (h.node b).kind
    | _ => true

/-- The function terms `int (const int)` and `int (int)` over one `int` term:
the components are the heap and the two function terms. -/
def scenario_const_parameter : Heap × type × type :=
  let (h, i) := type_basic [] TYPE_INT
  let (h, ci) := type_const h i
  let (h, fa) := type_function h i [ci]
  let (h, fb) := type_function h i [i]
  (h, fa, fb)

/-- Embedding of the static function `walk`.  The callback of the C code is a
nested function that updates variables of its caller: `f` maps the value `s`
of those variables and the visited term to their new value and the returned
flag (no value when the callback aborts).  `fuel` bounds the call depth. -/
def walk {σ : Type} (f : σ → type → Option (σ × Bool)) : Nat → Heap → σ → type → Option σ
  | 0, _, _, _ => none
  | fuel + 1, h, s, t => do
    let r ← f s t
    if !r.2 then some r.1
    else
      match type_classify h t with
      | TYPE_FUNCTION => do
        let x ← type_function_return h t
        walk f fuel h r.1 x
      | TYPE_POINTER => do
        let x ← type_pointer_referenced h t
        walk f fuel h r.1 x
      | TYPE_ARRAY => do
        let x ← type_array_element h t
        walk f fuel h r.1 x
      | _ => some r.1

/-- The nested function `fun` of `type_dependencies`; the state is the counter
`d` (an `int`, whose increment has no value beyond `INT_MAX`). -/
def dependencies_fun (h : Heap) (d : Int) (t : type) : Option (Int × Bool) :=
  if type_compound_p h t then some (d, false)
  else if type_array_p h t && type_array_vla_p h t then
    if d + 1 ≤ INT_MAX then some (d + 1, true) else none
  else some (d, true)

/-- Embedding of `type_dependencies`. -/
def type_dependencies (fuel : Nat) (h : Heap) (t : type) : Option Int :=
  walk (dependencies_fun h) fuel h 0 t

/-- The raw field `t->targ` of the node `t` itself (read without `type_base`);
it has a value only in a node of the array variant. -/
def raw_targ (h : Heap) (t : type) : Option (Option Nat) :=
  match h.node t with
  | .array _ _ targ => some targ
  | _ => none

/-- The nested function `fun` of `type_get_dependency`; the state is the pair
of the counter `d` and the pointer `ptr` (`none` is `NULL`). -/
def get_dependency_fun (h : Heap) (n : Int) (s : Int × Option Nat) (t : type) :
    Option ((Int × Option Nat) × Bool) :=
  if type_compound_p h t then some (s, false)
  else if type_array_p h t && type_array_vla_p h t then
    if s.1 + 1 ≤ INT_MAX then
      if n = s.1 then do
        let p ← raw_targ h t
        some ((s.1 + 1, p), false)
      else some ((s.1 + 1, s.2), true)
    else none
  else some (s, true)

/-- Embedding of `type_get_dependency`; the inner option is the returned
pointer (`none` is `NULL`). -/
def type_get_dependency (fuel : Nat) (h : Heap) (t : type) (n : Int) :
    Option (Option Nat) := do
  let s ← walk (get_dependency_fun h n) fuel h (0, none) t
  some s.2

/-- Generic form of the loop `for (i...) if (p(member i)) return true;`
followed by `return false`. -/
def any_member (p : type → Option Bool) : List type_member → Option Bool
  | [] => some false
  | m :: rest =>
    match p m.typ with
    | none => none
    | some true => some true
    | some false => any_member p rest

/-- Embedding of the static function `type_const_recurse_p` (asserts that a
compound term is complete); `fuel` bounds the call depth. -/
def type_const_recurse_p : Nat → Heap → type → Option Bool
  | 0, _, _ => none
  | fuel + 1, h, t =>
    if type_const_p h t then some true
    else if !type_compound_p h t then some false
    else if !type_complete_p h t then none
    else any_member (type_const_recurse_p fuel h) ((base_members h t).getD [])

/-- Embedding of `type_modifiable_p`; the operands of `||` are evaluated from
left to right. -/
def type_modifiable_p (fuel : Nat) (h : Heap) (t : type) : Option Bool :=
  if type_array_p h t then some false
  else if !type_complete_p h t then some false
  else do
    let c ← type_const_recurse_p fuel h t
    some (!c)

/-- The C types named in the initialiser of `abi_host`. -/
inductive host_type where
  | c_bool | c_char | c_signed_char | c_signed_int | c_long | c_long_long
  | c_float | c_double | c_void_ptr | c_int
  deriving DecidableEq, Repr

/-- What the compiler of the host yields for `sizeof(x)` and `_Alignof(x)`. -/
structure Host where
  sizeof : host_type → Nat
  alignof : host_type → Nat

/-- The macro `TENTRY(x)`: `{ sizeof(x), _Alignof(x) }`. -/
def TENTRY (c : Host) (x : host_type) : Nat × Nat := (c.sizeof x, c.alignof x)

/-- The initialiser of `abi_host`: the designated entries, every other entry of
the table is zero-initialised. -/
def abi_host_table (c : Host) : type_kind → Nat × Nat
  | TYPE_BOOL => TENTRY c .c_bool
  | TYPE_CHAR => TENTRY c .c_char
  | TYPE_SCHAR => TENTRY c .c_signed_char
  | TYPE_SHORT => TENTRY c .c_signed_int
  | TYPE_INT => TENTRY c .c_signed_int
  | TYPE_LONG => TENTRY c .c_long
  | TYPE_LONGLONG => TENTRY c .c_long_long
  | TYPE_FLOAT => TENTRY c .c_float
  | TYPE_DOUBLE => TENTRY c .c_double
  | TYPE_POINTER => TENTRY c .c_void_ptr
  | TYPE_ENUM => TENTRY c .c_int
  | _ => (0, 0)

/-- The table `abi_host` of `abi.c` on the host `c`. -/
def abi_host (c : Host) : Abi where
  size k := (abi_host_table c k).1
  alignment k := (abi_host_table c k).2

/-- A 64-bit host: 1-byte bool and char, 4-byte int, 8-byte long and pointer. -/
def host_lp64 : Host where
  sizeof
    | .c_bool => 1 | .c_char => 1 | .c_signed_char => 1 | .c_signed_int => 4 | .c_int => 4
    | .c_long => 8 | .c_long_long => 8 | .c_float => 4 | .c_double => 8 | .c_void_ptr => 8
  alignof
    | .c_bool => 1 | .c_char => 1 | .c_signed_char => 1 | .c_signed_int => 4 | .c_int => 4
    | .c_long => 8 | .c_long_long => 8 | .c_float => 4 | .c_double => 8 | .c_void_ptr => 8

/-- The bitfield `unsigned : 3` with `const` on top and its unqualified
version: the components are the heap, the bitfield, the `const` bitfield and
`type_unqualified` of the latter. -/
def scenario_const_bitfield : Heap × type × type × type :=
  let (h, i) := type_basic [] TYPE_INT
  let (h, u) := type_unsigned h i
  let (h, f) := type_bitfield h u 3
  let (h, c) := type_const h f
  let (h, q) := type_unqualified h c
  (h, f, c, q)

/-- The struct `struct O { unsigned a:20; unsigned b:20; }`. -/
def scenario_overfull : Heap × type :=
  let (h, i) := type_basic [] TYPE_INT
  let (h, u) := type_unsigned h i
  let (h, fa) := type_bitfield h u 20
  let (h, fb) := type_bitfield h u 20
  type_struct h "O" [⟨some "a", fa⟩, ⟨some "b", fb⟩]

/-- The struct `struct D { long double x; }`. -/
def scenario_long_double : Heap × type :=
  let (h, d) := type_basic [] TYPE_LONGDOUBLE
  type_struct h "D" [⟨some "x", d⟩]

/-- The array `int[3][n]`: three elements of the variable-length array `int[n]`
with the dependency handle 7. -/
def scenario_array_of_vla : Heap × type :=
  let (h, i) := type_basic [] TYPE_INT
  let (h, v) := type_variable_array h i (some 7)
  type_array h 3 v

/-- The variable-length array `int[n]` with the dependency handle 7 and a
`const` on top of it: the components are the heap, the array and the
qualified array. -/
def scenario_const_vla : Heap × type × type :=
  let (h, i) := type_basic [] TYPE_INT
  let (h, v) := type_variable_array h i (some 7)
  let (h, c) := type_const h v
  (h, v, c)

/-- A chain with two variable-length arrays: a pointer to `int[n][m]` (handles 7
and 8), whose inner element is a struct with a member of variable length. -/
def scenario_vla_chain : Heap × type :=
  let (h, i) := type_basic [] TYPE_INT
  let (h, w) := type_variable_array h i (some 9)
  let (h, s) := type_struct h "W" [⟨some "w", w⟩]
  let (h, m) := type_variable_array h s (some 8)
  let (h, n) := type_variable_array h m (some 7)
  type_pointer h n

/-- The struct `struct Q { int a; struct I { const int c; } inner; }` and the
struct `struct R { int a; int b; }`: the components are the heap, `Q` and `R`. -/
def scenario_modifiable : Heap × type × type :=
  let (h, i) := type_basic [] TYPE_INT
  let (h, c) := type_const h i
  let (h, s) := type_struct h "I" [⟨some "c", c⟩]
  let (h, q) := type_struct h "Q" [⟨some "a", i⟩, ⟨some "inner", s⟩]
  let (h, r) := type_struct h "R" [⟨some "a", i⟩, ⟨some "b", i⟩]
  (h, q, r)

/-- The term `x` is reached from `t` by descending struct and union members:
it is the type of a member of `t`, or it is reached from the type of a
member of `t`. -/
inductive MemberReach (h : Heap) : type → type → Prop where
  | member {t : type} {m : type_member} :
      type_compound_p h t = true → m ∈ (base_members h t).getD [] → MemberReach h t m.typ
  | step {t x : type} {m : type_member} :
      type_compound_p h t = true → m ∈ (base_members h t).getD [] →
      MemberReach h m.typ x → MemberReach h t x

/-- The heaps that the constructors of `type.c` build: starting from the empty
heap, every constructor is applied to terms of the heap built so far
(`type_basic` to a basic kind or `TYPE_VOID`). -/
inductive Built : Heap → Prop where
  | empty : Built []
  | basic {h : Heap} (k : type_kind) :
      Built h → (Node.basic k).kind_ok = true → Built (type_basic h k).1
  | void {h : Heap} : Built h → Built (type_void h).1
  | pointer {h : Heap} {t : type} : Built h → t < h.length → Built (type_pointer h t).1
  | array {h : Heap} {t : type} (N : Int) :
      Built h → t < h.length → Built (type_array h N t).1
  | incomplete_array {h : Heap} {t : type} :
      Built h → t < h.length → Built (type_incomplete_array h t).1
  | variable_array {h : Heap} {t : type} (targ : Option Nat) :
      Built h → t < h.length → Built (type_variable_array h t targ).1
  | arglist {h : Heap} (args : List type_member) :
      Built h → (∀ m ∈ args, m.typ < h.length) → Built (type_arglist h args).1
  | function2 {h : Heap} {ret : type} (args : List type_member) :
      Built h → ret < h.length → (∀ m ∈ args, m.typ < h.length) →
      Built (type_function2 h ret args).1
  | function {h : Heap} {ret : type} (args : List type) :
      Built h → ret < h.length → (∀ a ∈ args, a < h.length) →
      Built (type_function h ret args).1
  | struct {h : Heap} (tag : String) (e : List type_member) :
      Built h → (∀ m ∈ e, m.typ < h.length) → Built (type_struct h tag e).1
  | struct_inc {h : Heap} (tag : String) : Built h → Built (type_struct_inc h tag).1
  | union {h : Heap} (tag : String) (e : List type_member) :
      Built h → (∀ m ∈ e, m.typ < h.length) → Built (type_union h tag e).1
  | union_inc {h : Heap} (tag : String) : Built h → Built (type_union_inc h tag).1
  | enum {h : Heap} (tag : String) (e : List (String × Int)) :
      Built h → Built (type_enum h tag e).1
  | enum_inc {h : Heap} (tag : String) : Built h → Built (type_enum_inc h tag).1
  | unsigned {h : Heap} {t : type} : Built h → t < h.length → Built (type_unsigned h t).1
  | complex {h : Heap} {t : type} {p : Heap × type} :
      Built h → t < h.length → type_complex h t = some p → Built p.1
  | atomic {h : Heap} {t : type} : Built h → t < h.length → Built (type_atomic h t).1
  | bitfield {h : Heap} {t : type} (bits : Int) :
      Built h → t < h.length → Built (type_bitfield h t bits).1
  | unqualified {h : Heap} {t : type} :
      Built h → t < h.length → Built (type_unqualified h t).1
  | const {h : Heap} {t : type} : Built h → t < h.length → Built (type_const h t).1
  | volatile {h : Heap} {t : type} : Built h → t < h.length → Built (type_volatile h t).1
  | restrict {h : Heap} {t : type} : Built h → t < h.length → Built (type_restrict h t).1
  | wide {h : Heap} {t : type} : Built h → t < h.length → Built (type_wide h t).1

/-- The pair `p` (heap and term) returned by a modifier applied to the term `t`
of the heap `h`: the heap is again one the constructors build, and the
returned term has the base of `t` and the flag set `f`. -/
def ModifierResult (h : Heap) (t : type) (f : Nat) (p : Heap × type) : Prop :=
  Built p.1 ∧ p.2 < p.1.length ∧ type_base p.1 p.2 = type_base h t ∧ type_flags p.1 p.2 = f

/-- The basic term `_Bool` (address 0) and the basic term `int` (address 1). -/
def scenario_bool_int : Heap :=
  let (h, _) := type_basic [] TYPE_BOOL
  let (h, _) := type_basic h TYPE_INT
  h

/-- Invariant 1 of the data model: the length of an array node is a nonnegative
number, `-1` (incomplete) or `-2` (variable length). -/
def Heap.lengths_ok (h : Heap) : Bool :=
  h.all fun n =>
    match n with
    | .array l _ _ => decide (-2 ≤ l)
    | _ => true

/-- The invariants of the data model together: children are older than their
parents, no modified node has a modified base, array lengths are well-formed,
and the flags `Unsigned`, `Complex`, `Bitfield` occur only over arithmetic
kinds. -/
def Heap.well_formed (h : Heap) : Bool :=
  h.ordered && h.flat && h.lengths_ok && h.modifiers_ok

/-- The terms of variable length on the chain that leads from `t` through
pointer referents, array elements and function return types up to (excluding)
the first struct or union, outermost first; `fuel` bounds the length of the
chain, and there is no value where a link of the chain has none. -/
def vla_chain : Nat → Heap → type → Option (List type)
  | 0, _, _ => none
  | fuel + 1, h, t =>
    if type_compound_p h t then some []
    else do
      let rest ←
        (match type_classify h t with
        | TYPE_FUNCTION => do
          let x ← type_function_return h t
          vla_chain fuel h x
        | TYPE_POINTER => do
          let x ← type_pointer_referenced h t
          vla_chain fuel h x
        | TYPE_ARRAY => do
          let x ← type_array_element h t
          vla_chain fuel h x
        | _ => some [])
      if type_array_p h t && type_array_vla_p h t then some (t :: rest) else some rest

/-- Every modified node carries a flag: `type_modify` is only called with a set
of flags that is not empty, and the new node takes the union of it with the
flags of the argument. -/
def Heap.flags_ok (h : Heap) : Bool :=
  h.all fun n =>
    match n with
    | .modified f _ _ => f != 0
    | _ => true

theorem steady_refl {α : Type} (x : Option α) : Steady x x := fun _ hr => hr

theorem steady_none {α : Type} (y : Option α) : Steady none y := by
  intro r hr; cases hr

theorem steady_bind {α β : Type} {x y : Option α} {f g : α → Option β}
    (hx : Steady x y) (hf : ∀ a, Steady (f a) (g a)) : Steady (x >>= f) (y >>= g) := by
  intro r hr
  cases hxv : x with
  | none => rw [hxv] at hr; cases hr
  | some v =>
    rw [hx v hxv]
    rw [hxv] at hr
    exact hf v r hr

theorem steady_ite {α : Type} {c : Prop} [Decidable c] {x y x1 y1 : Option α}
    (hx : Steady x x1) (hy : Steady y y1) :
    Steady (if c then x else y) (if c then x1 else y1) := by
  by_cases hc : c <;> simp [hc, hx, hy]

theorem all_members_steady {p q : type → Option Bool}
    (hpq : ∀ m, Steady (p m) (q m)) :
    ∀ (ms : List type_member), Steady (all_members p ms) (all_members q ms) := by
  intro ms
  induction ms with
  | nil => exact steady_refl _
  | cons m rest ih =>
    intro r hr
    unfold all_members at hr ⊢
    cases hp : p m.typ with
    | none => simp [hp] at hr
    | some b =>
      rw [hpq _ _ hp]
      rw [hp] at hr
      cases b with
      | false => simpa using hr
      | true => exact ih r hr

/-- More call depth never changes a result of `type_known_const_size_p`. -/
theorem kcs_steady_succ : ∀ (n : Nat) (h : Heap) (t : type),
    Steady (type_known_const_size_p n h t) (type_known_const_size_p (n + 1) h t) := by
  intro n
  induction n with
  | zero => intro h t; exact steady_none _
  | succ n ih =>
    intro h t
    unfold type_known_const_size_p
    apply steady_ite (steady_refl _)
    apply steady_bind
    · apply steady_ite _ (steady_refl _)
      exact all_members_steady (ih h) _
    · intro ok
      apply steady_ite (steady_refl _)
      apply steady_ite _ (steady_refl _)
      apply steady_ite (steady_refl _)
      apply steady_bind (steady_refl _)
      intro e
      exact ih h e

theorem identical_args_steady {p q : type → type → Option Bool}
    (hpq : ∀ x y, Steady (p x y) (q x y)) (aa ab : Option type) :
    Steady (identical_args p aa ab) (identical_args q aa ab) := by
  cases aa <;> cases ab <;> simp [identical_args, steady_refl, hpq]

theorem all_identical_steady {p q : type → type → Option Bool}
    (hpq : ∀ x y, Steady (p x y) (q x y)) :
    ∀ (as bs : List (Option type)),
      Steady (all_identical p as bs) (all_identical q as bs) := by
  intro as
  induction as with
  | nil => intro bs; cases bs <;> exact steady_refl _
  | cons ma as ih =>
    intro bs
    cases bs with
    | nil => exact steady_refl _
    | cons mb bs =>
      intro r hr
      unfold all_identical at hr ⊢
      cases hp : identical_args p ma mb with
      | none => simp [hp] at hr
      | some b =>
        rw [identical_args_steady hpq _ _ _ hp]
        rw [hp] at hr
        cases b with
        | false => simpa using hr
        | true => exact ih bs r hr

/-- More call depth never changes a result of `type_identical_p`. -/
theorem identical_steady_succ : ∀ (n : Nat) (h : Heap) (a b : type),
    Steady (type_identical_p n h a b) (type_identical_p (n + 1) h a b) := by
  intro n
  induction n with
  | zero => intro h a b; exact steady_none _
  | succ n ih =>
    intro h a b
    unfold type_identical_p
    apply steady_ite (steady_refl _)
    apply steady_ite (steady_refl _)
    apply steady_ite (steady_refl _)
    apply steady_ite (steady_refl _)
    split
    · -- TC_POINTER
      apply steady_bind (steady_refl _); intro ra
      apply steady_bind (steady_refl _); intro rb
      exact ih h ra rb
    · -- TC_ARRAY
      apply steady_ite (steady_refl _)
      apply steady_ite (steady_refl _)
      apply steady_bind (kcs_steady_succ _ h a); intro k
      apply steady_ite (steady_refl _)
      apply steady_bind (steady_refl _); intro la
      apply steady_bind (steady_refl _); intro lb
      apply steady_ite (steady_refl _)
      apply steady_bind (steady_refl _); intro ea
      apply steady_bind (steady_refl _); intro eb
      exact ih h ea eb
    · -- TC_FUNCTION
      apply steady_bind (steady_refl _); intro ra
      apply steady_bind (steady_refl _); intro rb
      apply steady_bind (ih h ra rb); intro r
      apply steady_ite (steady_refl _)
      apply steady_bind (steady_refl _); intro aa
      apply steady_bind (steady_refl _); intro ab
      exact identical_args_steady (ih h) aa ab
    · exact steady_refl _
    · exact steady_refl _
    · exact ih h _ _
    · apply steady_ite _ (steady_refl _)
      apply steady_bind (steady_refl _); intro na
      apply steady_bind (steady_refl _); intro nb
      apply steady_ite (steady_refl _)
      exact all_identical_steady (ih h) _ _

theorem members_compatible_steady {p q : type → type → Pairs → Option Bool}
    (hpq : ∀ x y v, Steady (p x y v) (q x y v)) (v2 : Pairs) :
    ∀ (as bs : List type_member),
      Steady (members_compatible p v2 as bs) (members_compatible q v2 as bs) := by
  intro as
  induction as with
  | nil => intro bs; cases bs <;> exact steady_refl _
  | cons ma as ih =>
    intro bs
    cases bs with
    | nil => exact steady_refl _
    | cons mb bs =>
      unfold members_compatible
      apply steady_bind (steady_refl _); intro d
      apply steady_ite (steady_refl _)
      apply steady_bind (hpq _ _ _); intro r
      apply steady_ite (steady_refl _)
      exact ih bs

theorem struct_compatible_steady {p q : type → type → Pairs → Option Bool}
    (hpq : ∀ x y v, Steady (p x y v) (q x y v)) (h : Heap) (a b : type) (v : Pairs) :
    Steady (struct_compatible_p p h a b v) (struct_compatible_p q h a b v) := by
  unfold struct_compatible_p
  apply steady_ite (steady_refl _)
  apply steady_bind (steady_refl _); intro ca
  apply steady_bind (steady_refl _); intro cb
  apply steady_ite (steady_refl _)
  apply steady_ite (steady_refl _)
  apply steady_ite (steady_refl _)
  exact members_compatible_steady hpq _ _ _

theorem args_compatible_steady {p q : Heap → type → type → Option Bool}
    (hpq : ∀ h x y, Steady (p h x y) (q h x y)) (h : Heap) :
    ∀ (as bs : List (Option type)),
      Steady (args_compatible p h as bs) (args_compatible q h as bs) := by
  intro as
  induction as with
  | nil => intro bs; cases bs <;> exact steady_refl _
  | cons ma as ih =>
    intro bs
    cases bs with
    | nil => exact steady_refl _
    | cons mb bs =>
      unfold args_compatible
      apply steady_bind (steady_refl _); intro x
      apply steady_bind (steady_refl _); intro y
      apply steady_bind (hpq _ _ _); intro r
      apply steady_ite (steady_refl _)
      exact ih bs

theorem function_args_compatible_steady {p q : Heap → type → type → Option Bool}
    (hpq : ∀ h x y, Steady (p h x y) (q h x y)) (h : Heap) (aa ab : Option type) :
    Steady (function_args_compatible p h aa ab) (function_args_compatible q h aa ab) := by
  cases aa <;> cases ab <;> try exact steady_refl _
  unfold function_args_compatible
  apply steady_bind (steady_refl _); intro msa
  apply steady_bind (steady_refl _); intro msb
  apply steady_ite (steady_refl _)
  exact args_compatible_steady hpq h _ _

/-- More call depth never changes a result of `type_compatible_inner`. -/
theorem compatible_inner_steady_succ : ∀ (n : Nat) (h : Heap) (a b : type) (v : Pairs),
    Steady (type_compatible_inner n h a b v) (type_compatible_inner (n + 1) h a b v) := by
  intro n
  induction n with
  | zero => intro h a b v; exact steady_none _
  | succ n ih =>
    intro h a b v
    unfold type_compatible_inner
    apply steady_bind (identical_steady_succ _ h a b); intro i
    apply steady_ite (steady_refl _)
    apply steady_ite (steady_refl _)
    apply steady_bind (steady_refl _); intro d
    apply steady_ite (steady_refl _)
    apply steady_ite (steady_refl _)
    apply steady_ite (steady_refl _)
    split
    · -- TC_ARRAY
      apply steady_bind (steady_refl _); intro ea
      apply steady_bind (steady_refl _); intro eb
      apply steady_bind (identical_steady_succ _ h ea eb); intro ie
      apply steady_ite (steady_refl _)
      apply steady_bind (kcs_steady_succ _ h a); intro ka
      apply steady_ite (steady_refl _)
      apply steady_bind (kcs_steady_succ _ h b); intro kb
      apply steady_ite (steady_refl _)
      exact steady_refl _
    · -- TC_FUNCTION
      apply steady_bind (steady_refl _); intro ra
      apply steady_bind (steady_refl _); intro rb
      apply steady_bind (ih _ _ _ _); intro r
      apply steady_ite (steady_refl _)
      apply steady_bind (steady_refl _); intro aa
      apply steady_bind (steady_refl _); intro ab
      exact function_args_compatible_steady (fun h1 x y => ih h1 x y []) h aa ab
    · exact struct_compatible_steady (ih h) h a b v
    · exact steady_refl _
    · apply steady_ite _ (steady_refl _)
      exact ih _ _ _ _

theorem steady_trans {α : Type} {x y z : Option α} (hxy : Steady x y) (hyz : Steady y z) :
    Steady x z := fun r hr => hyz r (hxy r hr)

theorem kcs_steady {n m : Nat} (hnm : n ≤ m) (h : Heap) (t : type) :
    Steady (type_known_const_size_p n h t) (type_known_const_size_p m h t) := by
  induction hnm with
  | refl => exact steady_refl _
  | step _ ih => exact steady_trans ih (kcs_steady_succ _ h t)

theorem identical_steady {n m : Nat} (hnm : n ≤ m) (h : Heap) (a b : type) :
    Steady (type_identical_p n h a b) (type_identical_p m h a b) := by
  induction hnm with
  | refl => exact steady_refl _
  | step _ ih => exact steady_trans ih (identical_steady_succ _ h a b)

theorem compatible_inner_steady {n m : Nat} (hnm : n ≤ m) (h : Heap) (a b : type)
    (v : Pairs) :
    Steady (type_compatible_inner n h a b v) (type_compatible_inner m h a b v) := by
  induction hnm with
  | refl => exact steady_refl _
  | step _ ih => exact steady_trans ih (compatible_inner_steady_succ _ h a b v)

/-- Two results of `type_known_const_size_p` at different depths agree. -/
theorem kcs_det {n m : Nat} {h : Heap} {t : type} {r r1 : Bool}
    (hn : type_known_const_size_p n h t = some r)
    (hm : type_known_const_size_p m h t = some r1) : r = r1 := by
  have h1 := kcs_steady (Nat.le_max_left n m) h t r hn
  have h2 := kcs_steady (Nat.le_max_right n m) h t r1 hm
  rw [h1] at h2
  exact Option.some.inj h2

/-- Projections of an unmodified array node. -/
theorem array_node_facts {h : Heap} {a : type} {la : Int} {ea : type} {ta : Option Nat}
    (ha : h.node a = .array la ea ta) :
    type_flags h a = 0 ∧ type_classify h a = TYPE_ARRAY ∧ type_category h a = TC_ARRAY
    ∧ type_array_element h a = some ea ∧ type_array_vla_p h a = (la == -2)
    ∧ type_complete_p h a = !(la == -1) ∧ type_bitfield_p h a = false
    ∧ type_array_p h a = true ∧ type_compound_p h a = false
    ∧ type_array_length h a = (if 0 ≤ la then some la else none) := by
  have hb : type_base h a = a := by simp [type_base, ha]
  have hf : type_flags h a = 0 := by simp [type_flags, ha]
  have hc : type_classify h a = TYPE_ARRAY := by simp [type_classify, hb, ha, Node.kind]
  have hl : base_length h a = some la := by simp [base_length, hb, ha]
  refine ⟨hf, hc, ?_, ?_, ?_, ?_, ?_, ?_, ?_, ?_⟩
  · simp [type_category, type_atomic_p, hf, hc, c_bool]
  · simp [type_array_element, hb, ha]
  · simp [type_array_vla_p, type_array_p, type_has_class_p, hc, hl]
  · simp [type_complete_p, type_basic_p, type_signed_p, type_unsigned_p, type_float_p,
      hc, hf, hb, ha, Node.kind, hl, c_bool, type_flags]
  · simp [type_bitfield_p, hf, c_bool]
  · simp [type_array_p, type_has_class_p, hc]
  · simp [type_compound_p, type_union_p, type_struct_p, type_has_class_p, hc]
  · simp [type_array_length, hb, ha]

/-- `type_known_const_size_p` on an unmodified array node. -/
theorem kcs_array_node {h : Heap} {a : type} {la : Int} {ea : type} {ta : Option Nat}
    (ha : h.node a = .array la ea ta) (n : Nat) :
    type_known_const_size_p (n + 1) h a
      = if la = -1 then some false else if la = -2 then some false
        else type_known_const_size_p n h ea := by
  obtain ⟨_, _, _, he, hv, hc, _, hp, hcp, _⟩ := array_node_facts ha
  rw [type_known_const_size_p]
  by_cases h1 : la = -1
  · simp [hc, h1]
  · by_cases h2 : la = -2
    · simp [hc, h1, hcp, hp, hv, h2]
    · simp [hc, h1, hcp, hp, hv, h2, he]

/-! ### Layout of structs without bitfields (C1) -/

theorem offsetof_step_plain {sz al : type → Option Nat} {h : Heap} {n : Int} {m : type}
    {i sum : Nat} {bits : Int} (hbf : type_bitfield_p h m = false) :
    offsetof_step sz al h n m i sum bits = offsetof_place sz al n m i sum bits := by
  simp [offsetof_step, hbf]

theorem pad_zero_of_first {a i sum : Nat} (hi : 0 < i ∨ sum = 0) :
    (!(decide (0 < i) || (a - sum % a) % a == 0)) = false := by
  rcases hi with hi | hi
  · simp [hi]
  · subst hi
    simp

theorem offsetof_place_ret {sz al : type → Option Nat} {n : Int} {m : type}
    {i sum a : Nat} {bits : Int} (hal : al m = some a) (ha : 0 < a)
    (hi : 0 < i ∨ sum = 0) (hn : (i : Int) = n) :
    offsetof_place sz al n m i sum bits
      = some (.ret ((sum + (a - sum % a) % a) % SIZE_MOD)) := by
  have hz : a ≠ 0 := Nat.pos_iff_ne_zero.mp ha
  simp only [offsetof_place, hal, hz, if_false, pad_zero_of_first hi, hn, if_true]
  simp

theorem offsetof_place_next {sz al : type → Option Nat} {n : Int} {m : type}
    {i sum a s : Nat} {bits : Int} (hal : al m = some a) (ha : 0 < a)
    (hi : 0 < i ∨ sum = 0) (hn : (i : Int) ≠ n) (hsz : sz m = some s) :
    offsetof_place sz al n m i sum bits
      = some (.next (((sum + (a - sum % a) % a) % SIZE_MOD + s) % SIZE_MOD) bits) := by
  have hz : a ≠ 0 := Nat.pos_iff_ne_zero.mp ha
  simp only [offsetof_place, hal, hz, if_false, pad_zero_of_first hi, hn, hsz]
  simp

/-- The member loop at two consecutive target indices: the second result is
the first one plus the size of the member, padded for the next member. -/
theorem offsetof_loop_consecutive (sz al : type → Option Nat) (h : Heap)
    (pre : List type_member) (m m1 : type_member) (post : List type_member)
    (s a1 : Nat)
    (hbf : ∀ x ∈ pre ++ [m, m1], type_bitfield_p h x.typ = false)
    (hal : ∀ x ∈ pre ++ [m, m1], ∃ a, al x.typ = some a ∧ 0 < a)
    (hsz : ∀ x ∈ pre ++ [m], ∃ s, sz x.typ = some s)
    (hs : sz m.typ = some s) (ha1 : al m1.typ = some a1) :
    ∀ (i0 sum0 : Nat) (bits : Int), (0 < i0 ∨ sum0 = 0) →
    ∃ o, offsetof_loop sz al h ((i0 + pre.length : Nat) : Int)
            (pre ++ m :: m1 :: post) i0 sum0 bits = some o
      ∧ offsetof_loop sz al h ((i0 + pre.length + 1 : Nat) : Int)
            (pre ++ m :: m1 :: post) i0 sum0 bits
          = some (((o + s) % SIZE_MOD + (a1 - ((o + s) % SIZE_MOD) % a1) % a1) % SIZE_MOD) := by
  induction pre with
  | nil =>
    intro i0 sum0 bits h0
    obtain ⟨a, ha, hapos⟩ := hal m (by simp)
    obtain ⟨a1', ha1', ha1pos⟩ := hal m1 (by simp)
    have : a1' = a1 := by rw [ha1] at ha1'; exact (Option.some.inj ha1').symm
    subst this
    have hbm := hbf m (by simp)
    have hbm1 := hbf m1 (by simp)
    refine ⟨(sum0 + (a - sum0 % a) % a) % SIZE_MOD, ?_, ?_⟩
    · simp only [List.nil_append, List.length_nil, Nat.add_zero, offsetof_loop,
        offsetof_step_plain hbm, offsetof_place_ret ha hapos h0 rfl]
    · have hne : ((i0 : Nat) : Int) ≠ ((i0 + 0 + 1 : Nat) : Int) := by
        simp
      simp only [List.nil_append, List.length_nil, offsetof_loop,
        offsetof_step_plain hbm, offsetof_place_next ha hapos h0 hne hs,
        offsetof_step_plain hbm1]
      rw [offsetof_place_ret ha1' ha1pos (Or.inl (Nat.succ_pos i0)) (by simp)]
  | cons x pre ih =>
    intro i0 sum0 bits h0
    obtain ⟨a, ha, hapos⟩ := hal x (by simp)
    obtain ⟨sx, hsx⟩ := hsz x (by simp)
    have hbx := hbf x (by simp)
    have ih1 := ih (fun y hy => hbf y (by simp at hy ⊢; tauto))
      (fun y hy => hal y (by simp at hy ⊢; tauto))
      (fun y hy => hsz y (by simp at hy ⊢; tauto))
      (i0 + 1) (((sum0 + (a - sum0 % a) % a) % SIZE_MOD + sx) % SIZE_MOD) bits
      (Or.inl (Nat.succ_pos i0))
    obtain ⟨o, ho, ho1⟩ := ih1
    have e1 : i0 + 1 + pre.length = i0 + (x :: pre).length := by
      simp [List.length_cons]; omega
    rw [e1] at ho ho1
    have hne : ((i0 : Nat) : Int) ≠ ((i0 + (x :: pre).length : Nat) : Int) := by
      simp only [List.length_cons, ne_eq, Nat.cast_inj]; omega
    have hne1 : ((i0 : Nat) : Int) ≠ ((i0 + (x :: pre).length + 1 : Nat) : Int) := by
      simp only [List.length_cons, ne_eq, Nat.cast_inj]; omega
    refine ⟨o, ?_, ?_⟩
    · simp only [List.cons_append, offsetof_loop, offsetof_step_plain hbx,
        offsetof_place_next ha hapos h0 hne hsx]
      exact ho
    · simp only [List.cons_append, offsetof_loop, offsetof_step_plain hbx,
        offsetof_place_next ha hapos h0 hne1 hsx]
      exact ho1

/-- Padding a sum up to the alignment `a` gives the least multiple of `a`
that is not below the sum, as long as `size_t` does not wrap. -/
theorem padded_is_least_multiple (x a : Nat) (ha : 0 < a) (hfit : x + a ≤ SIZE_MOD) :
    a ∣ ((x % SIZE_MOD + (a - (x % SIZE_MOD) % a) % a) % SIZE_MOD)
    ∧ x ≤ ((x % SIZE_MOD + (a - (x % SIZE_MOD) % a) % a) % SIZE_MOD)
    ∧ ∀ k, a ∣ k → x ≤ k → ((x % SIZE_MOD + (a - (x % SIZE_MOD) % a) % a) % SIZE_MOD) ≤ k := by
  have hx : x < SIZE_MOD := by omega
  have hpad : (a - x % a) % a < a := Nat.mod_lt _ ha
  rw [Nat.mod_eq_of_lt hx, Nat.mod_eq_of_lt (by omega)]
  have hr : x % a < a := Nat.mod_lt _ ha
  have hdvd : a ∣ x + (a - x % a) % a := by
    by_cases h0 : x % a = 0
    · rw [h0]; simp
      exact Nat.dvd_of_mod_eq_zero h0
    · have : (a - x % a) % a = a - x % a := Nat.mod_eq_of_lt (by omega)
      rw [this]
      have hx2 : x = a * (x / a) + x % a := (Nat.div_add_mod x a).symm
      refine ⟨x / a + 1, ?_⟩
      rw [Nat.mul_add, Nat.mul_one]
      omega
  refine ⟨hdvd, by omega, ?_⟩
  intro k hk hxk
  obtain ⟨c, rfl⟩ := hk
  obtain ⟨d, hd⟩ := hdvd
  by_contra hlt
  have hlt : a * c < x + (a - x % a) % a := by omega
  rw [hd] at hlt
  have hcd : c < d := Nat.lt_of_mul_lt_mul_left hlt
  have : a * (c + 1) ≤ a * d := Nat.mul_le_mul_left a hcd
  rw [Nat.mul_add, Nat.mul_one] at this
  omega

theorem member_count_of_base_members {h : Heap} {t : type} {ms : List type_member}
    (hms : base_members h t = some ms) : type_member_count h t = some ms.length := by
  unfold base_members at hms
  unfold type_member_count
  split at hms <;> simp_all

theorem offsetof_n_body_struct (sz al : type → Option Nat) {h : Heap} {t : type}
    {ms : List type_member} (hstruct : type_struct_p h t = true)
    (hms : base_members h t = some ms) (n : Nat) (hn : n < ms.length) :
    offsetof_n_body sz al h t (n : Int) = offsetof_loop sz al h (n : Int) ms 0 0 0 := by
  have hc : type_compound_p h t = true := by simp [type_compound_p, hstruct]
  have hu : type_union_p h t = false := by
    simp only [type_struct_p, type_has_class_p, beq_iff_eq] at hstruct
    simp [type_union_p, type_has_class_p, ← hstruct]
  have hlt : ((n : Int) < (ms.length : Int)) := by exact_mod_cast hn
  simp [offsetof_n_body, hc, hu, member_count_of_base_members hms, hms, hlt]

/-- C1 (amended): for a struct term without bitfield members whose member
types all have a defined size and a defined non-zero alignment, the first
member is at offset 0, and for two consecutive members `m`, `m1` (at indices
`i` and `i + 1`) the offset of `m1` is the least multiple of `alignof(m1)`
that is at least `offsetof_n(t, i) + sizeof(m)`, provided that sum plus the
alignment does not exceed the range of `size_t`. -/
theorem C1_struct_member_offsets (abi : Abi) (fuel : Nat) (h : Heap) (t : type)
    (ms : List type_member)
    (hstruct : type_struct_p h t = true)
    (hms : base_members h t = some ms)
    (hbf : ∀ x ∈ ms, type_bitfield_p h x.typ = false)
    (hal : ∀ x ∈ ms, ∃ a, type_alignof fuel abi h x.typ = some a ∧ 0 < a)
    (hsz : ∀ x ∈ ms, ∃ s, type_sizeof fuel abi h x.typ = some s) :
    (ms ≠ [] → type_offsetof_n fuel abi h t 0 = some 0)
    ∧ ∀ (pre : List type_member) (m m1 : type_member) (post : List type_member),
        ms = pre ++ m :: m1 :: post →
        ∃ o s a o1,
          type_offsetof_n fuel abi h t (pre.length : Int) = some o
          ∧ type_sizeof fuel abi h m.typ = some s
          ∧ type_alignof fuel abi h m1.typ = some a
          ∧ type_offsetof_n fuel abi h t ((pre.length : Int) + 1) = some o1
          ∧ (o + s + a ≤ SIZE_MOD →
              a ∣ o1 ∧ o + s ≤ o1 ∧ ∀ k, a ∣ k → o + s ≤ k → o1 ≤ k) := by
  constructor
  · intro hne
    cases ms with
    | nil => exact absurd rfl hne
    | cons m rest =>
      obtain ⟨a, ha, hapos⟩ := hal m (by simp)
      have hb := hbf m (by simp)
      have h0 := offsetof_n_body_struct (type_sizeof fuel abi h) (type_alignof fuel abi h)
        hstruct hms 0 (by simp)
      simp only [Nat.cast_zero] at h0
      rw [type_offsetof_n, h0]
      simp only [offsetof_loop, offsetof_step_plain hb]
      rw [offsetof_place_ret ha hapos (Or.inr rfl) (by simp)]
      simp
  · intro pre m m1 post hsplit
    subst hsplit
    obtain ⟨s, hs⟩ := hsz m (by simp)
    obtain ⟨a, ha, hapos⟩ := hal m1 (by simp)
    obtain ⟨o, ho, ho1⟩ := offsetof_loop_consecutive (type_sizeof fuel abi h)
      (type_alignof fuel abi h) h pre m m1 post s a
      (fun x hx => hbf x (by simp at hx ⊢; tauto))
      (fun x hx => hal x (by simp at hx ⊢; tauto))
      (fun x hx => hsz x (by simp at hx ⊢; tauto))
      hs ha 0 0 0 (Or.inr rfl)
    simp only [Nat.zero_add] at ho ho1
    have hn0 : pre.length < (pre ++ m :: m1 :: post).length := by simp
    have hn1 : pre.length + 1 < (pre ++ m :: m1 :: post).length := by simp
    have e0 := offsetof_n_body_struct (type_sizeof fuel abi h) (type_alignof fuel abi h)
      hstruct hms pre.length hn0
    have e1 := offsetof_n_body_struct (type_sizeof fuel abi h) (type_alignof fuel abi h)
      hstruct hms (pre.length + 1) hn1
    refine ⟨o, s, a,
      ((o + s) % SIZE_MOD + (a - ((o + s) % SIZE_MOD) % a) % a) % SIZE_MOD, ?_, hs, ha, ?_, ?_⟩
    · rw [type_offsetof_n, e0]; exact ho
    · rw [type_offsetof_n]
      have : ((pre.length : Int) + 1) = ((pre.length + 1 : Nat) : Int) := by simp
      rw [this, e1]; exact ho1
    · intro hfit
      exact padded_is_least_multiple (o + s) a hapos hfit

/-- Witness for C1: scenario S1 (4-byte int, 1-byte char, 8-byte pointer) has
offsets 0, 4, 8, size 16 and alignment 8, and the theorem applies to it. -/
theorem C1_witness :
    (type_offsetof_n 1 abi_lp64 scenario_S.1 scenario_S.2 0 = some 0
      ∧ type_offsetof_n 1 abi_lp64 scenario_S.1 scenario_S.2 1 = some 4
      ∧ type_offsetof_n 1 abi_lp64 scenario_S.1 scenario_S.2 2 = some 8
      ∧ type_sizeof 2 abi_lp64 scenario_S.1 scenario_S.2 = some 16
      ∧ type_alignof 2 abi_lp64 scenario_S.1 scenario_S.2 = some 8)
    ∧ ∃ o s a o1,
        type_offsetof_n 1 abi_lp64 scenario_S.1 scenario_S.2 1 = some o
        ∧ type_sizeof 1 abi_lp64 scenario_S.1 1 = some s
        ∧ type_alignof 1 abi_lp64 scenario_S.1 3 = some a
        ∧ type_offsetof_n 1 abi_lp64 scenario_S.1 scenario_S.2 2 = some o1
        ∧ (o + s + a ≤ SIZE_MOD →
            a ∣ o1 ∧ o + s ≤ o1 ∧ ∀ k, a ∣ k → o + s ≤ k → o1 ≤ k) := by
  have key := C1_struct_member_offsets abi_lp64 1 scenario_S.1 scenario_S.2
    [⟨some "a", 0⟩, ⟨some "b", 1⟩, ⟨some "c", 3⟩] rfl rfl (by decide)
    (by
      intro x hx
      simp only [List.mem_cons, List.mem_singleton, List.not_mem_nil, or_false] at hx
      rcases hx with rfl | rfl | rfl
      · exact ⟨4, rfl, by decide⟩
      · exact ⟨1, rfl, by decide⟩
      · exact ⟨8, rfl, by decide⟩)
    (by
      intro x hx
      simp only [List.mem_cons, List.mem_singleton, List.not_mem_nil, or_false] at hx
      rcases hx with rfl | rfl | rfl
      · exact ⟨4, rfl⟩
      · exact ⟨1, rfl⟩
      · exact ⟨8, rfl⟩)
  exact ⟨⟨rfl, rfl, rfl, rfl, rfl⟩, key.2 [⟨some "a", 0⟩] ⟨some "b", 1⟩ ⟨some "c", 3⟩ [] rfl⟩

/-- Counterexample to C1 as stated: `struct A { _Atomic int a; }` is a struct
of known constant size without bitfield members, the table has positive
alignments, and yet `type_offsetof_n(A, 0)` never returns a value, because
`type_alignof` asserts on the atomic member. -/
theorem C1_counterexample :
    type_struct_p scenario_atomic_member.1 scenario_atomic_member.2 = true
    ∧ base_members scenario_atomic_member.1 scenario_atomic_member.2
        = some [⟨some "a", 1⟩]
    ∧ type_bitfield_p scenario_atomic_member.1 1 = false
    ∧ type_known_const_size_p 2 scenario_atomic_member.1 scenario_atomic_member.2
        = some true
    ∧ (∀ k, 0 < abi_lp64.alignment k)
    ∧ (∀ fuel, type_offsetof_n fuel abi_lp64 scenario_atomic_member.1
        scenario_atomic_member.2 0 = none) := by
  refine ⟨rfl, rfl, rfl, rfl, ?_, ?_⟩
  · intro k
    cases k <;> decide
  · intro fuel
    cases fuel <;> rfl

/-! ### Scenarios evaluated on the code (C2, C3, C4, C7, C8) and reflexivity (C5) -/

/-- C2 (code as written): in scenario S3 `type_offsetof_n` returns `0` for `a`
but the total of all storage units, `8`, for the absorbed bitfields `b`, `c`
and `d`, where `sizeof(unsigned int) = 4`: an absorbed bitfield leaves the loop
iteration through `continue` before the test `i == n`. -/
theorem C2_bitfield_offsets_as_coded (fuel : Nat) :
    type_offsetof_n (fuel + 1) abi_lp64 scenario_B.1 scenario_B.2.2 0 = some 0
    ∧ type_offsetof_n (fuel + 1) abi_lp64 scenario_B.1 scenario_B.2.2 1 = some 8
    ∧ type_offsetof_n (fuel + 1) abi_lp64 scenario_B.1 scenario_B.2.2 2 = some 8
    ∧ type_offsetof_n (fuel + 1) abi_lp64 scenario_B.1 scenario_B.2.2 4 = some 8
    ∧ type_sizeof (fuel + 1) abi_lp64 scenario_B.1 scenario_B.2.1 = some 4 :=
  ⟨rfl, rfl, rfl, rfl, rfl⟩

/-- C3 (code as written): for `struct V { int n; char data[]; }` the predicate
`type_struct_has_fam_p` is true and `type_offsetof_n(V, 1)` is `4`, but
`type_known_const_size_p(V)` is false and `type_sizeof(V)` never returns a
value (its first assertion fails). -/
theorem C3_fam_struct_as_coded :
    type_struct_has_fam_p scenario_V.1 scenario_V.2 = some true
    ∧ (∀ fuel, type_offsetof_n (fuel + 2) abi_lp64 scenario_V.1 scenario_V.2 1 = some 4)
    ∧ (∀ fuel, type_known_const_size_p (fuel + 2) scenario_V.1 scenario_V.2 = some false)
    ∧ (∀ fuel, type_sizeof fuel abi_lp64 scenario_V.1 scenario_V.2 = none) := by
  refine ⟨rfl, fun _ => rfl, fun _ => rfl, fun fuel => ?_⟩
  match fuel with
  | 0 => rfl
  | 1 => rfl
  | _ + 2 => rfl

/-- C4 (code as written): two independently constructed instances of
`struct N { int v; struct N* next; }` are not identical, and
`type_compatible_p` returns false for them: the pointer members are compared
by identity only. -/
theorem C4_self_referential_as_coded (fuel : Nat) :
    type_identical_p (fuel + 1) scenario_N.1 scenario_N.2.1 scenario_N.2.2 = some false
    ∧ type_compatible_p (fuel + 3) scenario_N.1 scenario_N.2.1 scenario_N.2.2
        = some false :=
  ⟨rfl, rfl⟩

/-- C7 (code as written): for every unmodified enum term `e` and every basic
`int` term `i`, `type_compatible_p(e, i)` and `type_compatible_p(i, e)` return
false: the comparison of the classifications returns before the enum rule
is reached. -/
theorem C7_enum_int_as_coded (fuel : Nat) (h : Heap) (e i : type) (tag : String)
    (ms : Option (List (String × Int)))
    (he : h.node e = .enum tag ms) (hi : h.node i = .basic TYPE_INT) :
    type_compatible_p (fuel + 1) h e i = some false
    ∧ type_compatible_p (fuel + 1) h i e = some false := by
  have hne : e ≠ i := by
    intro heq; rw [heq, hi] at he; cases he
  have hfe : type_flags h e = 0 := by simp [type_flags, he]
  have hfi : type_flags h i = 0 := by simp [type_flags, hi]
  have hce : type_classify h e = TYPE_ENUM := by simp [type_classify, type_base, he, Node.kind]
  have hci : type_classify h i = TYPE_INT := by simp [type_classify, type_base, hi, Node.kind]
  have hbe : type_bitfield_p h e = false := by simp [type_bitfield_p, hfe, c_bool]
  have hbi : type_bitfield_p h i = false := by simp [type_bitfield_p, hfi, c_bool]
  have hid1 : type_identical_p (fuel + 1) h e i = some false := by
    rw [type_identical_p]; simp [hne, hfe, hfi, hce, hci]
  have hid2 : type_identical_p (fuel + 1) h i e = some false := by
    rw [type_identical_p]; simp [Ne.symm hne, hfe, hfi, hce, hci]
  constructor
  · rw [type_compatible_p, type_compatible_inner]
    simp [hid1, hfe, hfi, bits_differ, hbe, hce, hci]
  · rw [type_compatible_p, type_compatible_inner]
    simp [hid2, hfe, hfi, bits_differ, hbi, hce, hci]

/-- Witness for C7: `enum E { A = 0, B = 1 }` against a basic `int`. -/
theorem C7_witness :
    type_compatible_p 1 scenario_enum_int.1 scenario_enum_int.2.1
        scenario_enum_int.2.2 = some false
    ∧ type_compatible_p 1 scenario_enum_int.1 scenario_enum_int.2.2
        scenario_enum_int.2.1 = some false :=
  C7_enum_int_as_coded 0 scenario_enum_int.1 scenario_enum_int.2.1 scenario_enum_int.2.2
    "E" (some [("A", 0), ("B", 1)]) rfl rfl

/-- C8 (code as written): a 3-bit and a 5-bit bitfield over `unsigned int`
(distinct nodes) are identical for `type_identical_p`, hence compatible for
`type_compatible_p`, although their widths differ. -/
theorem C8_bitfield_widths_as_coded (fuel : Nat) :
    scenario_bitfields.2.1 ≠ scenario_bitfields.2.2
    ∧ type_bitfield_bits scenario_bitfields.1 scenario_bitfields.2.1 = some 3
    ∧ type_bitfield_bits scenario_bitfields.1 scenario_bitfields.2.2 = some 5
    ∧ type_identical_p (fuel + 1) scenario_bitfields.1 scenario_bitfields.2.1
        scenario_bitfields.2.2 = some true
    ∧ type_compatible_p (fuel + 1) scenario_bitfields.1 scenario_bitfields.2.1
        scenario_bitfields.2.2 = some true :=
  ⟨by decide, rfl, rfl, rfl, rfl⟩

/-- C5: `type_identical_p(t, t)` and `type_compatible_p(t, t)` return true for
every term (for every positive call depth), and whenever
`type_identical_p(a, b)` returns true so does `type_compatible_p(a, b)`. -/
theorem C5_identical_reflexive_and_implies_compatible (fuel : Nat) (h : Heap)
    (t a b : type) :
    type_identical_p (fuel + 1) h t t = some true
    ∧ type_compatible_p (fuel + 1) h t t = some true
    ∧ (type_identical_p fuel h a b = some true
        → type_compatible_p fuel h a b = some true) := by
  have hrefl : type_identical_p (fuel + 1) h t t = some true := by
    simp [type_identical_p]
  refine ⟨hrefl, ?_, ?_⟩
  · simp [type_compatible_p, type_compatible_inner, hrefl]
  · intro hid
    cases fuel with
    | zero => simp [type_identical_p] at hid
    | succ n => simp [type_compatible_p, type_compatible_inner, hid]

/-- Witness for C5 at two separately allocated `int` terms. -/
theorem C5_witness :
    type_identical_p 1 scenario_two_ints.1 scenario_two_ints.2.1 scenario_two_ints.2.2
      = some true
    ∧ type_compatible_p 1 scenario_two_ints.1 scenario_two_ints.2.1 scenario_two_ints.2.2
      = some true :=
  ⟨rfl, (C5_identical_reflexive_and_implies_compatible 1 scenario_two_ints.1 0
    scenario_two_ints.2.1 scenario_two_ints.2.2).2.2 rfl⟩

/-! ### Compatibility of arrays (C10) -/

/-- `type_identical_p` on two distinct unmodified array nodes. -/
theorem identical_array_nodes {h : Heap} {a b : type} {la lb : Int} {ea eb : type}
    {ta tb : Option Nat} (ha : h.node a = .array la ea ta) (hb : h.node b = .array lb eb tb)
    (hab : a ≠ b) (n : Nat) :
    type_identical_p (n + 1) h a b
      = if (la == -2) ≠ (lb == -2) then some false
        else if (!(la == -1)) ≠ (!(lb == -1)) then some false
        else (type_known_const_size_p (n + 1) h a).bind fun k =>
          if !k then some false
          else (type_array_length h a).bind fun la1 =>
            (type_array_length h b).bind fun lb1 =>
              if la1 ≠ lb1 then some false else type_identical_p n h ea eb := by
  obtain ⟨hfa, hca, hcata, hea, hva, hcoa, _, _, _, _⟩ := array_node_facts ha
  obtain ⟨hfb, hcb, hcatb, heb, hvb, hcob, _, _, _, _⟩ := array_node_facts hb
  rw [type_identical_p]
  simp only [hab, if_false, hfa, hfb, hca, hcb, hcata, hcatb, ne_eq, not_true_eq_false,
    hva, hvb, hcoa, hcob, hea, heb]
  rfl

/-- `type_compatible_p` on two unmodified array nodes. -/
theorem compatible_array_nodes {h : Heap} {a b : type} {la lb : Int} {ea eb : type}
    {ta tb : Option Nat} (ha : h.node a = .array la ea ta) (hb : h.node b = .array lb eb tb)
    (n : Nat) :
    type_compatible_p (n + 1) h a b
      = (type_identical_p (n + 1) h a b).bind fun i =>
          if i then some true
          else (type_identical_p (n + 1) h ea eb).bind fun ie =>
            if !ie then some false
            else (type_known_const_size_p (n + 1) h a).bind fun ka =>
              if !ka then some true
              else (type_known_const_size_p (n + 1) h b).bind fun kb =>
                if !kb then some true
                else (type_array_length h a).bind fun la1 =>
                  (type_array_length h b).bind fun lb1 => some (la1 == lb1) := by
  obtain ⟨hfa, hca, hcata, hea, hva, hcoa, hbfa, _, _, _⟩ := array_node_facts ha
  obtain ⟨hfb, hcb, hcatb, heb, hvb, hcob, _, _, _, _⟩ := array_node_facts hb
  rw [type_compatible_p, type_compatible_inner]
  simp only [hfa, hfb, hca, hcb, hcata, hcatb, ne_eq, not_true_eq_false, if_false,
    bits_differ, hbfa, hea, heb]
  rfl

theorem array_length_of_kcs {h : Heap} {a : type} {la : Int} {ea : type} {ta : Option Nat}
    (ha : h.node a = .array la ea ta) (hla : -2 ≤ la) {n : Nat}
    (hk : type_known_const_size_p n h a = some true) :
    type_array_length h a = some la := by
  cases n with
  | zero => simp [type_known_const_size_p] at hk
  | succ n =>
    rw [kcs_array_node ha] at hk
    have h1 : la ≠ -1 := by intro h1; simp [h1] at hk
    have h2 : la ≠ -2 := by intro h2; simp [h2] at hk
    have : 0 ≤ la := by omega
    simp [(array_node_facts ha).2.2.2.2.2.2.2.2.2, this]

/-- C10: two unmodified array terms are compatible exactly when their element
types are identical and, if both have known constant size, their lengths are
equal; in particular any pairing with an incomplete or variable-length side
is compatible once the elements are identical.  The terms satisfy the data
model: lengths are at least `-2`, and `type_known_const_size_p` returns on
both (no infinite by-value nesting). -/
theorem C10_array_compatible_iff (h : Heap) (a b : type) (la lb : Int) (ea eb : type)
    (ta tb : Option Nat)
    (ha : h.node a = .array la ea ta) (hb : h.node b = .array lb eb tb)
    (hla : -2 ≤ la) (hlb : -2 ≤ lb)
    (hka : ∃ fuel r, type_known_const_size_p fuel h a = some r)
    (hkb : ∃ fuel r, type_known_const_size_p fuel h b = some r) :
    (Compatible h a b ↔
      Identical h ea eb ∧ (KnownConstSize h a ∧ KnownConstSize h b → la = lb))
    ∧ ((la = -1 ∨ la = -2 ∨ lb = -1 ∨ lb = -2) → Identical h ea eb → Compatible h a b) := by
  have main : Compatible h a b ↔
      Identical h ea eb ∧ (KnownConstSize h a ∧ KnownConstSize h b → la = lb) := by
    constructor
    · rintro ⟨fuel, hc⟩
      cases fuel with
      | zero => simp [type_compatible_p, type_compatible_inner] at hc
      | succ n =>
        by_cases hab : a = b
        · subst hab
          rw [ha] at hb
          injection hb with h1 h2 h3
          subst h1 h2
          exact ⟨⟨1, by simp [type_identical_p]⟩, fun _ => rfl⟩
        · rw [compatible_array_nodes ha hb] at hc
          cases hi : type_identical_p (n + 1) h a b with
          | none => simp [hi] at hc
          | some i =>
            cases i with
            | true =>
              rw [identical_array_nodes ha hb hab] at hi
              split at hi
              · cases hi
              · split at hi
                · cases hi
                · cases hk : type_known_const_size_p (n + 1) h a with
                  | none => simp [hk] at hi
                  | some k =>
                    cases k with
                    | false => simp [hk] at hi
                    | true =>
                      have hl := array_length_of_kcs ha hla hk
                      simp only [hk, Option.some_bind, Bool.not_true, Bool.false_eq_true,
                        if_false, hl] at hi
                      cases hlb1 : type_array_length h b with
                      | none => simp [hlb1] at hi
                      | some lb1 =>
                        simp only [hlb1, Option.some_bind] at hi
                        have hlb2 := (array_node_facts hb).2.2.2.2.2.2.2.2.2
                        rw [hlb2] at hlb1
                        split at hlb1
                        · injection hlb1 with hlb1
                          subst hlb1
                          by_cases hne : la = lb
                          · simp only [hne, ne_eq, not_true_eq_false, if_false] at hi
                            exact ⟨⟨n, hi⟩, fun _ => hne⟩
                          · simp [hne] at hi
                        · cases hlb1
            | false =>
              simp only [hi, Option.some_bind, Bool.false_eq_true, if_false] at hc
              cases hie : type_identical_p (n + 1) h ea eb with
              | none => simp [hie] at hc
              | some ie =>
                cases ie with
                | false => simp [hie] at hc
                | true =>
                  refine ⟨⟨n + 1, hie⟩, ?_⟩
                  rintro ⟨⟨fa, hfa⟩, ⟨fb, hfb⟩⟩
                  simp only [hie, Option.some_bind, Bool.not_true, Bool.false_eq_true,
                    if_false] at hc
                  cases hk : type_known_const_size_p (n + 1) h a with
                  | none => simp [hk] at hc
                  | some ka =>
                    have : ka = true := kcs_det hk hfa
                    subst this
                    cases hk2 : type_known_const_size_p (n + 1) h b with
                    | none => simp [hk, hk2] at hc
                    | some kb =>
                      have : kb = true := kcs_det hk2 hfb
                      subst this
                      simp [hk, hk2, array_length_of_kcs ha hla hk,
                        array_length_of_kcs hb hlb hk2] at hc
                      exact hc
    · rintro ⟨⟨k, hid⟩, himp⟩
      obtain ⟨fa, ra, hfa⟩ := hka
      obtain ⟨fb, rb, hfb⟩ := hkb
      by_cases hab : a = b
      · subst hab
        exact ⟨1, by simp [type_compatible_p, type_compatible_inner, type_identical_p]⟩
      · let N := max k (max fa fb)
        have hkN : k ≤ N := Nat.le_max_left _ _
        have hfaN : fa ≤ N + 1 :=
          Nat.le_succ_of_le ((Nat.le_max_left fa fb).trans (Nat.le_max_right k _))
        have hfbN : fb ≤ N + 1 :=
          Nat.le_succ_of_le ((Nat.le_max_right fa fb).trans (Nat.le_max_right k _))
        have hidN := identical_steady hkN h ea eb _ hid
        have hidN1 := identical_steady (Nat.le_succ_of_le hkN) h ea eb _ hid
        have hkaN := kcs_steady hfaN h a _ hfa
        have hkbN := kcs_steady hfbN h b _ hfb
        refine ⟨N + 1, ?_⟩
        have second : ((type_identical_p (N + 1) h ea eb).bind fun ie =>
            if !ie then some false
            else (type_known_const_size_p (N + 1) h a).bind fun ka =>
              if !ka then some true
              else (type_known_const_size_p (N + 1) h b).bind fun kb =>
                if !kb then some true
                else (type_array_length h a).bind fun la1 =>
                  (type_array_length h b).bind fun lb1 => some (la1 == lb1)) = some true := by
          rw [hidN1, hkaN, hkbN]
          cases ra with
          | false => simp
          | true =>
            cases rb with
            | false => simp
            | true =>
              have hl : la = lb := himp ⟨⟨_, hkaN⟩, ⟨_, hkbN⟩⟩
              simp [array_length_of_kcs ha hla hkaN, array_length_of_kcs hb hlb hkbN, hl]
        rw [compatible_array_nodes ha hb]
        have hcases : ∃ i, type_identical_p (N + 1) h a b = some i := by
          rw [identical_array_nodes ha hb hab]
          split
          · exact ⟨_, rfl⟩
          · rename_i hv
            split
            · exact ⟨_, rfl⟩
            · rename_i hco
              rw [hkaN]
              cases ra with
              | false => exact ⟨false, by simp⟩
              | true =>
                have hla1 := array_length_of_kcs ha hla hkaN
                have hlb1 : type_array_length h b = some lb := by
                  rw [kcs_array_node ha] at hkaN
                  have h1 : la ≠ -1 := by intro h1; simp [h1] at hkaN
                  have h2 : la ≠ -2 := by intro h2; simp [h2] at hkaN
                  have h3 : lb ≠ -2 := by
                    intro h3; apply hv; simp [h2, h3]
                  have h4 : lb ≠ -1 := by
                    intro h4; apply hco; simp [h1, h4]
                  have : 0 ≤ lb := by omega
                  simp [(array_node_facts hb).2.2.2.2.2.2.2.2.2, this]
                rw [hla1, hlb1]
                by_cases hne : la = lb
                · exact ⟨true, by simp [hne, hidN]⟩
                · exact ⟨false, by simp [hne]⟩
        obtain ⟨i, hi⟩ := hcases
        rw [hi]
        cases i with
        | true => simp
        | false => simpa using second
  refine ⟨main, ?_⟩
  intro hlen hid
  refine main.mpr ⟨hid, ?_⟩
  rintro ⟨⟨fa, hfa⟩, ⟨fb, hfb⟩⟩
  exfalso
  have e1 := array_length_of_kcs ha hla hfa
  have e2 := array_length_of_kcs hb hlb hfb
  rw [(array_node_facts ha).2.2.2.2.2.2.2.2.2] at e1
  rw [(array_node_facts hb).2.2.2.2.2.2.2.2.2] at e2
  split at e1
  · split at e2
    · omega
    · cases e2
  · cases e1

/-- Witness for C10: two separately built `int[10]` are compatible, and so are
`int[10]` and `int[]`. -/
theorem C10_witness :
    Compatible scenario_arrays.1 scenario_arrays.2.1 scenario_arrays.2.2.1
    ∧ Compatible scenario_arrays.1 scenario_arrays.2.1 scenario_arrays.2.2.2 :=
  ⟨(C10_array_compatible_iff scenario_arrays.1 1 3 10 10 0 2 none none rfl rfl
      (by decide) (by decide) ⟨2, true, rfl⟩ ⟨2, true, rfl⟩).1.mpr
      ⟨⟨1, rfl⟩, fun _ => rfl⟩,
   (C10_array_compatible_iff scenario_arrays.1 1 4 10 (-1) 0 0 none none rfl rfl
      (by decide) (by decide) ⟨2, true, rfl⟩ ⟨1, false, rfl⟩).2
      (Or.inr (Or.inr (Or.inl rfl))) ⟨1, rfl⟩⟩

/-! ### Compatibility of structs (C9) -/

theorem node_out_of_range {h : Heap} {p : type} (hp : h.length ≤ p) :
    h.node p = .basic TYPE_VOID := by
  simp [Heap.node, List.getD, List.getElem?_eq_none hp]

/-- In an ordered heap every child of a node has a smaller address. -/
theorem ordered_children {h : Heap} (hord : h.ordered = true) {p q : type}
    (hq : q ∈ (h.node p).children) : q < p := by
  by_cases hp : p < h.length
  · simp only [Heap.ordered, List.all_eq_true, List.mem_range, decide_eq_true_eq] at hord
    exact hord p hp q hq
  · rw [node_out_of_range (Nat.le_of_not_lt hp)] at hq
    simp [Node.children] at hq

theorem members_compatible_congr {p q : type → type → Pairs → Option Bool} {v w : Pairs} :
    ∀ (as bs : List type_member),
      (∀ ma ∈ as, ∀ mb ∈ bs, p ma.typ mb.typ v = q ma.typ mb.typ w) →
      members_compatible p v as bs = members_compatible q w as bs := by
  intro as
  induction as with
  | nil => intro bs _; cases bs <;> simp [members_compatible]
  | cons ma as ih =>
    intro bs hpq
    cases bs with
    | nil => simp [members_compatible]
    | cons mb bs =>
      rw [members_compatible, members_compatible,
        hpq ma (by simp) mb (by simp),
        ih bs (fun x hx y hy => hpq x (by simp [hx]) y (by simp [hy]))]

theorem pair_seen_drop {a b x y : type} (hx : x < a) (hy : y < b) (v1 v2 : Pairs) :
    pair_seen x y (v1 ++ (a, b) :: v2) = pair_seen x y (v1 ++ v2) := by
  have h1 : (x == a) = false := by
    simp only [beq_eq_false_iff_ne]
    exact Nat.ne_of_lt hx
  have h2 : ((x == b) && (y == a)) = false := by
    simp only [Bool.and_eq_false_imp, beq_iff_eq, beq_eq_false_iff_ne]
    intro hxb hya
    subst hxb hya
    exact absurd hx (Nat.lt_asymm hy)
  simp [pair_seen, List.any_append, h1, h2]

theorem raw_compound_children {h : Heap} {x : type} {c : String × Option (List type_member)}
    (hc : raw_compound h x = some c) :
    ∀ m ∈ c.2.getD [], m.typ ∈ (h.node x).children := by
  unfold raw_compound at hc
  split at hc
  · rename_i k tag ms hn
    injection hc with hc
    subst hc
    intro m hm
    rw [hn]
    simp only [Node.children, List.mem_map]
    exact ⟨m, hm, rfl⟩
  · cases hc

/-- In an ordered heap a visited pair above the current pair is never met
again, so it can be dropped from the chain. -/
theorem compatible_inner_drop_pair {h : Heap} (hord : h.ordered = true) (a b : type) :
    ∀ (n : Nat) (x y : type) (v1 v2 : Pairs), x < a → y < b →
      type_compatible_inner n h x y (v1 ++ (a, b) :: v2)
        = type_compatible_inner n h x y (v1 ++ v2) := by
  intro n
  induction n with
  | zero => intro x y v1 v2 _ _; simp [type_compatible_inner]
  | succ n ih =>
    intro x y v1 v2 hx hy
    have hstruct : struct_compatible_p (type_compatible_inner n h) h x y (v1 ++ (a, b) :: v2)
        = struct_compatible_p (type_compatible_inner n h) h x y (v1 ++ v2) := by
      unfold struct_compatible_p
      rw [pair_seen_drop hx hy]
      cases hca : raw_compound h x with
      | none => simp
      | some ca =>
        cases hcb : raw_compound h y with
        | none => simp
        | some cb =>
          have key : members_compatible (type_compatible_inner n h)
                ((x, y) :: (v1 ++ (a, b) :: v2)) (ca.2.getD []) (cb.2.getD [])
              = members_compatible (type_compatible_inner n h)
                ((x, y) :: (v1 ++ v2)) (ca.2.getD []) (cb.2.getD []) := by
            apply members_compatible_congr
            intro ma hma mb hmb
            have h1 := ordered_children hord (raw_compound_children hca ma hma)
            have h2 := ordered_children hord (raw_compound_children hcb mb hmb)
            exact ih ma.typ mb.typ ((x, y) :: v1) v2 (Nat.lt_trans h1 hx) (Nat.lt_trans h2 hy)
          simp only [Option.some_bind, Option.bind_eq_bind, key]
    rw [type_compatible_inner, type_compatible_inner, hstruct]

/-- Projections of an unmodified struct node. -/
theorem struct_node_facts {h : Heap} {a : type} {tag : String}
    {ms : Option (List type_member)} (ha : h.node a = .compound TYPE_STRUCT tag ms) :
    type_flags h a = 0 ∧ type_classify h a = TYPE_STRUCT ∧ type_category h a = TC_STRUCT
    ∧ type_complete_p h a = ms.isSome ∧ type_bitfield_p h a = false
    ∧ raw_compound h a = some (tag, ms) := by
  have hb : type_base h a = a := by simp [type_base, ha]
  have hf : type_flags h a = 0 := by simp [type_flags, ha]
  have hc : type_classify h a = TYPE_STRUCT := by simp [type_classify, hb, ha, Node.kind]
  refine ⟨hf, hc, ?_, ?_, ?_, ?_⟩
  · simp [type_category, type_atomic_p, hf, hc, c_bool]
  · simp [type_complete_p, type_basic_p, type_signed_p, type_unsigned_p, type_float_p,
      hc, hf, hb, ha, Node.kind, c_bool, type_flags, base_members]
  · simp [type_bitfield_p, hf, c_bool]
  · simp [raw_compound, ha]

/-- `type_compatible_p` on two distinct unmodified struct nodes is
`struct_compatible_p` with the empty chain. -/
theorem compatible_struct_nodes {h : Heap} {a b : type} {taga tagb : String}
    {msa msb : Option (List type_member)}
    (ha : h.node a = .compound TYPE_STRUCT taga msa)
    (hb : h.node b = .compound TYPE_STRUCT tagb msb) (hab : a ≠ b) (n : Nat) :
    type_compatible_p (n + 1) h a b
      = if taga ≠ tagb then some false
        else if !msa.isSome || !msb.isSome then some true
        else if (msa.getD []).length ≠ (msb.getD []).length then some false
        else members_compatible (type_compatible_inner n h) [(a, b)]
          (msa.getD []) (msb.getD []) := by
  obtain ⟨hfa, hca, hcata, hcoa, hbfa, hra⟩ := struct_node_facts ha
  obtain ⟨hfb, hcb, hcatb, hcob, _, hrb⟩ := struct_node_facts hb
  have hid : type_identical_p (n + 1) h a b = some false := by
    rw [type_identical_p]
    simp [hab, hfa, hfb, hca, hcb, hcata, hcatb]
  rw [type_compatible_p, type_compatible_inner]
  simp only [hid, hfa, hfb, hca, hcb, hcata, hcatb, ne_eq, not_true_eq_false, if_false,
    bits_differ, hbfa, struct_compatible_p, pair_seen, List.any_nil, hra, hrb, hcoa, hcob]
  rfl

/-- The member loop returns true exactly when every pair of members has equal
(non-null) names and a true result of the callee. -/
theorem members_compatible_iff {p : type → type → Pairs → Option Bool} {v : Pairs} :
    ∀ (as bs : List type_member), as.length = bs.length →
      (members_compatible p v as bs = some true ↔
        List.Forall₂ (fun ma mb => (∃ s, ma.name = some s ∧ mb.name = some s)
          ∧ p ma.typ mb.typ v = some true) as bs) := by
  intro as
  induction as with
  | nil =>
    intro bs hl
    cases bs with
    | nil => simp [members_compatible]
    | cons _ _ => simp at hl
  | cons ma as ih =>
    intro bs hl
    cases bs with
    | nil => simp at hl
    | cons mb bs =>
      have hl1 : as.length = bs.length := by simpa using hl
      rw [members_compatible, List.forall₂_cons, ← ih bs hl1]
      cases hna : ma.name with
      | none => simp [names_differ]
      | some x =>
        cases hnb : mb.name with
        | none => simp [names_differ]
        | some y =>
          by_cases hxy : x = y
          · subst hxy
            cases hp : p ma.typ mb.typ v with
            | none => simp [names_differ]
            | some r => cases r <;> simp [names_differ]
          · have hyx : ¬ y = x := fun e => hxy e.symm
            simp [names_differ, hxy, hyx]

/-- A common call depth for all member pairs. -/
theorem forall₂_common_fuel {P : Nat → type_member → type_member → Prop}
    (hmono : ∀ n m ma mb, n ≤ m → P n ma mb → P m ma mb)
    {Q : type_member → type_member → Prop} :
    ∀ (as bs : List type_member),
      List.Forall₂ (fun ma mb => Q ma mb ∧ ∃ f, P f ma mb) as bs →
      ∃ N, List.Forall₂ (fun ma mb => Q ma mb ∧ P N ma mb) as bs := by
  intro as bs hall
  induction hall with
  | nil => exact ⟨0, List.Forall₂.nil⟩
  | cons hab _ ih =>
    obtain ⟨N, hN⟩ := ih
    obtain ⟨hq, f, hf⟩ := hab
    refine ⟨max f N, List.Forall₂.cons ⟨hq, hmono _ _ _ _ (Nat.le_max_left _ _) hf⟩ ?_⟩
    exact hN.imp fun _ _ hx => ⟨hx.1, hmono _ _ _ _ (Nat.le_max_right _ _) hx.2⟩

theorem forall₂_imp_mem {R S : type_member → type_member → Prop}
    {as bs : List type_member} (hall : List.Forall₂ R as bs)
    (himp : ∀ x ∈ as, ∀ y ∈ bs, R x y → S x y) : List.Forall₂ S as bs := by
  induction hall with
  | nil => exact List.Forall₂.nil
  | cons hxy _ ih =>
    refine List.Forall₂.cons (himp _ (by simp) _ (by simp) hxy) (ih ?_)
    intro x hx y hy hr
    exact himp x (by simp [hx]) y (by simp [hy]) hr

theorem compound_member_lt {h : Heap} (hord : h.ordered = true) {a : type} {k : type_kind}
    {tag : String} {ms : List type_member} (ha : h.node a = .compound k tag (some ms))
    {m : type_member} (hm : m ∈ ms) : m.typ < a := by
  apply ordered_children hord
  rw [ha]
  simp only [Node.children, Option.getD_some, List.mem_map]
  exact ⟨m, hm, rfl⟩

/-- C9 (amended): two distinct unmodified struct terms of an ordered heap are
compatible exactly when their tags are equal and either at least one of them
is incomplete, or they have the same member count and, at every index, equal
member names and compatible member types. -/
theorem C9_struct_compatible_iff (h : Heap) (hord : h.ordered = true) (a b : type)
    (taga tagb : String) (msa msb : Option (List type_member))
    (ha : h.node a = .compound TYPE_STRUCT taga msa)
    (hb : h.node b = .compound TYPE_STRUCT tagb msb) (hab : a ≠ b) :
    Compatible h a b ↔
      taga = tagb ∧
        (msa = none ∨ msb = none ∨
          ∃ la lb, msa = some la ∧ msb = some lb ∧
            List.Forall₂ (fun ma mb => (∃ s, ma.name = some s ∧ mb.name = some s)
              ∧ Compatible h ma.typ mb.typ) la lb) := by
  constructor
  · rintro ⟨fuel, hc⟩
    cases fuel with
    | zero => simp [type_compatible_p, type_compatible_inner] at hc
    | succ n =>
      rw [compatible_struct_nodes ha hb hab] at hc
      split at hc
      · cases hc
      · rename_i htag
        refine ⟨not_not.mp htag, ?_⟩
        cases msa with
        | none => exact Or.inl rfl
        | some la =>
          cases msb with
          | none => exact Or.inr (Or.inl rfl)
          | some lb =>
            simp only [Option.isSome_some, Bool.not_true, Bool.or_self, Bool.false_eq_true,
              if_false, Option.getD_some] at hc
            split at hc
            · cases hc
            · rename_i hlen
              have hall := (members_compatible_iff la lb (not_not.mp hlen)).mp hc
              refine Or.inr (Or.inr ⟨la, lb, rfl, rfl, ?_⟩)
              refine forall₂_imp_mem hall ?_
              intro x hx y hy hr
              refine ⟨hr.1, n, ?_⟩
              have hdrop := compatible_inner_drop_pair hord a b n x.typ y.typ [] []
                (compound_member_lt hord ha hx) (compound_member_lt hord hb hy)
              simp only [List.nil_append] at hdrop
              rw [type_compatible_p, ← hdrop]
              exact hr.2
  · rintro ⟨htag, hrest⟩
    rcases hrest with hna | hnb | ⟨la, lb, hla, hlb, hall⟩
    · subst hna
      exact ⟨1, by rw [compatible_struct_nodes ha hb hab]; simp [htag]⟩
    · subst hnb
      exact ⟨1, by rw [compatible_struct_nodes ha hb hab]; simp [htag]⟩
    · subst hla hlb
      obtain ⟨N, hN⟩ := forall₂_common_fuel
        (P := fun f ma mb => type_compatible_p f h ma.typ mb.typ = some true)
        (fun n m ma mb hnm hp => compatible_inner_steady hnm h _ _ _ _ hp) la lb hall
      refine ⟨N + 1, ?_⟩
      rw [compatible_struct_nodes ha hb hab]
      have hlen : la.length = lb.length := hN.length_eq
      simp only [htag, ne_eq, not_true_eq_false, if_false, Option.isSome_some, Bool.not_true,
        Bool.or_self, Bool.false_eq_true, Option.getD_some, hlen]
      apply (members_compatible_iff la lb hlen).mpr
      refine forall₂_imp_mem hN ?_
      intro x hx y hy hr
      refine ⟨hr.1, ?_⟩
      have hdrop := compatible_inner_drop_pair hord a b N x.typ y.typ [] []
        (compound_member_lt hord ha hx) (compound_member_lt hord hb hy)
      simp only [List.nil_append] at hdrop
      rw [hdrop]
      exact hr.2

/-- Witness for C9: two separately built `struct P { int x; int y; }` are
compatible. -/
theorem C9_witness :
    Compatible scenario_two_structs.1 scenario_two_structs.2.1 scenario_two_structs.2.2 :=
  (C9_struct_compatible_iff scenario_two_structs.1 rfl 1 3 "P" "P"
    (some [⟨some "x", 0⟩, ⟨some "y", 0⟩]) (some [⟨some "x", 2⟩, ⟨some "y", 2⟩])
    rfl rfl (by decide)).mpr
    ⟨rfl, Or.inr (Or.inr ⟨_, _, rfl, rfl,
      List.Forall₂.cons ⟨⟨"x", rfl, rfl⟩, 1, rfl⟩
        (List.Forall₂.cons ⟨⟨"y", rfl, rfl⟩, 1, rfl⟩ List.Forall₂.nil)⟩)⟩

/-- Counterexample to C9 as stated: a complete `struct T { int x; }` and a
separately built incomplete `struct T` are distinct unmodified struct terms,
and `type_compatible_p` returns true for them. -/
theorem C9_counterexample :
    scenario_complete_incomplete.1.node scenario_complete_incomplete.2.1
        = .compound TYPE_STRUCT "T" (some [⟨some "x", 0⟩])
    ∧ scenario_complete_incomplete.1.node scenario_complete_incomplete.2.2
        = .compound TYPE_STRUCT "T" none
    ∧ scenario_complete_incomplete.2.1 ≠ scenario_complete_incomplete.2.2
    ∧ (∀ fuel, type_compatible_p (fuel + 1) scenario_complete_incomplete.1
        scenario_complete_incomplete.2.1 scenario_complete_incomplete.2.2 = some true) :=
  ⟨rfl, rfl, by decide, fun _ => rfl⟩

/-! ### Compatible terms have the same size (C6) -/

theorem node_mem_or_void (h : Heap) (p : type) :
    h.node p ∈ h ∨ h.node p = .basic TYPE_VOID := by
  by_cases hp : p < h.length
  · left
    unfold Heap.node
    rw [List.getD_eq_getElem _ _ hp]
    exact List.getElem_mem _
  · right
    exact List.getD_eq_default _ _ (Nat.le_of_not_lt hp)

theorem node_kind_ok {h : Heap} (hflat : h.flat = true) (p : type) :
    (h.node p).kind_ok = true := by
  rcases node_mem_or_void h p with hm | hv
  · simp only [Heap.flat, List.all_eq_true, Bool.and_eq_true] at hflat
    exact (hflat _ hm).1
  · rw [hv]; rfl

/-- In a flat heap the base of any term is an unmodified node. -/
theorem base_not_modified {h : Heap} (hflat : h.flat = true) (t : type) :
    (h.node (type_base h t)).kind ≠ TYPE_MODIFIED := by
  unfold type_base
  split
  · rename_i f b bits hn
    rcases node_mem_or_void h t with hm | hv
    · simp only [Heap.flat, List.all_eq_true, Bool.and_eq_true] at hflat
      have := (hflat _ hm).2
      rw [hn] at this
      simpa using this
    · rw [hv] at hn; cases hn
  · rename_i hn
    intro hk
    have hok := node_kind_ok hflat t
    cases hnode : h.node t with
    | basic k =>
      rw [hnode] at hk hok
      simp only [Node.kind] at hk
      subst hk
      simp [Node.kind_ok] at hok
    | compound k tag ms =>
      rw [hnode] at hk hok
      simp only [Node.kind] at hk
      subst hk
      simp [Node.kind_ok] at hok
    | modified f b bits => exact hn f b bits hnode
    | pointer r => rw [hnode] at hk; cases hk
    | array l e t => rw [hnode] at hk; cases hk
    | function r a => rw [hnode] at hk; cases hk
    | arglist ms v => rw [hnode] at hk; cases hk
    | arglist_null ms v => rw [hnode] at hk; cases hk
    | enum tag ms => rw [hnode] at hk; cases hk

theorem unmodified_base_flags {h : Heap} {x : type}
    (hx : (h.node x).kind ≠ TYPE_MODIFIED) : type_base h x = x ∧ type_flags h x = 0 := by
  cases hn : h.node x <;> simp_all [Node.kind, type_base, type_flags]

/-- In a flat heap the classification predicates depend only on the flags and
the classification of a term. -/
theorem same_flags_classify {h : Heap} (hflat : h.flat = true) {a b : type}
    (hf : type_flags h a = type_flags h b) (hc : type_classify h a = type_classify h b) :
    type_category h a = type_category h b
    ∧ type_arithmetic_p h a = type_arithmetic_p h b
    ∧ type_complex_p h a = type_complex_p h b
    ∧ type_basic_p h a = type_basic_p h b
    ∧ type_float_p h a = type_float_p h b
    ∧ type_array_p h a = type_array_p h b
    ∧ type_compound_p h a = type_compound_p h b
    ∧ type_struct_p h a = type_struct_p h b
    ∧ type_union_p h a = type_union_p h b
    ∧ type_wide_p h a = type_wide_p h b := by
  have ha := unmodified_base_flags (base_not_modified hflat a)
  have hb := unmodified_base_flags (base_not_modified hflat b)
  have hka : (h.node (type_base h a)).kind = type_classify h a := rfl
  have hkb : (h.node (type_base h b)).kind = type_classify h b := rfl
  have hs : type_signed_p h a = type_signed_p h b := by
    simp [type_signed_p, hf, hka, hkb, hc]
  have hsb : type_signed_p h (type_base h a) = type_signed_p h (type_base h b) := by
    simp [type_signed_p, ha.1, ha.2, hb.1, hb.2, hka, hkb, hc]
  have hu : type_unsigned_p h a = type_unsigned_p h b := by
    simp [type_unsigned_p, hf, hc, hsb]
  have hfl : type_float_p h a = type_float_p h b := by simp [type_float_p, hc]
  have hi : type_integer_p h a = type_integer_p h b := by
    simp [type_integer_p, type_enum_p, type_character_p, type_has_class_p, hc, hs, hu]
  refine ⟨?_, ?_, ?_, ?_, hfl, ?_, ?_, ?_, ?_, ?_⟩
  · simp [type_category, type_atomic_p, hf, hc]
  · simp [type_arithmetic_p, hi, hfl]
  · simp [type_complex_p, hf]
  · simp [type_basic_p, hc, hs, hu, hfl]
  · simp [type_array_p, type_has_class_p, hc]
  · simp [type_compound_p, type_union_p, type_struct_p, type_has_class_p, hc]
  · simp [type_struct_p, type_has_class_p, hc]
  · simp [type_union_p, type_has_class_p, hc]
  · simp [type_wide_p, hf]

theorem same_layout_refl (abi : Abi) (h : Heap) (a : type) : SameLayout abi h a a :=
  ⟨fun _ => rfl, fun _ => rfl, fun _ => rfl⟩

theorem complete_p_eq_of_kind {h : Heap} (hflat : h.flat = true) {a b : type}
    (hf : type_flags h a = type_flags h b) (hc : type_classify h a = type_classify h b)
    (h1 : type_classify h a ≠ TYPE_ARRAY) (h2 : type_classify h a ≠ TYPE_STRUCT)
    (h3 : type_classify h a ≠ TYPE_UNION) :
    type_complete_p h a = type_complete_p h b := by
  have hb := (same_flags_classify hflat hf hc).2.2.2.1
  unfold type_complete_p
  rw [hb, ← hc]
  cases hk : type_classify h a <;> simp_all

theorem kcs_simple {h : Heap} {t : type}
    (h1 : type_classify h t ≠ TYPE_ARRAY) (h2 : type_classify h t ≠ TYPE_STRUCT)
    (h3 : type_classify h t ≠ TYPE_UNION) (f : Nat) :
    type_known_const_size_p (f + 1) h t = some (type_complete_p h t) := by
  have ha : type_array_p h t = false := by
    simp [type_array_p, type_has_class_p]; exact fun e => h1 e.symm
  have hcp : type_compound_p h t = false := by
    simp [type_compound_p, type_union_p, type_struct_p, type_has_class_p]
    exact ⟨fun e => h3 e.symm, fun e => h2 e.symm⟩
  rw [type_known_const_size_p]
  cases hco : type_complete_p h t <;> simp [ha, hcp]

theorem type_real_none {h : Heap} (hflat : h.flat = true) {t : type}
    (hc : type_complex_p h t = true) : type_real h t = none := by
  unfold type_real
  split
  · rfl
  · cases hn : h.node t with
    | modified flags base bits =>
      have hfl : type_flags h t = flags := by simp [type_flags, hn]
      have hb : type_base h t = base := by simp [type_base, hn]
      have hnm := base_not_modified hflat t
      rw [hb] at hnm
      simp only [type_complex_p, hfl] at hc
      simp only [hc, Bool.not_true, Bool.false_eq_true, if_false]
      cases hnb : h.node base <;> simp_all [Node.kind]
    | _ =>
      simp [type_complex_p, type_flags, hn, c_bool] at hc

/-- In a flat heap `type_sizeof` of a complex term has no value, so the
complex branch can be dropped. -/
theorem sizeof_flat {h : Heap} (hflat : h.flat = true) (abi : Abi) (f : Nat) (t : type) :
    type_sizeof (f + 1) abi h t
      = if type_known_const_size_p (f + 1) h t != some true then none
        else if type_arithmetic_p h t && type_complex_p h t then none
        else
          match type_category h t with
          | TC_UNION => sizeof_union (type_sizeof f abi h) h t
          | TC_STRUCT =>
            sizeof_struct
              (offsetof_n_body (type_sizeof f abi h) (type_alignof f abi h) h)
              (type_sizeof f abi h) h t
          | TC_ARRAY =>
            match type_array_length h t with
            | none => none
            | some l =>
              match type_array_element h t with
              | none => none
              | some e =>
                match type_sizeof f abi h e with
                | none => none
                | some s => some ((l.toNat * s) % SIZE_MOD)
          | TC_FUNCTION => none
          | TC_POINTER =>
            match type_pointer_referenced h t with
            | none => none
            | some r =>
              some (((if type_wide_p h r then 2 else 1) * abi.size TYPE_POINTER) % SIZE_MOD)
          | TC_ATOMIC => none
          | TC_SELF => some (abi.size (type_classify h t)) := by
  rw [type_sizeof]
  by_cases hc : type_complex_p h t = true
  · simp [hc, type_real_none hflat hc]
  · simp [hc]

theorem classify_base {h : Heap} (hflat : h.flat = true) (t : type) :
    type_classify h (type_base h t) = type_classify h t := by
  have hb := unmodified_base_flags (base_not_modified hflat t)
  simp [type_classify, hb.1]

theorem basic_p_base {h : Heap} (hflat : h.flat = true) (t : type) :
    type_basic_p h (type_base h t) = type_basic_p h t := by
  have hb := unmodified_base_flags (base_not_modified hflat t)
  have hc := classify_base hflat t
  have hk : (h.node (type_base h t)).kind = type_classify h t := rfl
  simp only [type_basic_p, type_signed_p, type_unsigned_p, type_float_p, hc, hb.1, hb.2, hk]
  cases type_classify h t <;> cases c_bool (type_flags h t &&& UNSIGNED) <;> simp [c_bool]

/-- In a flat heap `type_known_const_size_p` only looks at the base of a term. -/
theorem kcs_base {h : Heap} (hflat : h.flat = true) (t : type) (f : Nat) :
    type_known_const_size_p f h (type_base h t) = type_known_const_size_p f h t := by
  cases f with
  | zero => rfl
  | succ f =>
    have hb := unmodified_base_flags (base_not_modified hflat t)
    have hc := classify_base hflat t
    have h1 : type_complete_p h (type_base h t) = type_complete_p h t := by
      simp [type_complete_p, basic_p_base hflat t, hc, base_length, base_members, hb.1]
    have h2 : type_compound_p h (type_base h t) = type_compound_p h t := by
      simp [type_compound_p, type_union_p, type_struct_p, type_has_class_p, hc]
    have h3 : type_array_p h (type_base h t) = type_array_p h t := by
      simp [type_array_p, type_has_class_p, hc]
    have h4 : type_array_vla_p h (type_base h t) = type_array_vla_p h t := by
      simp [type_array_vla_p, h3, base_length, hb.1]
    have h5 : base_members h (type_base h t) = base_members h t := by
      simp [base_members, hb.1]
    have h6 : type_array_element h (type_base h t) = type_array_element h t := by
      simp [type_array_element, hb.1]
    rw [type_known_const_size_p, type_known_const_size_p, h1, h2, h3, h4, h5, h6]

theorem identical_true_cases {h : Heap} {n : Nat} {a b : type}
    (hid : type_identical_p n h a b = some true) :
    a = b ∨ (type_flags h a = type_flags h b ∧ type_classify h a = type_classify h b) := by
  cases n with
  | zero => simp [type_identical_p] at hid
  | succ n =>
    rw [type_identical_p] at hid
    by_cases hab : a = b
    · exact Or.inl hab
    · right
      by_cases hf : type_flags h a = type_flags h b
      · by_cases hc : type_classify h a = type_classify h b
        · exact ⟨hf, hc⟩
        · simp [hab, hf, hc] at hid
      · simp [hab, hf] at hid

theorem classify_of_category {h : Heap} {t : type} :
    (type_category h t = TC_POINTER → type_classify h t = TYPE_POINTER)
    ∧ (type_category h t = TC_ARRAY → type_classify h t = TYPE_ARRAY)
    ∧ (type_category h t = TC_FUNCTION → type_classify h t = TYPE_FUNCTION)
    ∧ (type_category h t = TC_STRUCT → type_classify h t = TYPE_STRUCT)
    ∧ (type_category h t = TC_UNION → type_classify h t = TYPE_UNION)
    ∧ (type_category h t = TC_SELF →
        type_classify h t ≠ TYPE_ARRAY ∧ type_classify h t ≠ TYPE_STRUCT
        ∧ type_classify h t ≠ TYPE_UNION) := by
  unfold type_category
  cases type_atomic_p h t <;> cases type_classify h t <;> simp

theorem kcs_eq_simple {h : Heap} (hflat : h.flat = true) {a b : type}
    (hf : type_flags h a = type_flags h b) (hc : type_classify h a = type_classify h b)
    (h1 : type_classify h a ≠ TYPE_ARRAY) (h2 : type_classify h a ≠ TYPE_STRUCT)
    (h3 : type_classify h a ≠ TYPE_UNION) (f : Nat) :
    type_known_const_size_p f h a = type_known_const_size_p f h b := by
  cases f with
  | zero => rfl
  | succ f =>
    rw [kcs_simple h1 h2 h3, kcs_simple (hc ▸ h1) (hc ▸ h2) (hc ▸ h3),
      complete_p_eq_of_kind hflat hf hc h1 h2 h3]

/-- Terms found identical by `type_identical_p` have the same layout. -/
theorem identical_same_layout {h : Heap} (hflat : h.flat = true) (abi : Abi) :
    ∀ (n : Nat) (a b : type), type_identical_p n h a b = some true →
      SameLayout abi h a b := by
  intro n
  induction n with
  | zero => intro a b hid; simp [type_identical_p] at hid
  | succ n ih =>
    intro a b hid
    by_cases hab : a = b
    · subst hab; exact same_layout_refl abi h a
    rcases identical_true_cases hid with hab1 | ⟨hf, hc⟩
    · exact absurd hab1 hab
    obtain ⟨hcat, har, hcx, hbp, hfl, harr, hcomp, hst, hun, hw⟩ :=
      same_flags_classify hflat hf hc
    rw [type_identical_p] at hid
    simp only [hab, hf, hc, hcat, ne_eq, not_true_eq_false, if_false] at hid
    have hsimple : type_classify h a ≠ TYPE_ARRAY → type_classify h a ≠ TYPE_STRUCT →
        type_classify h a ≠ TYPE_UNION → type_category h b ≠ TC_UNION →
        type_category h b ≠ TC_STRUCT → type_category h b ≠ TC_ARRAY →
        ((match type_category h b with
          | TC_POINTER =>
            match type_pointer_referenced h a with
            | none => none
            | some r =>
              some (((if type_wide_p h r then 2 else 1) * abi.size TYPE_POINTER) % SIZE_MOD)
          | _ => (none : Option Nat))
          = (match type_category h b with
          | TC_POINTER =>
            match type_pointer_referenced h b with
            | none => none
            | some r =>
              some (((if type_wide_p h r then 2 else 1) * abi.size TYPE_POINTER) % SIZE_MOD)
          | _ => (none : Option Nat))) →
        SameLayout abi h a b := by
      intro h1 h2 h3 hnu hns hna hptr
      have hk := kcs_eq_simple hflat hf hc h1 h2 h3
      refine ⟨hk, ?_, ?_⟩
      · intro f
        cases f with
        | zero => rfl
        | succ f =>
          rw [sizeof_flat hflat, sizeof_flat hflat, hk, har, hcx, hcat, hc]
          cases hcb : type_category h b <;> simp_all
      · intro f
        cases f with
        | zero => rfl
        | succ f =>
          rw [type_alignof, type_alignof, hcat, hc]
          cases hcb : type_category h b <;> simp_all
    cases hcb : type_category h b with
    | TC_POINTER =>
      have hk := classify_of_category.1 (hcat.trans hcb)
      simp only [hcb, Option.bind_eq_bind, Option.bind_eq_some] at hid
      obtain ⟨ra, hra, rb, hrb, hrec⟩ := hid
      apply hsimple (by simp [hk]) (by simp [hk]) (by simp [hk]) (by simp [hcb])
        (by simp [hcb]) (by simp [hcb])
      have hwide : type_wide_p h ra = type_wide_p h rb := by
        rcases identical_true_cases hrec with e | ⟨e, _⟩
        · rw [e]
        · simp [type_wide_p, e]
      simp [hcb, hra, hrb, hwide]
    | TC_ARRAY =>
      have hka := classify_of_category.2.1 (hcat.trans hcb)
      have hkb : type_classify h b = TYPE_ARRAY := hc ▸ hka
      have hcpa : type_compound_p h a = false := by
        simp [type_compound_p, type_union_p, type_struct_p, type_has_class_p, hka]
      have hcpb : type_compound_p h b = false := by
        simp [type_compound_p, type_union_p, type_struct_p, type_has_class_p, hkb]
      simp only [hcb] at hid
      by_cases hv : type_array_vla_p h a = type_array_vla_p h b
      swap
      · simp [hv] at hid
      by_cases hco : type_complete_p h a = type_complete_p h b
      swap
      · simp [hv, hco] at hid
      simp only [hv, hco, not_true_eq_false, if_false, Option.bind_eq_bind,
        Option.bind_eq_some] at hid
      obtain ⟨k, hk, hid⟩ := hid
      cases k with
      | false => simp at hid
      | true =>
        simp only [Bool.not_true, Bool.false_eq_true, if_false, Option.bind_eq_some] at hid
        obtain ⟨la, hla, lb, hlb, hid⟩ := hid
        by_cases hl : la = lb
        swap
        · simp [hl] at hid
        simp only [hl, not_true_eq_false, if_false, Option.bind_eq_some] at hid
        obtain ⟨ea, hea, eb, heb, hrec⟩ := hid
        obtain ⟨ihk, ihs, iha⟩ := ih ea eb hrec
        have hkcs : ∀ f, type_known_const_size_p f h a = type_known_const_size_p f h b := by
          intro f
          cases f with
          | zero => rfl
          | succ f =>
            rw [type_known_const_size_p, type_known_const_size_p]
            simp only [hco, hcpa, hcpb, harr, hv, hea, heb, Option.bind_eq_bind,
              Option.some_bind, ihk f, Bool.false_eq_true, if_false]
        refine ⟨hkcs, ?_, ?_⟩
        · intro f
          cases f with
          | zero => rfl
          | succ f =>
            rw [sizeof_flat hflat, sizeof_flat hflat, hkcs, har, hcx, hcat, hcb]
            simp only [hla, hlb, hl, hea, heb, ihs f]
        · intro f
          cases f with
          | zero => rfl
          | succ f =>
            rw [type_alignof, type_alignof, hcat, hcb]
            simp only [hea, heb, iha f]
    | TC_FUNCTION =>
      have hk := classify_of_category.2.2.1 (hcat.trans hcb)
      apply hsimple (by simp [hk]) (by simp [hk]) (by simp [hk]) (by simp [hcb])
        (by simp [hcb]) (by simp [hcb])
      simp [hcb]
    | TC_UNION => simp [hcb] at hid
    | TC_STRUCT => simp [hcb] at hid
    | TC_ATOMIC =>
      simp only [hcb] at hid
      obtain ⟨ihk, _, _⟩ := ih _ _ hid
      have hkcs : ∀ f, type_known_const_size_p f h a = type_known_const_size_p f h b := by
        intro f
        rw [← kcs_base hflat a, ← kcs_base hflat b, ihk f]
      refine ⟨hkcs, ?_, ?_⟩
      · intro f
        cases f with
        | zero => rfl
        | succ f =>
          rw [sizeof_flat hflat, sizeof_flat hflat, hkcs, har, hcx, hcat, hcb]
      · intro f
        cases f with
        | zero => rfl
        | succ f =>
          rw [type_alignof, type_alignof, hcat, hcb]
    | TC_SELF =>
      have hk := classify_of_category.2.2.2.2.2 (hcat.trans hcb)
      apply hsimple hk.1 hk.2.1 hk.2.2 (by simp [hcb]) (by simp [hcb]) (by simp [hcb])
      simp [hcb]

/-- Terms of different classification are never found compatible: the test
of the classifications comes before every rule of `type_compatible_inner`. -/
theorem compatible_inner_classify {h : Heap} {a b : type}
    (hc : type_classify h a ≠ type_classify h b) (n : Nat) (v : Pairs) :
    type_compatible_inner n h a b v ≠ some true := by
  have hab : a ≠ b := fun e => hc (e ▸ rfl)
  cases n with
  | zero => simp [type_compatible_inner]
  | succ n =>
    have hid : type_identical_p (n + 1) h a b = some false := by
      rw [type_identical_p]
      by_cases hf : type_flags h a = type_flags h b <;> simp [hab, hf, hc]
    rw [type_compatible_inner, hid]
    by_cases hf : type_flags h a = type_flags h b
    · cases hd : bits_differ h a b with
      | none => simp [hf, hd]
      | some d => cases d <;> simp [hf, hd, hc]
    · simp [hf]

theorem node_append_lt {h : Heap} {x : type} (hx : x < h.length) (n : Node) :
    (h ++ [n]).node x = h.node x := by
  unfold Heap.node
  rw [List.getD_append _ _ _ _ hx]

theorem node_append_new (h : Heap) (n : Node) : (h ++ [n]).node h.length = n := by
  simp [Heap.node]

theorem lt_length_of_node {h : Heap} {x : type} (hx : h.node x ≠ .basic TYPE_VOID) :
    x < h.length := by
  by_contra hlt
  exact hx (node_out_of_range (Nat.le_of_not_lt hlt))

/-- Allocating a node does not change the classification of an enum term. -/
theorem classify_enum_append {h : Heap} {x : type} (he : type_enum_p h x = true) (n : Node) :
    type_classify (h ++ [n]) x = TYPE_ENUM := by
  simp only [type_enum_p, type_has_class_p, beq_iff_eq] at he
  have hk : (h.node (type_base h x)).kind = TYPE_ENUM := he.symm
  have hb : type_base h x < h.length := by
    apply lt_length_of_node
    intro hv; rw [hv] at hk; cases hk
  have hx : x < h.length := by
    apply lt_length_of_node
    intro hv
    have : type_base h x = x := by simp [type_base, hv]
    rw [this, hv] at hk; cases hk
  have hbase : type_base (h ++ [n]) x = type_base h x := by
    simp [type_base, node_append_lt hx]
  simp only [type_classify, hbase, node_append_lt hb, hk]

/-- The enum rule of `type_compatible_inner` never answers true. -/
theorem enum_bridge_not_true {h : Heap} {x : type} (he : type_enum_p h x = true) (n : Nat) :
    type_compatible_inner n (type_basic h TYPE_INT).1 x (type_basic h TYPE_INT).2 []
      ≠ some true := by
  apply compatible_inner_classify
  simp only [type_basic, Heap.alloc]
  rw [classify_enum_append he]
  have : type_classify (h ++ [Node.basic TYPE_INT]) h.length = TYPE_INT := by
    simp [type_classify, type_base, node_append_new, Node.kind]
  rw [this]
  simp

theorem all_members_congr₂ {p q : type → Option Bool} {la lb : List type_member}
    (hall : List.Forall₂ (fun ma mb => p ma.typ = q mb.typ) la lb) :
    all_members p la = all_members q lb := by
  induction hall with
  | nil => rfl
  | cons hxy _ ih => rw [all_members, all_members, hxy, ih]

theorem max_members_congr₂ {p q : type → Option Nat} {la lb : List type_member}
    (hall : List.Forall₂ (fun ma mb => p ma.typ = q mb.typ) la lb) :
    ∀ acc, max_members p la acc = max_members q lb acc := by
  induction hall with
  | nil => intro acc; rfl
  | cons hxy _ ih =>
    intro acc
    rw [max_members, max_members, hxy]
    cases q _ with
    | none => rfl
    | some v => exact ih _

theorem offsetof_loop_congr₂ (sz al : type → Option Nat) (h : Heap) (n : Int)
    {la lb : List type_member}
    (hall : List.Forall₂ (fun ma mb => sz ma.typ = sz mb.typ ∧ al ma.typ = al mb.typ
      ∧ type_bitfield_p h ma.typ = false ∧ type_bitfield_p h mb.typ = false) la lb) :
    ∀ (i sum : Nat) (bits : Int),
      offsetof_loop sz al h n la i sum bits = offsetof_loop sz al h n lb i sum bits := by
  induction hall with
  | nil => intro i sum bits; rfl
  | cons hxy _ ih =>
    intro i sum bits
    obtain ⟨h1, h2, h3, h4⟩ := hxy
    rw [offsetof_loop, offsetof_loop, offsetof_step_plain h3, offsetof_step_plain h4]
    simp only [offsetof_place, h1, h2]
    split <;> simp_all

theorem forall₂_getElem? {R : type_member → type_member → Prop} {la lb : List type_member}
    (hall : List.Forall₂ R la lb) :
    ∀ (i : Nat) (x y : type_member), la[i]? = some x → lb[i]? = some y → R x y := by
  induction hall with
  | nil => intro i x y hx; simp at hx
  | cons hxy _ ih =>
    intro i x y hx hy
    cases i with
    | zero =>
      simp only [List.getElem?_cons_zero, Option.some.injEq] at hx hy
      subst hx hy
      exact hxy
    | succ i =>
      simp only [List.getElem?_cons_succ] at hx hy
      exact ih i x y hx hy

/-- Projections of an unmodified complete struct node. -/
theorem complete_struct_facts {h : Heap} {a : type} {tag : String} {la : List type_member}
    (ha : h.node a = .compound TYPE_STRUCT tag (some la)) :
    base_members h a = some la ∧ type_member_count h a = some la.length
    ∧ type_struct_p h a = true ∧ type_union_p h a = false ∧ type_compound_p h a = true
    ∧ type_array_p h a = false
    ∧ (∀ i : Nat, type_member_type h a (i : Int) = (la[i]?).map (·.typ)) := by
  have hb : type_base h a = a := by simp [type_base, ha]
  have hc : type_classify h a = TYPE_STRUCT := by simp [type_classify, hb, ha, Node.kind]
  have hm : base_members h a = some la := by simp [base_members, hb, ha]
  refine ⟨hm, ?_, ?_, ?_, ?_, ?_, ?_⟩
  · simp [type_member_count, hb, ha]
  · simp [type_struct_p, type_has_class_p, hc]
  · simp [type_union_p, type_has_class_p, hc]
  · simp [type_compound_p, type_union_p, type_struct_p, type_has_class_p, hc]
  · simp [type_array_p, type_has_class_p, hc]
  · intro i
    simp [type_member_type, hm]

/-- Two unmodified complete structs whose members pairwise have the same
layout (no bitfields) have the same layout. -/
theorem struct_same_layout {h : Heap} (hflat : h.flat = true) (abi : Abi) {a b : type}
    {taga tagb : String} {la lb : List type_member}
    (ha : h.node a = .compound TYPE_STRUCT taga (some la))
    (hb : h.node b = .compound TYPE_STRUCT tagb (some lb))
    (hall : List.Forall₂ (MemberSame abi h) la lb) : SameLayout abi h a b := by
  obtain ⟨hfa, hca, hcata, hcoa, _, _⟩ := struct_node_facts ha
  obtain ⟨hfb, hcb, hcatb, hcob, _, _⟩ := struct_node_facts hb
  obtain ⟨hma, hna, hsa, hua, hcpa, hara, hmta⟩ := complete_struct_facts ha
  obtain ⟨hmb, hnb, hsb, hub, hcpb, harb, hmtb⟩ := complete_struct_facts hb
  have hlen : la.length = lb.length := hall.length_eq
  obtain ⟨hcat, har, hcx, _⟩ := same_flags_classify hflat (hfa.trans hfb.symm)
    (hca.trans hcb.symm)
  have hkcs : ∀ f, type_known_const_size_p f h a = type_known_const_size_p f h b := by
    intro f
    cases f with
    | zero => rfl
    | succ f =>
      rw [type_known_const_size_p, type_known_const_size_p]
      have := all_members_congr₂ (p := type_known_const_size_p f h)
        (q := type_known_const_size_p f h) (hall.imp fun _ _ hx => hx.1.1 f)
      simp [hcoa, hcob, hcpa, hcpb, hma, hmb, hara, harb, this]
  refine ⟨hkcs, ?_, ?_⟩
  · intro f
    cases f with
    | zero => rfl
    | succ f =>
      rw [sizeof_flat hflat, sizeof_flat hflat, hkcs, har, hcx, hcata, hcatb]
      have hloop := offsetof_loop_congr₂ (type_sizeof f abi h)
        (type_alignof f abi h) h ((la.length : Int) - 1)
        (hall.imp fun _ _ hx => ⟨hx.1.2.1 f, hx.1.2.2 f, hx.2.1, hx.2.2.1⟩) 0 0 0
      have hss : sizeof_struct
            (offsetof_n_body (type_sizeof f abi h) (type_alignof f abi h) h)
            (type_sizeof f abi h) h a
          = sizeof_struct
            (offsetof_n_body (type_sizeof f abi h) (type_alignof f abi h) h)
            (type_sizeof f abi h) h b := by
        unfold sizeof_struct
        rw [hna, hnb, ← hlen]
        dsimp only
        by_cases hpos : 0 < la.length
        · have hcast : ((la.length : Int) - 1) = ((la.length - 1 : Nat) : Int) := by omega
          have hlt : ((la.length : Int) - 1 < (la.length : Int)) := by omega
          have hia : la.length - 1 < la.length := by omega
          have hib : la.length - 1 < lb.length := by omega
          have hxa : la[la.length - 1]? = some la[la.length - 1] :=
            List.getElem?_eq_getElem hia
          have hxb : lb[la.length - 1]? = some lb[la.length - 1] :=
            List.getElem?_eq_getElem hib
          have hlast := forall₂_getElem? hall _ _ _ hxa hxb
          have hfa1 : type_struct_has_fam_p h a = some false := by
            simp [type_struct_has_fam_p, hsa, hna, hcast, hmta, hxa, hlast.2.2.2.1]
          have hfb1 : type_struct_has_fam_p h b = some false := by
            simp [type_struct_has_fam_p, hsb, hnb, ← hlen, hcast, hmtb, hxb, hlast.2.2.2.2]
          have hoa : offsetof_n_body (type_sizeof f abi h) (type_alignof f abi h) h a
                ((la.length : Int) - 1)
              = offsetof_n_body (type_sizeof f abi h) (type_alignof f abi h) h b
                ((la.length : Int) - 1) := by
            simp only [offsetof_n_body, hcpa, hcpb, hna, hnb, ← hlen, hlt, hua, hub, hma, hmb,
              Option.getD_some, hloop]
          rw [hoa, hfa1, hfb1]
          simp only [hcast, hmta, hmtb, hxa, hxb, Option.map_some', hlast.1.2.1 f]
        · simp [hpos]
      simp only [hss]
  · intro f
    cases f with
    | zero => rfl
    | succ f =>
      rw [type_alignof, type_alignof, hcata, hcatb]
      have := max_members_congr₂ (p := type_alignof f abi h) (q := type_alignof f abi h)
        (hall.imp fun _ _ hx => hx.1.2.2 f) 0
      simp only [alignof_struct, alignof_union, hna, hnb, hma, hmb, Option.getD_some, this]

theorem all_members_true {p : type → Option Bool} :
    ∀ (ms : List type_member), all_members p ms = some true →
      ∀ m ∈ ms, p m.typ = some true := by
  intro ms
  induction ms with
  | nil => intro _ m hm; simp at hm
  | cons x rest ih =>
    intro hall m hm
    rw [all_members] at hall
    cases hp : p x.typ with
    | none => simp [hp] at hall
    | some r =>
      cases r with
      | false => simp [hp] at hall
      | true =>
        simp only [hp] at hall
        rcases List.mem_cons.mp hm with e | e
        · rw [e]; exact hp
        · exact ih hall m e

theorem complete_of_kcs {h : Heap} {t : type} (hk : KnownConstSize h t) :
    type_complete_p h t = true := by
  obtain ⟨k, hk⟩ := hk
  cases k with
  | zero => simp [type_known_const_size_p] at hk
  | succ k =>
    rw [type_known_const_size_p] at hk
    by_cases hc : type_complete_p h t = true
    · exact hc
    · simp [hc] at hk

theorem kcs_struct_members {h : Heap} {a : type} {tag : String} {la : List type_member}
    (ha : h.node a = .compound TYPE_STRUCT tag (some la)) (hk : KnownConstSize h a) :
    ∀ m ∈ la, KnownConstSize h m.typ := by
  obtain ⟨k, hk⟩ := hk
  obtain ⟨hma, _, _, _, hcpa, hara, _⟩ := complete_struct_facts ha
  cases k with
  | zero => simp [type_known_const_size_p] at hk
  | succ k =>
    rw [type_known_const_size_p] at hk
    simp only [hcpa, hma, hara, if_true, Option.getD_some, Option.bind_eq_bind] at hk
    split at hk
    · cases hk
    · cases hall : all_members (type_known_const_size_p k h) la with
      | none => simp [hall] at hk
      | some r =>
        cases r with
        | false => simp [hall] at hk
        | true =>
          intro m hm
          exact ⟨k, all_members_true la hall m hm⟩

theorem kcs_array_facts {h : Heap} {a : type} (hcl : type_classify h a = TYPE_ARRAY)
    (hk : KnownConstSize h a) : type_array_vla_p h a = false := by
  obtain ⟨k, hk⟩ := hk
  have harr : type_array_p h a = true := by simp [type_array_p, type_has_class_p, hcl]
  have hcp : type_compound_p h a = false := by
    simp [type_compound_p, type_union_p, type_struct_p, type_has_class_p, hcl]
  cases k with
  | zero => simp [type_known_const_size_p] at hk
  | succ k =>
    rw [type_known_const_size_p] at hk
    by_cases hv : type_array_vla_p h a = true
    · by_cases hc : type_complete_p h a = true <;> simp [hc, hcp, harr, hv] at hk
    · simpa using hv

/-- Two array terms with equal flags, lengths, completeness and elements of the
same layout have the same layout. -/
theorem array_same_layout {h : Heap} (hflat : h.flat = true) (abi : Abi) {a b : type}
    (hf : type_flags h a = type_flags h b) (hc : type_classify h a = type_classify h b)
    (hcb : type_category h b = TC_ARRAY)
    (hv : type_array_vla_p h a = type_array_vla_p h b)
    (hco : type_complete_p h a = type_complete_p h b)
    {l : Int} (hla : type_array_length h a = some l) (hlb : type_array_length h b = some l)
    {ea eb : type} (hea : type_array_element h a = some ea)
    (heb : type_array_element h b = some eb) (hel : SameLayout abi h ea eb) :
    SameLayout abi h a b := by
  obtain ⟨hcat, har, hcx, hbp, hfl, harr, hcomp, hst, hun, hw⟩ :=
    same_flags_classify hflat hf hc
  obtain ⟨ihk, ihs, iha⟩ := hel
  have hka := classify_of_category.2.1 (hcat.trans hcb)
  have hkb : type_classify h b = TYPE_ARRAY := hc ▸ hka
  have hcpa : type_compound_p h a = false := by
    simp [type_compound_p, type_union_p, type_struct_p, type_has_class_p, hka]
  have hcpb : type_compound_p h b = false := by
    simp [type_compound_p, type_union_p, type_struct_p, type_has_class_p, hkb]
  have hkcs : ∀ f, type_known_const_size_p f h a = type_known_const_size_p f h b := by
    intro f
    cases f with
    | zero => rfl
    | succ f =>
      rw [type_known_const_size_p, type_known_const_size_p]
      simp only [hco, hcpa, hcpb, harr, hv, hea, heb, Option.bind_eq_bind,
        Option.some_bind, ihk f, Bool.false_eq_true, if_false]
  refine ⟨hkcs, ?_, ?_⟩
  · intro f
    cases f with
    | zero => rfl
    | succ f =>
      rw [sizeof_flat hflat, sizeof_flat hflat, hkcs, har, hcx, hcat, hcb]
      simp only [hla, hlb, hea, heb, ihs f]
  · intro f
    cases f with
    | zero => rfl
    | succ f =>
      rw [type_alignof, type_alignof, hcat, hcb]
      simp only [hea, heb, iha f]

/-- Two function terms with equal flags have the same layout (none). -/
theorem function_same_layout {h : Heap} (hflat : h.flat = true) (abi : Abi) {a b : type}
    (hf : type_flags h a = type_flags h b) (hc : type_classify h a = type_classify h b)
    (hcb : type_category h b = TC_FUNCTION) : SameLayout abi h a b := by
  obtain ⟨hcat, har, hcx, _⟩ := same_flags_classify hflat hf hc
  have hk := classify_of_category.2.2.1 (hcat.trans hcb)
  have hkcs := kcs_eq_simple hflat hf hc (by simp [hk]) (by simp [hk]) (by simp [hk])
  refine ⟨hkcs, ?_, ?_⟩
  · intro f
    cases f with
    | zero => rfl
    | succ f => rw [sizeof_flat hflat, sizeof_flat hflat, hkcs, har, hcx, hcat, hcb]
  · intro f
    cases f with
    | zero => rfl
    | succ f => rw [type_alignof, type_alignof, hcat, hcb]

theorem plain_struct_members {h : Heap} {a : type} {tag : String} {la : List type_member}
    (ha : h.node a = .compound TYPE_STRUCT tag (some la))
    (hp : ∃ k, layout_plain k h a = true) :
    ∀ m ∈ la, type_bitfield_p h m.typ = false ∧ ∃ k, layout_plain k h m.typ = true := by
  obtain ⟨k, hp⟩ := hp
  obtain ⟨hma, _, hsa, hua, _, _, _⟩ := complete_struct_facts ha
  cases k with
  | zero => simp [layout_plain] at hp
  | succ k =>
    rw [layout_plain] at hp
    simp only [hua, Bool.false_eq_true, if_false, hsa, if_true, hma, Option.getD_some,
      List.all_eq_true, Bool.and_eq_true, Bool.not_eq_true'] at hp
    intro m hm
    exact ⟨(hp m hm).1, k, (hp m hm).2⟩

theorem pair_seen_false {a b : type} {v : Pairs} (hv : ∀ pq ∈ v, a < pq.1 ∧ b < pq.2) :
    pair_seen a b v = false := by
  simp only [pair_seen, List.any_eq_false, Bool.or_eq_true, Bool.and_eq_true, beq_iff_eq,
    not_or, not_and]
  intro pq hpq
  obtain ⟨h1, h2⟩ := hv pq hpq
  constructor
  · intro e
    rw [e] at h1
    exact absurd h1 (Nat.lt_irrefl _)
  · intro e1 e2
    rw [e1] at h1
    rw [e2] at h2
    exact absurd h1 (Nat.lt_asymm h2)

theorem raw_compound_struct {h : Heap} {a : type}
    {ca : String × Option (List type_member)} (hr : raw_compound h a = some ca)
    (hcl : type_classify h a = TYPE_STRUCT) :
    h.node a = .compound TYPE_STRUCT ca.1 ca.2 := by
  unfold raw_compound at hr
  split at hr
  · rename_i k tag ms hn
    injection hr with hr
    subst hr
    have hb : type_base h a = a := by simp [type_base, hn]
    simp only [type_classify, hb, hn, Node.kind] at hcl
    rw [hn, hcl]
  · cases hr

theorem plain_not_union {h : Heap} {a : type} (hp : ∃ k, layout_plain k h a = true) :
    type_union_p h a = false := by
  obtain ⟨k, hp⟩ := hp
  cases k with
  | zero => simp [layout_plain] at hp
  | succ k =>
    rw [layout_plain] at hp
    by_cases hu : type_union_p h a = true
    · simp [hu] at hp
    · simpa using hu

/-- Compatible terms of known constant size that involve no union and no
bitfield member have the same layout (ordered, flat heap). -/
theorem compatible_same_layout {h : Heap} (hord : h.ordered = true) (hflat : h.flat = true)
    (abi : Abi) :
    ∀ (n : Nat) (a b : type) (v : Pairs), (∀ pq ∈ v, a < pq.1 ∧ b < pq.2) →
      type_compatible_inner n h a b v = some true →
      KnownConstSize h a → KnownConstSize h b →
      (∃ k, layout_plain k h a = true) → (∃ k, layout_plain k h b = true) →
      SameLayout abi h a b := by
  intro n
  induction n with
  | zero => intro a b v _ hc; simp [type_compatible_inner] at hc
  | succ n ih =>
    intro a b v hv hc hka hkb hpa hpb
    rw [type_compatible_inner] at hc
    simp only [Option.bind_eq_bind, Option.bind_eq_some] at hc
    obtain ⟨i, hi, hc⟩ := hc
    cases i with
    | true => exact identical_same_layout hflat abi _ _ _ hi
    | false =>
      simp only [Bool.false_eq_true, if_false] at hc
      by_cases hf : type_flags h a = type_flags h b
      swap
      · simp [hf] at hc
      simp only [hf, ne_eq, not_true_eq_false, if_false, Option.bind_eq_some] at hc
      obtain ⟨d, _, hc⟩ := hc
      cases d with
      | true => simp at hc
      | false =>
        simp only [Bool.false_eq_true, if_false] at hc
        by_cases hcl : type_classify h a = type_classify h b
        swap
        · simp [hcl] at hc
        obtain ⟨hcat, har, hcx, hbp, hfl, harr, hcomp, hst, hun, hw⟩ :=
          same_flags_classify hflat hf hcl
        simp only [hcl, hcat, not_true_eq_false, if_false] at hc
        cases hcb : type_category h b with
        | TC_ARRAY =>
          simp only [hcb, Option.bind_eq_some] at hc
          obtain ⟨ea, hea, eb, heb, ie, hie, hc⟩ := hc
          cases ie with
          | false => simp at hc
          | true =>
            simp only [Bool.not_true, Bool.false_eq_true, if_false, Option.bind_eq_some] at hc
            obtain ⟨ka, hka1, hc⟩ := hc
            obtain ⟨fa, hfa⟩ := hka
            obtain ⟨fb, hfb⟩ := hkb
            have : ka = true := kcs_det hka1 hfa
            subst this
            simp only [Bool.not_true, Bool.false_eq_true, if_false, Option.bind_eq_some] at hc
            obtain ⟨kb, hkb1, hc⟩ := hc
            have : kb = true := kcs_det hkb1 hfb
            subst this
            simp only [Bool.not_true, Bool.false_eq_true, if_false, Option.bind_eq_some,
              Option.some.injEq, beq_iff_eq] at hc
            obtain ⟨la, hla, lb, hlb, hl⟩ := hc
            subst hl
            have hka2 := classify_of_category.2.1 (hcat.trans hcb)
            refine array_same_layout hflat abi hf hcl hcb ?_ ?_ hla hlb hea heb
              (identical_same_layout hflat abi _ _ _ hie)
            · rw [kcs_array_facts hka2 ⟨fa, hfa⟩, kcs_array_facts (hcl ▸ hka2) ⟨fb, hfb⟩]
            · rw [complete_of_kcs ⟨fa, hfa⟩, complete_of_kcs ⟨fb, hfb⟩]
        | TC_FUNCTION => exact function_same_layout hflat abi hf hcl hcb
        | TC_STRUCT =>
          simp only [hcb, struct_compatible_p, pair_seen_false hv, Bool.false_eq_true,
            if_false, Option.bind_eq_bind, Option.bind_eq_some] at hc
          obtain ⟨ca, hca, cb, hcb1, hc⟩ := hc
          have hka2 := classify_of_category.2.2.2.1 (hcat.trans hcb)
          have hna := raw_compound_struct hca hka2
          have hnb := raw_compound_struct hcb1 (hcl ▸ hka2)
          have hcoa := complete_of_kcs hka
          have hcob := complete_of_kcs hkb
          rw [(struct_node_facts hna).2.2.2.1] at hcoa
          rw [(struct_node_facts hnb).2.2.2.1] at hcob
          obtain ⟨la, hla⟩ := Option.isSome_iff_exists.mp hcoa
          obtain ⟨lb, hlb⟩ := Option.isSome_iff_exists.mp hcob
          rw [hla] at hna
          rw [hlb] at hnb
          have hcoa1 : type_complete_p h a = true := complete_of_kcs hka
          have hcob1 : type_complete_p h b = true := complete_of_kcs hkb
          by_cases htag : ca.1 = cb.1
          swap
          · simp [htag] at hc
          by_cases hlen : la.length = lb.length
          swap
          · simp [htag, hcoa1, hcob1, hla, hlb, hlen] at hc
          simp only [htag, ne_eq, not_true_eq_false, if_false, hcoa1, hcob1, Bool.not_true,
            Bool.or_self, Bool.false_eq_true, hla, hlb, Option.getD_some, hlen] at hc
          have hall := (members_compatible_iff la lb hlen).mp hc
          have hkma := kcs_struct_members hna hka
          have hkmb := kcs_struct_members hnb hkb
          have hpma := plain_struct_members hna hpa
          have hpmb := plain_struct_members hnb hpb
          refine struct_same_layout hflat abi hna hnb (forall₂_imp_mem hall ?_)
          intro x hx y hy hr
          have hxa := compound_member_lt hord hna hx
          have hyb := compound_member_lt hord hnb hy
          refine ⟨ih x.typ y.typ ((a, b) :: v) ?_ hr.2 (hkma x hx) (hkmb y hy)
            (hpma x hx).2 (hpmb y hy).2, (hpma x hx).1, (hpmb y hy).1,
            complete_of_kcs (hkma x hx), complete_of_kcs (hkmb y hy)⟩
          intro pq hpq
          rcases List.mem_cons.mp hpq with e | e
          · rw [e]; exact ⟨hxa, hyb⟩
          · exact ⟨Nat.lt_trans hxa (hv pq e).1, Nat.lt_trans hyb (hv pq e).2⟩
        | TC_UNION =>
          have hka2 := classify_of_category.2.2.2.2.1 (hcat.trans hcb)
          have := plain_not_union hpa
          simp [type_union_p, type_has_class_p, hka2] at this
        | TC_POINTER =>
          simp only [hcb] at hc
          have he : type_enum_p h a = type_enum_p h b := by
            simp [type_enum_p, type_has_class_p, hcl]
          by_cases heb : type_enum_p h b = true
          · simp only [he, heb, Bool.or_self, if_true, Bool.not_true, Bool.false_eq_true,
              if_false] at hc
            exact absurd hc (enum_bridge_not_true heb n)
          · simp [he, heb] at hc
        | TC_ATOMIC =>
          simp only [hcb] at hc
          have he : type_enum_p h a = type_enum_p h b := by
            simp [type_enum_p, type_has_class_p, hcl]
          by_cases heb : type_enum_p h b = true
          · simp only [he, heb, Bool.or_self, if_true, Bool.not_true, Bool.false_eq_true,
              if_false] at hc
            exact absurd hc (enum_bridge_not_true heb n)
          · simp [he, heb] at hc
        | TC_SELF =>
          simp only [hcb] at hc
          have he : type_enum_p h a = type_enum_p h b := by
            simp [type_enum_p, type_has_class_p, hcl]
          by_cases heb : type_enum_p h b = true
          · simp only [he, heb, Bool.or_self, if_true, Bool.not_true, Bool.false_eq_true,
              if_false] at hc
            exact absurd hc (enum_bridge_not_true heb n)
          · simp [he, heb] at hc

/-- C6 (amended): in a heap as the constructors build it (ordered, flat), two
compatible terms of known constant size that are not unions and whose struct
members are, recursively, neither unions nor bitfields have the same
`type_sizeof` at every call depth: both calls return the same value or
neither returns. -/
theorem C6_compatible_same_sizeof (abi : Abi) (h : Heap) (hord : h.ordered = true)
    (hflat : h.flat = true) (a b : type) (hc : Compatible h a b)
    (hka : KnownConstSize h a) (hkb : KnownConstSize h b)
    (hpa : ∃ k, layout_plain k h a = true) (hpb : ∃ k, layout_plain k h b = true) :
    ∀ f, type_sizeof f abi h a = type_sizeof f abi h b := by
  obtain ⟨n, hn⟩ := hc
  exact (compatible_same_layout hord hflat abi n a b [] (by simp) hn hka hkb hpa hpb).2.1

/-- Witness for C6: two separately built `struct P { int x; int y; }` are
compatible and both have size 8. -/
theorem C6_witness :
    type_sizeof 2 abi_lp64 scenario_two_structs.1 scenario_two_structs.2.1
      = type_sizeof 2 abi_lp64 scenario_two_structs.1 scenario_two_structs.2.2
    ∧ type_sizeof 2 abi_lp64 scenario_two_structs.1 scenario_two_structs.2.1 = some 8 :=
  ⟨C6_compatible_same_sizeof abi_lp64 scenario_two_structs.1 rfl rfl
    scenario_two_structs.2.1 scenario_two_structs.2.2 ⟨2, rfl⟩ ⟨2, rfl⟩ ⟨2, rfl⟩
    ⟨2, rfl⟩ ⟨2, rfl⟩ 2, rfl⟩

/-- Counterexample to C6 as stated: `union U { int a; }` and
`union U { double d; }` are compatible (unions are compared by tag only), both
are of known constant size, and their sizes are 4 and 8. -/
theorem C6_counterexample :
    type_compatible_p 1 scenario_unions.1 scenario_unions.2.1 scenario_unions.2.2 = some true
    ∧ type_known_const_size_p 2 scenario_unions.1 scenario_unions.2.1 = some true
    ∧ type_known_const_size_p 2 scenario_unions.1 scenario_unions.2.2 = some true
    ∧ type_sizeof 2 abi_lp64 scenario_unions.1 scenario_unions.2.1 = some 4
    ∧ type_sizeof 2 abi_lp64 scenario_unions.1 scenario_unions.2.2 = some 8 :=
  ⟨rfl, rfl, rfl, rfl, rfl⟩

/-! ### Identity of array terms (C12) -/

/-- Facts about a term whose base node is an array node. -/
theorem array_base_facts {h : Heap} {a : type} {la : Int} {ea : type} {ta : Option Nat}
    (ha : h.node (type_base h a) = .array la ea ta) :
    type_classify h a = TYPE_ARRAY
    ∧ type_array_element h a = some ea ∧ type_array_vla_p h a = (la == -2)
    ∧ type_complete_p h a = !(la == -1)
    ∧ type_array_p h a = true ∧ type_compound_p h a = false
    ∧ type_array_length h a = (if 0 ≤ la then some la else none) := by
  have hbb : type_base h (type_base h a) = type_base h a := by
    rw [type_base.eq_1 h (type_base h a), ha]
  have hc : type_classify h a = TYPE_ARRAY := by simp [type_classify, ha, Node.kind]
  have hl : base_length h a = some la := by simp [base_length, ha]
  refine ⟨hc, ?_, ?_, ?_, ?_, ?_, ?_⟩
  · simp [type_array_element, ha]
  · simp [type_array_vla_p, type_array_p, type_has_class_p, hc, hl]
  · simp [type_complete_p, type_basic_p, type_signed_p, type_unsigned_p, type_float_p,
      hc, hbb, ha, Node.kind, hl]
  · simp [type_array_p, type_has_class_p, hc]
  · simp [type_compound_p, type_union_p, type_struct_p, type_has_class_p, hc]
  · simp [type_array_length, ha]

/-- `type_known_const_size_p` on a term whose base node is an array node. -/
theorem kcs_array_base {h : Heap} {a : type} {la : Int} {ea : type} {ta : Option Nat}
    (ha : h.node (type_base h a) = .array la ea ta) (n : Nat) :
    type_known_const_size_p (n + 1) h a
      = if la = -1 then some false else if la = -2 then some false
        else type_known_const_size_p n h ea := by
  obtain ⟨_, he, hv, hc, hp, hcp, _⟩ := array_base_facts ha
  rw [type_known_const_size_p]
  by_cases h1 : la = -1
  · simp [hc, h1]
  · by_cases h2 : la = -2
    · simp [hc, h1, hcp, hp, hv, h2]
    · simp [hc, h1, hcp, hp, hv, h2, he]

/-- `type_identical_p` on two distinct array terms with equal flags, not atomic. -/
theorem identical_array_terms {h : Heap} {a b : type} {la lb : Int} {ea eb : type}
    {ta tb : Option Nat} (ha : h.node (type_base h a) = .array la ea ta)
    (hb : h.node (type_base h b) = .array lb eb tb)
    (hab : a ≠ b) (hf : type_flags h a = type_flags h b)
    (hat : type_atomic_p h a = false) (n : Nat) :
    type_identical_p (n + 1) h a b
      = if (la == -2) ≠ (lb == -2) then some false
        else if (!(la == -1)) ≠ (!(lb == -1)) then some false
        else (type_known_const_size_p (n + 1) h a).bind fun k =>
          if !k then some false
          else (type_array_length h a).bind fun la1 =>
            (type_array_length h b).bind fun lb1 =>
              if la1 ≠ lb1 then some false else type_identical_p n h ea eb := by
  obtain ⟨hca, hea, hva, hcoa, _, _, _⟩ := array_base_facts ha
  obtain ⟨hcb, heb, hvb, hcob, _, _, _⟩ := array_base_facts hb
  have hatb : type_atomic_p h b = false := by
    simpa [type_atomic_p, hf] using hat
  have hcata : type_category h a = TC_ARRAY := by simp [type_category, hat, hca]
  have hcatb : type_category h b = TC_ARRAY := by simp [type_category, hatb, hcb]
  rw [type_identical_p]
  simp only [hab, if_false, hf, hca, hcb, hcata, hcatb, ne_eq, not_true_eq_false,
    hva, hvb, hcoa, hcob, hea, heb]
  rfl

/-- C12 (amended): for two distinct array terms with equal flags (not atomic),
the same VLA-ness and the same completeness, `type_identical_p(a, b)` holds
exactly when `a` has known constant size, the lengths are equal and the
elements are identical.  In particular two arrays of known constant size are
identical iff their lengths are equal and their elements identical, and two
arrays that are not of known constant size are never identical. -/
theorem C12_array_identical_iff (h : Heap) (a b : type) (la lb : Int) (ea eb : type)
    (ta tb : Option Nat) (ha : h.node (type_base h a) = .array la ea ta)
    (hb : h.node (type_base h b) = .array lb eb tb)
    (hab : a ≠ b) (hf : type_flags h a = type_flags h b)
    (hat : type_atomic_p h a = false) (hla : -2 ≤ la)
    (hv : type_array_vla_p h a = type_array_vla_p h b)
    (hc : type_complete_p h a = type_complete_p h b) :
    (Identical h a b ↔ (KnownConstSize h a ∧ la = lb ∧ Identical h ea eb))
    ∧ (KnownConstSize h a → (Identical h a b ↔ (la = lb ∧ Identical h ea eb)))
    ∧ (¬ KnownConstSize h a → ¬ Identical h a b) := by
  obtain ⟨_, _, hva, hcoa, _, _, hlena⟩ := array_base_facts ha
  obtain ⟨_, _, hvb, hcob, _, _, hlenb⟩ := array_base_facts hb
  have hv1 : (la == -2) = (lb == -2) := by rw [← hva, ← hvb]; exact hv
  have hc1 : (!(la == -1)) = (!(lb == -1)) := by rw [← hcoa, ← hcob]; exact hc
  have key : Identical h a b ↔ (KnownConstSize h a ∧ la = lb ∧ Identical h ea eb) := by
    constructor
    · rintro ⟨n, hn⟩
      cases n with
      | zero => simp [type_identical_p] at hn
      | succ n =>
        rw [identical_array_terms ha hb hab hf hat n] at hn
        simp only [hv1, hc1, ne_eq, not_true_eq_false, if_false] at hn
        cases hk : type_known_const_size_p (n + 1) h a with
        | none => simp [hk] at hn
        | some k =>
          cases k with
          | false => simp [hk] at hn
          | true =>
            simp only [hk, Option.some_bind, Bool.not_true,
              Bool.false_eq_true, if_false] at hn
            rw [hlena, hlenb] at hn
            by_cases h0a : 0 ≤ la
            · by_cases h0b : 0 ≤ lb
              · simp only [h0a, h0b, if_true, Option.some_bind] at hn
                by_cases hll : la = lb
                · exact ⟨⟨n + 1, hk⟩, hll, n, by simpa [hll] using hn⟩
                · simp [hll] at hn
              · simp [h0a, h0b] at hn
            · simp [h0a] at hn
    · rintro ⟨⟨k, hk⟩, hll, m, hm⟩
      subst hll
      have hk1 : type_known_const_size_p (k + m + 1) h a = some true :=
        kcs_steady (by omega) h a _ hk
      have hm1 : type_identical_p (k + m) h ea eb = some true :=
        identical_steady (by omega) h ea eb _ hm
      have h0 : 0 ≤ la := by
        cases k with
        | zero => simp [type_known_const_size_p] at hk
        | succ k =>
          rw [kcs_array_base ha k] at hk
          by_cases h1 : la = -1
          · simp [h1] at hk
          · by_cases h2 : la = -2
            · simp [h2] at hk
            · omega
      refine ⟨k + m + 1, ?_⟩
      rw [identical_array_terms ha hb hab hf hat (k + m)]
      simp [hk1, hlena, hlenb, h0, hm1]
  refine ⟨key, ?_, ?_⟩
  · intro hk
    rw [key]
    exact ⟨fun hx => hx.2, fun hx => ⟨hk, hx⟩⟩
  · intro hk hi
    exact hk (key.mp hi).1


/-- Witness for C12: the two separately built `int[10]` of the array scenario
are identical. -/
theorem C12_witness :
    Identical scenario_arrays.1 scenario_arrays.2.1 scenario_arrays.2.2.1 :=
  (C12_array_identical_iff scenario_arrays.1 1 3 10 10 0 2 none none rfl rfl (by decide)
    rfl rfl (by decide) rfl rfl).1.mpr ⟨⟨2, rfl⟩, rfl, 1, rfl⟩

/-- Counterexample to C12 as stated: two separately built incomplete arrays
`int[]` over the same element term are distinct nodes with equal flags, the
same VLA-ness and the same completeness, their elements are identical, and
`type_identical_p` returns false for them. -/
theorem C12_counterexample :
    scenario_incomplete_arrays.1.node scenario_incomplete_arrays.2.1 = .array (-1) 0 none
    ∧ scenario_incomplete_arrays.1.node scenario_incomplete_arrays.2.2 = .array (-1) 0 none
    ∧ scenario_incomplete_arrays.2.1 ≠ scenario_incomplete_arrays.2.2
    ∧ type_flags scenario_incomplete_arrays.1 scenario_incomplete_arrays.2.1
        = type_flags scenario_incomplete_arrays.1 scenario_incomplete_arrays.2.2
    ∧ type_array_vla_p scenario_incomplete_arrays.1 scenario_incomplete_arrays.2.1
        = type_array_vla_p scenario_incomplete_arrays.1 scenario_incomplete_arrays.2.2
    ∧ type_complete_p scenario_incomplete_arrays.1 scenario_incomplete_arrays.2.1
        = type_complete_p scenario_incomplete_arrays.1 scenario_incomplete_arrays.2.2
    ∧ Identical scenario_incomplete_arrays.1 0 0
    ∧ (∀ fuel, type_identical_p (fuel + 1) scenario_incomplete_arrays.1
        scenario_incomplete_arrays.2.1 scenario_incomplete_arrays.2.2 = some false) :=
  ⟨rfl, rfl, by decide, rfl, rfl, rfl, ⟨1, rfl⟩, fun _ => rfl⟩

/-! ### Alignment of member offsets (C19) and the size of a struct (C20) -/

/-- Away from the target index, one iteration of the member loop does not
depend on the target. -/
theorem offsetof_step_target {sz al : type → Option Nat} {h : Heap} {n n1 : Int}
    {m : type} {i sum : Nat} {bits : Int} (hn : (i : Int) ≠ n) (hn1 : (i : Int) ≠ n1) :
    offsetof_step sz al h n m i sum bits = offsetof_step sz al h n1 m i sum bits := by
  simp only [offsetof_step, offsetof_place, hn, hn1, if_false]

/-- The member loop for the target index `i0 + k` passes the first `k` members
and continues from the entry state of iteration `k`. -/
theorem offsetof_loop_entry (sz al : type → Option Nat) (h : Heap) :
    ∀ (k : Nat) (ms : List type_member) (i0 sum0 : Nat) (bits0 : Int) (sum : Nat)
      (bits : Int),
      offsetof_entry sz al h ms i0 sum0 bits0 k = some (sum, bits) →
      offsetof_loop sz al h ((i0 + k : Nat) : Int) ms i0 sum0 bits0
        = offsetof_loop sz al h ((i0 + k : Nat) : Int) (ms.drop k) (i0 + k) sum bits := by
  intro k
  induction k with
  | zero =>
    intro ms i0 sum0 bits0 sum bits hent
    simp only [offsetof_entry, Option.some.injEq, Prod.mk.injEq] at hent
    obtain ⟨rfl, rfl⟩ := hent
    simp
  | succ k ih =>
    intro ms i0 sum0 bits0 sum bits hent
    cases ms with
    | nil => simp [offsetof_entry] at hent
    | cons x rest =>
      have hn : ((i0 : Nat) : Int) ≠ ((i0 + (k + 1) : Nat) : Int) := by
        simp only [ne_eq, Nat.cast_inj]; omega
      have hn1 : ((i0 : Nat) : Int) ≠ (-1 : Int) := by omega
      rw [offsetof_loop, offsetof_step_target hn hn1]
      rw [offsetof_entry] at hent
      cases hs : offsetof_step sz al h (-1) x.typ i0 sum0 bits0 with
      | none => simp [hs] at hent
      | some st =>
        cases st with
        | ret s => simp [hs] at hent
        | next s b =>
          simp only [hs] at hent ⊢
          have e : i0 + (k + 1) = i0 + 1 + k := by omega
          rw [e, List.drop_succ_cons]
          exact ih rest (i0 + 1) s b sum bits hent

/-- At the target index, a member that is not absorbed ends the loop. -/
theorem offsetof_step_not_next {sz al : type → Option Nat} {h : Heap} {m : type}
    {i sum : Nat} {bits : Int} (hna : bitfield_absorbed h m bits = false) (s : Nat)
    (b : Int) : offsetof_step sz al h (i : Int) m i sum bits ≠ some (.next s b) := by
  unfold offsetof_step offsetof_place
  cases hbf : type_bitfield_p h m with
  | true =>
    cases hb : type_bitfield_bits h m with
    | none => simp
    | some nbits =>
      have hcond : ¬ (nbits ≠ 0 ∧ bits ≥ nbits) := by
        simpa [bitfield_absorbed, hbf, hb] using hna
      simp only [if_true, hcond, if_false]
      split <;> (try split) <;> (try split) <;> (try split) <;> simp
  | false =>
    simp only [Bool.false_eq_true, if_false]
    split <;> (try split) <;> (try split) <;> simp

/-- The iteration of the target index returns an aligned sum unless the member
is absorbed into the current storage unit. -/
theorem offsetof_step_ret_aligned {sz al : type → Option Nat} {h : Heap} {m : type}
    {i sum o a : Nat} {bits : Int}
    (hstep : offsetof_step sz al h (i : Int) m i sum bits = some (.ret o))
    (hal : al m = some a) (hdiv : a ∣ SIZE_MOD) : a ∣ o := by
  have hplace : ∀ b, offsetof_place sz al (i : Int) m i sum b = some (.ret o) → a ∣ o := by
    intro b hp
    unfold offsetof_place at hp
    simp only [hal] at hp
    by_cases ha0 : a = 0
    · simp [ha0] at hp
    · simp only [ha0, if_false] at hp
      split at hp
      · simp at hp
      · simp only [if_true, Option.some.injEq, LoopStep.ret.injEq] at hp
        rw [← hp]
        apply (Nat.dvd_mod_iff hdiv).mpr
        have hapos : 0 < a := Nat.pos_of_ne_zero ha0
        have hr : sum % a < a := Nat.mod_lt _ hapos
        by_cases h0 : sum % a = 0
        · rw [h0]; simp
          exact Nat.dvd_of_mod_eq_zero h0
        · have : (a - sum % a) % a = a - sum % a := Nat.mod_eq_of_lt (by omega)
          rw [this]
          have hx2 : sum = a * (sum / a) + sum % a := (Nat.div_add_mod sum a).symm
          refine ⟨sum / a + 1, ?_⟩
          rw [Nat.mul_add, Nat.mul_one]
          omega
  unfold offsetof_step at hstep
  split at hstep
  · split at hstep
    · simp at hstep
    · split at hstep
      · split at hstep <;> simp at hstep
      · split at hstep
        · simp at hstep
        · exact hplace _ hstep
  · exact hplace _ hstep

/-- C19 (amended): for a struct term `t` and a member index `n` whose member
is not absorbed into the storage unit left by the preceding members: whenever
`type_offsetof_n(t, n)` and `type_alignof(member_type(t, n))` both return and
the alignment divides the range of `size_t` (it is a power of two), the offset
is a multiple of the alignment. -/
theorem C19_offset_multiple_of_alignment (abi : Abi) (fuel : Nat) (h : Heap) (t : type)
    (ms : List type_member) (n : Nat) (m : type_member) (sum : Nat) (bits : Int)
    (o a : Nat)
    (hstruct : type_struct_p h t = true)
    (hms : base_members h t = some ms)
    (hget : ms.get? n = some m)
    (hent : offsetof_entry (type_sizeof fuel abi h) (type_alignof fuel abi h) h ms 0 0 0 n
      = some (sum, bits))
    (hna : bitfield_absorbed h m.typ bits = false)
    (ho : type_offsetof_n fuel abi h t (n : Int) = some o)
    (hal : type_alignof fuel abi h m.typ = some a)
    (hdiv : a ∣ SIZE_MOD) :
    o % a = 0 := by
  have hn : n < ms.length := by
    rcases Nat.lt_or_ge n ms.length with hlt | hge
    · exact hlt
    · rw [List.get?_eq_none.mpr hge] at hget; cases hget
  rw [type_offsetof_n, offsetof_n_body_struct _ _ hstruct hms n hn] at ho
  have hloop := offsetof_loop_entry (type_sizeof fuel abi h) (type_alignof fuel abi h) h
    n ms 0 0 0 sum bits hent
  simp only [Nat.zero_add] at hloop
  rw [hloop] at ho
  obtain ⟨rest, hdrop⟩ : ∃ rest, ms.drop n = m :: rest := by
    refine ⟨ms.drop (n + 1), ?_⟩
    rw [List.drop_eq_getElem_cons hn]
    congr 1
    rw [List.get?_eq_getElem?, List.getElem?_eq_getElem hn] at hget
    exact Option.some.inj hget
  simp only [hdrop, offsetof_loop] at ho
  cases hs : offsetof_step (type_sizeof fuel abi h) (type_alignof fuel abi h) h (n : Int)
      m.typ n sum bits with
  | none => simp [hs] at ho
  | some st =>
    cases st with
    | next s b => exact absurd hs (offsetof_step_not_next hna s b)
    | ret s =>
      simp only [hs, Option.some.injEq] at ho
      subst ho
      exact Nat.mod_eq_zero_of_dvd (offsetof_step_ret_aligned hs hal hdiv)

/-- Witness for C19: in scenario S3 the zero-width bitfield at index 3 opens a
new unit at offset 4, a multiple of the alignment 4 of `unsigned int`. -/
theorem C19_witness :
    bitfield_absorbed scenario_B.1 5 26 = false
    ∧ type_offsetof_n 1 abi_lp64 scenario_B.1 scenario_B.2.2 3 = some 4
    ∧ type_alignof 1 abi_lp64 scenario_B.1 5 = some 4
    ∧ 4 % 4 = 0 :=
  ⟨rfl, rfl, rfl,
    C19_offset_multiple_of_alignment abi_lp64 1 scenario_B.1 scenario_B.2.2
      [⟨some "a", 2⟩, ⟨some "b", 3⟩, ⟨some "c", 4⟩, ⟨some "", 5⟩, ⟨some "d", 6⟩]
      3 ⟨some "", 5⟩ 4 26 4 4 rfl rfl rfl rfl rfl rfl rfl
      ⟨4611686018427387904, by decide⟩⟩

/-- Counterexample to C19 as stated: `struct L { int x; _Atomic int a; }` is a
struct of known constant size, its member at index 1 is not a bitfield, and
neither `type_offsetof_n(L, 1)` nor `type_alignof` of that member ever returns
a value (`type_alignof` asserts on the atomic category). -/
theorem C19_counterexample :
    type_struct_p scenario_atomic_last.1 scenario_atomic_last.2 = true
    ∧ type_known_const_size_p 2 scenario_atomic_last.1 scenario_atomic_last.2 = some true
    ∧ type_member_type scenario_atomic_last.1 scenario_atomic_last.2 1 = some 1
    ∧ type_bitfield_p scenario_atomic_last.1 1 = false
    ∧ (∀ fuel, type_offsetof_n fuel abi_lp64 scenario_atomic_last.1
        scenario_atomic_last.2 1 = none)
    ∧ (∀ fuel, type_alignof fuel abi_lp64 scenario_atomic_last.1 1 = none) := by
  refine ⟨rfl, rfl, rfl, rfl, ?_, ?_⟩
  · intro fuel
    cases fuel <;> rfl
  · intro fuel
    cases fuel <;> rfl

/-- A term of the struct category is not arithmetic. -/
theorem struct_not_arithmetic {h : Heap} {t : type}
    (hcat : type_category h t = TC_STRUCT) : type_arithmetic_p h t = false := by
  have hc : type_classify h t = TYPE_STRUCT := classify_of_category.2.2.2.1 hcat
  have hk : (h.node (type_base h t)).kind = TYPE_STRUCT := hc
  have hbb : type_base h (type_base h t) = type_base h t := by
    rw [type_base.eq_1 h (type_base h t)]
    cases hn : h.node (type_base h t) <;> simp_all [Node.kind]
  simp [type_arithmetic_p, type_integer_p, type_enum_p, type_has_class_p, hc,
    type_signed_p, type_unsigned_p, type_character_p, type_float_p, hk, hbb]

/-- C20 (amended): for a term `t` of the struct category with known constant
size, at least one member and no flexible array member, such that
`type_offsetof_n(t, N-1)` returns `o`, `type_sizeof` of the last member
returns `s`, and `o + s` is not zero in `size_t`: `type_sizeof(t)` returns
`o + s` reduced to `size_t`, which is `o + s` itself when that sum is in the
range of `size_t`. -/
theorem C20_struct_sizeof (abi : Abi) (fuel : Nat) (h : Heap) (t : type) (N : Nat)
    (last : type) (o s : Nat)
    (hcat : type_category h t = TC_STRUCT)
    (hk : type_known_const_size_p (fuel + 1) h t = some true)
    (hN : type_member_count h t = some N) (hpos : 0 < N)
    (hfam : type_struct_has_fam_p h t = some false)
    (hlast : type_member_type h t ((N : Int) - 1) = some last)
    (ho : type_offsetof_n fuel abi h t ((N : Int) - 1) = some o)
    (hs : type_sizeof fuel abi h last = some s)
    (hnz : 0 < (o + s) % SIZE_MOD) :
    type_sizeof (fuel + 1) abi h t = some ((o + s) % SIZE_MOD)
    ∧ (o + s < SIZE_MOD → type_sizeof (fuel + 1) abi h t = some (o + s)) := by
  have key : type_sizeof (fuel + 1) abi h t = some ((o + s) % SIZE_MOD) := by
    rw [type_offsetof_n] at ho
    rw [type_sizeof]
    simp [hk, struct_not_arithmetic hcat, hcat, sizeof_struct, hN, hpos, ho, hfam, hlast,
      hs, hnz]
  refine ⟨key, ?_⟩
  intro hlt
  rw [key, Nat.mod_eq_of_lt hlt]

/-- Witness for C20: scenario S1 has its last member at offset 8 with size 8,
and `type_sizeof` returns 16. -/
theorem C20_witness :
    type_offsetof_n 1 abi_lp64 scenario_S.1 scenario_S.2 2 = some 8
    ∧ type_sizeof 1 abi_lp64 scenario_S.1 3 = some 8
    ∧ type_sizeof 2 abi_lp64 scenario_S.1 scenario_S.2 = some 16 :=
  ⟨rfl, rfl,
    (C20_struct_sizeof abi_lp64 1 scenario_S.1 scenario_S.2 3 3 8 8 rfl rfl rfl
      (by decide) rfl rfl rfl rfl (by decide)).2 (by decide)⟩

/-- Counterexample to C20 as stated: `struct L { int x; _Atomic int a; }` is a
complete struct of known constant size without a flexible array member, and
`type_sizeof` never returns a value for it. -/
theorem C20_counterexample :
    type_category scenario_atomic_last.1 scenario_atomic_last.2 = TC_STRUCT
    ∧ type_complete_p scenario_atomic_last.1 scenario_atomic_last.2 = true
    ∧ type_known_const_size_p 2 scenario_atomic_last.1 scenario_atomic_last.2 = some true
    ∧ type_struct_has_fam_p scenario_atomic_last.1 scenario_atomic_last.2 = some false
    ∧ (∀ fuel, type_sizeof fuel abi_lp64 scenario_atomic_last.1
        scenario_atomic_last.2 = none) := by
  refine ⟨rfl, rfl, rfl, rfl, ?_⟩
  intro fuel
  cases fuel with
  | zero => rfl
  | succ fuel => cases fuel <;> rfl

/-! ### Allocation leaves the existing terms unchanged -/

theorem node_append_list {h : Heap} {x : type} (hx : x < h.length) (e : List Node) :
    (h ++ e).node x = h.node x := by
  unfold Heap.node
  rw [List.getD_append _ _ _ _ hx]

/-- In an ordered heap the base of a term is the term or an older node. -/
theorem base_le {h : Heap} (hord : h.ordered = true) (t : type) : type_base h t ≤ t := by
  unfold type_base
  split
  · rename_i f b bits hn
    exact Nat.le_of_lt (ordered_children hord (by rw [hn]; simp [Node.children]))
  · exact Nat.le_refl t

/-- Every address read by an inspection of a valid term lies in the heap. -/
theorem child_lt {h : Heap} (hord : h.ordered = true) {t q : type} (ht : t < h.length)
    (hq : q ∈ (h.node (type_base h t)).children) : q < h.length :=
  Nat.lt_trans (Nat.lt_of_lt_of_le (ordered_children hord hq) (base_le hord t)) ht

/-- The nodes read by the inspection functions for a valid term are the same
after an allocation. -/
theorem frame_core {h : Heap} (hord : h.ordered = true) (e : List Node) {t : type}
    (ht : t < h.length) :
    (h ++ e).node t = h.node t
    ∧ type_base (h ++ e) t = type_base h t
    ∧ type_flags (h ++ e) t = type_flags h t
    ∧ (h ++ e).node (type_base h t) = h.node (type_base h t)
    ∧ type_base (h ++ e) (type_base h t) = type_base h (type_base h t)
    ∧ type_flags (h ++ e) (type_base h t) = type_flags h (type_base h t)
    ∧ (h ++ e).node (type_base h (type_base h t)) = h.node (type_base h (type_base h t)) := by
  have hb : type_base h t < h.length := Nat.lt_of_le_of_lt (base_le hord t) ht
  have hbb : type_base h (type_base h t) < h.length :=
    Nat.lt_of_le_of_lt (base_le hord _) hb
  have n1 := node_append_list ht e
  have n2 := node_append_list hb e
  have n3 := node_append_list hbb e
  refine ⟨n1, ?_, ?_, n2, ?_, ?_, n3⟩
  · rw [type_base.eq_1, n1, ← type_base.eq_1]
  · rw [type_flags.eq_1, n1, ← type_flags.eq_1]
  · rw [type_base.eq_1 (h ++ e), n2, ← type_base.eq_1]
  · rw [type_flags.eq_1 (h ++ e), n2, ← type_flags.eq_1]

theorem frame_classify {h : Heap} (hord : h.ordered = true) (e : List Node) {t : type}
    (ht : t < h.length) : type_classify (h ++ e) t = type_classify h t := by
  obtain ⟨n1, n2, n3, n4, n5, n6, n7⟩ := frame_core hord e ht
  simp only [type_classify, type_has_class_p, type_function_p, type_pointer_p, type_struct_p, type_union_p, type_array_p, type_arglist_p, type_enum_p, type_float_p, type_complex_p, type_atomic_p, type_const_p, type_volatile_p, type_restrict_p, type_wide_p, type_bitfield_p, type_signed_p, type_unsigned_p, type_compound_p, type_aggregate_p, base_length, type_array_vla_p, type_category, type_qualified_p, type_character_p, type_integer_p, type_basic_p, type_arithmetic_p, base_members, type_complete_p, type_function_return, type_pointer_referenced, type_array_element, type_array_length, type_function_arguments, type_compound_tag, type_member_count, type_member_type, type_member_name, type_bitfield_bits, type_rank, raw_members, raw_compound,
    n1, n2, n3, n4, n5, n6, n7]

theorem frame_function_p {h : Heap} (hord : h.ordered = true) (e : List Node) {t : type}
    (ht : t < h.length) : type_function_p (h ++ e) t = type_function_p h t := by
  obtain ⟨n1, n2, n3, n4, n5, n6, n7⟩ := frame_core hord e ht
  simp only [type_classify, type_has_class_p, type_function_p, type_pointer_p, type_struct_p, type_union_p, type_array_p, type_arglist_p, type_enum_p, type_float_p, type_complex_p, type_atomic_p, type_const_p, type_volatile_p, type_restrict_p, type_wide_p, type_bitfield_p, type_signed_p, type_unsigned_p, type_compound_p, type_aggregate_p, base_length, type_array_vla_p, type_category, type_qualified_p, type_character_p, type_integer_p, type_basic_p, type_arithmetic_p, base_members, type_complete_p, type_function_return, type_pointer_referenced, type_array_element, type_array_length, type_function_arguments, type_compound_tag, type_member_count, type_member_type, type_member_name, type_bitfield_bits, type_rank, raw_members, raw_compound,
    n1, n2, n3, n4, n5, n6, n7]

theorem frame_pointer_p {h : Heap} (hord : h.ordered = true) (e : List Node) {t : type}
    (ht : t < h.length) : type_pointer_p (h ++ e) t = type_pointer_p h t := by
  obtain ⟨n1, n2, n3, n4, n5, n6, n7⟩ := frame_core hord e ht
  simp only [type_classify, type_has_class_p, type_function_p, type_pointer_p, type_struct_p, type_union_p, type_array_p, type_arglist_p, type_enum_p, type_float_p, type_complex_p, type_atomic_p, type_const_p, type_volatile_p, type_restrict_p, type_wide_p, type_bitfield_p, type_signed_p, type_unsigned_p, type_compound_p, type_aggregate_p, base_length, type_array_vla_p, type_category, type_qualified_p, type_character_p, type_integer_p, type_basic_p, type_arithmetic_p, base_members, type_complete_p, type_function_return, type_pointer_referenced, type_array_element, type_array_length, type_function_arguments, type_compound_tag, type_member_count, type_member_type, type_member_name, type_bitfield_bits, type_rank, raw_members, raw_compound,
    n1, n2, n3, n4, n5, n6, n7]

theorem frame_struct_p {h : Heap} (hord : h.ordered = true) (e : List Node) {t : type}
    (ht : t < h.length) : type_struct_p (h ++ e) t = type_struct_p h t := by
  obtain ⟨n1, n2, n3, n4, n5, n6, n7⟩ := frame_core hord e ht
  simp only [type_classify, type_has_class_p, type_function_p, type_pointer_p, type_struct_p, type_union_p, type_array_p, type_arglist_p, type_enum_p, type_float_p, type_complex_p, type_atomic_p, type_const_p, type_volatile_p, type_restrict_p, type_wide_p, type_bitfield_p, type_signed_p, type_unsigned_p, type_compound_p, type_aggregate_p, base_length, type_array_vla_p, type_category, type_qualified_p, type_character_p, type_integer_p, type_basic_p, type_arithmetic_p, base_members, type_complete_p, type_function_return, type_pointer_referenced, type_array_element, type_array_length, type_function_arguments, type_compound_tag, type_member_count, type_member_type, type_member_name, type_bitfield_bits, type_rank, raw_members, raw_compound,
    n1, n2, n3, n4, n5, n6, n7]

theorem frame_union_p {h : Heap} (hord : h.ordered = true) (e : List Node) {t : type}
    (ht : t < h.length) : type_union_p (h ++ e) t = type_union_p h t := by
  obtain ⟨n1, n2, n3, n4, n5, n6, n7⟩ := frame_core hord e ht
  simp only [type_classify, type_has_class_p, type_function_p, type_pointer_p, type_struct_p, type_union_p, type_array_p, type_arglist_p, type_enum_p, type_float_p, type_complex_p, type_atomic_p, type_const_p, type_volatile_p, type_restrict_p, type_wide_p, type_bitfield_p, type_signed_p, type_unsigned_p, type_compound_p, type_aggregate_p, base_length, type_array_vla_p, type_category, type_qualified_p, type_character_p, type_integer_p, type_basic_p, type_arithmetic_p, base_members, type_complete_p, type_function_return, type_pointer_referenced, type_array_element, type_array_length, type_function_arguments, type_compound_tag, type_member_count, type_member_type, type_member_name, type_bitfield_bits, type_rank, raw_members, raw_compound,
    n1, n2, n3, n4, n5, n6, n7]

theorem frame_array_p {h : Heap} (hord : h.ordered = true) (e : List Node) {t : type}
    (ht : t < h.length) : type_array_p (h ++ e) t = type_array_p h t := by
  obtain ⟨n1, n2, n3, n4, n5, n6, n7⟩ := frame_core hord e ht
  simp only [type_classify, type_has_class_p, type_function_p, type_pointer_p, type_struct_p, type_union_p, type_array_p, type_arglist_p, type_enum_p, type_float_p, type_complex_p, type_atomic_p, type_const_p, type_volatile_p, type_restrict_p, type_wide_p, type_bitfield_p, type_signed_p, type_unsigned_p, type_compound_p, type_aggregate_p, base_length, type_array_vla_p, type_category, type_qualified_p, type_character_p, type_integer_p, type_basic_p, type_arithmetic_p, base_members, type_complete_p, type_function_return, type_pointer_referenced, type_array_element, type_array_length, type_function_arguments, type_compound_tag, type_member_count, type_member_type, type_member_name, type_bitfield_bits, type_rank, raw_members, raw_compound,
    n1, n2, n3, n4, n5, n6, n7]

theorem frame_arglist_p {h : Heap} (hord : h.ordered = true) (e : List Node) {t : type}
    (ht : t < h.length) : type_arglist_p (h ++ e) t = type_arglist_p h t := by
  obtain ⟨n1, n2, n3, n4, n5, n6, n7⟩ := frame_core hord e ht
  simp only [type_classify, type_has_class_p, type_function_p, type_pointer_p, type_struct_p, type_union_p, type_array_p, type_arglist_p, type_enum_p, type_float_p, type_complex_p, type_atomic_p, type_const_p, type_volatile_p, type_restrict_p, type_wide_p, type_bitfield_p, type_signed_p, type_unsigned_p, type_compound_p, type_aggregate_p, base_length, type_array_vla_p, type_category, type_qualified_p, type_character_p, type_integer_p, type_basic_p, type_arithmetic_p, base_members, type_complete_p, type_function_return, type_pointer_referenced, type_array_element, type_array_length, type_function_arguments, type_compound_tag, type_member_count, type_member_type, type_member_name, type_bitfield_bits, type_rank, raw_members, raw_compound,
    n1, n2, n3, n4, n5, n6, n7]

theorem frame_enum_p {h : Heap} (hord : h.ordered = true) (e : List Node) {t : type}
    (ht : t < h.length) : type_enum_p (h ++ e) t = type_enum_p h t := by
  obtain ⟨n1, n2, n3, n4, n5, n6, n7⟩ := frame_core hord e ht
  simp only [type_classify, type_has_class_p, type_function_p, type_pointer_p, type_struct_p, type_union_p, type_array_p, type_arglist_p, type_enum_p, type_float_p, type_complex_p, type_atomic_p, type_const_p, type_volatile_p, type_restrict_p, type_wide_p, type_bitfield_p, type_signed_p, type_unsigned_p, type_compound_p, type_aggregate_p, base_length, type_array_vla_p, type_category, type_qualified_p, type_character_p, type_integer_p, type_basic_p, type_arithmetic_p, base_members, type_complete_p, type_function_return, type_pointer_referenced, type_array_element, type_array_length, type_function_arguments, type_compound_tag, type_member_count, type_member_type, type_member_name, type_bitfield_bits, type_rank, raw_members, raw_compound,
    n1, n2, n3, n4, n5, n6, n7]

theorem frame_float_p {h : Heap} (hord : h.ordered = true) (e : List Node) {t : type}
    (ht : t < h.length) : type_float_p (h ++ e) t = type_float_p h t := by
  obtain ⟨n1, n2, n3, n4, n5, n6, n7⟩ := frame_core hord e ht
  simp only [type_classify, type_has_class_p, type_function_p, type_pointer_p, type_struct_p, type_union_p, type_array_p, type_arglist_p, type_enum_p, type_float_p, type_complex_p, type_atomic_p, type_const_p, type_volatile_p, type_restrict_p, type_wide_p, type_bitfield_p, type_signed_p, type_unsigned_p, type_compound_p, type_aggregate_p, base_length, type_array_vla_p, type_category, type_qualified_p, type_character_p, type_integer_p, type_basic_p, type_arithmetic_p, base_members, type_complete_p, type_function_return, type_pointer_referenced, type_array_element, type_array_length, type_function_arguments, type_compound_tag, type_member_count, type_member_type, type_member_name, type_bitfield_bits, type_rank, raw_members, raw_compound,
    n1, n2, n3, n4, n5, n6, n7]

theorem frame_complex_p {h : Heap} (hord : h.ordered = true) (e : List Node) {t : type}
    (ht : t < h.length) : type_complex_p (h ++ e) t = type_complex_p h t := by
  obtain ⟨n1, n2, n3, n4, n5, n6, n7⟩ := frame_core hord e ht
  simp only [type_classify, type_has_class_p, type_function_p, type_pointer_p, type_struct_p, type_union_p, type_array_p, type_arglist_p, type_enum_p, type_float_p, type_complex_p, type_atomic_p, type_const_p, type_volatile_p, type_restrict_p, type_wide_p, type_bitfield_p, type_signed_p, type_unsigned_p, type_compound_p, type_aggregate_p, base_length, type_array_vla_p, type_category, type_qualified_p, type_character_p, type_integer_p, type_basic_p, type_arithmetic_p, base_members, type_complete_p, type_function_return, type_pointer_referenced, type_array_element, type_array_length, type_function_arguments, type_compound_tag, type_member_count, type_member_type, type_member_name, type_bitfield_bits, type_rank, raw_members, raw_compound,
    n1, n2, n3, n4, n5, n6, n7]

theorem frame_atomic_p {h : Heap} (hord : h.ordered = true) (e : List Node) {t : type}
    (ht : t < h.length) : type_atomic_p (h ++ e) t = type_atomic_p h t := by
  obtain ⟨n1, n2, n3, n4, n5, n6, n7⟩ := frame_core hord e ht
  simp only [type_classify, type_has_class_p, type_function_p, type_pointer_p, type_struct_p, type_union_p, type_array_p, type_arglist_p, type_enum_p, type_float_p, type_complex_p, type_atomic_p, type_const_p, type_volatile_p, type_restrict_p, type_wide_p, type_bitfield_p, type_signed_p, type_unsigned_p, type_compound_p, type_aggregate_p, base_length, type_array_vla_p, type_category, type_qualified_p, type_character_p, type_integer_p, type_basic_p, type_arithmetic_p, base_members, type_complete_p, type_function_return, type_pointer_referenced, type_array_element, type_array_length, type_function_arguments, type_compound_tag, type_member_count, type_member_type, type_member_name, type_bitfield_bits, type_rank, raw_members, raw_compound,
    n1, n2, n3, n4, n5, n6, n7]

theorem frame_const_p {h : Heap} (hord : h.ordered = true) (e : List Node) {t : type}
    (ht : t < h.length) : type_const_p (h ++ e) t = type_const_p h t := by
  obtain ⟨n1, n2, n3, n4, n5, n6, n7⟩ := frame_core hord e ht
  simp only [type_classify, type_has_class_p, type_function_p, type_pointer_p, type_struct_p, type_union_p, type_array_p, type_arglist_p, type_enum_p, type_float_p, type_complex_p, type_atomic_p, type_const_p, type_volatile_p, type_restrict_p, type_wide_p, type_bitfield_p, type_signed_p, type_unsigned_p, type_compound_p, type_aggregate_p, base_length, type_array_vla_p, type_category, type_qualified_p, type_character_p, type_integer_p, type_basic_p, type_arithmetic_p, base_members, type_complete_p, type_function_return, type_pointer_referenced, type_array_element, type_array_length, type_function_arguments, type_compound_tag, type_member_count, type_member_type, type_member_name, type_bitfield_bits, type_rank, raw_members, raw_compound,
    n1, n2, n3, n4, n5, n6, n7]

theorem frame_volatile_p {h : Heap} (hord : h.ordered = true) (e : List Node) {t : type}
    (ht : t < h.length) : type_volatile_p (h ++ e) t = type_volatile_p h t := by
  obtain ⟨n1, n2, n3, n4, n5, n6, n7⟩ := frame_core hord e ht
  simp only [type_classify, type_has_class_p, type_function_p, type_pointer_p, type_struct_p, type_union_p, type_array_p, type_arglist_p, type_enum_p, type_float_p, type_complex_p, type_atomic_p, type_const_p, type_volatile_p, type_restrict_p, type_wide_p, type_bitfield_p, type_signed_p, type_unsigned_p, type_compound_p, type_aggregate_p, base_length, type_array_vla_p, type_category, type_qualified_p, type_character_p, type_integer_p, type_basic_p, type_arithmetic_p, base_members, type_complete_p, type_function_return, type_pointer_referenced, type_array_element, type_array_length, type_function_arguments, type_compound_tag, type_member_count, type_member_type, type_member_name, type_bitfield_bits, type_rank, raw_members, raw_compound,
    n1, n2, n3, n4, n5, n6, n7]

theorem frame_restrict_p {h : Heap} (hord : h.ordered = true) (e : List Node) {t : type}
    (ht : t < h.length) : type_restrict_p (h ++ e) t = type_restrict_p h t := by
  obtain ⟨n1, n2, n3, n4, n5, n6, n7⟩ := frame_core hord e ht
  simp only [type_classify, type_has_class_p, type_function_p, type_pointer_p, type_struct_p, type_union_p, type_array_p, type_arglist_p, type_enum_p, type_float_p, type_complex_p, type_atomic_p, type_const_p, type_volatile_p, type_restrict_p, type_wide_p, type_bitfield_p, type_signed_p, type_unsigned_p, type_compound_p, type_aggregate_p, base_length, type_array_vla_p, type_category, type_qualified_p, type_character_p, type_integer_p, type_basic_p, type_arithmetic_p, base_members, type_complete_p, type_function_return, type_pointer_referenced, type_array_element, type_array_length, type_function_arguments, type_compound_tag, type_member_count, type_member_type, type_member_name, type_bitfield_bits, type_rank, raw_members, raw_compound,
    n1, n2, n3, n4, n5, n6, n7]

theorem frame_wide_p {h : Heap} (hord : h.ordered = true) (e : List Node) {t : type}
    (ht : t < h.length) : type_wide_p (h ++ e) t = type_wide_p h t := by
  obtain ⟨n1, n2, n3, n4, n5, n6, n7⟩ := frame_core hord e ht
  simp only [type_classify, type_has_class_p, type_function_p, type_pointer_p, type_struct_p, type_union_p, type_array_p, type_arglist_p, type_enum_p, type_float_p, type_complex_p, type_atomic_p, type_const_p, type_volatile_p, type_restrict_p, type_wide_p, type_bitfield_p, type_signed_p, type_unsigned_p, type_compound_p, type_aggregate_p, base_length, type_array_vla_p, type_category, type_qualified_p, type_character_p, type_integer_p, type_basic_p, type_arithmetic_p, base_members, type_complete_p, type_function_return, type_pointer_referenced, type_array_element, type_array_length, type_function_arguments, type_compound_tag, type_member_count, type_member_type, type_member_name, type_bitfield_bits, type_rank, raw_members, raw_compound,
    n1, n2, n3, n4, n5, n6, n7]

theorem frame_bitfield_p {h : Heap} (hord : h.ordered = true) (e : List Node) {t : type}
    (ht : t < h.length) : type_bitfield_p (h ++ e) t = type_bitfield_p h t := by
  obtain ⟨n1, n2, n3, n4, n5, n6, n7⟩ := frame_core hord e ht
  simp only [type_classify, type_has_class_p, type_function_p, type_pointer_p, type_struct_p, type_union_p, type_array_p, type_arglist_p, type_enum_p, type_float_p, type_complex_p, type_atomic_p, type_const_p, type_volatile_p, type_restrict_p, type_wide_p, type_bitfield_p, type_signed_p, type_unsigned_p, type_compound_p, type_aggregate_p, base_length, type_array_vla_p, type_category, type_qualified_p, type_character_p, type_integer_p, type_basic_p, type_arithmetic_p, base_members, type_complete_p, type_function_return, type_pointer_referenced, type_array_element, type_array_length, type_function_arguments, type_compound_tag, type_member_count, type_member_type, type_member_name, type_bitfield_bits, type_rank, raw_members, raw_compound,
    n1, n2, n3, n4, n5, n6, n7]

theorem frame_signed_p {h : Heap} (hord : h.ordered = true) (e : List Node) {t : type}
    (ht : t < h.length) : type_signed_p (h ++ e) t = type_signed_p h t := by
  obtain ⟨n1, n2, n3, n4, n5, n6, n7⟩ := frame_core hord e ht
  simp only [type_classify, type_has_class_p, type_function_p, type_pointer_p, type_struct_p, type_union_p, type_array_p, type_arglist_p, type_enum_p, type_float_p, type_complex_p, type_atomic_p, type_const_p, type_volatile_p, type_restrict_p, type_wide_p, type_bitfield_p, type_signed_p, type_unsigned_p, type_compound_p, type_aggregate_p, base_length, type_array_vla_p, type_category, type_qualified_p, type_character_p, type_integer_p, type_basic_p, type_arithmetic_p, base_members, type_complete_p, type_function_return, type_pointer_referenced, type_array_element, type_array_length, type_function_arguments, type_compound_tag, type_member_count, type_member_type, type_member_name, type_bitfield_bits, type_rank, raw_members, raw_compound,
    n1, n2, n3, n4, n5, n6, n7]

theorem frame_unsigned_p {h : Heap} (hord : h.ordered = true) (e : List Node) {t : type}
    (ht : t < h.length) : type_unsigned_p (h ++ e) t = type_unsigned_p h t := by
  obtain ⟨n1, n2, n3, n4, n5, n6, n7⟩ := frame_core hord e ht
  simp only [type_classify, type_has_class_p, type_function_p, type_pointer_p, type_struct_p, type_union_p, type_array_p, type_arglist_p, type_enum_p, type_float_p, type_complex_p, type_atomic_p, type_const_p, type_volatile_p, type_restrict_p, type_wide_p, type_bitfield_p, type_signed_p, type_unsigned_p, type_compound_p, type_aggregate_p, base_length, type_array_vla_p, type_category, type_qualified_p, type_character_p, type_integer_p, type_basic_p, type_arithmetic_p, base_members, type_complete_p, type_function_return, type_pointer_referenced, type_array_element, type_array_length, type_function_arguments, type_compound_tag, type_member_count, type_member_type, type_member_name, type_bitfield_bits, type_rank, raw_members, raw_compound,
    n1, n2, n3, n4, n5, n6, n7]

theorem frame_compound_p {h : Heap} (hord : h.ordered = true) (e : List Node) {t : type}
    (ht : t < h.length) : type_compound_p (h ++ e) t = type_compound_p h t := by
  obtain ⟨n1, n2, n3, n4, n5, n6, n7⟩ := frame_core hord e ht
  simp only [type_classify, type_has_class_p, type_function_p, type_pointer_p, type_struct_p, type_union_p, type_array_p, type_arglist_p, type_enum_p, type_float_p, type_complex_p, type_atomic_p, type_const_p, type_volatile_p, type_restrict_p, type_wide_p, type_bitfield_p, type_signed_p, type_unsigned_p, type_compound_p, type_aggregate_p, base_length, type_array_vla_p, type_category, type_qualified_p, type_character_p, type_integer_p, type_basic_p, type_arithmetic_p, base_members, type_complete_p, type_function_return, type_pointer_referenced, type_array_element, type_array_length, type_function_arguments, type_compound_tag, type_member_count, type_member_type, type_member_name, type_bitfield_bits, type_rank, raw_members, raw_compound,
    n1, n2, n3, n4, n5, n6, n7]

theorem frame_aggregate_p {h : Heap} (hord : h.ordered = true) (e : List Node) {t : type}
    (ht : t < h.length) : type_aggregate_p (h ++ e) t = type_aggregate_p h t := by
  obtain ⟨n1, n2, n3, n4, n5, n6, n7⟩ := frame_core hord e ht
  simp only [type_classify, type_has_class_p, type_function_p, type_pointer_p, type_struct_p, type_union_p, type_array_p, type_arglist_p, type_enum_p, type_float_p, type_complex_p, type_atomic_p, type_const_p, type_volatile_p, type_restrict_p, type_wide_p, type_bitfield_p, type_signed_p, type_unsigned_p, type_compound_p, type_aggregate_p, base_length, type_array_vla_p, type_category, type_qualified_p, type_character_p, type_integer_p, type_basic_p, type_arithmetic_p, base_members, type_complete_p, type_function_return, type_pointer_referenced, type_array_element, type_array_length, type_function_arguments, type_compound_tag, type_member_count, type_member_type, type_member_name, type_bitfield_bits, type_rank, raw_members, raw_compound,
    n1, n2, n3, n4, n5, n6, n7]

theorem frame_base_length {h : Heap} (hord : h.ordered = true) (e : List Node) {t : type}
    (ht : t < h.length) : base_length (h ++ e) t = base_length h t := by
  obtain ⟨n1, n2, n3, n4, n5, n6, n7⟩ := frame_core hord e ht
  simp only [type_classify, type_has_class_p, type_function_p, type_pointer_p, type_struct_p, type_union_p, type_array_p, type_arglist_p, type_enum_p, type_float_p, type_complex_p, type_atomic_p, type_const_p, type_volatile_p, type_restrict_p, type_wide_p, type_bitfield_p, type_signed_p, type_unsigned_p, type_compound_p, type_aggregate_p, base_length, type_array_vla_p, type_category, type_qualified_p, type_character_p, type_integer_p, type_basic_p, type_arithmetic_p, base_members, type_complete_p, type_function_return, type_pointer_referenced, type_array_element, type_array_length, type_function_arguments, type_compound_tag, type_member_count, type_member_type, type_member_name, type_bitfield_bits, type_rank, raw_members, raw_compound,
    n1, n2, n3, n4, n5, n6, n7]

theorem frame_array_vla_p {h : Heap} (hord : h.ordered = true) (e : List Node) {t : type}
    (ht : t < h.length) : type_array_vla_p (h ++ e) t = type_array_vla_p h t := by
  obtain ⟨n1, n2, n3, n4, n5, n6, n7⟩ := frame_core hord e ht
  simp only [type_classify, type_has_class_p, type_function_p, type_pointer_p, type_struct_p, type_union_p, type_array_p, type_arglist_p, type_enum_p, type_float_p, type_complex_p, type_atomic_p, type_const_p, type_volatile_p, type_restrict_p, type_wide_p, type_bitfield_p, type_signed_p, type_unsigned_p, type_compound_p, type_aggregate_p, base_length, type_array_vla_p, type_category, type_qualified_p, type_character_p, type_integer_p, type_basic_p, type_arithmetic_p, base_members, type_complete_p, type_function_return, type_pointer_referenced, type_array_element, type_array_length, type_function_arguments, type_compound_tag, type_member_count, type_member_type, type_member_name, type_bitfield_bits, type_rank, raw_members, raw_compound,
    n1, n2, n3, n4, n5, n6, n7]

theorem frame_category {h : Heap} (hord : h.ordered = true) (e : List Node) {t : type}
    (ht : t < h.length) : type_category (h ++ e) t = type_category h t := by
  obtain ⟨n1, n2, n3, n4, n5, n6, n7⟩ := frame_core hord e ht
  simp only [type_classify, type_has_class_p, type_function_p, type_pointer_p, type_struct_p, type_union_p, type_array_p, type_arglist_p, type_enum_p, type_float_p, type_complex_p, type_atomic_p, type_const_p, type_volatile_p, type_restrict_p, type_wide_p, type_bitfield_p, type_signed_p, type_unsigned_p, type_compound_p, type_aggregate_p, base_length, type_array_vla_p, type_category, type_qualified_p, type_character_p, type_integer_p, type_basic_p, type_arithmetic_p, base_members, type_complete_p, type_function_return, type_pointer_referenced, type_array_element, type_array_length, type_function_arguments, type_compound_tag, type_member_count, type_member_type, type_member_name, type_bitfield_bits, type_rank, raw_members, raw_compound,
    n1, n2, n3, n4, n5, n6, n7]

theorem frame_qualified_p {h : Heap} (hord : h.ordered = true) (e : List Node) {t : type}
    (ht : t < h.length) : type_qualified_p (h ++ e) t = type_qualified_p h t := by
  obtain ⟨n1, n2, n3, n4, n5, n6, n7⟩ := frame_core hord e ht
  simp only [type_classify, type_has_class_p, type_function_p, type_pointer_p, type_struct_p, type_union_p, type_array_p, type_arglist_p, type_enum_p, type_float_p, type_complex_p, type_atomic_p, type_const_p, type_volatile_p, type_restrict_p, type_wide_p, type_bitfield_p, type_signed_p, type_unsigned_p, type_compound_p, type_aggregate_p, base_length, type_array_vla_p, type_category, type_qualified_p, type_character_p, type_integer_p, type_basic_p, type_arithmetic_p, base_members, type_complete_p, type_function_return, type_pointer_referenced, type_array_element, type_array_length, type_function_arguments, type_compound_tag, type_member_count, type_member_type, type_member_name, type_bitfield_bits, type_rank, raw_members, raw_compound,
    n1, n2, n3, n4, n5, n6, n7]

theorem frame_character_p {h : Heap} (hord : h.ordered = true) (e : List Node) {t : type}
    (ht : t < h.length) : type_character_p (h ++ e) t = type_character_p h t := by
  obtain ⟨n1, n2, n3, n4, n5, n6, n7⟩ := frame_core hord e ht
  simp only [type_classify, type_has_class_p, type_function_p, type_pointer_p, type_struct_p, type_union_p, type_array_p, type_arglist_p, type_enum_p, type_float_p, type_complex_p, type_atomic_p, type_const_p, type_volatile_p, type_restrict_p, type_wide_p, type_bitfield_p, type_signed_p, type_unsigned_p, type_compound_p, type_aggregate_p, base_length, type_array_vla_p, type_category, type_qualified_p, type_character_p, type_integer_p, type_basic_p, type_arithmetic_p, base_members, type_complete_p, type_function_return, type_pointer_referenced, type_array_element, type_array_length, type_function_arguments, type_compound_tag, type_member_count, type_member_type, type_member_name, type_bitfield_bits, type_rank, raw_members, raw_compound,
    n1, n2, n3, n4, n5, n6, n7]

theorem frame_integer_p {h : Heap} (hord : h.ordered = true) (e : List Node) {t : type}
    (ht : t < h.length) : type_integer_p (h ++ e) t = type_integer_p h t := by
  obtain ⟨n1, n2, n3, n4, n5, n6, n7⟩ := frame_core hord e ht
  simp only [type_classify, type_has_class_p, type_function_p, type_pointer_p, type_struct_p, type_union_p, type_array_p, type_arglist_p, type_enum_p, type_float_p, type_complex_p, type_atomic_p, type_const_p, type_volatile_p, type_restrict_p, type_wide_p, type_bitfield_p, type_signed_p, type_unsigned_p, type_compound_p, type_aggregate_p, base_length, type_array_vla_p, type_category, type_qualified_p, type_character_p, type_integer_p, type_basic_p, type_arithmetic_p, base_members, type_complete_p, type_function_return, type_pointer_referenced, type_array_element, type_array_length, type_function_arguments, type_compound_tag, type_member_count, type_member_type, type_member_name, type_bitfield_bits, type_rank, raw_members, raw_compound,
    n1, n2, n3, n4, n5, n6, n7]

theorem frame_basic_p {h : Heap} (hord : h.ordered = true) (e : List Node) {t : type}
    (ht : t < h.length) : type_basic_p (h ++ e) t = type_basic_p h t := by
  obtain ⟨n1, n2, n3, n4, n5, n6, n7⟩ := frame_core hord e ht
  simp only [type_classify, type_has_class_p, type_function_p, type_pointer_p, type_struct_p, type_union_p, type_array_p, type_arglist_p, type_enum_p, type_float_p, type_complex_p, type_atomic_p, type_const_p, type_volatile_p, type_restrict_p, type_wide_p, type_bitfield_p, type_signed_p, type_unsigned_p, type_compound_p, type_aggregate_p, base_length, type_array_vla_p, type_category, type_qualified_p, type_character_p, type_integer_p, type_basic_p, type_arithmetic_p, base_members, type_complete_p, type_function_return, type_pointer_referenced, type_array_element, type_array_length, type_function_arguments, type_compound_tag, type_member_count, type_member_type, type_member_name, type_bitfield_bits, type_rank, raw_members, raw_compound,
    n1, n2, n3, n4, n5, n6, n7]

theorem frame_arithmetic_p {h : Heap} (hord : h.ordered = true) (e : List Node) {t : type}
    (ht : t < h.length) : type_arithmetic_p (h ++ e) t = type_arithmetic_p h t := by
  obtain ⟨n1, n2, n3, n4, n5, n6, n7⟩ := frame_core hord e ht
  simp only [type_classify, type_has_class_p, type_function_p, type_pointer_p, type_struct_p, type_union_p, type_array_p, type_arglist_p, type_enum_p, type_float_p, type_complex_p, type_atomic_p, type_const_p, type_volatile_p, type_restrict_p, type_wide_p, type_bitfield_p, type_signed_p, type_unsigned_p, type_compound_p, type_aggregate_p, base_length, type_array_vla_p, type_category, type_qualified_p, type_character_p, type_integer_p, type_basic_p, type_arithmetic_p, base_members, type_complete_p, type_function_return, type_pointer_referenced, type_array_element, type_array_length, type_function_arguments, type_compound_tag, type_member_count, type_member_type, type_member_name, type_bitfield_bits, type_rank, raw_members, raw_compound,
    n1, n2, n3, n4, n5, n6, n7]

theorem frame_base_members {h : Heap} (hord : h.ordered = true) (e : List Node) {t : type}
    (ht : t < h.length) : base_members (h ++ e) t = base_members h t := by
  obtain ⟨n1, n2, n3, n4, n5, n6, n7⟩ := frame_core hord e ht
  simp only [type_classify, type_has_class_p, type_function_p, type_pointer_p, type_struct_p, type_union_p, type_array_p, type_arglist_p, type_enum_p, type_float_p, type_complex_p, type_atomic_p, type_const_p, type_volatile_p, type_restrict_p, type_wide_p, type_bitfield_p, type_signed_p, type_unsigned_p, type_compound_p, type_aggregate_p, base_length, type_array_vla_p, type_category, type_qualified_p, type_character_p, type_integer_p, type_basic_p, type_arithmetic_p, base_members, type_complete_p, type_function_return, type_pointer_referenced, type_array_element, type_array_length, type_function_arguments, type_compound_tag, type_member_count, type_member_type, type_member_name, type_bitfield_bits, type_rank, raw_members, raw_compound,
    n1, n2, n3, n4, n5, n6, n7]

theorem frame_complete_p {h : Heap} (hord : h.ordered = true) (e : List Node) {t : type}
    (ht : t < h.length) : type_complete_p (h ++ e) t = type_complete_p h t := by
  obtain ⟨n1, n2, n3, n4, n5, n6, n7⟩ := frame_core hord e ht
  simp only [type_classify, type_has_class_p, type_function_p, type_pointer_p, type_struct_p, type_union_p, type_array_p, type_arglist_p, type_enum_p, type_float_p, type_complex_p, type_atomic_p, type_const_p, type_volatile_p, type_restrict_p, type_wide_p, type_bitfield_p, type_signed_p, type_unsigned_p, type_compound_p, type_aggregate_p, base_length, type_array_vla_p, type_category, type_qualified_p, type_character_p, type_integer_p, type_basic_p, type_arithmetic_p, base_members, type_complete_p, type_function_return, type_pointer_referenced, type_array_element, type_array_length, type_function_arguments, type_compound_tag, type_member_count, type_member_type, type_member_name, type_bitfield_bits, type_rank, raw_members, raw_compound,
    n1, n2, n3, n4, n5, n6, n7]

theorem frame_function_return {h : Heap} (hord : h.ordered = true) (e : List Node) {t : type}
    (ht : t < h.length) : type_function_return (h ++ e) t = type_function_return h t := by
  obtain ⟨n1, n2, n3, n4, n5, n6, n7⟩ := frame_core hord e ht
  simp only [type_classify, type_has_class_p, type_function_p, type_pointer_p, type_struct_p, type_union_p, type_array_p, type_arglist_p, type_enum_p, type_float_p, type_complex_p, type_atomic_p, type_const_p, type_volatile_p, type_restrict_p, type_wide_p, type_bitfield_p, type_signed_p, type_unsigned_p, type_compound_p, type_aggregate_p, base_length, type_array_vla_p, type_category, type_qualified_p, type_character_p, type_integer_p, type_basic_p, type_arithmetic_p, base_members, type_complete_p, type_function_return, type_pointer_referenced, type_array_element, type_array_length, type_function_arguments, type_compound_tag, type_member_count, type_member_type, type_member_name, type_bitfield_bits, type_rank, raw_members, raw_compound,
    n1, n2, n3, n4, n5, n6, n7]

theorem frame_pointer_referenced {h : Heap} (hord : h.ordered = true) (e : List Node) {t : type}
    (ht : t < h.length) : type_pointer_referenced (h ++ e) t = type_pointer_referenced h t := by
  obtain ⟨n1, n2, n3, n4, n5, n6, n7⟩ := frame_core hord e ht
  simp only [type_classify, type_has_class_p, type_function_p, type_pointer_p, type_struct_p, type_union_p, type_array_p, type_arglist_p, type_enum_p, type_float_p, type_complex_p, type_atomic_p, type_const_p, type_volatile_p, type_restrict_p, type_wide_p, type_bitfield_p, type_signed_p, type_unsigned_p, type_compound_p, type_aggregate_p, base_length, type_array_vla_p, type_category, type_qualified_p, type_character_p, type_integer_p, type_basic_p, type_arithmetic_p, base_members, type_complete_p, type_function_return, type_pointer_referenced, type_array_element, type_array_length, type_function_arguments, type_compound_tag, type_member_count, type_member_type, type_member_name, type_bitfield_bits, type_rank, raw_members, raw_compound,
    n1, n2, n3, n4, n5, n6, n7]

theorem frame_array_element {h : Heap} (hord : h.ordered = true) (e : List Node) {t : type}
    (ht : t < h.length) : type_array_element (h ++ e) t = type_array_element h t := by
  obtain ⟨n1, n2, n3, n4, n5, n6, n7⟩ := frame_core hord e ht
  simp only [type_classify, type_has_class_p, type_function_p, type_pointer_p, type_struct_p, type_union_p, type_array_p, type_arglist_p, type_enum_p, type_float_p, type_complex_p, type_atomic_p, type_const_p, type_volatile_p, type_restrict_p, type_wide_p, type_bitfield_p, type_signed_p, type_unsigned_p, type_compound_p, type_aggregate_p, base_length, type_array_vla_p, type_category, type_qualified_p, type_character_p, type_integer_p, type_basic_p, type_arithmetic_p, base_members, type_complete_p, type_function_return, type_pointer_referenced, type_array_element, type_array_length, type_function_arguments, type_compound_tag, type_member_count, type_member_type, type_member_name, type_bitfield_bits, type_rank, raw_members, raw_compound,
    n1, n2, n3, n4, n5, n6, n7]

theorem frame_array_length {h : Heap} (hord : h.ordered = true) (e : List Node) {t : type}
    (ht : t < h.length) : type_array_length (h ++ e) t = type_array_length h t := by
  obtain ⟨n1, n2, n3, n4, n5, n6, n7⟩ := frame_core hord e ht
  simp only [type_classify, type_has_class_p, type_function_p, type_pointer_p, type_struct_p, type_union_p, type_array_p, type_arglist_p, type_enum_p, type_float_p, type_complex_p, type_atomic_p, type_const_p, type_volatile_p, type_restrict_p, type_wide_p, type_bitfield_p, type_signed_p, type_unsigned_p, type_compound_p, type_aggregate_p, base_length, type_array_vla_p, type_category, type_qualified_p, type_character_p, type_integer_p, type_basic_p, type_arithmetic_p, base_members, type_complete_p, type_function_return, type_pointer_referenced, type_array_element, type_array_length, type_function_arguments, type_compound_tag, type_member_count, type_member_type, type_member_name, type_bitfield_bits, type_rank, raw_members, raw_compound,
    n1, n2, n3, n4, n5, n6, n7]

theorem frame_function_arguments {h : Heap} (hord : h.ordered = true) (e : List Node) {t : type}
    (ht : t < h.length) : type_function_arguments (h ++ e) t = type_function_arguments h t := by
  obtain ⟨n1, n2, n3, n4, n5, n6, n7⟩ := frame_core hord e ht
  simp only [type_classify, type_has_class_p, type_function_p, type_pointer_p, type_struct_p, type_union_p, type_array_p, type_arglist_p, type_enum_p, type_float_p, type_complex_p, type_atomic_p, type_const_p, type_volatile_p, type_restrict_p, type_wide_p, type_bitfield_p, type_signed_p, type_unsigned_p, type_compound_p, type_aggregate_p, base_length, type_array_vla_p, type_category, type_qualified_p, type_character_p, type_integer_p, type_basic_p, type_arithmetic_p, base_members, type_complete_p, type_function_return, type_pointer_referenced, type_array_element, type_array_length, type_function_arguments, type_compound_tag, type_member_count, type_member_type, type_member_name, type_bitfield_bits, type_rank, raw_members, raw_compound,
    n1, n2, n3, n4, n5, n6, n7]

theorem frame_compound_tag {h : Heap} (hord : h.ordered = true) (e : List Node) {t : type}
    (ht : t < h.length) : type_compound_tag (h ++ e) t = type_compound_tag h t := by
  obtain ⟨n1, n2, n3, n4, n5, n6, n7⟩ := frame_core hord e ht
  simp only [type_classify, type_has_class_p, type_function_p, type_pointer_p, type_struct_p, type_union_p, type_array_p, type_arglist_p, type_enum_p, type_float_p, type_complex_p, type_atomic_p, type_const_p, type_volatile_p, type_restrict_p, type_wide_p, type_bitfield_p, type_signed_p, type_unsigned_p, type_compound_p, type_aggregate_p, base_length, type_array_vla_p, type_category, type_qualified_p, type_character_p, type_integer_p, type_basic_p, type_arithmetic_p, base_members, type_complete_p, type_function_return, type_pointer_referenced, type_array_element, type_array_length, type_function_arguments, type_compound_tag, type_member_count, type_member_type, type_member_name, type_bitfield_bits, type_rank, raw_members, raw_compound,
    n1, n2, n3, n4, n5, n6, n7]

theorem frame_member_count {h : Heap} (hord : h.ordered = true) (e : List Node) {t : type}
    (ht : t < h.length) : type_member_count (h ++ e) t = type_member_count h t := by
  obtain ⟨n1, n2, n3, n4, n5, n6, n7⟩ := frame_core hord e ht
  simp only [type_classify, type_has_class_p, type_function_p, type_pointer_p, type_struct_p, type_union_p, type_array_p, type_arglist_p, type_enum_p, type_float_p, type_complex_p, type_atomic_p, type_const_p, type_volatile_p, type_restrict_p, type_wide_p, type_bitfield_p, type_signed_p, type_unsigned_p, type_compound_p, type_aggregate_p, base_length, type_array_vla_p, type_category, type_qualified_p, type_character_p, type_integer_p, type_basic_p, type_arithmetic_p, base_members, type_complete_p, type_function_return, type_pointer_referenced, type_array_element, type_array_length, type_function_arguments, type_compound_tag, type_member_count, type_member_type, type_member_name, type_bitfield_bits, type_rank, raw_members, raw_compound,
    n1, n2, n3, n4, n5, n6, n7]

theorem frame_bitfield_bits {h : Heap} (hord : h.ordered = true) (e : List Node) {t : type}
    (ht : t < h.length) : type_bitfield_bits (h ++ e) t = type_bitfield_bits h t := by
  obtain ⟨n1, n2, n3, n4, n5, n6, n7⟩ := frame_core hord e ht
  simp only [type_classify, type_has_class_p, type_function_p, type_pointer_p, type_struct_p, type_union_p, type_array_p, type_arglist_p, type_enum_p, type_float_p, type_complex_p, type_atomic_p, type_const_p, type_volatile_p, type_restrict_p, type_wide_p, type_bitfield_p, type_signed_p, type_unsigned_p, type_compound_p, type_aggregate_p, base_length, type_array_vla_p, type_category, type_qualified_p, type_character_p, type_integer_p, type_basic_p, type_arithmetic_p, base_members, type_complete_p, type_function_return, type_pointer_referenced, type_array_element, type_array_length, type_function_arguments, type_compound_tag, type_member_count, type_member_type, type_member_name, type_bitfield_bits, type_rank, raw_members, raw_compound,
    n1, n2, n3, n4, n5, n6, n7]

theorem frame_rank {h : Heap} (hord : h.ordered = true) (e : List Node) {t : type}
    (ht : t < h.length) : type_rank (h ++ e) t = type_rank h t := by
  obtain ⟨n1, n2, n3, n4, n5, n6, n7⟩ := frame_core hord e ht
  simp only [type_classify, type_has_class_p, type_function_p, type_pointer_p, type_struct_p, type_union_p, type_array_p, type_arglist_p, type_enum_p, type_float_p, type_complex_p, type_atomic_p, type_const_p, type_volatile_p, type_restrict_p, type_wide_p, type_bitfield_p, type_signed_p, type_unsigned_p, type_compound_p, type_aggregate_p, base_length, type_array_vla_p, type_category, type_qualified_p, type_character_p, type_integer_p, type_basic_p, type_arithmetic_p, base_members, type_complete_p, type_function_return, type_pointer_referenced, type_array_element, type_array_length, type_function_arguments, type_compound_tag, type_member_count, type_member_type, type_member_name, type_bitfield_bits, type_rank, raw_members, raw_compound,
    n1, n2, n3, n4, n5, n6, n7]

theorem frame_raw_members {h : Heap} (hord : h.ordered = true) (e : List Node) {t : type}
    (ht : t < h.length) : raw_members (h ++ e) t = raw_members h t := by
  obtain ⟨n1, n2, n3, n4, n5, n6, n7⟩ := frame_core hord e ht
  simp only [type_classify, type_has_class_p, type_function_p, type_pointer_p, type_struct_p, type_union_p, type_array_p, type_arglist_p, type_enum_p, type_float_p, type_complex_p, type_atomic_p, type_const_p, type_volatile_p, type_restrict_p, type_wide_p, type_bitfield_p, type_signed_p, type_unsigned_p, type_compound_p, type_aggregate_p, base_length, type_array_vla_p, type_category, type_qualified_p, type_character_p, type_integer_p, type_basic_p, type_arithmetic_p, base_members, type_complete_p, type_function_return, type_pointer_referenced, type_array_element, type_array_length, type_function_arguments, type_compound_tag, type_member_count, type_member_type, type_member_name, type_bitfield_bits, type_rank, raw_members, raw_compound,
    n1, n2, n3, n4, n5, n6, n7]

theorem frame_member_types {h : Heap} (hord : h.ordered = true) (e : List Node) {t : type}
    (ht : t < h.length) : member_types (h ++ e) t = member_types h t := by
  obtain ⟨n1, n2, n3, n4, n5, n6, n7⟩ := frame_core hord e ht
  simp only [member_types, base_members, n1, n2, n3, n4, n5, n6, n7]

theorem frame_raw_types {h : Heap} (hord : h.ordered = true) (e : List Node) {t : type}
    (ht : t < h.length) : raw_types (h ++ e) t = raw_types h t := by
  obtain ⟨n1, n2, n3, n4, n5, n6, n7⟩ := frame_core hord e ht
  simp only [raw_types, raw_members, n1, n2, n3, n4, n5, n6, n7]

theorem frame_raw_compound {h : Heap} (hord : h.ordered = true) (e : List Node) {t : type}
    (ht : t < h.length) : raw_compound (h ++ e) t = raw_compound h t := by
  obtain ⟨n1, n2, n3, n4, n5, n6, n7⟩ := frame_core hord e ht
  simp only [type_classify, type_has_class_p, type_function_p, type_pointer_p, type_struct_p, type_union_p, type_array_p, type_arglist_p, type_enum_p, type_float_p, type_complex_p, type_atomic_p, type_const_p, type_volatile_p, type_restrict_p, type_wide_p, type_bitfield_p, type_signed_p, type_unsigned_p, type_compound_p, type_aggregate_p, base_length, type_array_vla_p, type_category, type_qualified_p, type_character_p, type_integer_p, type_basic_p, type_arithmetic_p, base_members, type_complete_p, type_function_return, type_pointer_referenced, type_array_element, type_array_length, type_function_arguments, type_compound_tag, type_member_count, type_member_type, type_member_name, type_bitfield_bits, type_rank, raw_members, raw_compound,
    n1, n2, n3, n4, n5, n6, n7]

theorem frame_member_type {h : Heap} (hord : h.ordered = true) (e : List Node) {t : type}
    (ht : t < h.length) (n : Int) : type_member_type (h ++ e) t n = type_member_type h t n := by
  obtain ⟨n1, n2, n3, n4, n5, n6, n7⟩ := frame_core hord e ht
  simp only [type_classify, type_has_class_p, type_function_p, type_pointer_p, type_struct_p, type_union_p, type_array_p, type_arglist_p, type_enum_p, type_float_p, type_complex_p, type_atomic_p, type_const_p, type_volatile_p, type_restrict_p, type_wide_p, type_bitfield_p, type_signed_p, type_unsigned_p, type_compound_p, type_aggregate_p, base_length, type_array_vla_p, type_category, type_qualified_p, type_character_p, type_integer_p, type_basic_p, type_arithmetic_p, base_members, type_complete_p, type_function_return, type_pointer_referenced, type_array_element, type_array_length, type_function_arguments, type_compound_tag, type_member_count, type_member_type, type_member_name, type_bitfield_bits, type_rank, raw_members, raw_compound, null_members,
    n1, n2, n3, n4, n5, n6, n7]

theorem frame_member_name {h : Heap} (hord : h.ordered = true) (e : List Node) {t : type}
    (ht : t < h.length) (n : Int) : type_member_name (h ++ e) t n = type_member_name h t n := by
  obtain ⟨n1, n2, n3, n4, n5, n6, n7⟩ := frame_core hord e ht
  simp only [type_classify, type_has_class_p, type_function_p, type_pointer_p, type_struct_p, type_union_p, type_array_p, type_arglist_p, type_enum_p, type_float_p, type_complex_p, type_atomic_p, type_const_p, type_volatile_p, type_restrict_p, type_wide_p, type_bitfield_p, type_signed_p, type_unsigned_p, type_compound_p, type_aggregate_p, base_length, type_array_vla_p, type_category, type_qualified_p, type_character_p, type_integer_p, type_basic_p, type_arithmetic_p, base_members, type_complete_p, type_function_return, type_pointer_referenced, type_array_element, type_array_length, type_function_arguments, type_compound_tag, type_member_count, type_member_type, type_member_name, type_bitfield_bits, type_rank, raw_members, raw_compound, null_members,
    n1, n2, n3, n4, n5, n6, n7]


theorem frame_flags {h : Heap} (hord : h.ordered = true) (e : List Node) {t : type}
    (ht : t < h.length) : type_flags (h ++ e) t = type_flags h t :=
  (frame_core hord e ht).2.2.1

theorem frame_base {h : Heap} (hord : h.ordered = true) (e : List Node) {t : type}
    (ht : t < h.length) : type_base (h ++ e) t = type_base h t :=
  (frame_core hord e ht).2.1

theorem element_lt {h : Heap} (hord : h.ordered = true) {t e : type} (ht : t < h.length)
    (he : type_array_element h t = some e) : e < h.length := by
  apply child_lt hord ht
  unfold type_array_element at he
  split at he <;> simp_all [Node.children]

theorem referenced_lt {h : Heap} (hord : h.ordered = true) {t r : type} (ht : t < h.length)
    (hr : type_pointer_referenced h t = some r) : r < h.length := by
  apply child_lt hord ht
  unfold type_pointer_referenced at hr
  split at hr <;> simp_all [Node.children]

theorem return_lt {h : Heap} (hord : h.ordered = true) {t r : type} (ht : t < h.length)
    (hr : type_function_return h t = some r) : r < h.length := by
  apply child_lt hord ht
  unfold type_function_return at hr
  split at hr <;> simp_all [Node.children]

theorem arguments_lt {h : Heap} (hord : h.ordered = true) {t a : type} (ht : t < h.length)
    (ha : type_function_arguments h t = some (some a)) : a < h.length := by
  apply child_lt hord ht
  unfold type_function_arguments at ha
  split at ha <;> simp_all [Node.children]

theorem member_lt {h : Heap} (hord : h.ordered = true) {t : type} (ht : t < h.length)
    {m : type_member} (hm : m ∈ (base_members h t).getD []) : m.typ < h.length := by
  apply child_lt hord ht
  unfold base_members at hm
  split at hm
  · rename_i k tag ms hn
    rw [hn]
    simp only [Node.children, List.mem_map]
    exact ⟨m, hm, rfl⟩
  · rename_i ms v hn
    rw [hn]
    simp only [Node.children, List.mem_map]
    exact ⟨m, by simpa using hm, rfl⟩
  · simp at hm

theorem all_members_congr_mem {p q : type → Option Bool} :
    ∀ (l : List type_member), (∀ m ∈ l, p m.typ = q m.typ) →
      all_members p l = all_members q l := by
  intro l
  induction l with
  | nil => intro _; rfl
  | cons x rest ih =>
    intro hl
    rw [all_members, all_members, hl x (by simp), ih (fun m hm => hl m (by simp [hm]))]

theorem all_identical_congr_mem {p q : type → type → Option Bool} :
    ∀ (as bs : List (Option type)),
      (∀ x, some x ∈ as → ∀ y, some y ∈ bs → p x y = q x y) →
      all_identical p as bs = all_identical q as bs := by
  intro as
  induction as with
  | nil => intro bs _; cases bs <;> rfl
  | cons x as ih =>
    intro bs hl
    cases bs with
    | nil => rfl
    | cons y bs =>
      have h1 : identical_args p x y = identical_args q x y := by
        cases x with
        | none => cases y <;> rfl
        | some x =>
          cases y with
          | none => rfl
          | some y => exact hl x (by simp) y (by simp)
      rw [all_identical, all_identical, h1,
        ih bs (fun a ha b hb => hl a (by simp [ha]) b (by simp [hb]))]

/-- The types of the members of an argument list are children of its base
node. -/
theorem member_types_children {h : Heap} {t x : type} (hm : some x ∈ member_types h t) :
    x ∈ (h.node (type_base h t)).children := by
  unfold member_types at hm
  split at hm
  · rename_i ms v hn
    rw [hn]
    simp only [List.mem_map] at hm
    obtain ⟨m, hm1, hm2⟩ := hm
    simp only [Node.children, List.mem_filterMap]
    exact ⟨m, hm1, hm2⟩
  · simp only [List.mem_map, Option.some.injEq] at hm
    obtain ⟨m, hm1, hm2⟩ := hm
    subst hm2
    unfold base_members at hm1
    split at hm1
    · rename_i k tag ms hn1
      rw [hn1]
      simp only [Node.children, List.mem_map]
      exact ⟨m, hm1, rfl⟩
    · rename_i ms v hn1
      rw [hn1]
      simp only [Node.children, List.mem_map]
      exact ⟨m, by simpa using hm1, rfl⟩
    · simp at hm1

theorem member_types_lt {h : Heap} (hord : h.ordered = true) {t : type} (ht : t < h.length)
    {x : type} (hm : some x ∈ member_types h t) : x < h.length :=
  child_lt hord ht (member_types_children hm)

/-- Allocation does not change `type_known_const_size_p` of a valid term. -/
theorem frame_kcs {h : Heap} (hord : h.ordered = true) (e : List Node) :
    ∀ (n : Nat) (t : type), t < h.length →
      type_known_const_size_p n (h ++ e) t = type_known_const_size_p n h t := by
  intro n
  induction n with
  | zero => intro t _; rfl
  | succ n ih =>
    intro t ht
    rw [type_known_const_size_p, type_known_const_size_p]
    simp only [frame_complete_p hord e ht, frame_compound_p hord e ht,
      frame_base_members hord e ht, frame_array_p hord e ht, frame_array_vla_p hord e ht,
      frame_array_element hord e ht]
    have hmem : all_members (type_known_const_size_p n (h ++ e)) ((base_members h t).getD [])
        = all_members (type_known_const_size_p n h) ((base_members h t).getD []) :=
      all_members_congr_mem _ (fun m hm => ih m.typ (member_lt hord ht hm))
    rw [hmem]
    cases he : type_array_element h t with
    | none => rfl
    | some el => simp only [Option.some_bind, Option.bind_eq_bind, ih el (element_lt hord ht he)]

/-- Allocation does not change `type_identical_p` of two valid terms. -/
theorem frame_identical {h : Heap} (hord : h.ordered = true) (e : List Node) :
    ∀ (n : Nat) (a b : type), a < h.length → b < h.length →
      type_identical_p n (h ++ e) a b = type_identical_p n h a b := by
  intro n
  induction n with
  | zero => intro a b _ _; rfl
  | succ n ih =>
    intro a b ha hb
    rw [type_identical_p, type_identical_p]
    simp only [frame_flags hord e ha, frame_flags hord e hb, frame_classify hord e ha,
      frame_classify hord e hb, frame_category hord e ha, frame_category hord e hb,
      frame_pointer_referenced hord e ha, frame_pointer_referenced hord e hb,
      frame_array_vla_p hord e ha, frame_array_vla_p hord e hb,
      frame_complete_p hord e ha, frame_complete_p hord e hb,
      frame_kcs hord e (n + 1) a ha, frame_array_length hord e ha,
      frame_array_length hord e hb, frame_array_element hord e ha,
      frame_array_element hord e hb, frame_function_return hord e ha,
      frame_function_return hord e hb, frame_function_arguments hord e ha,
      frame_function_arguments hord e hb, frame_arglist_p hord e ha,
      frame_member_count hord e ha, frame_member_count hord e hb,
      frame_member_types hord e ha, frame_member_types hord e hb,
      frame_base hord e ha, frame_base hord e hb]
    by_cases hab : a = b
    · simp [hab]
    simp only [hab, if_false]
    by_cases hf : type_flags h a = type_flags h b
    swap
    · simp [hf]
    by_cases hc : type_classify h a = type_classify h b
    swap
    · simp [hf, hc]
    by_cases hcat : type_category h a = type_category h b
    swap
    · simp [hf, hc, hcat]
    simp only [hf, hc, hcat, ne_eq, not_true_eq_false, if_false]
    have hba : type_base h a < h.length := Nat.lt_of_le_of_lt (base_le hord a) ha
    have hbb : type_base h b < h.length := Nat.lt_of_le_of_lt (base_le hord b) hb
    split
    · cases hra : type_pointer_referenced h a with
      | none => rfl
      | some ra =>
        cases hrb : type_pointer_referenced h b with
        | none => rfl
        | some rb =>
          simp only [Option.some_bind, Option.bind_eq_bind]
          exact ih ra rb (referenced_lt hord ha hra) (referenced_lt hord hb hrb)
    · cases hea : type_array_element h a with
      | none => simp
      | some ea =>
        cases heb : type_array_element h b with
        | none => simp
        | some eb =>
          simp only [Option.some_bind, Option.bind_eq_bind,
            ih ea eb (element_lt hord ha hea) (element_lt hord hb heb)]
    · cases hra : type_function_return h a with
      | none => rfl
      | some ra =>
        cases hrb : type_function_return h b with
        | none => rfl
        | some rb =>
          simp only [Option.some_bind, Option.bind_eq_bind,
            ih ra rb (return_lt hord ha hra) (return_lt hord hb hrb)]
          cases hfa : type_function_arguments h a with
          | none => simp
          | some aa =>
            cases hfb : type_function_arguments h b with
            | none => simp
            | some ab =>
              cases aa with
              | none => cases ab <;> simp [identical_args]
              | some aa =>
                cases ab with
                | none => simp [identical_args]
                | some ab =>
                  simp only [Option.some_bind, identical_args,
                    ih aa ab (arguments_lt hord ha hfa) (arguments_lt hord hb hfb)]
    · rfl
    · rfl
    · exact ih _ _ hba hbb
    · have hmem : all_identical (type_identical_p n (h ++ e))
          (member_types h a) (member_types h b)
          = all_identical (type_identical_p n h) (member_types h a) (member_types h b) :=
        all_identical_congr_mem _ _
          (fun x hx y hy => ih x y (member_types_lt hord ha hx) (member_types_lt hord hb hy))
      rw [hmem]

/-! ### Integer promotion (C16) -/

/-- Facts about a payload-free `int` node. -/
theorem int_node_facts {h : Heap} {x : type} (hx : h.node x = .basic TYPE_INT) :
    type_flags h x = 0 ∧ type_base h x = x ∧ type_classify h x = TYPE_INT
    ∧ type_signed_p h x = true ∧ type_unsigned_p h x = false
    ∧ type_integer_p h x = true ∧ type_rank h x = some 4 := by
  have hb : type_base h x = x := by simp [type_base, hx]
  have hf : type_flags h x = 0 := by simp [type_flags, hx]
  have hc : type_classify h x = TYPE_INT := by simp [type_classify, hb, hx, Node.kind]
  have hs : type_signed_p h x = true := by simp [type_signed_p, hf, hb, hx, Node.kind, c_bool]
  have hu : type_unsigned_p h x = false := by simp [type_unsigned_p, hc, hf, c_bool]
  have hi : type_integer_p h x = true := by simp [type_integer_p, hs]
  exact ⟨hf, hb, hc, hs, hu, hi, by simp [type_rank, hi, hc]⟩

/-- A term of rank 4 is classified as `enum` or `int`. -/
theorem classify_of_rank_four {h : Heap} {t : type} (hr : type_rank h t = some 4) :
    type_classify h t = TYPE_ENUM ∨ type_classify h t = TYPE_INT := by
  unfold type_rank at hr
  split at hr
  · cases hr
  · cases hc : type_classify h t <;> simp_all

/-- C16 (amended): for a non-bitfield integer term `t` of an ordered heap, with
`INT` the fresh basic `int` term that `type_int_promotion` allocates (its rank
is 4): below that rank the promotion returns `INT`; at that rank it returns
`INT` when `t` is signed and a fresh `unsigned int` over `INT` when `t` is
unsigned, and in these two cases `type_signed_p` and `type_unsigned_p` of the
result equal those of `t`; above that rank it returns `t` itself.  Terms of
rank 4 that are neither signed nor unsigned (enum terms) are left out. -/
theorem C16_int_promotion (h : Heap) (hord : h.ordered = true) (t : type)
    (ht : t < h.length) (hint : type_integer_p h t = true)
    (hbf : type_bitfield_p h t = false) (r : Nat) (hr : type_rank h t = some r) :
    (type_basic h TYPE_INT).1.node (type_basic h TYPE_INT).2 = .basic TYPE_INT
    ∧ type_rank (type_basic h TYPE_INT).1 (type_basic h TYPE_INT).2 = some 4
    ∧ (r < 4 → type_int_promotion h t = some (type_basic h TYPE_INT))
    ∧ (r = 4 → type_signed_p h t = true →
        type_int_promotion h t = some (type_basic h TYPE_INT)
        ∧ type_signed_p (type_basic h TYPE_INT).1 (type_basic h TYPE_INT).2
            = type_signed_p h t
        ∧ type_unsigned_p (type_basic h TYPE_INT).1 (type_basic h TYPE_INT).2
            = type_unsigned_p h t)
    ∧ (r = 4 → type_unsigned_p h t = true →
        ∃ p : Heap × type, type_int_promotion h t = some p
          ∧ p.1.node p.2 = .modified UNSIGNED (type_basic h TYPE_INT).2 none
          ∧ p.1.node (type_basic h TYPE_INT).2 = .basic TYPE_INT
          ∧ type_signed_p p.1 p.2 = type_signed_p h t
          ∧ type_unsigned_p p.1 p.2 = type_unsigned_p h t)
    ∧ (4 < r → type_int_promotion h t = some ((type_basic h TYPE_INT).1, t)) := by
  have hnew : (h ++ [Node.basic TYPE_INT]).node h.length = .basic TYPE_INT :=
    node_append_new h _
  obtain ⟨hf0, hb0, hc0, hs0, hu0, hi0, hr0⟩ := int_node_facts hnew
  have hrt : type_rank (h ++ [Node.basic TYPE_INT]) t = some r := by
    rw [frame_rank hord _ ht]; exact hr
  have hst : type_signed_p (h ++ [Node.basic TYPE_INT]) t = type_signed_p h t :=
    frame_signed_p hord _ ht
  have hpromo : type_int_promotion h t
      = if r < 4 then some (type_basic h TYPE_INT)
        else if r = 4 then
          if type_signed_p h t then some (type_basic h TYPE_INT)
          else some (type_unsigned (type_basic h TYPE_INT).1 (type_basic h TYPE_INT).2)
        else some ((type_basic h TYPE_INT).1, t) := by
    simp only [type_int_promotion, hint, hbf, type_basic, Heap.alloc, hrt, hr0, hst]
    simp
  refine ⟨hnew, hr0, ?_, ?_, ?_, ?_⟩
  · intro hlt
    rw [hpromo, if_pos hlt]
  · intro h4 hs
    subst h4
    have hcl := classify_of_rank_four hr
    refine ⟨by rw [hpromo]; simp [hs], ?_, ?_⟩
    · simp only [type_basic, Heap.alloc]; rw [hs0, hs]
    · simp only [type_basic, Heap.alloc]
      rw [hu0]
      have hU : c_bool (type_flags h t &&& UNSIGNED) = false := by
        unfold type_signed_p at hs
        split at hs
        · cases hs
        · rename_i hx; simpa using hx
      rcases hcl with hcl | hcl <;> simp [type_unsigned_p, hcl, hU]
  · intro h4 hu
    subst h4
    have hcl := classify_of_rank_four hr
    have hU : c_bool (type_flags h t &&& UNSIGNED) = true := by
      rcases hcl with hcl | hcl <;>
        (simp only [type_unsigned_p, hcl] at hu; simp at hu; exact hu.2)
    have hs : type_signed_p h t = false := by simp [type_signed_p, hU]
    have hres : type_unsigned (h ++ [Node.basic TYPE_INT]) h.length
        = (h ++ [Node.basic TYPE_INT] ++ [Node.modified UNSIGNED h.length none],
            h.length + 1) := by
      simp [type_unsigned, hu0, type_modify, hnew, Heap.alloc]
    refine ⟨(h ++ [Node.basic TYPE_INT] ++ [Node.modified UNSIGNED h.length none],
      h.length + 1), ?_, ?_⟩
    · rw [hpromo]
      simp only [hs, type_basic, Heap.alloc, hres]
      simp
    simp only [type_basic, Heap.alloc]
    have hn1 : (h ++ [Node.basic TYPE_INT] ++ [Node.modified UNSIGNED h.length none]).node
        (h.length + 1) = .modified UNSIGNED h.length none := by
      have := node_append_new (h ++ [Node.basic TYPE_INT]) (Node.modified UNSIGNED h.length none)
      simpa using this
    have hn0 : (h ++ [Node.basic TYPE_INT] ++ [Node.modified UNSIGNED h.length none]).node
        h.length = .basic TYPE_INT := by
      rw [node_append_lt (by simp)]; exact hnew
    obtain ⟨hf0', hb0', hc0', hs0', hu0', hi0', hr0'⟩ := int_node_facts hn0
    have hfl : type_flags (h ++ [Node.basic TYPE_INT]
        ++ [Node.modified UNSIGNED h.length none]) (h.length + 1) = UNSIGNED := by
      rw [type_flags, hn1]
    have hbs : type_base (h ++ [Node.basic TYPE_INT]
        ++ [Node.modified UNSIGNED h.length none]) (h.length + 1) = h.length := by
      rw [type_base, hn1]
    refine ⟨hn1, hn0, ?_, ?_⟩
    · rw [hs, type_signed_p, hfl]
      rfl
    · rw [hu, type_unsigned_p, hbs, hs0', hfl]
      simp [UNSIGNED, c_bool]
  · intro hgt
    rw [hpromo, if_neg (by omega), if_neg (by omega)]

/-- Witness for C16: `unsigned int` (rank 4, unsigned) promotes to a fresh
`unsigned int`, with the same signedness. -/
theorem C16_witness :
    ∃ p : Heap × type, type_int_promotion scenario_bitfields.1 1 = some p
      ∧ p.1.node p.2 = .modified UNSIGNED (type_basic scenario_bitfields.1 TYPE_INT).2 none
      ∧ p.1.node (type_basic scenario_bitfields.1 TYPE_INT).2 = .basic TYPE_INT
      ∧ type_signed_p p.1 p.2 = type_signed_p scenario_bitfields.1 1
      ∧ type_unsigned_p p.1 p.2 = type_unsigned_p scenario_bitfields.1 1 :=
  (C16_int_promotion scenario_bitfields.1 rfl 1 (by decide) rfl rfl 4 rfl).2.2.2.2.1 rfl rfl

/-- Counterexample to C16 as stated: the enum term `enum E` is a non-bitfield
integer term of the rank of `int`; its promotion is a fresh `unsigned int`,
which is unsigned although the enum term is not. -/
theorem C16_counterexample :
    type_integer_p scenario_enum_int.1 scenario_enum_int.2.1 = true
    ∧ type_bitfield_p scenario_enum_int.1 scenario_enum_int.2.1 = false
    ∧ type_rank scenario_enum_int.1 scenario_enum_int.2.1 = some 4
    ∧ type_rank scenario_enum_int.1 scenario_enum_int.2.2 = some 4
    ∧ type_int_promotion scenario_enum_int.1 scenario_enum_int.2.1
        = some (scenario_enum_int.1 ++ [.basic TYPE_INT, .modified UNSIGNED 2 none], 3)
    ∧ type_unsigned_p (scenario_enum_int.1 ++ [.basic TYPE_INT, .modified UNSIGNED 2 none]) 3
        = true
    ∧ type_unsigned_p scenario_enum_int.1 scenario_enum_int.2.1 = false
    ∧ type_signed_p scenario_enum_int.1 scenario_enum_int.2.1 = false :=
  ⟨rfl, rfl, rfl, rfl, rfl, rfl, rfl, rfl⟩

/-! ### Allocation preserves the well-formedness of the heap -/

theorem ordered_append {h : Heap} (hord : h.ordered = true) {n : Node}
    (hn : ∀ q ∈ n.children, q < h.length) : (h ++ [n]).ordered = true := by
  simp only [Heap.ordered, List.all_eq_true, List.mem_range, decide_eq_true_eq,
    List.length_append, List.length_singleton] at hord ⊢
  intro p hp q hq
  by_cases hlt : p < h.length
  · rw [node_append_lt hlt] at hq
    exact hord p hlt q hq
  · have hpe : p = h.length := by omega
    subst hpe
    rw [node_append_new] at hq
    exact hn q hq

theorem flat_append {h : Heap} (hord : h.ordered = true) (hflat : h.flat = true) {n : Node}
    (hk : n.kind_ok = true)
    (hb : ∀ f b bits, n = .modified f b bits → b < h.length ∧ (h.node b).kind ≠ TYPE_MODIFIED) :
    (h ++ [n]).flat = true := by
  simp only [Heap.flat, List.all_eq_true, Bool.and_eq_true] at hflat ⊢
  intro x hx
  rw [List.mem_append] at hx
  rcases hx with hx | hx
  · refine ⟨(hflat x hx).1, ?_⟩
    cases x with
    | modified f b bits =>
      have h2 := (hflat _ hx).2
      obtain ⟨i, hi, hget⟩ := List.mem_iff_getElem.mp hx
      have hnode : h.node i = .modified f b bits := by
        unfold Heap.node
        rw [List.getD_eq_getElem _ _ hi, hget]
      have hlt : b < i := ordered_children hord (by rw [hnode]; simp [Node.children])
      simp only at h2 ⊢
      rw [node_append_lt (Nat.lt_trans hlt hi)]
      exact h2
    | _ => rfl
  · simp only [List.mem_singleton] at hx
    subst hx
    refine ⟨hk, ?_⟩
    cases x with
    | modified f b bits =>
      obtain ⟨hlt, hkind⟩ := hb f b bits rfl
      simp only
      rw [node_append_lt hlt]
      simpa using hkind
    | _ => rfl

/-! ### Usual arithmetic conversions (C18, C17) -/

/-- In a flat heap every integer term has a rank. -/
theorem rank_defined {h : Heap} (hflat : h.flat = true) {t : type}
    (hint : type_integer_p h t = true) : ∃ r, type_rank h t = some r := by
  obtain ⟨hbb, hbf⟩ := unmodified_base_flags (base_not_modified hflat t)
  have hk : (h.node (type_base h t)).kind = type_classify h t := rfl
  unfold type_rank
  simp only [hint, Bool.not_true, Bool.false_eq_true, if_false]
  cases hc : type_classify h t <;>
    simp_all [type_integer_p, type_enum_p, type_has_class_p, type_signed_p, type_unsigned_p,
      type_character_p, c_bool]

/-- A term ranked above `int` is classified as `long` or `long long`. -/
theorem classify_of_rank_above {h : Heap} {t : type} {r : Nat}
    (hr : type_rank h t = some r) (h4 : 4 < r) :
    type_classify h t = TYPE_LONG ∨ type_classify h t = TYPE_LONGLONG := by
  unfold type_rank at hr
  split at hr
  · cases hr
  · cases hc : type_classify h t <;> simp_all <;> omega

/-- In a flat heap a term ranked above `int` is unsigned exactly when it is
not signed. -/
theorem unsigned_of_rank_above {h : Heap} (hflat : h.flat = true) {t : type} {r : Nat}
    (hr : type_rank h t = some r) (h4 : 4 < r) :
    type_unsigned_p h t = !type_signed_p h t := by
  obtain ⟨hbb, hbf⟩ := unmodified_base_flags (base_not_modified hflat t)
  have hk : (h.node (type_base h t)).kind = type_classify h t := rfl
  have h0 : c_bool 0 = false := rfl
  rcases classify_of_rank_above hr h4 with hc | hc <;>
    cases hU : c_bool (type_flags h t &&& UNSIGNED) <;>
    simp [type_unsigned_p, type_signed_p, hc, hk, hbb, hbf, hU, h0]

/-- The three results of `type_int_promotion`, by the rank of the operand. -/
theorem int_promotion_eq {h : Heap} (hord : h.ordered = true) {t : type}
    (ht : t < h.length) (hint : type_integer_p h t = true)
    (hbf : type_bitfield_p h t = false) {r : Nat} (hr : type_rank h t = some r) :
    type_int_promotion h t
      = if r < 4 then some (h ++ [Node.basic TYPE_INT], h.length)
        else if r = 4 then
          if type_signed_p h t then some (h ++ [Node.basic TYPE_INT], h.length)
          else some (h ++ [Node.basic TYPE_INT] ++ [Node.modified UNSIGNED h.length none],
            h.length + 1)
        else some (h ++ [Node.basic TYPE_INT], t) := by
  have hnew : (h ++ [Node.basic TYPE_INT]).node h.length = .basic TYPE_INT :=
    node_append_new h _
  obtain ⟨hf0, hb0, hc0, hs0, hu0, hi0, hr0⟩ := int_node_facts hnew
  have hrt : type_rank (h ++ [Node.basic TYPE_INT]) t = some r := by
    rw [frame_rank hord _ ht]; exact hr
  have hst : type_signed_p (h ++ [Node.basic TYPE_INT]) t = type_signed_p h t :=
    frame_signed_p hord _ ht
  have hres : type_unsigned (h ++ [Node.basic TYPE_INT]) h.length
      = (h ++ [Node.basic TYPE_INT] ++ [Node.modified UNSIGNED h.length none],
          h.length + 1) := by
    simp [type_unsigned, hu0, type_modify, hnew, Heap.alloc]
  simp only [type_int_promotion, hint, hbf, type_basic, Heap.alloc, hrt, hr0, hst, hres]
  simp

/-- What `type_int_promotion` returns for a valid non-bitfield integer term of
an ordered flat heap: the heap grows and stays ordered and flat, and the
flags, classification, rank and signedness of the result are determined by
those of the operand. -/
theorem int_promotion_facts {h : Heap} (hord : h.ordered = true) (hflat : h.flat = true)
    {t : type} (ht : t < h.length) (hint : type_integer_p h t = true)
    (hbf : type_bitfield_p h t = false) {r : Nat} (hr : type_rank h t = some r) :
    ∃ (e : List Node) (x : type), type_int_promotion h t = some (h ++ e, x)
      ∧ (h ++ e).ordered = true ∧ (h ++ e).flat = true ∧ x < (h ++ e).length
      ∧ type_rank (h ++ e) x = some (max r 4)
      ∧ type_flags (h ++ e) x
          = (if r < 4 then 0 else if r = 4 then (if type_signed_p h t then 0 else UNSIGNED)
             else type_flags h t)
      ∧ type_classify (h ++ e) x = (if r ≤ 4 then TYPE_INT else type_classify h t)
      ∧ type_signed_p (h ++ e) x = (if r < 4 then true else type_signed_p h t)
      ∧ type_unsigned_p (h ++ e) x = !(if r < 4 then true else type_signed_p h t)
      ∧ (4 < r → x = t) := by
  have hnew : (h ++ [Node.basic TYPE_INT]).node h.length = .basic TYPE_INT :=
    node_append_new h _
  obtain ⟨hf0, hb0, hc0, hs0, hu0, hi0, hr0⟩ := int_node_facts hnew
  have hord1 : (h ++ [Node.basic TYPE_INT]).ordered = true :=
    ordered_append hord (by simp [Node.children])
  have hflat1 : (h ++ [Node.basic TYPE_INT]).flat = true :=
    flat_append hord hflat rfl (by intro f b bits hx; cases hx)
  have heq := int_promotion_eq hord ht hint hbf hr
  by_cases h1 : r < 4
  · refine ⟨[Node.basic TYPE_INT], h.length, ?_, hord1, hflat1, by simp, ?_, ?_, ?_, ?_, ?_, ?_⟩
    · rw [heq, if_pos h1]
    · rw [hr0, Nat.max_eq_right (by omega)]
    · rw [hf0, if_pos h1]
    · rw [hc0, if_pos (by omega)]
    · rw [hs0, if_pos h1]
    · rw [hu0, if_pos h1]; rfl
    · intro h4; omega
  by_cases h2 : r = 4
  · subst h2
    cases hs : type_signed_p h t with
    | true =>
      refine ⟨[Node.basic TYPE_INT], h.length, ?_, hord1, hflat1, by simp,
        ?_, ?_, ?_, ?_, ?_, ?_⟩
      · rw [heq]; simp [hs]
      · rw [hr0]; rfl
      · rw [hf0]; simp
      · rw [hc0]; simp
      · rw [hs0]; simp
      · rw [hu0]; simp
      · intro h4; omega
    | false =>
      have hn1 : (h ++ [Node.basic TYPE_INT] ++ [Node.modified UNSIGNED h.length none]).node
          (h.length + 1) = .modified UNSIGNED h.length none := by
        have := node_append_new (h ++ [Node.basic TYPE_INT])
          (Node.modified UNSIGNED h.length none)
        simpa using this
      have hn0 : (h ++ [Node.basic TYPE_INT] ++ [Node.modified UNSIGNED h.length none]).node
          h.length = .basic TYPE_INT := by
        rw [node_append_lt (by simp)]; exact hnew
      obtain ⟨hf0', hb0', hc0', hs0', hu0', hi0', hr0'⟩ := int_node_facts hn0
      have hfl : type_flags (h ++ [Node.basic TYPE_INT]
          ++ [Node.modified UNSIGNED h.length none]) (h.length + 1) = UNSIGNED := by
        rw [type_flags, hn1]
      have hbs : type_base (h ++ [Node.basic TYPE_INT]
          ++ [Node.modified UNSIGNED h.length none]) (h.length + 1) = h.length := by
        rw [type_base, hn1]
      have hcl : type_classify (h ++ [Node.basic TYPE_INT]
          ++ [Node.modified UNSIGNED h.length none]) (h.length + 1) = TYPE_INT := by
        rw [type_classify, hbs, hn0]; rfl
      have hsg : type_signed_p (h ++ [Node.basic TYPE_INT]
          ++ [Node.modified UNSIGNED h.length none]) (h.length + 1) = false := by
        rw [type_signed_p, hfl]; rfl
      have hun : type_unsigned_p (h ++ [Node.basic TYPE_INT]
          ++ [Node.modified UNSIGNED h.length none]) (h.length + 1) = true := by
        rw [type_unsigned_p, hbs, hs0', hfl]
        simp [UNSIGNED, c_bool]
      have hin : type_integer_p (h ++ [Node.basic TYPE_INT]
          ++ [Node.modified UNSIGNED h.length none]) (h.length + 1) = true := by
        rw [type_integer_p, hun]; simp
      have hrk : type_rank (h ++ [Node.basic TYPE_INT]
          ++ [Node.modified UNSIGNED h.length none]) (h.length + 1) = some 4 := by
        rw [type_rank, hin, hcl]; rfl
      have ho2 := ordered_append hord1 (n := Node.modified UNSIGNED h.length none)
        (by simp [Node.children])
      have hf2 := flat_append hord1 hflat1 (n := Node.modified UNSIGNED h.length none) rfl
        (by
          intro f b bits hx
          cases hx
          exact ⟨by simp, by rw [hnew]; simp [Node.kind]⟩)
      have hH : h ++ [Node.basic TYPE_INT] ++ [Node.modified UNSIGNED h.length none]
          = h ++ [Node.basic TYPE_INT, Node.modified UNSIGNED h.length none] := by simp
      rw [hH] at hfl hcl hsg hun hrk ho2 hf2
      refine ⟨[Node.basic TYPE_INT, Node.modified UNSIGNED h.length none], h.length + 1,
        ?_, ho2, hf2, by simp, ?_, ?_, ?_, ?_, ?_, ?_⟩
      · rw [heq]; simp [hs]
      · rw [hrk]; rfl
      · rw [hfl]; simp [hs]
      · rw [hcl]; simp
      · rw [hsg]; simp [hs]
      · rw [hun]; simp [hs]
      · intro h4; omega
  · have h3 : 4 < r := by omega
    refine ⟨[Node.basic TYPE_INT], t, ?_, hord1, hflat1,
      by simp; exact Nat.lt_succ_of_lt ht, ?_, ?_, ?_, ?_, ?_, ?_⟩
    · rw [heq, if_neg h1, if_neg h2]
    · rw [frame_rank hord _ ht, hr, Nat.max_eq_left (by omega)]
    · rw [frame_flags hord _ ht, if_neg h1, if_neg h2]
    · rw [frame_classify hord _ ht, if_neg (by omega)]
    · rw [frame_signed_p hord _ ht, if_neg h1]
    · rw [frame_unsigned_p hord _ ht, if_neg h1]
      exact unsigned_of_rank_above hflat hr h3
    · intro _; rfl

/-- Two results of `type_identical_p` at different depths agree. -/
theorem identical_det {n m : Nat} {h : Heap} {a b : type} {r r1 : Bool}
    (hn : type_identical_p n h a b = some r) (hm : type_identical_p m h a b = some r1) :
    r = r1 := by
  have h1 := identical_steady (Nat.le_max_left n m) h a b _ hn
  have h2 := identical_steady (Nat.le_max_right n m) h a b _ hm
  rw [h1] at h2
  exact Option.some.inj h2

/-- The chain of tests of the integer branch, for two operands that have a
rank and are each either signed or unsigned. -/
theorem usual_integer_chain_eq {H : Heap} {a b : type} {ra rb : Nat}
    (hra : type_rank H a = some ra) (hrb : type_rank H b = some rb)
    (hua : type_unsigned_p H a = !type_signed_p H a)
    (hub : type_unsigned_p H b = !type_signed_p H b) :
    usual_integer_chain H a b = some (H,
      if type_signed_p H a = type_signed_p H b then (if ra ≥ rb then a else b)
      else if type_unsigned_p H a then (if ra ≥ rb then a else b)
      else (if rb ≥ ra then b else a)) := by
  unfold usual_integer_chain rank_ge rank_gt
  simp only [hra, hrb, hua, hub, Option.some_bind, Option.bind_eq_bind]
  cases hsa : type_signed_p H a <;> cases hsb : type_signed_p H b <;>
    by_cases h1 : ra ≥ rb <;> by_cases h2 : rb ≥ ra <;> simp [h1, h2]

/-- Identity of two terms of a flat heap whose classification is an integer
kind: decided by the flags and the classification. -/
theorem identical_integer_kinds {H : Heap} (hflat : H.flat = true) {x y : type}
    (hx : type_classify H x = TYPE_INT ∨ type_classify H x = TYPE_LONG
      ∨ type_classify H x = TYPE_LONGLONG) (n : Nat) :
    type_identical_p (n + 2) H x y
      = some (decide (x = y) || (decide (type_flags H x = type_flags H y)
          && decide (type_classify H x = type_classify H y))) := by
  rw [type_identical_p]
  by_cases hxy : x = y
  · simp [hxy]
  by_cases hf : type_flags H x = type_flags H y
  swap
  · simp [hxy, hf]
  by_cases hc : type_classify H x = type_classify H y
  swap
  · simp [hxy, hf, hc]
  have hcat : type_category H x = type_category H y := by
    simp [type_category, type_atomic_p, hf, hc]
  have harg : type_arglist_p H x = false := by
    rcases hx with hx | hx | hx <;> simp [type_arglist_p, type_has_class_p, hx]
  have hcx : type_category H x = TC_ATOMIC ∨ type_category H x = TC_SELF := by
    unfold type_category
    rcases hx with hx | hx | hx <;> cases type_atomic_p H x <;> simp [hx]
  have hres : (decide (x = y) || (decide (type_flags H x = type_flags H y)
      && decide (type_classify H x = type_classify H y))) = true := by
    simp [hf, hc]
  rw [hres]
  rcases hcx with hcx | hcx
  · have hcy : type_category H y = TC_ATOMIC := by rw [← hcat]; exact hcx
    simp only [hxy, if_false, hf, hc, hcx, hcy, ne_eq, not_true_eq_false]
    obtain ⟨hbbx, hbfx⟩ := unmodified_base_flags (base_not_modified hflat x)
    obtain ⟨hbby, hbfy⟩ := unmodified_base_flags (base_not_modified hflat y)
    have hcbx : type_classify H (type_base H x) = type_classify H x := by
      rw [type_classify, hbbx]; rfl
    have hcby : type_classify H (type_base H y) = type_classify H y := by
      rw [type_classify, hbby]; rfl
    rw [type_identical_p]
    by_cases hb : type_base H x = type_base H y
    · simp [hb]
    have hcatb : ∀ z, type_flags H z = 0 →
        (type_classify H z = TYPE_INT ∨ type_classify H z = TYPE_LONG
          ∨ type_classify H z = TYPE_LONGLONG) →
        type_category H z = TC_SELF ∧ type_arglist_p H z = false := by
      intro z hz hk
      rcases hk with hk | hk | hk <;>
        simp [type_category, type_atomic_p, hz, hk, c_bool, type_arglist_p, type_has_class_p]
    obtain ⟨c1, a1⟩ := hcatb (type_base H x) hbfx (by rw [hcbx]; exact hx)
    obtain ⟨c2, _⟩ := hcatb (type_base H y) hbfy (by rw [hcby, ← hc]; exact hx)
    simp [hb, hbfx, hbfy, hcbx, hcby, hc, c1, c2, a1]
  · have hcy : type_category H y = TC_SELF := by rw [← hcat]; exact hcx
    simp only [hxy, if_false, hf, hc, hcx, hcy, ne_eq, not_true_eq_false, harg,
      Bool.false_eq_true]

/-- The floating branch of `type_usual_conversion`. -/
theorem usual_float_eq (fuel : Nat) {h : Heap} {a b : type}
    (haa : type_arithmetic_p h a = true) (hab : type_arithmetic_p h b = true)
    (hfl : type_float_p h a = true ∨ type_float_p h b = true) :
    type_usual_conversion fuel h a b = some (type_basic h
      (if type_classify h a = TYPE_LONGDOUBLE ∨ type_classify h b = TYPE_LONGDOUBLE
        then TYPE_LONGDOUBLE
       else if type_classify h a = TYPE_DOUBLE ∨ type_classify h b = TYPE_DOUBLE
        then TYPE_DOUBLE
       else TYPE_FLOAT)) := by
  have hor : (type_float_p h a || type_float_p h b) = true := by
    rcases hfl with hfl | hfl <;> simp [hfl]
  simp only [type_usual_conversion, haa, hab, hor, Bool.not_true, Bool.false_eq_true,
    if_false, if_true, usual_float_loop, beq_iff_eq, Bool.or_eq_true]
  by_cases c1 : type_classify h a = TYPE_LONGDOUBLE ∨ type_classify h b = TYPE_LONGDOUBLE
  · have c1' : TYPE_LONGDOUBLE = type_classify h a ∨ TYPE_LONGDOUBLE = type_classify h b := by
      rcases c1 with c | c
      · exact Or.inl c.symm
      · exact Or.inr c.symm
    simp only [c1, c1', if_true]
  · have c1' : ¬ (TYPE_LONGDOUBLE = type_classify h a ∨ TYPE_LONGDOUBLE = type_classify h b) := by
      intro hc
      apply c1
      rcases hc with c | c
      · exact Or.inl c.symm
      · exact Or.inr c.symm
    simp only [c1, c1', if_false]
    by_cases c2 : type_classify h a = TYPE_DOUBLE ∨ type_classify h b = TYPE_DOUBLE
    · have c2' : TYPE_DOUBLE = type_classify h a ∨ TYPE_DOUBLE = type_classify h b := by
        rcases c2 with c | c
        · exact Or.inl c.symm
        · exact Or.inr c.symm
      simp only [c2, c2', if_true]
    · have c2' : ¬ (TYPE_DOUBLE = type_classify h a ∨ TYPE_DOUBLE = type_classify h b) := by
        intro hc
        apply c2
        rcases hc with c | c
        · exact Or.inl c.symm
        · exact Or.inr c.symm
      have c3 : TYPE_FLOAT = type_classify h a ∨ TYPE_FLOAT = type_classify h b := by
        simp only [not_or] at c1 c2
        rcases hfl with hfl | hfl
        · left
          unfold type_float_p at hfl
          cases hc : type_classify h a <;> simp_all
        · right
          unfold type_float_p at hfl
          cases hc : type_classify h b <;> simp_all
      simp only [c2, c2', c3, if_false, if_true]

/-- The two promotions of the integer branch of `type_usual_conversion`, for
valid non-bitfield integer operands of an ordered flat heap. -/
theorem usual_promotions {h : Heap} (hord : h.ordered = true) (hflat : h.flat = true)
    {a b : type} (ha : a < h.length) (hb : b < h.length)
    (hia : type_integer_p h a = true) (hib : type_integer_p h b = true)
    (hba : type_bitfield_p h a = false) (hbb : type_bitfield_p h b = false)
    {ra rb : Nat} (hra : type_rank h a = some ra) (hrb : type_rank h b = some rb) :
    ∃ (e1 e2 : List Node) (x y : type),
      type_int_promotion h a = some (h ++ e1, x)
      ∧ type_int_promotion (h ++ e1) b = some (h ++ e1 ++ e2, y)
      ∧ (h ++ e1 ++ e2).ordered = true ∧ (h ++ e1 ++ e2).flat = true
      ∧ x < (h ++ e1 ++ e2).length ∧ y < (h ++ e1 ++ e2).length
      ∧ type_rank (h ++ e1 ++ e2) x = some (max ra 4)
      ∧ type_rank (h ++ e1 ++ e2) y = some (max rb 4)
      ∧ type_flags (h ++ e1 ++ e2) x
          = (if ra < 4 then 0 else if ra = 4 then (if type_signed_p h a then 0 else UNSIGNED)
             else type_flags h a)
      ∧ type_flags (h ++ e1 ++ e2) y
          = (if rb < 4 then 0 else if rb = 4 then (if type_signed_p h b then 0 else UNSIGNED)
             else type_flags h b)
      ∧ type_classify (h ++ e1 ++ e2) x = (if ra ≤ 4 then TYPE_INT else type_classify h a)
      ∧ type_classify (h ++ e1 ++ e2) y = (if rb ≤ 4 then TYPE_INT else type_classify h b)
      ∧ type_signed_p (h ++ e1 ++ e2) x = (if ra < 4 then true else type_signed_p h a)
      ∧ type_signed_p (h ++ e1 ++ e2) y = (if rb < 4 then true else type_signed_p h b)
      ∧ type_unsigned_p (h ++ e1 ++ e2) x = !type_signed_p (h ++ e1 ++ e2) x
      ∧ type_unsigned_p (h ++ e1 ++ e2) y = !type_signed_p (h ++ e1 ++ e2) y
      ∧ (4 < ra → x = a) ∧ (4 < rb → y = b) := by
  obtain ⟨e1, x, hpa, ho1, hf1, hx1, hrx, hfx, hcx, hsx, hux, hxa⟩ :=
    int_promotion_facts hord hflat ha hia hba hra
  have hb1 : b < (h ++ e1).length := by
    rw [List.length_append]; exact Nat.lt_add_right _ hb
  have hib1 : type_integer_p (h ++ e1) b = true := by rw [frame_integer_p hord _ hb]; exact hib
  have hbb1 : type_bitfield_p (h ++ e1) b = false := by
    rw [frame_bitfield_p hord _ hb]; exact hbb
  have hrb1 : type_rank (h ++ e1) b = some rb := by rw [frame_rank hord _ hb]; exact hrb
  obtain ⟨e2, y, hpb, ho2, hf2, hy2, hry, hfy, hcy, hsy, huy, hyb⟩ :=
    int_promotion_facts ho1 hf1 hb1 hib1 hbb1 hrb1
  have hx2 : x < (h ++ e1 ++ e2).length := by
    rw [List.length_append]; exact Nat.lt_add_right _ hx1
  refine ⟨e1, e2, x, y, hpa, hpb, ho2, hf2, hx2, hy2, ?_, hry, ?_, ?_, ?_, ?_, ?_, ?_, ?_, ?_,
    hxa, hyb⟩
  · rw [frame_rank ho1 _ hx1]; exact hrx
  · rw [frame_flags ho1 _ hx1]; exact hfx
  · rw [hfy, frame_signed_p hord _ hb, frame_flags hord _ hb]
  · rw [frame_classify ho1 _ hx1]; exact hcx
  · rw [hcy, frame_classify hord _ hb]
  · rw [frame_signed_p ho1 _ hx1]; exact hsx
  · rw [hsy, frame_signed_p hord _ hb]
  · rw [frame_unsigned_p ho1 _ hx1, frame_signed_p ho1 _ hx1, hux, hsx]
  · rw [huy, hsy]

/-- The classification of a promoted operand is an integer kind of rank at
least that of `int`. -/
theorem promoted_classify {h : Heap} {a : type} {ra : Nat}
    (hra : type_rank h a = some ra) :
    (if ra ≤ 4 then TYPE_INT else type_classify h a) = TYPE_INT
    ∨ (if ra ≤ 4 then TYPE_INT else type_classify h a) = TYPE_LONG
    ∨ (if ra ≤ 4 then TYPE_INT else type_classify h a) = TYPE_LONGLONG := by
  by_cases h4 : ra ≤ 4
  · simp [h4]
  · simp only [h4, if_false]
    rcases classify_of_rank_above hra (by omega) with hc | hc
    · exact Or.inr (Or.inl hc)
    · exact Or.inr (Or.inr hc)

/-- C18: for valid arithmetic terms `a`, `b` of an ordered flat heap.  If
either is floating, `type_usual_conversion` returns a fresh basic term of the
highest floating kind among the two (long double, else double, else float).
Otherwise, for non-bitfield operands, both integer promotions `a1`, `b1`
return and have a rank, each is either signed or unsigned, their identity
test returns, and the result is `a1` if the two are identical; else, when
their signedness is equal, `a1` if its rank is at least that of `b1` and `b1`
otherwise; else the unsigned one if its rank is at least the rank of the
other, else the signed one. -/
theorem C18_usual_conversion (fuel : Nat) (h : Heap) (hord : h.ordered = true)
    (hflat : h.flat = true) (a b : type) (ha : a < h.length) (hb : b < h.length)
    (haa : type_arithmetic_p h a = true) (hab : type_arithmetic_p h b = true) :
    ((type_float_p h a = true ∨ type_float_p h b = true) →
      type_usual_conversion fuel h a b = some (type_basic h
        (if type_classify h a = TYPE_LONGDOUBLE ∨ type_classify h b = TYPE_LONGDOUBLE
          then TYPE_LONGDOUBLE
         else if type_classify h a = TYPE_DOUBLE ∨ type_classify h b = TYPE_DOUBLE
          then TYPE_DOUBLE
         else TYPE_FLOAT)))
    ∧ (type_float_p h a = false → type_float_p h b = false →
        type_bitfield_p h a = false → type_bitfield_p h b = false →
        ∃ (pa pb : Heap × type) (ra rb : Nat),
          type_int_promotion h a = some pa ∧ type_int_promotion pa.1 b = some pb
          ∧ type_rank pb.1 pa.2 = some ra ∧ type_rank pb.1 pb.2 = some rb
          ∧ type_unsigned_p pb.1 pa.2 = !type_signed_p pb.1 pa.2
          ∧ type_unsigned_p pb.1 pb.2 = !type_signed_p pb.1 pb.2
          ∧ (∃ i, type_identical_p (fuel + 2) pb.1 pa.2 pb.2 = some i)
          ∧ ∀ i, type_identical_p fuel pb.1 pa.2 pb.2 = some i →
              type_usual_conversion fuel h a b = some (pb.1,
                if i then pa.2
                else if type_signed_p pb.1 pa.2 = type_signed_p pb.1 pb.2 then
                  (if ra ≥ rb then pa.2 else pb.2)
                else if type_unsigned_p pb.1 pa.2 then (if ra ≥ rb then pa.2 else pb.2)
                else (if rb ≥ ra then pb.2 else pa.2))) := by
  refine ⟨usual_float_eq fuel haa hab, ?_⟩
  intro hfa hfb hba hbb
  have hia : type_integer_p h a = true := by
    simpa [type_arithmetic_p, hfa] using haa
  have hib : type_integer_p h b = true := by
    simpa [type_arithmetic_p, hfb] using hab
  obtain ⟨ra, hra⟩ := rank_defined hflat hia
  obtain ⟨rb, hrb⟩ := rank_defined hflat hib
  obtain ⟨e1, e2, x, y, hpa, hpb, ho2, hf2, hx2, hy2, hrx, hry, hfx, hfy, hcx, hcy, hsx, hsy,
    hux, huy, _, _⟩ := usual_promotions hord hflat ha hb hia hib hba hbb hra hrb
  refine ⟨(h ++ e1, x), (h ++ e1 ++ e2, y), max ra 4, max rb 4, hpa, hpb, hrx, hry, hux, huy,
    ?_, ?_⟩
  · exact ⟨_, identical_integer_kinds hf2 (by rw [hcx]; exact promoted_classify hra) fuel⟩
  · intro i hi
    have hor : (type_float_p h a || type_float_p h b) = false := by simp [hfa, hfb]
    simp only [type_usual_conversion, haa, hab, hor, Bool.not_true, Bool.false_eq_true,
      if_false, hpa, hpb, Option.some_bind, Option.bind_eq_bind, hi]
    cases i with
    | true => simp
    | false =>
      simp only [Bool.false_eq_true, if_false]
      exact usual_integer_chain_eq hrx hry hux huy

/-- Witness for C18: `usual_conversion(float, double)` is a fresh basic
`double`, and `usual_conversion(int, unsigned long)` is the `unsigned long`
operand. -/
theorem C18_witness :
    type_usual_conversion 1 scenario_arith 3 4 = some (type_basic scenario_arith TYPE_DOUBLE)
    ∧ (type_usual_conversion 1 scenario_arith 0 2).map (·.2) = some 2
    ∧ scenario_arith.node 2 = .modified UNSIGNED 1 none
    ∧ scenario_arith.node 1 = .basic TYPE_LONG :=
  ⟨(C18_usual_conversion 1 scenario_arith rfl rfl 3 4 (by decide) (by decide) rfl rfl).1
    (Or.inl rfl), rfl, rfl, rfl⟩

/-- A call of `type_int_promotion` that returns was made on an integer term
that is not a bitfield. -/
theorem int_promotion_some {h : Heap} {t : type} {p : Heap × type}
    (hp : type_int_promotion h t = some p) :
    type_integer_p h t = true ∧ type_bitfield_p h t = false := by
  unfold type_int_promotion at hp
  cases hi : type_integer_p h t <;> cases hb : type_bitfield_p h t <;> simp_all

/-- The rank of a term ranked above `int` determines its classification. -/
theorem classify_eq_of_rank_eq {h h1 : Heap} {a b : type} {r : Nat}
    (hra : type_rank h a = some r) (hrb : type_rank h1 b = some r) (h4 : 4 < r) :
    type_classify h a = type_classify h1 b := by
  unfold type_rank at hra hrb
  split at hra
  · cases hra
  split at hrb
  · cases hrb
  cases hca : type_classify h a <;> cases hcb : type_classify h1 b <;> simp_all <;> omega

/-- Shape of a returning call of `type_usual_conversion` on two valid operands
of an ordered flat heap, neither of them floating: both operands are
non-bitfield integers with a rank; the heap grows and stays ordered and flat;
the result is one of the two promoted operands `x`, `y`, whose flags and
classification are determined by those of the operands. -/
theorem usual_integer_shape (fuel : Nat) {h : Heap} (hord : h.ordered = true)
    (hflat : h.flat = true) {a b : type} (ha : a < h.length) (hb : b < h.length)
    (hfa : type_float_p h a = false) (hfb : type_float_p h b = false)
    {p : Heap × type} (hp : type_usual_conversion fuel h a b = some p) :
    ∃ (ra rb : Nat) (x y : type) (i : Bool) (e : List Node),
      type_rank h a = some ra ∧ type_rank h b = some rb
      ∧ p.1 = h ++ e ∧ p.1.ordered = true ∧ p.1.flat = true
      ∧ x < p.1.length ∧ y < p.1.length
      ∧ type_flags p.1 x
          = (if ra < 4 then 0 else if ra = 4 then (if type_signed_p h a then 0 else UNSIGNED)
             else type_flags h a)
      ∧ type_flags p.1 y
          = (if rb < 4 then 0 else if rb = 4 then (if type_signed_p h b then 0 else UNSIGNED)
             else type_flags h b)
      ∧ type_classify p.1 x = (if ra ≤ 4 then TYPE_INT else type_classify h a)
      ∧ type_classify p.1 y = (if rb ≤ 4 then TYPE_INT else type_classify h b)
      ∧ (i = true → type_flags p.1 x = type_flags p.1 y
          ∧ type_classify p.1 x = type_classify p.1 y)
      ∧ p.2 = (if i then x
          else if (if ra < 4 then true else type_signed_p h a)
              = (if rb < 4 then true else type_signed_p h b) then
            (if max ra 4 ≥ max rb 4 then x else y)
          else if !(if ra < 4 then true else type_signed_p h a) then
            (if max ra 4 ≥ max rb 4 then x else y)
          else (if max rb 4 ≥ max ra 4 then y else x)) := by
  have haa : type_arithmetic_p h a = true := by
    by_contra hc
    simp [type_usual_conversion, hc] at hp
  have hab : type_arithmetic_p h b = true := by
    by_contra hc
    simp [type_usual_conversion, haa, hc] at hp
  have hia : type_integer_p h a = true := by simpa [type_arithmetic_p, hfa] using haa
  have hib : type_integer_p h b = true := by simpa [type_arithmetic_p, hfb] using hab
  have hor : (type_float_p h a || type_float_p h b) = false := by simp [hfa, hfb]
  simp only [type_usual_conversion, haa, hab, hor, Bool.not_true, Bool.false_eq_true,
    if_false] at hp
  have hba : type_bitfield_p h a = false := by
    cases hx : type_bitfield_p h a with
    | false => rfl
    | true => simp [type_int_promotion, hx] at hp
  obtain ⟨ra, hra⟩ := rank_defined hflat hia
  obtain ⟨rb, hrb⟩ := rank_defined hflat hib
  obtain ⟨e1a, xa, hpa1, _⟩ := int_promotion_facts hord hflat ha hia hba hra
  have hbb : type_bitfield_p h b = false := by
    cases hx : type_bitfield_p h b with
    | false => rfl
    | true =>
      have hx1 : type_bitfield_p (h ++ e1a) b = true := by
        rw [frame_bitfield_p hord e1a hb]; exact hx
      rw [hpa1] at hp
      simp [type_int_promotion, hx1] at hp
  obtain ⟨e1, e2, x, y, hpa2, hpb2, ho2, hf2, hx2, hy2, hrx, hry, hfx, hfy, hcx, hcy,
    hsx, hsy, hux, huy, _, _⟩ := usual_promotions hord hflat ha hb hia hib hba hbb hra hrb
  rw [hpa2] at hp
  simp only [Option.some_bind, Option.bind_eq_bind] at hp
  rw [hpb2] at hp
  simp only [Option.some_bind, Option.bind_eq_bind] at hp
  cases hi : type_identical_p fuel (h ++ e1 ++ e2) x y with
  | none => rw [hi] at hp; simp at hp
  | some i =>
    simp only [hi, Option.some_bind] at hp
    have hispec := identical_integer_kinds hf2 (x := x) (y := y)
      (by rw [hcx]; exact promoted_classify hra) 0
    have hieq := identical_det hi hispec
    refine ⟨ra, rb, x, y, i, e1 ++ e2, hra, hrb, ?_⟩
    cases i with
    | true =>
      simp only [if_true, Option.some.injEq] at hp
      subst hp
      refine ⟨by simp, ho2, hf2, hx2, hy2, hfx, hfy, hcx, hcy, ?_, by simp⟩
      intro _
      have := hieq.symm
      simp only [Bool.or_eq_true, Bool.and_eq_true, decide_eq_true_eq] at this
      rcases this with hxy | hxy
      · subst hxy; exact ⟨rfl, rfl⟩
      · exact hxy
    | false =>
      simp only [Bool.false_eq_true, if_false] at hp
      rw [usual_integer_chain_eq hrx hry hux huy] at hp
      simp only [Option.some.injEq] at hp
      subst hp
      refine ⟨by simp, ho2, hf2, hx2, hy2, hfx, hfy, hcx, hcy, by simp, ?_⟩
      simp only [Bool.false_eq_true, if_false, hsx, hsy, hux]

/-- Two fresh basic terms of the same floating kind are identical. -/
theorem float_nodes_identical {H : Heap} {x y : type} {k : type_kind}
    (hk : k = TYPE_LONGDOUBLE ∨ k = TYPE_DOUBLE ∨ k = TYPE_FLOAT)
    (hx : H.node x = .basic k) (hy : H.node y = .basic k) :
    type_identical_p 1 H x y = some true := by
  have fx : type_flags H x = 0 := by simp [type_flags, hx]
  have fy : type_flags H y = 0 := by simp [type_flags, hy]
  have cx : type_classify H x = k := by simp [type_classify, type_base, hx, Node.kind]
  have cy : type_classify H y = k := by simp [type_classify, type_base, hy, Node.kind]
  rw [type_identical_p]
  by_cases hxy : x = y
  · simp [hxy]
  rcases hk with hk | hk | hk <;> subst hk <;>
    simp [hxy, fx, fy, cx, cy, type_category, type_atomic_p, c_bool, type_arglist_p,
      type_has_class_p]

/-- A returning call of `type_usual_conversion` was made on arithmetic terms. -/
theorem usual_some_arithmetic {fuel : Nat} {h : Heap} {a b : type} {p : Heap × type}
    (hp : type_usual_conversion fuel h a b = some p) :
    type_arithmetic_p h a = true ∧ type_arithmetic_p h b = true := by
  constructor
  · by_contra hc
    simp [type_usual_conversion, hc] at hp
  · by_contra hc
    simp [type_usual_conversion, hc] at hp

/-- Promoted operands of equal rank and equal signedness have equal flags and
classification, when this holds for operands ranked above `int`. -/
theorem promoted_tie (ra rb : Nat) (sa sb : Bool) (fa fb : Nat) (ca cb : type_kind)
    (hsame : 4 < ra → ra = rb → sa = sb → fa = fb ∧ ca = cb)
    (hs : (if ra < 4 then true else sa) = (if rb < 4 then true else sb))
    (hr : max ra 4 = max rb 4) :
    ((if ra < 4 then 0 else if ra = 4 then (if sa then 0 else UNSIGNED) else fa),
      (if ra ≤ 4 then TYPE_INT else ca))
    = ((if rb < 4 then 0 else if rb = 4 then (if sb then 0 else UNSIGNED) else fb),
      (if rb ≤ 4 then TYPE_INT else cb)) := by
  by_cases h4 : ra ≤ 4
  · have h4b : rb ≤ 4 := by
      rcases Nat.le_total rb 4 with hx | hx
      · exact hx
      · rw [Nat.max_eq_right h4, Nat.max_eq_left hx] at hr; omega
    by_cases ha3 : ra < 4 <;> by_cases hb3 : rb < 4
    · simp [ha3, hb3, h4, h4b]
    · have : rb = 4 := by omega
      subst this
      simp [ha3] at hs
      simp [ha3, h4, ← hs]
    · have : ra = 4 := by omega
      subst this
      simp [hb3] at hs
      simp [hb3, h4b, hs]
    · have e1 : ra = 4 := by omega
      have e2 : rb = 4 := by omega
      subst e1 e2
      simp only [ha3, hb3, if_false] at hs
      simp [hs]
  · have h5 : 4 < ra := by omega
    have hrr : ra = rb := by
      rw [Nat.max_eq_left (by omega)] at hr
      rcases Nat.le_total rb 4 with hx | hx
      · rw [Nat.max_eq_right hx] at hr; omega
      · rw [Nat.max_eq_left hx] at hr; omega
    have hsg : sa = sb := by
      simpa [show ¬ ra < 4 by omega, show ¬ rb < 4 by omega] using hs
    obtain ⟨hf, hc⟩ := hsame h5 hrr hsg
    subst hrr hf hc
    simp [show ¬ ra < 4 by omega, show ¬ ra = 4 by omega, show ¬ ra ≤ 4 by omega]

/-- The selection made by `type_usual_conversion` is symmetric: with the
operands exchanged, the same promoted operand is selected, up to a property
`f` that the promoted operands share whenever the selection is ambiguous. -/
theorem usual_results_agree {α β : Type} (SA SB : Bool) (RA RB : Nat) (i i1 : Bool)
    (x y x1 y1 : α) (f : α → β) (hx : f x1 = f x) (hy : f y1 = f y)
    (hi : i = true → f x = f y) (hi1 : i1 = true → f x = f y)
    (htie : SA = SB → RA = RB → f x = f y) :
    f (if i then x
        else if SA = SB then (if RA ≥ RB then x else y)
        else if !SA then (if RA ≥ RB then x else y)
        else (if RB ≥ RA then y else x))
    = f (if i1 then y1
        else if SB = SA then (if RB ≥ RA then y1 else x1)
        else if !SB then (if RB ≥ RA then y1 else x1)
        else (if RA ≥ RB then x1 else y1)) := by
  by_cases hxy : f x = f y
  · have h1 : ∀ (c : Prop) [Decidable c] (u v : α), f u = f y → f v = f y →
        f (if c then u else v) = f y := by
      intro c _ u v hu hv
      split_ifs <;> assumption
    have e1 : f x1 = f y := by rw [hx, hxy]
    rw [h1 _ x _ hxy (h1 _ _ _ (h1 _ x y hxy rfl) (h1 _ _ _ (h1 _ x y hxy rfl) (h1 _ y x rfl hxy)))]
    rw [h1 _ y1 _ hy (h1 _ _ _ (h1 _ y1 x1 hy e1) (h1 _ _ _ (h1 _ y1 x1 hy e1) (h1 _ x1 y1 e1 hy)))]
  · have hif : i = false := by
      cases i with
      | false => rfl
      | true => exact absurd (hi rfl) hxy
    have hif1 : i1 = false := by
      cases i1 with
      | false => rfl
      | true => exact absurd (hi1 rfl) hxy
    subst hif hif1
    have hnt : SA = SB → RA = RB → False := fun hs hr => hxy (htie hs hr)
    simp only [Bool.false_eq_true, if_false]
    cases SA <;> cases SB <;> rcases Nat.lt_trichotomy RA RB with hlt | heq | hgt
    all_goals first
      | exact absurd heq (hnt rfl)
      | simp [hlt, Nat.le_of_lt hlt, Nat.not_le_of_lt hlt, hx, hy]
      | simp [hgt, Nat.le_of_lt hgt, Nat.not_le_of_lt hgt, hx, hy]
      | simp [heq, hx, hy]

/-- C17 (amended): on an ordered flat heap, for valid terms `a`, `b` such that
`type_usual_conversion(a, b)` and then `type_usual_conversion(b, a)` return:
the two results are identical, unless `a` and `b` are integer terms of the
same kind ranked above `int` and of the same signedness that carry different
flags (such as `_Atomic long` and `long`). -/
theorem C17_usual_conversion_commutes (fuel : Nat) (h : Heap) (hord : h.ordered = true)
    (hflat : h.flat = true) (a b : type) (ha : a < h.length) (hb : b < h.length)
    (hsame : type_classify h a = type_classify h b →
      type_signed_p h a = type_signed_p h b →
      ∀ r, type_rank h a = some r → 4 < r → type_flags h a = type_flags h b)
    (p1 p2 : Heap × type) (h1 : type_usual_conversion fuel h a b = some p1)
    (h2 : type_usual_conversion fuel p1.1 b a = some p2) :
    Identical p2.1 p1.2 p2.2 := by
  obtain ⟨haa, hab⟩ := usual_some_arithmetic h1
  by_cases hfl : type_float_p h a = true ∨ type_float_p h b = true
  · -- floating branch
    rw [usual_float_eq fuel haa hab hfl] at h1
    simp only [Option.some.injEq] at h1
    subst h1
    simp only [type_basic, Heap.alloc] at h2 ⊢
    have hab1 := frame_arithmetic_p hord
      [Node.basic (if type_classify h a = TYPE_LONGDOUBLE ∨ type_classify h b = TYPE_LONGDOUBLE
          then TYPE_LONGDOUBLE
         else if type_classify h a = TYPE_DOUBLE ∨ type_classify h b = TYPE_DOUBLE
          then TYPE_DOUBLE
         else TYPE_FLOAT)] ha
    have hbb1 := frame_arithmetic_p hord
      [Node.basic (if type_classify h a = TYPE_LONGDOUBLE ∨ type_classify h b = TYPE_LONGDOUBLE
          then TYPE_LONGDOUBLE
         else if type_classify h a = TYPE_DOUBLE ∨ type_classify h b = TYPE_DOUBLE
          then TYPE_DOUBLE
         else TYPE_FLOAT)] hb
    have hfa1 := frame_float_p hord
      [Node.basic (if type_classify h a = TYPE_LONGDOUBLE ∨ type_classify h b = TYPE_LONGDOUBLE
          then TYPE_LONGDOUBLE
         else if type_classify h a = TYPE_DOUBLE ∨ type_classify h b = TYPE_DOUBLE
          then TYPE_DOUBLE
         else TYPE_FLOAT)] ha
    have hfb1 := frame_float_p hord
      [Node.basic (if type_classify h a = TYPE_LONGDOUBLE ∨ type_classify h b = TYPE_LONGDOUBLE
          then TYPE_LONGDOUBLE
         else if type_classify h a = TYPE_DOUBLE ∨ type_classify h b = TYPE_DOUBLE
          then TYPE_DOUBLE
         else TYPE_FLOAT)] hb
    have hca1 := frame_classify hord
      [Node.basic (if type_classify h a = TYPE_LONGDOUBLE ∨ type_classify h b = TYPE_LONGDOUBLE
          then TYPE_LONGDOUBLE
         else if type_classify h a = TYPE_DOUBLE ∨ type_classify h b = TYPE_DOUBLE
          then TYPE_DOUBLE
         else TYPE_FLOAT)] ha
    have hcb1 := frame_classify hord
      [Node.basic (if type_classify h a = TYPE_LONGDOUBLE ∨ type_classify h b = TYPE_LONGDOUBLE
          then TYPE_LONGDOUBLE
         else if type_classify h a = TYPE_DOUBLE ∨ type_classify h b = TYPE_DOUBLE
          then TYPE_DOUBLE
         else TYPE_FLOAT)] hb
    rw [usual_float_eq fuel (by rw [hbb1]; exact hab) (by rw [hab1]; exact haa)
      (by rw [hfb1, hfa1]; exact hfl.symm)] at h2
    simp only [Option.some.injEq] at h2
    subst h2
    simp only [type_basic, Heap.alloc, hca1, hcb1, List.length_append, List.length_singleton]
    have hk : (if type_classify h b = TYPE_LONGDOUBLE ∨ type_classify h a = TYPE_LONGDOUBLE
          then TYPE_LONGDOUBLE
         else if type_classify h b = TYPE_DOUBLE ∨ type_classify h a = TYPE_DOUBLE
          then TYPE_DOUBLE
         else TYPE_FLOAT)
        = (if type_classify h a = TYPE_LONGDOUBLE ∨ type_classify h b = TYPE_LONGDOUBLE
          then TYPE_LONGDOUBLE
         else if type_classify h a = TYPE_DOUBLE ∨ type_classify h b = TYPE_DOUBLE
          then TYPE_DOUBLE
         else TYPE_FLOAT) := by
      simp only [or_comm]
    rw [hk]
    refine ⟨1, float_nodes_identical (k := (if type_classify h a = TYPE_LONGDOUBLE
        ∨ type_classify h b = TYPE_LONGDOUBLE then TYPE_LONGDOUBLE
         else if type_classify h a = TYPE_DOUBLE ∨ type_classify h b = TYPE_DOUBLE
          then TYPE_DOUBLE
         else TYPE_FLOAT)) ?_ ?_ ?_⟩
    · split_ifs <;> simp
    · rw [node_append_lt (by simp)]
      exact node_append_new h _
    · have := node_append_new (h ++ [Node.basic (if type_classify h a = TYPE_LONGDOUBLE
        ∨ type_classify h b = TYPE_LONGDOUBLE then TYPE_LONGDOUBLE
         else if type_classify h a = TYPE_DOUBLE ∨ type_classify h b = TYPE_DOUBLE
          then TYPE_DOUBLE
         else TYPE_FLOAT)]) (Node.basic (if type_classify h a = TYPE_LONGDOUBLE
        ∨ type_classify h b = TYPE_LONGDOUBLE then TYPE_LONGDOUBLE
         else if type_classify h a = TYPE_DOUBLE ∨ type_classify h b = TYPE_DOUBLE
          then TYPE_DOUBLE
         else TYPE_FLOAT))
      simpa using this
  · -- integer branch
    have hfa : type_float_p h a = false := by
      cases hx : type_float_p h a with
      | false => rfl
      | true => exact absurd (Or.inl hx) hfl
    have hfb : type_float_p h b = false := by
      cases hx : type_float_p h b with
      | false => rfl
      | true => exact absurd (Or.inr hx) hfl
    obtain ⟨ra, rb, x, y, i, e, hra, hrb, hpe, ho1, hf1, hx1, hy1, hfx, hfy, hcx, hcy, hi, hp1⟩ :=
      usual_integer_shape fuel hord hflat ha hb hfa hfb h1
    have ha1 : a < p1.1.length := by
      rw [hpe, List.length_append]; exact Nat.lt_add_right _ ha
    have hb1 : b < p1.1.length := by
      rw [hpe, List.length_append]; exact Nat.lt_add_right _ hb
    have hfa1 : type_float_p p1.1 a = false := by rw [hpe, frame_float_p hord e ha]; exact hfa
    have hfb1 : type_float_p p1.1 b = false := by rw [hpe, frame_float_p hord e hb]; exact hfb
    obtain ⟨rb1, ra1, y1, x1, i1, e1, hrb1, hra1, hpe1, ho2, hf2, hy2, hx2, hfy1, hfx1, hcy1,
      hcx1, hi1, hp2⟩ := usual_integer_shape fuel ho1 hf1 hb1 ha1 hfb1 hfa1 h2
    -- the data of the operands are the same in both calls
    have era : ra = ra1 := by
      rw [hpe, frame_rank hord e ha, hra] at hra1; exact Option.some.inj hra1
    have erb : rb = rb1 := by
      rw [hpe, frame_rank hord e hb, hrb] at hrb1; exact Option.some.inj hrb1
    subst era erb
    have esa : type_signed_p p1.1 a = type_signed_p h a := by
      rw [hpe, frame_signed_p hord e ha]
    have esb : type_signed_p p1.1 b = type_signed_p h b := by
      rw [hpe, frame_signed_p hord e hb]
    have efa : type_flags p1.1 a = type_flags h a := by rw [hpe, frame_flags hord e ha]
    have efb : type_flags p1.1 b = type_flags h b := by rw [hpe, frame_flags hord e hb]
    have eca : type_classify p1.1 a = type_classify h a := by
      rw [hpe, frame_classify hord e ha]
    have ecb : type_classify p1.1 b = type_classify h b := by
      rw [hpe, frame_classify hord e hb]
    rw [esa, efa] at hfx1
    rw [esb, efb] at hfy1
    rw [eca] at hcx1
    rw [ecb] at hcy1
    rw [esa, esb] at hp2
    -- the promoted operands of the first call, seen in the final heap
    have hfx2 : type_flags p2.1 x = type_flags p1.1 x := by rw [hpe1, frame_flags ho1 e1 hx1]
    have hfy2 : type_flags p2.1 y = type_flags p1.1 y := by rw [hpe1, frame_flags ho1 e1 hy1]
    have hcx2 : type_classify p2.1 x = type_classify p1.1 x := by
      rw [hpe1, frame_classify ho1 e1 hx1]
    have hcy2 : type_classify p2.1 y = type_classify p1.1 y := by
      rw [hpe1, frame_classify ho1 e1 hy1]
    rw [hfx] at hfx2
    rw [hfy] at hfy2
    rw [hcx] at hcx2
    rw [hcy] at hcy2
    rw [hfx, hfy, hcx, hcy] at hi
    rw [hfx1, hfy1, hcx1, hcy1] at hi1
    have hkind : type_classify p2.1 p1.2 = TYPE_INT ∨ type_classify p2.1 p1.2 = TYPE_LONG
        ∨ type_classify p2.1 p1.2 = TYPE_LONGLONG := by
      rw [hp1]
      split_ifs <;>
        first
          | (rw [hcx2]; exact promoted_classify hra)
          | (rw [hcy2]; exact promoted_classify hrb)
    refine ⟨2, ?_⟩
    rw [identical_integer_kinds hf2 hkind 0]
    have key := usual_results_agree
      (if ra < 4 then true else type_signed_p h a) (if rb < 4 then true else type_signed_p h b)
      (max ra 4) (max rb 4) i i1 x y x1 y1
      (fun z => (type_flags p2.1 z, type_classify p2.1 z))
      (by simp only [hfx1, hfx2, hcx1, hcx2]) (by simp only [hfy1, hfy2, hcy1, hcy2])
      (by
        intro hx
        simp only [hfx2, hfy2, hcx2, hcy2, (hi hx).1, (hi hx).2])
      (by
        intro hx
        simp only [hfx2, hfy2, hcx2, hcy2, (hi1 hx).1, (hi1 hx).2])
      (by
        intro hs hr
        simp only [hfx2, hfy2, hcx2, hcy2]
        exact promoted_tie ra rb (type_signed_p h a) (type_signed_p h b) (type_flags h a)
          (type_flags h b) (type_classify h a) (type_classify h b)
          (fun h5 hrr hsg =>
            ⟨hsame (classify_eq_of_rank_eq hra (hrr ▸ hrb) h5) hsg ra hra h5,
              classify_eq_of_rank_eq hra (hrr ▸ hrb) h5⟩)
          hs hr)
    rw [← hp1, ← hp2] at key
    simp only [Prod.mk.injEq] at key
    simp [key.1, key.2]

/-- Witness for C17: `usual_conversion(float, double)` and
`usual_conversion(double, float)` return two fresh basic `double` terms, which
are identical. -/
theorem C17_witness :
    type_usual_conversion 1 scenario_arith 3 4
        = some (scenario_arith ++ [.basic TYPE_DOUBLE], 6)
    ∧ type_usual_conversion 1 (scenario_arith ++ [.basic TYPE_DOUBLE]) 4 3
        = some (scenario_arith ++ [.basic TYPE_DOUBLE, .basic TYPE_DOUBLE], 7)
    ∧ Identical (scenario_arith ++ [.basic TYPE_DOUBLE, .basic TYPE_DOUBLE]) 6 7 :=
  ⟨rfl, rfl,
    C17_usual_conversion_commutes 1 scenario_arith rfl rfl 3 4 (by decide) (by decide)
      (fun hc => absurd hc (by decide))
      (scenario_arith ++ [Node.basic TYPE_DOUBLE], 6)
      (scenario_arith ++ [Node.basic TYPE_DOUBLE, Node.basic TYPE_DOUBLE], 7) rfl rfl⟩

/-- Counterexample to C17 as stated: `_Atomic long` (address 5) and `long`
(address 1) are arithmetic terms, neither qualified nor a bitfield, and both
calls of `type_usual_conversion` return; the first returns its operand
`_Atomic long`, the second its operand `long`, and the two are not identical. -/
theorem C17_counterexample :
    type_arithmetic_p scenario_arith 5 = true ∧ type_arithmetic_p scenario_arith 1 = true
    ∧ type_qualified_p scenario_arith 5 = false ∧ type_bitfield_p scenario_arith 5 = false
    ∧ type_usual_conversion 2 scenario_arith 5 1
        = some (scenario_arith ++ [.basic TYPE_INT, .basic TYPE_INT], 5)
    ∧ type_usual_conversion 2 (scenario_arith ++ [.basic TYPE_INT, .basic TYPE_INT]) 1 5
        = some (scenario_arith
            ++ [.basic TYPE_INT, .basic TYPE_INT, .basic TYPE_INT, .basic TYPE_INT], 1)
    ∧ (∀ fuel, type_identical_p (fuel + 1)
        (scenario_arith ++ [.basic TYPE_INT, .basic TYPE_INT, .basic TYPE_INT, .basic TYPE_INT])
        5 1 = some false) :=
  ⟨rfl, rfl, rfl, rfl, rfl, rfl, fun _ => rfl⟩

/-! ### Symmetry of `type_identical_p` -/

theorem all_identical_symm {p q : type → type → Option Bool}
    (hpq : ∀ x y, p x y = some true → q y x = some true) :
    ∀ (as bs : List (Option type)), all_identical p as bs = some true →
      all_identical q bs as = some true := by
  intro as
  induction as with
  | nil => intro bs _; cases bs <;> rfl
  | cons x as ih =>
    intro bs hab
    cases bs with
    | nil => rfl
    | cons y bs =>
      rw [all_identical] at hab ⊢
      cases hp : identical_args p x y with
      | none => simp [hp] at hab
      | some r =>
        cases r with
        | false => simp [hp] at hab
        | true =>
          simp only [hp] at hab
          have hq : identical_args q y x = some true := by
            cases x with
            | none =>
              cases y with
              | none => rfl
              | some y => simp [identical_args] at hp
            | some x =>
              cases y with
              | none => simp [identical_args] at hp
              | some y => exact hpq _ _ hp
          rw [hq]
          exact ih bs hab

/-- In a flat heap, `type_identical_p(a, b)` true gives `type_identical_p(b, a)`
true at the same call depth. -/
theorem identical_symm {h : Heap} (hflat : h.flat = true) :
    ∀ (n : Nat) (a b : type), type_identical_p n h a b = some true →
      type_identical_p n h b a = some true := by
  intro n
  induction n with
  | zero => intro a b hid; simp [type_identical_p] at hid
  | succ n ih =>
    intro a b hid
    by_cases hab : a = b
    · subst hab; exact hid
    have hba : ¬ b = a := fun hx => hab hx.symm
    have hlay := identical_same_layout hflat ⟨fun _ => 0, fun _ => 0⟩ (n + 1) a b hid
    rcases identical_true_cases hid with hab1 | ⟨hf, hc⟩
    · exact absurd hab1 hab
    rw [type_identical_p] at hid ⊢
    by_cases hcat : type_category h a = type_category h b
    swap
    · simp [hab, hf, hc, hcat] at hid
    simp only [hab, hba, if_false, hf, hc, hcat, ne_eq, not_true_eq_false] at hid ⊢
    cases hcb : type_category h b with
    | TC_POINTER =>
      simp only [hcb] at hid ⊢
      cases hra : type_pointer_referenced h a with
      | none => simp [hra] at hid
      | some ra =>
        cases hrb : type_pointer_referenced h b with
        | none => simp [hra, hrb] at hid
        | some rb =>
          simp only [hra, hrb, Option.some_bind, Option.bind_eq_bind] at hid ⊢
          exact ih _ _ hid
    | TC_ARRAY =>
      simp only [hcb] at hid ⊢
      by_cases hv : type_array_vla_p h a = type_array_vla_p h b
      swap
      · simp [hv] at hid
      by_cases hco : type_complete_p h a = type_complete_p h b
      swap
      · simp [hv, hco] at hid
      simp only [hv, hco, not_true_eq_false, if_false] at hid ⊢
      rw [← hlay.1 (n + 1)]
      cases hk : type_known_const_size_p (n + 1) h a with
      | none => simp [hk] at hid
      | some k =>
        cases k with
        | false => simp [hk] at hid
        | true =>
          simp only [hk, Option.some_bind, Option.bind_eq_bind, Bool.not_true,
            Bool.false_eq_true, if_false] at hid ⊢
          cases hla : type_array_length h a with
          | none => simp [hla] at hid
          | some la =>
            cases hlb : type_array_length h b with
            | none => simp [hla, hlb] at hid
            | some lb =>
              simp only [hla, hlb, Option.some_bind] at hid ⊢
              by_cases hll : la = lb
              swap
              · simp [hll] at hid
              subst hll
              simp only [not_true_eq_false, if_false] at hid ⊢
              cases hea : type_array_element h a with
              | none => simp [hea] at hid
              | some ea =>
                cases heb : type_array_element h b with
                | none => simp [hea, heb] at hid
                | some eb =>
                  simp only [hea, heb, Option.some_bind] at hid ⊢
                  exact ih _ _ hid
    | TC_FUNCTION =>
      simp only [hcb] at hid ⊢
      cases hra : type_function_return h a with
      | none => simp [hra] at hid
      | some ra =>
        cases hrb : type_function_return h b with
        | none => simp [hra, hrb] at hid
        | some rb =>
          simp only [hra, hrb, Option.some_bind, Option.bind_eq_bind] at hid ⊢
          cases hr : type_identical_p n h ra rb with
          | none => simp [hr] at hid
          | some r =>
            cases r with
            | false => simp [hr] at hid
            | true =>
              rw [ih _ _ hr]
              simp only [hr, Option.some_bind, Bool.not_true, Bool.false_eq_true,
                if_false] at hid ⊢
              cases hfa : type_function_arguments h a with
              | none => simp [hfa] at hid
              | some aa =>
                cases hfb : type_function_arguments h b with
                | none => simp [hfa, hfb] at hid
                | some ab =>
                  simp only [hfa, hfb, Option.some_bind] at hid ⊢
                  cases aa with
                  | none => cases ab <;> simp_all [identical_args]
                  | some aa =>
                    cases ab with
                    | none => simp [identical_args] at hid
                    | some ab =>
                      simp only [identical_args] at hid ⊢
                      exact ih _ _ hid
    | TC_STRUCT => simp [hcb] at hid
    | TC_UNION => simp [hcb] at hid
    | TC_ATOMIC =>
      simp only [hcb] at hid ⊢
      exact ih _ _ hid
    | TC_SELF =>
      simp only [hcb] at hid ⊢
      have harg : type_arglist_p h a = type_arglist_p h b := by
        simp [type_arglist_p, type_has_class_p, hc]
      rw [← harg]
      cases hal : type_arglist_p h a with
      | false => simp
      | true =>
        simp only [hal, if_true] at hid ⊢
        cases hna : type_member_count h a with
        | none => simp [hna] at hid
        | some na =>
          cases hnb : type_member_count h b with
          | none => simp [hna, hnb] at hid
          | some nb =>
            simp only [hna, hnb, Option.some_bind, Option.bind_eq_bind] at hid ⊢
            by_cases hnn : na = nb
            swap
            · simp [hnn] at hid
            subst hnn
            simp only [not_true_eq_false, if_false] at hid ⊢
            exact all_identical_symm (fun x y hxy => ih x y hxy) _ _ hid

theorem identical_rel_symm {h : Heap} (hflat : h.flat = true) {a b : type}
    (hid : Identical h a b) : Identical h b a := by
  obtain ⟨n, hn⟩ := hid
  exact ⟨n, identical_symm hflat n a b hn⟩

/-! ### Composite types (C13, C15) -/

/-- Terms found identical are found compatible at the same call depth. -/
theorem compatible_of_identical {h : Heap} {n : Nat} {a b : type}
    (hid : type_identical_p n h a b = some true) : type_compatible_p n h a b = some true := by
  cases n with
  | zero => simp [type_identical_p] at hid
  | succ n => simp [type_compatible_p, type_compatible_inner, hid]

/-- The composite of two identical terms is the second one. -/
theorem composite_of_identical {h : Heap} {n : Nat} {a b : type}
    (hid : type_identical_p n h a b = some true) :
    type_composite n h a b = some (h, some b) := by
  cases n with
  | zero => simp [type_identical_p] at hid
  | succ n =>
    rw [type_composite]
    simp [compatible_of_identical hid, hid]

/-- The array case of `type_composite` on two unmodified array nodes that are
compatible and not identical. -/
theorem composite_array_nodes {h : Heap} {a b : type} {la lb : Int} {ea eb : type}
    {ta tb : Option Nat} (ha : h.node a = .array la ea ta) (hb : h.node b = .array lb eb tb)
    {n : Nat} (hc : type_compatible_p (n + 1) h a b = some true)
    (hi : type_identical_p (n + 1) h a b = some false) :
    type_composite (n + 1) h a b
      = (type_known_const_size_p (n + 1) h a).bind fun ka =>
          (if ka then some true else type_known_const_size_p (n + 1) h b).bind fun k =>
            if !k then none
            else (if ka then type_array_length h a else type_array_length h b).bind
              fun length => (type_composite n h ea eb).bind fun e =>
                e.2.bind fun el =>
                  some ((type_array e.1 length el).1, some (type_array e.1 length el).2) := by
  obtain ⟨_, _, hcata, hea, _, _, _, _, _, _⟩ := array_node_facts ha
  obtain ⟨_, _, _, heb, _, _, _, _, _, _⟩ := array_node_facts hb
  rw [type_composite]
  simp only [hc, hi, hcata, hea, heb, Option.some_bind, Option.bind_eq_bind, Bool.not_true,
    Bool.false_eq_true, if_false]

/-- Facts about a fresh array node over an existing element. -/
theorem new_array_facts {h : Heap} (hord : h.ordered = true) {n : Int} {el : type}
    (hn : 0 ≤ n) (hel : el < h.length) (hk : KnownConstSize h el) :
    (type_array h n el).1.node (type_array h n el).2 = .array n el none
    ∧ (type_array h n el).1.ordered = true
    ∧ type_array_p (type_array h n el).1 (type_array h n el).2 = true
    ∧ KnownConstSize (type_array h n el).1 (type_array h n el).2
    ∧ type_array_length (type_array h n el).1 (type_array h n el).2 = some n
    ∧ type_array_element (type_array h n el).1 (type_array h n el).2 = some el := by
  have hnode : (h ++ [Node.array n el none]).node h.length = .array n el none :=
    node_append_new h _
  obtain ⟨_, _, _, he, _, _, _, hp, _, hl⟩ := array_node_facts hnode
  have hord1 : (h ++ [Node.array n el none]).ordered = true :=
    ordered_append hord (by simp [Node.children]; exact hel)
  refine ⟨hnode, hord1, hp, ?_, ?_, he⟩
  · obtain ⟨k, hk⟩ := hk
    refine ⟨k + 1, ?_⟩
    simp only [type_array, Heap.alloc]
    rw [kcs_array_node hnode k, frame_kcs hord _ k el hel, hk]
    have h1 : n ≠ -1 := by omega
    have h2 : n ≠ -2 := by omega
    simp [h1, h2]
  · simp only [type_array, Heap.alloc]
    rw [hl]
    simp [hn]

/-- C13: on an ordered flat heap, for an array node `a` of length `n >= 0` over
`e` and an incomplete array node `b` over `e1`, with `e` and `e1` of known
constant size and identical: `type_composite(a, b)` returns a fresh array of
length `n` over `e1`, `type_composite(b, a)` a fresh array of length `n` over
`e`; both results are array terms of known constant size and of length `n`
whose element is identical to `e`. -/
theorem C13_array_composite (h : Heap) (hord : h.ordered = true) (hflat : h.flat = true)
    (a b : type) (n : Int) (e e1 : type) (ta tb : Option Nat)
    (ha : h.node a = .array n e ta) (hb : h.node b = .array (-1) e1 tb) (hn : 0 ≤ n)
    (hke : KnownConstSize h e) (hke1 : KnownConstSize h e1) (hid : Identical h e e1) :
    (∃ fuel, type_composite fuel h a b
        = some ((type_array h n e1).1, some (type_array h n e1).2))
    ∧ (∃ fuel, type_composite fuel h b a
        = some ((type_array h n e).1, some (type_array h n e).2))
    ∧ ∀ el, el = e ∨ el = e1 →
        type_array_p (type_array h n el).1 (type_array h n el).2 = true
        ∧ KnownConstSize (type_array h n el).1 (type_array h n el).2
        ∧ type_array_length (type_array h n el).1 (type_array h n el).2 = some n
        ∧ type_array_element (type_array h n el).1 (type_array h n el).2 = some el
        ∧ Identical (type_array h n el).1 el e := by
  have hal : a < h.length := lt_length_of_node (by rw [ha]; simp)
  have hbl : b < h.length := lt_length_of_node (by rw [hb]; simp)
  have hel : e < h.length :=
    Nat.lt_trans (ordered_children hord (by rw [ha]; simp [Node.children])) hal
  have hel1 : e1 < h.length :=
    Nat.lt_trans (ordered_children hord (by rw [hb]; simp [Node.children])) hbl
  obtain ⟨k, hk⟩ := hke
  obtain ⟨m, hm⟩ := hid
  have hm' := identical_symm hflat m e e1 hm
  have hab : a ≠ b := by
    intro hx
    rw [hx, hb] at ha
    simp only [Node.array.injEq] at ha
    omega
  have h1 : n ≠ -1 := by omega
  have h2 : n ≠ -2 := by omega
  -- results at a common depth
  have hkN : type_known_const_size_p (k + m) h e = some true :=
    kcs_steady (by omega) h e _ hk
  have hmN : type_identical_p (k + m + 1) h e e1 = some true :=
    identical_steady (by omega) h e e1 _ hm
  have hmN' : type_identical_p (k + m + 1) h e1 e = some true :=
    identical_steady (by omega) h e1 e _ hm'
  have hmM : type_identical_p (k + m) h e e1 = some true :=
    identical_steady (by omega) h e e1 _ hm
  have hmM' : type_identical_p (k + m) h e1 e = some true :=
    identical_steady (by omega) h e1 e _ hm'
  have hka : type_known_const_size_p (k + m + 1) h a = some true := by
    rw [kcs_array_node ha (k + m)]; simp [h1, h2, hkN]
  have hkb : type_known_const_size_p (k + m + 1) h b = some false := by
    rw [kcs_array_node hb (k + m)]; simp
  have hiab : type_identical_p (k + m + 1) h a b = some false := by
    rw [identical_array_nodes ha hb hab (k + m)]
    simp [h1, h2]
  have hiba : type_identical_p (k + m + 1) h b a = some false := by
    rw [identical_array_nodes hb ha (Ne.symm hab) (k + m)]
    simp [h1, h2]
  have hcab : type_compatible_p (k + m + 1) h a b = some true := by
    rw [compatible_array_nodes ha hb (k + m)]
    simp [hiab, hmN, hka, hkb]
  have hcba : type_compatible_p (k + m + 1) h b a = some true := by
    rw [compatible_array_nodes hb ha (k + m)]
    simp [hiba, hmN', hkb]
  obtain ⟨_, _, _, _, _, _, _, _, _, hla⟩ := array_node_facts ha
  refine ⟨⟨k + m + 1, ?_⟩, ⟨k + m + 1, ?_⟩, ?_⟩
  · rw [composite_array_nodes ha hb hcab hiab, hka, composite_of_identical hmM, hla]
    simp [hn]
  · rw [composite_array_nodes hb ha hcba hiba, hkb, hka, composite_of_identical hmM', hla]
    simp [hn]
  · intro el hel0
    have hell : el < h.length := by
      rcases hel0 with rfl | rfl
      · exact hel
      · exact hel1
    have hkel : KnownConstSize h el := by
      rcases hel0 with rfl | rfl
      · exact ⟨k, hk⟩
      · exact hke1
    obtain ⟨_, _, hp, hkc, hlen, helm⟩ := new_array_facts hord hn hell hkel
    refine ⟨hp, hkc, hlen, helm, ?_⟩
    simp only [type_array, Heap.alloc]
    rcases hel0 with rfl | rfl
    · exact ⟨1, by simp [type_identical_p]⟩
    · exact ⟨m, by rw [frame_identical hord _ m _ _ hel1 hel]; exact hm'⟩

/-- Witness for C13: `composite(int[10], int[])` of the array scenario is a
fresh array of length 10 over the `int` term. -/
theorem C13_witness :
    (∃ fuel, type_composite fuel scenario_arrays.1 scenario_arrays.2.1 scenario_arrays.2.2.2
        = some (scenario_arrays.1 ++ [.array 10 0 none], some 5))
    ∧ (∃ fuel, type_composite fuel scenario_arrays.1 scenario_arrays.2.2.2 scenario_arrays.2.1
        = some (scenario_arrays.1 ++ [.array 10 0 none], some 5)) :=
  ⟨(C13_array_composite scenario_arrays.1 rfl rfl 1 4 10 0 0 none none rfl rfl (by decide)
      ⟨1, rfl⟩ ⟨1, rfl⟩ ⟨1, rfl⟩).1,
    ⟨2, rfl⟩⟩

/-- C15 (as coded): for two compatible, non-identical function terms with
parameter lists, the first returning `int[]` and the second `int[10]`,
`type_composite` returns a function term whose return type is the return type
`int[]` of the first argument, an incomplete array, while the composite of
the two return types is a fresh complete array of length 10. -/
theorem C15_function_composite_as_coded (fuel : Nat) :
    type_compatible_p (fuel + 3) scenario_functions.1 scenario_functions.2.2.2.1
        scenario_functions.2.2.2.2 = some true
    ∧ type_identical_p (fuel + 3) scenario_functions.1 scenario_functions.2.2.2.1
        scenario_functions.2.2.2.2 = some false
    ∧ type_function_arguments scenario_functions.1 scenario_functions.2.2.2.1 = some (some 3)
    ∧ type_function_arguments scenario_functions.1 scenario_functions.2.2.2.2 = some (some 5)
    ∧ type_composite (fuel + 3) scenario_functions.1 scenario_functions.2.2.2.1
        scenario_functions.2.2.2.2
        = some (scenario_functions.1 ++ [.arglist [⟨none, 0⟩] false, .function 1 (some 7)],
            some 8)
    ∧ type_function_return
        (scenario_functions.1 ++ [.arglist [⟨none, 0⟩] false, .function 1 (some 7)]) 8
        = some scenario_functions.2.1
    ∧ type_complete_p scenario_functions.1 scenario_functions.2.1 = false
    ∧ type_composite (fuel + 3) scenario_functions.1 scenario_functions.2.1
        scenario_functions.2.2.1
        = some (scenario_functions.1 ++ [.array 10 0 none], some 7) :=
  ⟨rfl, rfl, rfl, rfl, rfl, rfl, rfl, rfl⟩

/-- Projections of an unmodified function node. -/
theorem function_node_facts {h : Heap} {a : type} {ra : type} {args : Option type}
    (ha : h.node a = .function ra args) :
    type_flags h a = 0 ∧ type_classify h a = TYPE_FUNCTION
    ∧ type_category h a = TC_FUNCTION ∧ type_function_return h a = some ra
    ∧ type_function_arguments h a = some args ∧ type_bitfield_p h a = false := by
  have hb : type_base h a = a := by simp [type_base, ha]
  have hf : type_flags h a = 0 := by simp [type_flags, ha]
  have hc : type_classify h a = TYPE_FUNCTION := by simp [type_classify, hb, ha, Node.kind]
  refine ⟨hf, hc, ?_, ?_, ?_, ?_⟩
  · simp [type_category, type_atomic_p, hf, hc, c_bool]
  · simp [type_function_return, hb, ha]
  · simp [type_function_arguments, hb, ha]
  · simp [type_bitfield_p, hf, c_bool]

/-- Projections of an argument-list node. -/
theorem arglist_node_facts {h : Heap} {a : type} {ms : List type_member} {v : Bool}
    (ha : h.node a = .arglist ms v) :
    type_flags h a = 0 ∧ type_classify h a = TYPE_ARGLIST
    ∧ type_category h a = TC_SELF ∧ type_arglist_p h a = true
    ∧ type_member_count h a = some ms.length ∧ base_members h a = some ms
    ∧ raw_members h a = some ms := by
  have hb : type_base h a = a := by simp [type_base, ha]
  have hf : type_flags h a = 0 := by simp [type_flags, ha]
  have hc : type_classify h a = TYPE_ARGLIST := by simp [type_classify, hb, ha, Node.kind]
  refine ⟨hf, hc, ?_, ?_, ?_, ?_, ?_⟩
  · simp [type_category, type_atomic_p, hf, hc, c_bool]
  · simp [type_arglist_p, type_has_class_p, hc]
  · simp [type_member_count, hb, ha]
  · simp [base_members, hb, ha]
  · simp [raw_members, ha]

/-- The member types and the raw member types of an argument-list node. -/
theorem arglist_node_types {h : Heap} {a : type} {ms : List type_member} {v : Bool}
    (ha : h.node a = .arglist ms v) :
    member_types h a = ms.map (fun m => some m.typ)
    ∧ raw_types h a = some (ms.map fun m => some m.typ) := by
  have hb : type_base h a = a := by simp [type_base, ha]
  constructor
  · simp [member_types, base_members, hb, ha]
  · simp [raw_types, raw_members, ha]

/-- `type_identical_p` on two distinct argument-list nodes. -/
theorem identical_arglist_nodes {h : Heap} {a b : type} {msa msb : List type_member}
    {va vb : Bool} (ha : h.node a = .arglist msa va) (hb : h.node b = .arglist msb vb)
    (hab : a ≠ b) (n : Nat) :
    type_identical_p (n + 1) h a b
      = if msa.length ≠ msb.length then some false
        else all_identical (type_identical_p n h) (msa.map fun m => some m.typ)
          (msb.map fun m => some m.typ) := by
  obtain ⟨hfa, hca, hcata, hpa, hna, hma, _⟩ := arglist_node_facts ha
  obtain ⟨hfb, hcb, hcatb, _, hnb, hmb, _⟩ := arglist_node_facts hb
  rw [type_identical_p]
  simp only [hab, if_false, hfa, hfb, hca, hcb, hcata, hcatb, ne_eq, not_true_eq_false, hpa,
    if_true, hna, hnb, Option.some_bind, Option.bind_eq_bind, Option.pure_def,
    (arglist_node_types ha).1, (arglist_node_types hb).1]

/-- `type_identical_p` on two distinct function nodes with argument lists. -/
theorem identical_function_nodes {h : Heap} {a b ra rb aa ab : type}
    (ha : h.node a = .function ra (some aa)) (hb : h.node b = .function rb (some ab))
    (hab : a ≠ b) (n : Nat) :
    type_identical_p (n + 1) h a b
      = (type_identical_p n h ra rb).bind fun r =>
          if !r then some false else type_identical_p n h aa ab := by
  obtain ⟨hfa, hca, hcata, hra, haa, _⟩ := function_node_facts ha
  obtain ⟨hfb, hcb, hcatb, hrb, hab', _⟩ := function_node_facts hb
  rw [type_identical_p]
  simp only [hab, if_false, hfa, hfb, hca, hcb, hcata, hcatb, ne_eq, not_true_eq_false,
    hra, hrb, haa, hab', Option.some_bind, Option.bind_eq_bind, identical_args]

/-- `type_compatible_p` on two function nodes with argument-list nodes. -/
theorem compatible_function_nodes {h : Heap} {a b ra rb aa ab : type}
    {msa msb : List type_member} {va vb : Bool}
    (ha : h.node a = .function ra (some aa)) (hb : h.node b = .function rb (some ab))
    (haa : h.node aa = .arglist msa va) (hab : h.node ab = .arglist msb vb) (n : Nat) :
    type_compatible_p (n + 1) h a b
      = (type_identical_p (n + 1) h a b).bind fun i =>
          if i then some true
          else (type_compatible_p n (unqualified_pair h ra rb).1
              (unqualified_pair h ra rb).2.1 (unqualified_pair h ra rb).2.2).bind fun r =>
            if !r then some false
            else if msa.length ≠ msb.length then some false
            else args_compatible (fun h1 x y => type_compatible_p n h1 x y) h
              (msa.map fun m => some m.typ) (msb.map fun m => some m.typ) := by
  obtain ⟨hfa, hca, hcata, hra, hfaa, hbfa⟩ := function_node_facts ha
  obtain ⟨hfb, hcb, hcatb, hrb, hfab, _⟩ := function_node_facts hb
  rw [type_compatible_p, type_compatible_inner]
  simp only [hfa, hfb, hca, hcb, hcata, hcatb, ne_eq, not_true_eq_false, if_false,
    bits_differ, hbfa, hra, hrb, hfaa, hfab, Option.some_bind, Option.bind_eq_bind,
    function_args_compatible, (arglist_node_types haa).2, (arglist_node_types hab).2,
    Bool.false_eq_true, List.length_map]
  rfl

/-- The parameter loop of the function case succeeds exactly when every pair
of unqualified parameters is compatible. -/
theorem args_compatible_iff {compat : Heap → type → type → Option Bool} {h : Heap} :
    ∀ (as bs : List type_member), as.length = bs.length →
      (args_compatible compat h (as.map fun m => some m.typ) (bs.map fun m => some m.typ)
          = some true ↔
        List.Forall₂ (fun ma mb => compat (unqualified_pair h ma.typ mb.typ).1
          (unqualified_pair h ma.typ mb.typ).2.1 (unqualified_pair h ma.typ mb.typ).2.2
            = some true) as bs) := by
  intro as
  induction as with
  | nil =>
    intro bs hl
    cases bs with
    | nil => simp [args_compatible]
    | cons _ _ => simp at hl
  | cons ma as ih =>
    intro bs hl
    cases bs with
    | nil => simp at hl
    | cons mb bs =>
      have hl1 : as.length = bs.length := by simpa using hl
      rw [List.map_cons, List.map_cons, args_compatible, List.forall₂_cons, ← ih bs hl1]
      cases hp : compat (unqualified_pair h ma.typ mb.typ).1
          (unqualified_pair h ma.typ mb.typ).2.1 (unqualified_pair h ma.typ mb.typ).2.2 with
      | none => simp [hp]
      | some r => cases r <;> simp [hp]

/-- A successful argument-list loop of `type_identical_p` on lists of equal
length: the members are pairwise identical. -/
theorem all_identical_forall₂ {p : type → type → Option Bool} :
    ∀ (as bs : List type_member), as.length = bs.length →
      all_identical p (as.map fun m => some m.typ) (bs.map fun m => some m.typ) = some true →
      List.Forall₂ (fun ma mb => p ma.typ mb.typ = some true) as bs := by
  intro as
  induction as with
  | nil =>
    intro bs hl _
    cases bs with
    | nil => exact List.Forall₂.nil
    | cons _ _ => simp at hl
  | cons ma as ih =>
    intro bs hl hall
    cases bs with
    | nil => simp at hl
    | cons mb bs =>
      have hl1 : as.length = bs.length := by simpa using hl
      rw [List.map_cons, List.map_cons, all_identical] at hall
      simp only [identical_args] at hall
      cases hp : p ma.typ mb.typ with
      | none => simp [hp] at hall
      | some r =>
        cases r with
        | false => simp [hp] at hall
        | true =>
          simp only [hp] at hall
          exact List.Forall₂.cons hp (ih bs hl1 hall)

/-- In a flat heap `type_unqualified` returns the term, its base, or a fresh
modified node over its base. -/
theorem unqualified_eq {h : Heap} (hflat : h.flat = true) (x : type) :
    type_unqualified h x
      = if type_flags h x = 0 then (h, x)
        else if type_flags h x &&& c_not32 (CONST ||| VOLATILE ||| RESTRICT ||| WIDE) = 0
          then (h, type_base h x)
        else (h ++ [Node.modified
            (type_flags h x &&& c_not32 (CONST ||| VOLATILE ||| RESTRICT ||| WIDE))
            (type_base h x) none], h.length) := by
  have hnm := base_not_modified hflat x
  unfold type_unqualified
  simp only
  split
  · rfl
  · split
    · rfl
    · unfold type_modify
      cases hn : h.node (type_base h x) <;> simp_all [Node.kind, Heap.alloc]

/-- In a flat heap the projections of a term are those of its base. -/
theorem base_view {h : Heap} (hflat : h.flat = true) (t : type) :
    type_base h (type_base h t) = type_base h t
    ∧ type_flags h (type_base h t) = 0
    ∧ type_classify h (type_base h t) = type_classify h t
    ∧ type_pointer_referenced h (type_base h t) = type_pointer_referenced h t
    ∧ type_array_vla_p h (type_base h t) = type_array_vla_p h t
    ∧ type_complete_p h (type_base h t) = type_complete_p h t
    ∧ type_array_length h (type_base h t) = type_array_length h t
    ∧ type_array_element h (type_base h t) = type_array_element h t
    ∧ type_function_return h (type_base h t) = type_function_return h t
    ∧ type_function_arguments h (type_base h t) = type_function_arguments h t
    ∧ type_arglist_p h (type_base h t) = type_arglist_p h t
    ∧ type_member_count h (type_base h t) = type_member_count h t
    ∧ base_members h (type_base h t) = base_members h t
    ∧ (type_atomic_p h t = false →
        type_category h (type_base h t) = type_category h t) := by
  have hb := unmodified_base_flags (base_not_modified hflat t)
  have hc := classify_base hflat t
  have h3 : type_array_p h (type_base h t) = type_array_p h t := by
    simp [type_array_p, type_has_class_p, hc]
  refine ⟨hb.1, hb.2, hc, ?_, ?_, ?_, ?_, ?_, ?_, ?_, ?_, ?_, ?_, ?_⟩
  · simp [type_pointer_referenced, hb.1]
  · simp [type_array_vla_p, h3, base_length, hb.1]
  · simp [type_complete_p, basic_p_base hflat t, hc, base_length, base_members, hb.1]
  · simp [type_array_length, hb.1]
  · simp [type_array_element, hb.1]
  · simp [type_function_return, hb.1]
  · simp [type_function_arguments, hb.1]
  · simp [type_arglist_p, type_has_class_p, hc]
  · simp [type_member_count, hb.1]
  · simp [base_members, hb.1]
  · intro hat
    have h0 : c_bool 0 = false := rfl
    have hat' : c_bool (type_flags h t &&& ATOMIC) = false := hat
    simp [type_category, type_atomic_p, hb.2, h0, hc, hat']

/-- In a flat heap the member types of a term are those of its base. -/
theorem member_types_base {h : Heap} (hflat : h.flat = true) (t : type) :
    member_types h (type_base h t) = member_types h t := by
  have hb := (base_view hflat t).1
  simp only [member_types, base_members, hb]

/-- In a flat heap, two identical terms that are not atomic have identical
bases. -/
theorem identical_bases {h : Heap} (hflat : h.flat = true) {n : Nat} {x y : type}
    (hid : type_identical_p n h x y = some true) (hat : type_atomic_p h x = false) :
    type_identical_p n h (type_base h x) (type_base h y) = some true := by
  cases n with
  | zero => simp [type_identical_p] at hid
  | succ n =>
    by_cases hb : type_base h x = type_base h y
    · rw [type_identical_p]; simp [hb]
    have hxy : x ≠ y := fun e => hb (by rw [e])
    rcases identical_true_cases hid with e | ⟨hf, hc⟩
    · exact absurd e hxy
    have haty : type_atomic_p h y = false := by
      simpa [type_atomic_p, hf] using hat
    obtain ⟨x1, x2, x3, x4, x5, x6, x7, x8, x9, x10, x11, x12, x13, x14⟩ := base_view hflat x
    obtain ⟨y1, y2, y3, y4, y5, y6, y7, y8, y9, y10, y11, y12, y13, y14⟩ := base_view hflat y
    have hkx := kcs_base hflat x (n + 1)
    rw [type_identical_p] at hid ⊢
    simp only [hxy, if_false] at hid
    simp only [hb, if_false, x1, x2, x3, x4, x5, x6, x7, x8, x9, x10, x11, x12, x13, x14 hat,
      y1, y2, y3, y4, y5, y6, y7, y8, y9, y10, y11, y12, y13, y14 haty, hkx, ne_eq,
      not_true_eq_false, member_types_base hflat x, member_types_base hflat y]
    simp only [hf, hc, ne_eq, not_true_eq_false, if_false] at hid
    simp only [hc, ne_eq, not_true_eq_false, if_false]
    have hcx : type_category h x ≠ TC_ATOMIC := by
      simp [type_category, hat]
      cases type_classify h x <;> simp
    by_cases hcat : type_category h x = type_category h y
    swap
    · simp [hcat] at hid
    simp only [hcat, not_true_eq_false, if_false] at hid ⊢
    rw [← hcat] at hid ⊢
    cases hk : type_category h x with
    | TC_ATOMIC => exact absurd hk hcx
    | _ => simp [hk] at hid ⊢ <;> exact hid

/-- Projections of a modified node. -/
theorem modified_node_facts {H : Heap} {u : type} {f : Nat} {b : type} {bits : Option Int}
    (hu : H.node u = .modified f b bits) :
    type_flags H u = f ∧ type_base H u = b ∧ type_classify H u = (H.node b).kind
    ∧ type_atomic_p H u = c_bool (f &&& ATOMIC) := by
  have hf : type_flags H u = f := by simp [type_flags, hu]
  have hb : type_base H u = b := by simp [type_base, hu]
  exact ⟨hf, hb, by simp [type_classify, hb], by simp [type_atomic_p, hf]⟩

/-- A term classified by an arithmetic kind that is not atomic belongs to the
category `TC_SELF` and is not an argument list. -/
theorem category_of_arithmetic {H : Heap} {t : type} (hat : type_atomic_p H t = false)
    (hk : arithmetic_kind (type_classify H t) = true) :
    type_category H t = TC_SELF ∧ type_arglist_p H t = false := by
  unfold type_category type_arglist_p type_has_class_p
  rw [hat]
  cases hc : type_classify H t <;> simp [hc, arithmetic_kind] at hk ⊢

/-- Removing the qualifiers keeps the atomic flag. -/
theorem atomic_flag_unqualified (f : Nat) :
    (f &&& c_not32 (CONST ||| VOLATILE ||| RESTRICT ||| WIDE)) &&& ATOMIC = f &&& ATOMIC := by
  rw [Nat.land_assoc]
  have : c_not32 (CONST ||| VOLATILE ||| RESTRICT ||| WIDE) &&& ATOMIC = ATOMIC := by decide
  rw [this]

/-- The nodes of a valid modified term of a heap with well-formed modifiers. -/
theorem modifiers_ok_node {h : Heap} (hok : h.modifiers_ok = true) {x : type} {f : Nat}
    {b : type} {bits : Option Int} (hx : h.node x = .modified f b bits) :
    c_bool (f &&& ATOMIC) = true
    ∨ f &&& c_not32 (CONST ||| VOLATILE ||| RESTRICT ||| WIDE) = 0
    ∨ arithmetic_kind (h.node b).kind = true := by
  rcases node_mem_or_void h x with hm | hv
  · simp only [Heap.modifiers_ok, List.all_eq_true] at hok
    have := hok _ hm
    rw [hx] at this
    simpa [or_assoc] using this
  · rw [hv] at hx; cases hx

/-- On an ordered flat heap with well-formed modifiers, the unqualified
versions of two identical valid terms are compatible. -/
theorem compatible_unqualified_of_identical {h : Heap} (hord : h.ordered = true)
    (hflat : h.flat = true) (hok : h.modifiers_ok = true) {x y : type}
    (hx : x < h.length) (hy : y < h.length) (hid : Identical h x y) :
    Compatible (unqualified_pair h x y).1 (unqualified_pair h x y).2.1
      (unqualified_pair h x y).2.2 := by
  obtain ⟨n, hn⟩ := hid
  have hf : type_flags h x = type_flags h y := by
    rcases identical_true_cases hn with e | e
    · rw [e]
    · exact e.1
  have hc : type_classify h x = type_classify h y := by
    rcases identical_true_cases hn with e | e
    · rw [e]
    · exact e.2
  have hux := unqualified_eq hflat x
  by_cases hF0 : type_flags h x = 0
  · -- no flags: the terms themselves
    have huy := unqualified_eq hflat y
    rw [← hf] at huy
    simp only [hF0, if_true] at hux huy
    simp only [unqualified_pair, hux, huy]
    exact ⟨n, compatible_of_identical hn⟩
  by_cases hF1 : type_flags h x &&& c_not32 (CONST ||| VOLATILE ||| RESTRICT ||| WIDE) = 0
  · -- qualifiers only: the bases
    have huy := unqualified_eq hflat y
    rw [← hf] at huy
    simp only [hF0, hF1, if_true, if_false] at hux huy
    simp only [unqualified_pair, hux, huy]
    have hat : type_atomic_p h x = false := by
      have := atomic_flag_unqualified (type_flags h x)
      rw [hF1] at this
      simp [type_atomic_p, ← this, c_bool]
    exact ⟨n, compatible_of_identical (identical_bases hflat hn hat)⟩
  -- two fresh modified nodes over the bases
  simp only [hF0, hF1, if_false] at hux
  have hbx : type_base h x < h.length := Nat.lt_of_le_of_lt (base_le hord x) hx
  have hby : type_base h y < h.length := Nat.lt_of_le_of_lt (base_le hord y) hy
  have hord1 : (h ++ [Node.modified
      (type_flags h x &&& c_not32 (CONST ||| VOLATILE ||| RESTRICT ||| WIDE))
      (type_base h x) none]).ordered = true :=
    ordered_append hord (by simp [Node.children]; exact hbx)
  have hflat1 : (h ++ [Node.modified
      (type_flags h x &&& c_not32 (CONST ||| VOLATILE ||| RESTRICT ||| WIDE))
      (type_base h x) none]).flat = true :=
    flat_append hord hflat rfl (by
      intro f b bits hm
      cases hm
      exact ⟨hbx, base_not_modified hflat x⟩)
  have huy := unqualified_eq hflat1 y
  rw [frame_flags hord _ hy, frame_base hord _ hy, ← hf] at huy
  simp only [hF0, hF1, if_false] at huy
  simp only [unqualified_pair, hux, huy]
  simp only [List.length_append, List.length_singleton]
  generalize hF : type_flags h x &&& c_not32 (CONST ||| VOLATILE ||| RESTRICT ||| WIDE) = F
    at *
  have hH : h ++ [Node.modified F (type_base h x) none]
      ++ [Node.modified F (type_base h y) none]
      = h ++ [Node.modified F (type_base h x) none, Node.modified F (type_base h y) none] := by
    simp
  rw [hH]
  have hnu : (h ++ [Node.modified F (type_base h x) none,
      Node.modified F (type_base h y) none]).node h.length
      = .modified F (type_base h x) none := by
    rw [← hH, node_append_lt (by simp)]
    exact node_append_new h _
  have hnv : (h ++ [Node.modified F (type_base h x) none,
      Node.modified F (type_base h y) none]).node (h.length + 1)
      = .modified F (type_base h y) none := by
    have := node_append_new (h ++ [Node.modified F (type_base h x) none])
      (Node.modified F (type_base h y) none)
    rw [hH] at this
    simpa using this
  have hnbx : (h ++ [Node.modified F (type_base h x) none,
      Node.modified F (type_base h y) none]).node (type_base h x)
      = h.node (type_base h x) := node_append_list hbx _
  have hnby : (h ++ [Node.modified F (type_base h x) none,
      Node.modified F (type_base h y) none]).node (type_base h y)
      = h.node (type_base h y) := node_append_list hby _
  obtain ⟨fu, bu, cu, au⟩ := modified_node_facts hnu
  obtain ⟨fv, bv, cv, av⟩ := modified_node_facts hnv
  rw [hnbx] at cu
  rw [hnby] at cv
  have hcuv : type_classify (h ++ [Node.modified F (type_base h x) none,
      Node.modified F (type_base h y) none]) h.length
      = type_classify (h ++ [Node.modified F (type_base h x) none,
      Node.modified F (type_base h y) none]) (h.length + 1) := by
    rw [cu, cv]; exact hc
  have hne : h.length ≠ h.length + 1 := by omega
  have hatx : type_atomic_p h x = c_bool (F &&& ATOMIC) := by
    rw [← hF, atomic_flag_unqualified]; rfl
  cases hA : c_bool (F &&& ATOMIC) with
  | true =>
    -- atomic: the bases are compared
    have hcat1 : type_category (h ++ [Node.modified F (type_base h x) none,
        Node.modified F (type_base h y) none]) h.length = TC_ATOMIC := by
      simp [type_category, au, hA]
    have hcat2 : type_category (h ++ [Node.modified F (type_base h x) none,
        Node.modified F (type_base h y) none]) (h.length + 1) = TC_ATOMIC := by
      simp [type_category, av, hA]
    have hbid : type_identical_p n h (type_base h x) (type_base h y) = some true := by
      cases n with
      | zero => simp [type_identical_p] at hn
      | succ n =>
        by_cases hxy : x = y
        · subst hxy; simp [type_identical_p]
        have hcx : type_category h x = TC_ATOMIC := by
          simp [type_category, hatx, hA]
        have hcy : type_category h y = TC_ATOMIC := by
          simp [type_category, type_atomic_p, ← hf]
          have : c_bool (type_flags h x &&& ATOMIC) = true := by
            rw [← hA, ← hatx]; rfl
          simp [this]
        rw [type_identical_p] at hn
        simp only [hxy, if_false, hf, hc, hcx, hcy, ne_eq, not_true_eq_false] at hn
        exact identical_steady (Nat.le_succ n) h _ _ _ hn
    refine ⟨n + 1, compatible_of_identical ?_⟩
    rw [type_identical_p]
    simp only [hne, if_false, fu, fv, hcuv, hcat1, hcat2, ne_eq, not_true_eq_false, bu, bv]
    rw [frame_identical hord _ n _ _ hbx hby]
    exact hbid
  | false =>
    -- not atomic: the base is of an arithmetic kind
    have hxm : ∃ bits, h.node x = .modified (type_flags h x) (type_base h x) bits := by
      cases hnx : h.node x with
      | modified f b bits => exact ⟨bits, by simp [type_flags, type_base, hnx]⟩
      | _ => simp [type_flags, hnx] at hF0
    obtain ⟨bits, hxm⟩ := hxm
    have hkind : arithmetic_kind (h.node (type_base h x)).kind = true := by
      rcases modifiers_ok_node hok hxm with h1 | h1 | h1
      · rw [← hatx] at hA
        have : type_atomic_p h x = c_bool (type_flags h x &&& ATOMIC) := rfl
        rw [this, h1] at hA
        cases hA
      · rw [hF] at h1; exact absurd h1 hF1
      · exact h1
    have hkc : (h.node (type_base h x)).kind = type_classify h x := rfl
    rw [hkc] at hkind
    have hkind2 : arithmetic_kind (type_classify h y) = true := by rw [← hc]; exact hkind
    have hkc2 : (h.node (type_base h y)).kind = type_classify h y := rfl
    obtain ⟨hcat1, harg⟩ := category_of_arithmetic (H := h ++ [Node.modified F (type_base h x) none,
        Node.modified F (type_base h y) none]) (t := h.length) (by rw [au, hA])
      (by rw [cu, hkc]; exact hkind)
    obtain ⟨hcat2, _⟩ := category_of_arithmetic (H := h ++ [Node.modified F (type_base h x) none,
        Node.modified F (type_base h y) none]) (t := h.length + 1) (by rw [av, hA])
      (by rw [cv, hkc2]; exact hkind2)
    refine ⟨1, compatible_of_identical ?_⟩
    rw [type_identical_p]
    simp [hne, fu, fv, hcuv, hcat1, hcat2, harg]

/-- C11: on an ordered flat heap with well-formed modifiers, for two function
nodes `a`, `b` with argument-list nodes (as `type_function` builds them) on
which the identity test returns: `type_compatible_p(a, b)` holds exactly when
the unqualified return types are compatible, the parameter counts are equal,
and the unqualified parameter types are compatible index by index. -/
theorem C11_function_compatible_iff (h : Heap) (hord : h.ordered = true)
    (hflat : h.flat = true) (hok : h.modifiers_ok = true) (a b ra rb aa ab : type)
    (msa msb : List type_member) (va vb : Bool)
    (ha : h.node a = .function ra (some aa)) (haa : h.node aa = .arglist msa va)
    (hb : h.node b = .function rb (some ab)) (hab : h.node ab = .arglist msb vb)
    (hret : ∃ fuel r, type_identical_p fuel h a b = some r) :
    Compatible h a b ↔
      (Compatible (unqualified_pair h ra rb).1 (unqualified_pair h ra rb).2.1
          (unqualified_pair h ra rb).2.2
        ∧ msa.length = msb.length
        ∧ List.Forall₂ (fun ma mb =>
            Compatible (unqualified_pair h ma.typ mb.typ).1
              (unqualified_pair h ma.typ mb.typ).2.1 (unqualified_pair h ma.typ mb.typ).2.2)
            msa msb) := by
  have hal : a < h.length := lt_length_of_node (by rw [ha]; simp)
  have hbl : b < h.length := lt_length_of_node (by rw [hb]; simp)
  have hral : ra < h.length :=
    Nat.lt_trans (ordered_children hord (by rw [ha]; simp [Node.children])) hal
  have hrbl : rb < h.length :=
    Nat.lt_trans (ordered_children hord (by rw [hb]; simp [Node.children])) hbl
  have haal : aa < h.length :=
    Nat.lt_trans (ordered_children hord (by rw [ha]; simp [Node.children])) hal
  have habl : ab < h.length :=
    Nat.lt_trans (ordered_children hord (by rw [hb]; simp [Node.children])) hbl
  have hma : ∀ x ∈ msa, x.typ < h.length := fun x hx =>
    Nat.lt_trans (ordered_children hord (by
      rw [haa]; simp only [Node.children, List.mem_map]; exact ⟨x, hx, rfl⟩)) haal
  have hmb : ∀ x ∈ msb, x.typ < h.length := fun x hx =>
    Nat.lt_trans (ordered_children hord (by
      rw [hab]; simp only [Node.children, List.mem_map]; exact ⟨x, hx, rfl⟩)) habl
  -- identical parameters are compatible after `type_unqualified`
  have hparams : ∀ n, msa.length = msb.length →
      all_identical (type_identical_p n h) (msa.map fun m => some m.typ)
        (msb.map fun m => some m.typ) = some true →
      List.Forall₂ (fun ma mb =>
        Compatible (unqualified_pair h ma.typ mb.typ).1
          (unqualified_pair h ma.typ mb.typ).2.1 (unqualified_pair h ma.typ mb.typ).2.2)
        msa msb := by
    intro n hl hall
    refine forall₂_imp_mem (all_identical_forall₂ msa msb hl hall) ?_
    intro x hx y hy hxy
    exact compatible_unqualified_of_identical hord hflat hok (hma x hx) (hmb y hy) ⟨n, hxy⟩
  have hsame : msa = msb →
      List.Forall₂ (fun ma mb =>
        Compatible (unqualified_pair h ma.typ mb.typ).1
          (unqualified_pair h ma.typ mb.typ).2.1 (unqualified_pair h ma.typ mb.typ).2.2)
        msa msb := by
    intro e
    subst e
    rw [List.forall₂_same]
    intro x hx
    exact compatible_unqualified_of_identical hord hflat hok (hma x hx) (hma x hx)
      ⟨1, by simp [type_identical_p]⟩
  constructor
  · rintro ⟨N, hN⟩
    cases N with
    | zero => simp [type_compatible_p, type_compatible_inner] at hN
    | succ n =>
      rw [compatible_function_nodes ha hb haa hab n] at hN
      cases hi : type_identical_p (n + 1) h a b with
      | none => simp [hi] at hN
      | some i =>
        cases i with
        | true =>
          by_cases hab0 : a = b
          · subst hab0
            rw [ha] at hb
            simp only [Node.function.injEq, Option.some.injEq] at hb
            obtain ⟨e1, e2⟩ := hb
            subst e1 e2
            rw [haa] at hab
            simp only [Node.arglist.injEq] at hab
            exact ⟨compatible_unqualified_of_identical hord hflat hok hral hral
              ⟨1, by simp [type_identical_p]⟩, by rw [hab.1], hsame hab.1⟩
          · rw [identical_function_nodes ha hb hab0 n] at hi
            cases hr : type_identical_p n h ra rb with
            | none => simp [hr] at hi
            | some r =>
              cases r with
              | false => simp [hr] at hi
              | true =>
                simp only [hr, Option.some_bind, Bool.not_true, Bool.false_eq_true,
                  if_false] at hi
                refine ⟨compatible_unqualified_of_identical hord hflat hok hral hrbl
                  ⟨n, hr⟩, ?_⟩
                by_cases hargs : aa = ab
                · subst hargs
                  rw [haa] at hab
                  simp only [Node.arglist.injEq] at hab
                  exact ⟨by rw [hab.1], hsame hab.1⟩
                · cases n with
                  | zero => simp [type_identical_p] at hi
                  | succ n =>
                    rw [identical_arglist_nodes haa hab hargs n] at hi
                    by_cases hl : msa.length = msb.length
                    · simp only [hl, ne_eq, not_true_eq_false, if_false] at hi
                      exact ⟨hl, hparams n hl hi⟩
                    · simp [hl] at hi
        | false =>
          simp only [hi, Option.some_bind, Bool.false_eq_true, if_false] at hN
          cases hr : type_compatible_p n (unqualified_pair h ra rb).1
              (unqualified_pair h ra rb).2.1 (unqualified_pair h ra rb).2.2 with
          | none => simp [hr] at hN
          | some r =>
            cases r with
            | false => simp [hr] at hN
            | true =>
              simp only [hr, Option.some_bind, Bool.not_true, Bool.false_eq_true,
                if_false] at hN
              by_cases hl : msa.length = msb.length
              · simp only [hl, ne_eq, not_true_eq_false, if_false] at hN
                refine ⟨⟨n, hr⟩, hl, ?_⟩
                exact ((args_compatible_iff msa msb hl).mp hN).imp
                  fun _ _ hx => ⟨n, hx⟩
              · simp [hl] at hN
  · rintro ⟨⟨k, hk⟩, hl, hall⟩
    obtain ⟨f, r, hr⟩ := hret
    have hcommon : ∃ N, List.Forall₂ (fun ma mb => True ∧
        type_compatible_p N (unqualified_pair h ma.typ mb.typ).1
          (unqualified_pair h ma.typ mb.typ).2.1 (unqualified_pair h ma.typ mb.typ).2.2
          = some true) msa msb := by
      refine forall₂_common_fuel
        (P := fun N ma mb => type_compatible_p N (unqualified_pair h ma.typ mb.typ).1
          (unqualified_pair h ma.typ mb.typ).2.1 (unqualified_pair h ma.typ mb.typ).2.2
          = some true) ?_ msa msb (hall.imp fun _ _ hx => ⟨trivial, hx⟩)
      intro n m ma mb hnm hp
      exact compatible_inner_steady hnm _ _ _ [] _ hp
    obtain ⟨N, hN⟩ := hcommon
    refine ⟨f + k + N + 1, ?_⟩
    rw [compatible_function_nodes ha hb haa hab (f + k + N)]
    rw [identical_steady (by omega) h a b _ hr]
    cases r with
    | true => rfl
    | false =>
      have hk1 : type_compatible_p (f + k + N) (unqualified_pair h ra rb).1
          (unqualified_pair h ra rb).2.1 (unqualified_pair h ra rb).2.2 = some true :=
        compatible_inner_steady (by omega) _ _ _ [] _ hk
      simp only [Option.some_bind, Bool.false_eq_true, if_false, hk1, Bool.not_true, hl,
        ne_eq, not_true_eq_false]
      apply (args_compatible_iff msa msb hl).mpr
      exact hN.imp fun ma mb hx =>
        compatible_inner_steady (by omega) _ _ _ [] _ hx.2

/-- Witness for C11: a function taking `(const int)` is compatible with a
function of the same return type taking `(int)`, and the two are not
identical. -/
theorem C11_witness :
    Compatible scenario_const_parameter.1 scenario_const_parameter.2.1
        scenario_const_parameter.2.2
    ∧ (∀ fuel, type_identical_p (fuel + 3) scenario_const_parameter.1
        scenario_const_parameter.2.1 scenario_const_parameter.2.2 = some false) :=
  ⟨(C11_function_compatible_iff scenario_const_parameter.1 rfl rfl rfl 3 5 0 0 2 4
      [⟨none, 1⟩] [⟨none, 0⟩] false false rfl rfl rfl rfl ⟨3, false, rfl⟩).mpr
      ⟨⟨1, rfl⟩, rfl, List.Forall₂.cons ⟨1, rfl⟩ List.Forall₂.nil⟩,
    fun _ => rfl⟩

/-! ### Scenarios evaluated on the code (C23, C26, C27, C30) -/

/-- After `type_modify` the field `bits` of the new node is unwritten, whatever
the argument. -/
theorem modify_bits_unwritten (h : Heap) (t : type) (flags : Nat) :
    type_bitfield_bits (type_modify h t flags).1 (type_modify h t flags).2 = none := by
  unfold type_modify
  cases hn : h.node t <;>
    simp [Heap.alloc, type_bitfield_bits, node_append_new]

/-- C23 (code as written): for the qualified variable-length array
`const (int[n])`, whose array node carries the handle 7, `type_dependencies`
counts one dependency, but `type_get_dependency(t, 0)` reads the field `targ`
of the modified node on top instead of that of its base and has no value;
on the array term itself it returns the handle. -/
theorem C23_dependency_as_coded (fuel : Nat) :
    type_dependencies (fuel + 2) scenario_const_vla.1 scenario_const_vla.2.2 = some 1
    ∧ type_array_vla_p scenario_const_vla.1 scenario_const_vla.2.2 = true
    ∧ raw_targ scenario_const_vla.1 (type_base scenario_const_vla.1 scenario_const_vla.2.2)
        = some (some 7)
    ∧ type_get_dependency (fuel + 2) scenario_const_vla.1 scenario_const_vla.2.2 0 = none
    ∧ type_get_dependency (fuel + 2) scenario_const_vla.1 scenario_const_vla.2.1 0
        = some (some 7) :=
  ⟨rfl, rfl, rfl, rfl, rfl⟩

/-- C26 (code as written): on every host the table `abi_host` has no entry for
`long double` (size and alignment are zero) and gives `short` the size of
`int`; for `struct D { long double x; }` the alignment of the member is zero
and `type_offsetof_n(D, 0)` has no value: the padding divides by zero. -/
theorem C26_host_table_as_coded (c : Host) :
    (abi_host c).size TYPE_LONGDOUBLE = 0
    ∧ (abi_host c).alignment TYPE_LONGDOUBLE = 0
    ∧ (abi_host c).size TYPE_SHORT = c.sizeof .c_signed_int
    ∧ (∀ fuel, type_alignof (fuel + 1) (abi_host c) scenario_long_double.1 0 = some 0)
    ∧ (∀ fuel, type_offsetof_n fuel (abi_host c) scenario_long_double.1
        scenario_long_double.2 0 = none) := by
  refine ⟨rfl, rfl, rfl, fun _ => rfl, fun fuel => ?_⟩
  match fuel with
  | 0 => rfl
  | _ + 1 => rfl

/-- C27 (code as written): `type_modify` never writes the field `bits`, so the
width of a bitfield is lost under every further modifier: for the bitfield
`unsigned : 3` the term `type_const(t)` and its unqualified version are still
bitfields, but `type_bitfield_bits` has no value on them. -/
theorem C27_bitfield_width_as_coded :
    type_bitfield_bits scenario_const_bitfield.1 scenario_const_bitfield.2.1 = some 3
    ∧ type_bitfield_p scenario_const_bitfield.1 scenario_const_bitfield.2.2.1 = true
    ∧ type_bitfield_bits scenario_const_bitfield.1 scenario_const_bitfield.2.2.1 = none
    ∧ type_bitfield_p scenario_const_bitfield.1 scenario_const_bitfield.2.2.2 = true
    ∧ type_bitfield_bits scenario_const_bitfield.1 scenario_const_bitfield.2.2.2 = none
    ∧ (∀ (h : Heap) (t : type),
        type_bitfield_bits (type_const h t).1 (type_const h t).2 = none
        ∧ type_bitfield_bits (type_volatile h t).1 (type_volatile h t).2 = none
        ∧ type_bitfield_bits (type_restrict h t).1 (type_restrict h t).2 = none
        ∧ type_bitfield_bits (type_wide h t).1 (type_wide h t).2 = none
        ∧ type_bitfield_bits (type_atomic h t).1 (type_atomic h t).2 = none) :=
  ⟨rfl, rfl, rfl, rfl, rfl, fun h t =>
    ⟨modify_bits_unwritten h t CONST, modify_bits_unwritten h t VOLATILE,
      modify_bits_unwritten h t RESTRICT, modify_bits_unwritten h t WIDE,
      modify_bits_unwritten h t ATOMIC⟩⟩

/-- C30 (code as written): in `struct O { unsigned a:20; unsigned b:20; }` with a
32-bit unit the member `a` opens a unit and leaves the accumulator at the full
32 bits, so `b` enters its iteration with 32 bits left, is absorbed into the
same unit and leaves 12 bits: the unit holds 40 bits. -/
theorem C30_storage_unit_as_coded (fuel : Nat) :
    type_sizeof (fuel + 1) abi_lp64 scenario_overfull.1 2 = some 4
    ∧ type_bitfield_bits scenario_overfull.1 2 = some 20
    ∧ type_bitfield_bits scenario_overfull.1 3 = some 20
    ∧ offsetof_entry (type_sizeof (fuel + 1) abi_lp64 scenario_overfull.1)
        (type_alignof (fuel + 1) abi_lp64 scenario_overfull.1) scenario_overfull.1
        ((base_members scenario_overfull.1 scenario_overfull.2).getD []) 0 0 0 1
        = some (4, 32)
    ∧ bitfield_absorbed scenario_overfull.1 3 32 = true
    ∧ offsetof_step (type_sizeof (fuel + 1) abi_lp64 scenario_overfull.1)
        (type_alignof (fuel + 1) abi_lp64 scenario_overfull.1) scenario_overfull.1
        (-1) 3 1 4 32 = some (.next 4 12)
    ∧ (20 : Int) + 20 > 4 * CHAR_BIT :=
  ⟨rfl, rfl, rfl, rfl, rfl, rfl, by decide⟩

/-! ### Known constant size (C24) -/

/-- Members that are each of known constant size at some depth are so at one
common depth. -/
theorem all_members_of_forall {h : Heap} :
    ∀ (ms : List type_member), (∀ m ∈ ms, KnownConstSize h m.typ) →
      ∃ n, all_members (type_known_const_size_p n h) ms = some true := by
  intro ms
  induction ms with
  | nil => intro _; exact ⟨0, rfl⟩
  | cons m rest ih =>
    intro hall
    obtain ⟨n1, h1⟩ := hall m (by simp)
    obtain ⟨n2, h2⟩ := ih (fun x hx => hall x (by simp [hx]))
    refine ⟨max n1 n2, ?_⟩
    rw [all_members, kcs_steady (Nat.le_max_left n1 n2) h m.typ true h1]
    exact all_members_steady (fun x => kcs_steady (Nat.le_max_right n1 n2) h x) rest true h2

/-- C24 (counterexample): the array `int[3][n]` of three variable-length arrays
is complete, is not itself of variable length and is no struct or union, yet
`type_known_const_size_p` returns false for it: its element is not of known
constant size. -/
theorem C24_counterexample :
    type_complete_p scenario_array_of_vla.1 scenario_array_of_vla.2 = true
    ∧ type_array_vla_p scenario_array_of_vla.1 scenario_array_of_vla.2 = false
    ∧ type_compound_p scenario_array_of_vla.1 scenario_array_of_vla.2 = false
    ∧ ∀ fuel, type_known_const_size_p (fuel + 2) scenario_array_of_vla.1
        scenario_array_of_vla.2 = some false :=
  ⟨rfl, rfl, rfl, fun _ => rfl⟩

/-- C24 (amended): `type_known_const_size_p(t)` returns true exactly when `t` is
complete, is not a variable-length array, every member of `t` is of known
constant size if `t` is a struct or union, and the element of `t` is of known
constant size if `t` is an array. -/
theorem C24_known_const_size_iff (h : Heap) (t : type) :
    KnownConstSize h t ↔
      (type_complete_p h t = true ∧ type_array_vla_p h t = false
        ∧ (type_compound_p h t = true →
            ∀ m ∈ (base_members h t).getD [], KnownConstSize h m.typ)
        ∧ (type_array_p h t = true →
            ∃ e, type_array_element h t = some e ∧ KnownConstSize h e)) := by
  constructor
  · rintro ⟨n, hn⟩
    cases n with
    | zero => simp [type_known_const_size_p] at hn
    | succ n =>
      rw [type_known_const_size_p] at hn
      cases hc : type_complete_p h t
      · simp [hc] at hn
      simp only [hc, Bool.not_true, Bool.false_eq_true, if_false] at hn
      cases hcp : type_compound_p h t
      · simp only [hcp, Bool.false_eq_true, if_false, Option.pure_def, Option.bind_eq_bind,
          Option.some_bind, Bool.not_true] at hn
        cases ha : type_array_p h t
        · refine ⟨rfl, ?_, by simp, by simp⟩
          simp [type_array_vla_p, ha]
        · simp only [ha, if_true] at hn
          cases hv : type_array_vla_p h t
          · simp only [hv, Bool.false_eq_true, if_false] at hn
            cases he : type_array_element h t with
            | none => simp [he] at hn
            | some e =>
              simp only [he, Option.some_bind] at hn
              exact ⟨rfl, rfl, by simp, fun _ => ⟨e, rfl, n, hn⟩⟩
          · simp [hv] at hn
      · simp only [hcp, if_true, Option.pure_def, Option.bind_eq_bind] at hn
        cases hall : all_members (type_known_const_size_p n h) ((base_members h t).getD [])
          with
        | none => simp [hall] at hn
        | some r =>
          cases r
          · simp [hall] at hn
          simp only [hall, Option.some_bind, Bool.not_true, Bool.false_eq_true, if_false]
            at hn
          have hna : type_array_p h t = false := by
            simp only [type_compound_p, type_union_p, type_struct_p, type_has_class_p,
              Bool.or_eq_true, beq_iff_eq] at hcp
            simp only [type_array_p, type_has_class_p, beq_eq_false_iff_ne, ne_eq]
            rcases hcp with e | e <;> rw [← e] <;> decide
          refine ⟨rfl, by simp [type_array_vla_p, hna],
            fun _ m hm => ⟨n, all_members_true _ hall m hm⟩, by simp [hna]⟩
  · rintro ⟨hc, hv, hms, harr⟩
    cases hcp : type_compound_p h t
    · cases ha : type_array_p h t
      · refine ⟨1, ?_⟩
        simp [type_known_const_size_p, hc, hcp, ha]
      · obtain ⟨e, he, n, hn⟩ := harr ha
        refine ⟨n + 1, ?_⟩
        simp [type_known_const_size_p, hc, hcp, ha, hv, he, hn]
    · obtain ⟨n, hn⟩ := all_members_of_forall _ (hms hcp)
      have hna : type_array_p h t = false := by
        simp only [type_compound_p, type_union_p, type_struct_p, type_has_class_p,
          Bool.or_eq_true, beq_iff_eq] at hcp
        simp only [type_array_p, type_has_class_p, beq_eq_false_iff_ne, ne_eq]
        rcases hcp with e | e <;> rw [← e] <;> decide
      refine ⟨n + 1, ?_⟩
      simp [type_known_const_size_p, hc, hcp, hna, hn]

/-! ### Modifiable lvalues (C25) -/

/-- In an ordered heap the type of a member is older than the term. -/
theorem member_lt_self {h : Heap} (hord : h.ordered = true) {t : type}
    {m : type_member} (hm : m ∈ (base_members h t).getD []) : m.typ < t := by
  refine Nat.lt_of_lt_of_le (ordered_children hord (p := type_base h t) ?_) (base_le hord t)
  unfold base_members at hm
  split at hm
  · rename_i k tag ms hn
    rw [hn]
    simp only [Node.children, List.mem_map]
    exact ⟨m, hm, rfl⟩
  · rename_i ms v hn
    rw [hn]
    simp only [Node.children, List.mem_map]
    exact ⟨m, by simpa using hm, rfl⟩
  · simp at hm

theorem any_member_false {p : type → Option Bool} :
    ∀ (ms : List type_member), any_member p ms = some false →
      ∀ m ∈ ms, p m.typ = some false := by
  intro ms
  induction ms with
  | nil => intro _ m hm; simp at hm
  | cons x rest ih =>
    intro hall m hm
    rw [any_member] at hall
    cases hp : p x.typ with
    | none => simp [hp] at hall
    | some r =>
      cases r with
      | true => simp [hp] at hall
      | false =>
        simp only [hp] at hall
        rcases List.mem_cons.1 hm with e | e
        · rw [e]; exact hp
        · exact ih hall m e

theorem any_member_true {p : type → Option Bool} :
    ∀ (ms : List type_member), any_member p ms = some true →
      ∃ m ∈ ms, p m.typ = some true := by
  intro ms
  induction ms with
  | nil => intro hall; simp [any_member] at hall
  | cons x rest ih =>
    intro hall
    rw [any_member] at hall
    cases hp : p x.typ with
    | none => simp [hp] at hall
    | some r =>
      cases r with
      | true => exact ⟨x, by simp, hp⟩
      | false =>
        simp only [hp] at hall
        obtain ⟨m, hm, h1⟩ := ih hall
        exact ⟨m, by simp [hm], h1⟩

theorem any_member_returns {p : type → Option Bool} :
    ∀ (ms : List type_member), (∀ m ∈ ms, ∃ b, p m.typ = some b) →
      ∃ b, any_member p ms = some b := by
  intro ms
  induction ms with
  | nil => intro _; exact ⟨false, rfl⟩
  | cons x rest ih =>
    intro hall
    obtain ⟨b, hb⟩ := hall x (by simp)
    rw [any_member, hb]
    cases b with
    | true => exact ⟨true, rfl⟩
    | false => exact ih (fun m hm => hall m (by simp [hm]))

/-- Nothing is reached from a term that is no struct or union. -/
theorem reach_compound {h : Heap} {t x : type} (hr : MemberReach h t x) :
    type_compound_p h t = true := by
  cases hr with
  | member hc _ => exact hc
  | step hc _ _ => exact hc

/-- A call of `type_const_recurse_p` that returns false: neither the term nor
any member reached from it is const-qualified. -/
theorem const_recurse_false {h : Heap} : ∀ (n : Nat) (t : type),
    type_const_recurse_p n h t = some false →
      type_const_p h t = false ∧ ∀ x, MemberReach h t x → type_const_p h x = false := by
  intro n
  induction n with
  | zero => intro t hr; simp [type_const_recurse_p] at hr
  | succ n ih =>
    intro t hr
    rw [type_const_recurse_p] at hr
    cases hc : type_const_p h t
    · simp only [hc, Bool.false_eq_true, if_false] at hr
      refine ⟨rfl, ?_⟩
      cases hcp : type_compound_p h t
      · intro x hx
        rw [reach_compound hx] at hcp
        cases hcp
      · simp only [hcp, Bool.not_true, Bool.false_eq_true, if_false] at hr
        cases hco : type_complete_p h t
        · simp [hco] at hr
        simp only [hco, Bool.not_true, Bool.false_eq_true, if_false] at hr
        have hall := any_member_false _ hr
        intro x hx
        cases hx with
        | member _ hm => exact (ih _ (hall _ hm)).1
        | step _ hm hrest => exact (ih _ (hall _ hm)).2 x hrest
    · simp [hc] at hr

/-- A call of `type_const_recurse_p` that returns true: the term or a member
reached from it is const-qualified. -/
theorem const_recurse_true {h : Heap} : ∀ (n : Nat) (t : type),
    type_const_recurse_p n h t = some true →
      type_const_p h t = true ∨ ∃ x, MemberReach h t x ∧ type_const_p h x = true := by
  intro n
  induction n with
  | zero => intro t hr; simp [type_const_recurse_p] at hr
  | succ n ih =>
    intro t hr
    rw [type_const_recurse_p] at hr
    cases hc : type_const_p h t
    · simp only [hc, Bool.false_eq_true, if_false] at hr
      right
      cases hcp : type_compound_p h t
      · simp [hcp] at hr
      · simp only [hcp, Bool.not_true, Bool.false_eq_true, if_false] at hr
        cases hco : type_complete_p h t
        · simp [hco] at hr
        simp only [hco, Bool.not_true, Bool.false_eq_true, if_false] at hr
        obtain ⟨m, hm, h1⟩ := any_member_true _ hr
        rcases ih _ h1 with h2 | ⟨x, hx, h2⟩
        · exact ⟨m.typ, .member hcp hm, h2⟩
        · exact ⟨x, .step hcp hm hx, h2⟩
    · exact Or.inl rfl

/-- In an ordered heap `type_const_recurse_p` returns on every term from which
only complete structs and unions are reached, at every depth above the
address of the term. -/
theorem const_recurse_returns {h : Heap} (hord : h.ordered = true) : ∀ (t : type),
    (type_compound_p h t = true → type_complete_p h t = true) →
    (∀ x, MemberReach h t x → type_compound_p h x = true → type_complete_p h x = true) →
    ∀ n, t < n → ∃ b, type_const_recurse_p n h t = some b := by
  intro t
  induction t using Nat.strong_induction_on with
  | _ t ih =>
    intro hct hall n hn
    cases n with
    | zero => cases hn
    | succ n =>
      rw [type_const_recurse_p]
      cases hc : type_const_p h t
      · simp only [Bool.false_eq_true, if_false]
        cases hcp : type_compound_p h t
        · exact ⟨false, by simp⟩
        · simp only [Bool.not_true, Bool.false_eq_true, if_false, hct hcp]
          apply any_member_returns
          intro m hm
          have hlt := member_lt_self hord hm
          exact ih m.typ hlt (hall _ (.member hcp hm))
            (fun x hx => hall x (.step hcp hm hx)) n
            (Nat.lt_of_lt_of_le hlt (Nat.le_of_lt_succ hn))
      · exact ⟨true, by simp⟩

/-- C25: in a heap built by the constructors (children allocated before their
parents), for a term from which only complete structs and unions are reached
through members, `type_modifiable_p(t)` returns, and it returns true exactly
when `t` is complete, is not an array, is not const-qualified, and no member
reached by descending struct and union members is const-qualified. -/
theorem C25_modifiable_iff (h : Heap) (hord : h.ordered = true) (t : type)
    (hall : ∀ x, MemberReach h t x → type_compound_p h x = true →
      type_complete_p h x = true) :
    (∃ b, type_modifiable_p (t + 1) h t = some b)
    ∧ ((∃ fuel, type_modifiable_p fuel h t = some true) ↔
        (type_complete_p h t = true ∧ type_array_p h t = false ∧ type_const_p h t = false
          ∧ ∀ x, MemberReach h t x → type_const_p h x = false)) := by
  refine ⟨?_, ?_, ?_⟩
  · unfold type_modifiable_p
    cases ha : type_array_p h t
    · cases hc : type_complete_p h t
      · exact ⟨false, by simp⟩
      · obtain ⟨b, hb⟩ := const_recurse_returns hord t (fun _ => hc) hall (t + 1)
          (Nat.lt_succ_self t)
        exact ⟨!b, by simp [hb]⟩
    · exact ⟨false, by simp⟩
  · rintro ⟨fuel, hm⟩
    unfold type_modifiable_p at hm
    cases ha : type_array_p h t
    · cases hc : type_complete_p h t
      · simp [ha, hc] at hm
      · simp only [ha, hc, Bool.false_eq_true, if_false, Bool.not_true, Option.pure_def,
          Option.bind_eq_bind] at hm
        cases hr : type_const_recurse_p fuel h t with
        | none => simp [hr] at hm
        | some c =>
          cases c
          · obtain ⟨h1, h2⟩ := const_recurse_false fuel t hr
            exact ⟨rfl, rfl, h1, h2⟩
          · simp [hr] at hm
    · simp [ha] at hm
  · rintro ⟨hc, ha, hk, hno⟩
    obtain ⟨b, hb⟩ := const_recurse_returns hord t (fun _ => hc) hall (t + 1)
      (Nat.lt_succ_self t)
    refine ⟨t + 1, ?_⟩
    cases b
    · simp [type_modifiable_p, ha, hc, hb]
    · rcases const_recurse_true _ _ hb with h1 | ⟨x, hx, h1⟩
      · rw [hk] at h1; cases h1
      · rw [hno x hx] at h1; cases h1

/-- Witness for C25: `struct R { int a; int b; }` is modifiable, and
`struct Q { int a; struct I { const int c; } inner; }` is not: the member `c`
reached through `inner` is const-qualified. -/
theorem C25_witness :
    scenario_modifiable.1.ordered = true
    ∧ ((∃ fuel, type_modifiable_p fuel scenario_modifiable.1 4 = some true) ↔
        (type_complete_p scenario_modifiable.1 4 = true
          ∧ type_array_p scenario_modifiable.1 4 = false
          ∧ type_const_p scenario_modifiable.1 4 = false
          ∧ ∀ x, MemberReach scenario_modifiable.1 4 x →
              type_const_p scenario_modifiable.1 x = false))
    ∧ type_modifiable_p 5 scenario_modifiable.1 4 = some true
    ∧ type_modifiable_p 5 scenario_modifiable.1 3 = some false :=
  ⟨rfl,
    (C25_modifiable_iff scenario_modifiable.1 rfl 4 (by
      have e : (base_members scenario_modifiable.1 4).getD []
          = [⟨some "a", 0⟩, ⟨some "b", 0⟩] := rfl
      have hnc : type_compound_p scenario_modifiable.1 0 = false := rfl
      intro x hx hc
      cases hx with
      | member _ hm =>
        rw [e] at hm
        simp only [List.mem_cons, List.mem_singleton, List.not_mem_nil, or_false] at hm
        rcases hm with e1 | e1 <;> rw [e1] at hc <;> rw [hnc] at hc <;> cases hc
      | step _ hm hrest =>
        rw [e] at hm
        simp only [List.mem_cons, List.mem_singleton, List.not_mem_nil, or_false] at hm
        have := reach_compound hrest
        rcases hm with e1 | e1 <;> rw [e1] at this <;> rw [hnc] at this <;> cases this)).2,
    rfl, rfl⟩

/-! ### The modifier constructors (C22) -/

/-- The node `type_modify` allocates. -/
theorem modify_eq (h : Heap) (t : type) (f : Nat) :
    type_modify h t f
      = (h ++ [Node.modified (type_flags h t ||| f) (type_base h t) none], h.length) := by
  unfold type_modify type_flags type_base
  cases h.node t <;> simp [Heap.alloc]

/-- The node `type_bitfield` allocates. -/
theorem bitfield_eq (h : Heap) (t : type) (bits : Int) :
    type_bitfield h t bits
      = (h ++ [Node.modified (type_flags h t ||| BITFIELD) (type_base h t) (some bits)],
          h.length) := by
  unfold type_bitfield type_flags type_base
  cases h.node t <;> simp [Heap.alloc]

/-- A modified node allocated over the base of a valid term keeps the heap
ordered and flat, and its projections are the written fields. -/
theorem modified_append_facts {h : Heap} (hord : h.ordered = true) (hflat : h.flat = true)
    {t : type} (ht : t < h.length) (f : Nat) (bits : Option Int) :
    (h ++ [Node.modified f (type_base h t) bits]).ordered = true
    ∧ (h ++ [Node.modified f (type_base h t) bits]).flat = true
    ∧ type_base (h ++ [Node.modified f (type_base h t) bits]) h.length = type_base h t
    ∧ type_flags (h ++ [Node.modified f (type_base h t) bits]) h.length = f := by
  have hb : type_base h t < h.length := Nat.lt_of_le_of_lt (base_le hord t) ht
  refine ⟨ordered_append hord ?_, flat_append hord hflat rfl ?_, ?_, ?_⟩
  · intro q hq
    simp only [Node.children, List.mem_singleton] at hq
    rw [hq]; exact hb
  · intro f1 b1 bits1 e
    cases e
    exact ⟨hb, base_not_modified hflat t⟩
  · simp [type_base, node_append_new]
  · simp [type_flags, node_append_new]

/-- A node that is not a modified node, allocated over valid children, keeps
the heap ordered and flat. -/
theorem plain_append_facts {h : Heap} (hord : h.ordered = true) (hflat : h.flat = true)
    {n : Node} (hk : n.kind_ok = true) (hn : ∀ q ∈ n.children, q < h.length)
    (hm : ∀ f b bits, n ≠ .modified f b bits) :
    (h ++ [n]).ordered = true ∧ (h ++ [n]).flat = true :=
  ⟨ordered_append hord hn,
    flat_append hord hflat hk (fun f b bits e => absurd e (hm f b bits))⟩

/-- Every heap the constructors build is ordered and flat: a term is allocated
after its children, and the base of a modified node is never a modified node. -/
theorem built_ordered_flat {h : Heap} (hb : Built h) : h.ordered = true ∧ h.flat = true := by
  induction hb with
  | empty => exact ⟨rfl, rfl⟩
  | basic k _ hk ih =>
    exact plain_append_facts ih.1 ih.2 hk (by simp [Node.children]) (by simp)
  | void _ ih => exact plain_append_facts ih.1 ih.2 rfl (by simp [Node.children]) (by simp)
  | pointer _ ht ih =>
    exact plain_append_facts ih.1 ih.2 rfl (by simpa [Node.children] using ht) (by simp)
  | array N _ ht ih =>
    exact plain_append_facts ih.1 ih.2 rfl (by simpa [Node.children] using ht) (by simp)
  | incomplete_array _ ht ih =>
    exact plain_append_facts ih.1 ih.2 rfl (by simpa [Node.children] using ht) (by simp)
  | variable_array targ _ ht ih =>
    exact plain_append_facts ih.1 ih.2 rfl (by simpa [Node.children] using ht) (by simp)
  | arglist args _ hargs ih =>
    exact plain_append_facts ih.1 ih.2 rfl
      (by simpa [Node.children] using hargs) (by simp)
  | @function2 h ret args _ hret hargs ih =>
    have h1 := plain_append_facts (n := Node.arglist args false) ih.1 ih.2 rfl
      (by simpa [Node.children] using hargs) (by simp)
    exact plain_append_facts (n := Node.function ret (some h.length)) h1.1 h1.2 rfl
      (by
        intro q hq
        simp only [Node.children, Option.toList, List.mem_cons, List.mem_singleton,
          List.not_mem_nil, or_false] at hq
        rcases hq with e | e
        · rw [e, List.length_append]; exact Nat.lt_add_right _ hret
        · rw [e]; simp)
      (by simp)
  | @function h ret args _ hret hargs ih =>
    have h1 := plain_append_facts
      (n := Node.arglist (args.map fun a => (⟨none, a⟩ : type_member)) false) ih.1 ih.2 rfl
      (by
        intro q hq
        simp only [Node.children, List.map_map, List.mem_map, Function.comp] at hq
        obtain ⟨a, ha, e⟩ := hq
        rw [← e]; exact hargs a ha)
      (by simp)
    exact plain_append_facts (n := Node.function ret (some h.length)) h1.1 h1.2 rfl
      (by
        intro q hq
        simp only [Node.children, Option.toList, List.mem_cons, List.mem_singleton,
          List.not_mem_nil, or_false] at hq
        rcases hq with e | e
        · rw [e, List.length_append]; exact Nat.lt_add_right _ hret
        · rw [e]; simp)
      (by simp)
  | struct tag e _ he ih =>
    exact plain_append_facts ih.1 ih.2 rfl (by simpa [Node.children] using he) (by simp)
  | struct_inc tag _ ih =>
    exact plain_append_facts ih.1 ih.2 rfl (by simp [Node.children]) (by simp)
  | union tag e _ he ih =>
    exact plain_append_facts ih.1 ih.2 rfl (by simpa [Node.children] using he) (by simp)
  | union_inc tag _ ih =>
    exact plain_append_facts ih.1 ih.2 rfl (by simp [Node.children]) (by simp)
  | enum tag e _ ih =>
    exact plain_append_facts ih.1 ih.2 rfl (by simp [Node.children]) (by simp)
  | enum_inc tag _ ih =>
    exact plain_append_facts ih.1 ih.2 rfl (by simp [Node.children]) (by simp)
  | @unsigned h t _ ht ih =>
    unfold type_unsigned
    split
    · exact ih
    · rw [modify_eq]
      exact ⟨(modified_append_facts ih.1 ih.2 ht _ _).1,
        (modified_append_facts ih.1 ih.2 ht _ _).2.1⟩
  | @complex h t p _ ht hp ih =>
    unfold type_complex at hp
    split at hp
    · cases hp
      rw [modify_eq]
      exact ⟨(modified_append_facts ih.1 ih.2 ht _ _).1,
        (modified_append_facts ih.1 ih.2 ht _ _).2.1⟩
    · cases hp
  | atomic _ ht ih =>
    rw [type_atomic, modify_eq]
    exact ⟨(modified_append_facts ih.1 ih.2 ht _ _).1,
      (modified_append_facts ih.1 ih.2 ht _ _).2.1⟩
  | bitfield bits _ ht ih =>
    rw [bitfield_eq]
    exact ⟨(modified_append_facts ih.1 ih.2 ht _ _).1,
      (modified_append_facts ih.1 ih.2 ht _ _).2.1⟩
  | @unqualified h t _ ht ih =>
    rw [unqualified_eq ih.2]
    split
    · exact ih
    · split
      · exact ih
      · exact ⟨(modified_append_facts ih.1 ih.2 ht _ _).1,
          (modified_append_facts ih.1 ih.2 ht _ _).2.1⟩
  | const _ ht ih =>
    rw [type_const, modify_eq]
    exact ⟨(modified_append_facts ih.1 ih.2 ht _ _).1,
      (modified_append_facts ih.1 ih.2 ht _ _).2.1⟩
  | volatile _ ht ih =>
    rw [type_volatile, modify_eq]
    exact ⟨(modified_append_facts ih.1 ih.2 ht _ _).1,
      (modified_append_facts ih.1 ih.2 ht _ _).2.1⟩
  | restrict _ ht ih =>
    rw [type_restrict, modify_eq]
    exact ⟨(modified_append_facts ih.1 ih.2 ht _ _).1,
      (modified_append_facts ih.1 ih.2 ht _ _).2.1⟩
  | wide _ ht ih =>
    rw [type_wide, modify_eq]
    exact ⟨(modified_append_facts ih.1 ih.2 ht _ _).1,
      (modified_append_facts ih.1 ih.2 ht _ _).2.1⟩
/-- The result of `type_modify` on a valid term of a built heap, as it is
returned by the modifier constructors. -/
theorem modify_result {h : Heap} (hb : Built h) {t : type} (ht : t < h.length) (f : Nat)
    (hB : Built (type_modify h t f).1) :
    ModifierResult h t (type_flags h t ||| f) (type_modify h t f) := by
  obtain ⟨hord, hflat⟩ := built_ordered_flat hb
  have hf := modified_append_facts hord hflat ht (type_flags h t ||| f) none
  refine ⟨hB, ?_, ?_, ?_⟩
  · rw [modify_eq]; simp
  · rw [modify_eq]; exact hf.2.2.1
  · rw [modify_eq]; exact hf.2.2.2

/-- C22 (counterexample): `type_unsigned` applied to the basic term `_Bool`
returns the term itself, whose flag set is empty and not `{Unsigned}`; and
`type_complex` applied to the basic term `int` has no value (it asserts a
floating term). -/
theorem C22_counterexample :
    Built scenario_bool_int
    ∧ type_unsigned scenario_bool_int 0 = (scenario_bool_int, 0)
    ∧ type_flags (type_unsigned scenario_bool_int 0).1 (type_unsigned scenario_bool_int 0).2
        ≠ type_flags scenario_bool_int 0 ||| UNSIGNED
    ∧ type_complex scenario_bool_int 1 = none :=
  ⟨Built.basic TYPE_INT (Built.basic TYPE_BOOL Built.empty rfl) rfl, rfl, by decide, rfl⟩

/-- C22 (amended): in every heap the constructors build, the base of a term is
never a modified node, and for every term `t` of such a heap the modifier
constructors return a term of a heap of the same kind whose base is
`type_base(t)` and whose flag set is `flags(t) ∪ f`, where `type_unsigned`
returns `t` itself when `t` is already unsigned and `type_complex` returns
only for a floating `t`; `type_unqualified` returns a term whose base is
`type_base(t)` and whose flag set is `flags(t)` without the qualifiers. -/
theorem C22_modifier_results (h : Heap) (hb : Built h) (t : type) (ht : t < h.length) :
    (∀ x, (h.node (type_base h x)).kind ≠ TYPE_MODIFIED)
    ∧ ModifierResult h t (type_flags h t ||| ATOMIC) (type_atomic h t)
    ∧ ModifierResult h t (type_flags h t ||| CONST) (type_const h t)
    ∧ ModifierResult h t (type_flags h t ||| VOLATILE) (type_volatile h t)
    ∧ ModifierResult h t (type_flags h t ||| RESTRICT) (type_restrict h t)
    ∧ ModifierResult h t (type_flags h t ||| WIDE) (type_wide h t)
    ∧ (∀ bits, ModifierResult h t (type_flags h t ||| BITFIELD) (type_bitfield h t bits))
    ∧ (type_unsigned_p h t = false →
        ModifierResult h t (type_flags h t ||| UNSIGNED) (type_unsigned h t))
    ∧ (type_unsigned_p h t = true → type_unsigned h t = (h, t))
    ∧ (type_float_p h t = true →
        ∃ p, type_complex h t = some p ∧ ModifierResult h t (type_flags h t ||| COMPLEX) p)
    ∧ (type_float_p h t = false → type_complex h t = none)
    ∧ ModifierResult h t
        (type_flags h t &&& c_not32 (CONST ||| VOLATILE ||| RESTRICT ||| WIDE))
        (type_unqualified h t) := by
  obtain ⟨hord, hflat⟩ := built_ordered_flat hb
  refine ⟨base_not_modified hflat, modify_result hb ht _ (Built.atomic hb ht),
    modify_result hb ht _ (Built.const hb ht), modify_result hb ht _ (Built.volatile hb ht),
    modify_result hb ht _ (Built.restrict hb ht), modify_result hb ht _ (Built.wide hb ht),
    ?_, ?_, ?_, ?_, ?_, ?_⟩
  · intro bits
    have hf := modified_append_facts hord hflat ht (type_flags h t ||| BITFIELD) (some bits)
    refine ⟨Built.bitfield bits hb ht, ?_, ?_, ?_⟩
    · rw [bitfield_eq]; simp
    · rw [bitfield_eq]; exact hf.2.2.1
    · rw [bitfield_eq]; exact hf.2.2.2
  · intro hu
    have hB := Built.unsigned hb ht
    have e : type_unsigned h t = type_modify h t UNSIGNED := by simp [type_unsigned, hu]
    rw [e] at hB ⊢
    exact modify_result hb ht _ hB
  · intro hu
    simp [type_unsigned, hu]
  · intro hfl
    have e : type_complex h t = some (type_modify h t COMPLEX) := by simp [type_complex, hfl]
    exact ⟨_, e, modify_result hb ht _ (Built.complex hb ht e)⟩
  · intro hfl
    simp [type_complex, hfl]
  · have hB := Built.unqualified hb ht
    have hv := base_view hflat t
    rw [unqualified_eq hflat] at hB ⊢
    split
    · rename_i h0
      refine ⟨hb, ht, rfl, ?_⟩
      simp [h0]
    · split
      · rename_i h0 h1
        exact ⟨hb, Nat.lt_of_le_of_lt (base_le hord t) ht, hv.1, by rw [hv.2.1, h1]⟩
      · rename_i h0 h1
        rw [if_neg h0, if_neg h1] at hB
        have hf := modified_append_facts hord hflat ht
          (type_flags h t &&& c_not32 (CONST ||| VOLATILE ||| RESTRICT ||| WIDE)) none
        exact ⟨hB, by simp, hf.2.2.1, hf.2.2.2⟩

/-- Witness for C22: the heap of `const (unsigned : 3)` is built by the
constructors; `type_volatile` on the `const` bitfield (flags
`Unsigned | Const | Bitfield`, base `int`) returns a node with the base `int`
and the flags `Unsigned | Const | Volatile | Bitfield`. -/
theorem C22_witness :
    Built scenario_const_bitfield.1
    ∧ ModifierResult scenario_const_bitfield.1 3 (69 ||| VOLATILE)
        (type_volatile scenario_const_bitfield.1 3)
    ∧ type_base scenario_const_bitfield.1 3 = 0
    ∧ (type_volatile scenario_const_bitfield.1 3).1.node
        (type_volatile scenario_const_bitfield.1 3).2 = .modified 77 0 none :=
  have hb : Built scenario_const_bitfield.1 :=
    Built.unqualified (t := 3)
      (Built.const (t := 2)
        (Built.bitfield (t := 1) 3
          (Built.unsigned (t := 0) (Built.basic TYPE_INT Built.empty rfl) (by decide))
          (by decide))
        (by decide))
      (by decide)
  ⟨hb, (C22_modifier_results scenario_const_bitfield.1 hb 3 (by decide)).2.2.2.1, rfl, rfl⟩

/-! ### Idempotence of `type_unqualified` (C21) -/

/-- Removing the qualifiers twice is removing them once. -/
theorem unqualified_flags_idem (f : Nat) :
    (f &&& c_not32 (CONST ||| VOLATILE ||| RESTRICT ||| WIDE))
      &&& c_not32 (CONST ||| VOLATILE ||| RESTRICT ||| WIDE)
    = f &&& c_not32 (CONST ||| VOLATILE ||| RESTRICT ||| WIDE) := by
  rw [Nat.land_assoc, Nat.and_self]

/-- Two modified nodes with the same flags over the same unmodified base are
identical when they are atomic or the base is of an arithmetic kind. -/
theorem fresh_pair_identical {h : Heap} {b : type} (hb : b < h.length)
    (F : Nat) (bits1 bits2 : Option Int)
    (hk : c_bool (F &&& ATOMIC) = true ∨ arithmetic_kind (h.node b).kind = true) :
    type_identical_p 2 (h ++ [Node.modified F b bits1, Node.modified F b bits2])
      (h.length + 1) h.length = some true := by
  have hH : h ++ [Node.modified F b bits1] ++ [Node.modified F b bits2]
      = h ++ [Node.modified F b bits1, Node.modified F b bits2] := by simp
  have hnu : (h ++ [Node.modified F b bits1, Node.modified F b bits2]).node h.length
      = .modified F b bits1 := by
    rw [← hH, node_append_lt (by simp)]
    exact node_append_new h _
  have hnv : (h ++ [Node.modified F b bits1, Node.modified F b bits2]).node (h.length + 1)
      = .modified F b bits2 := by
    have := node_append_new (h ++ [Node.modified F b bits1]) (Node.modified F b bits2)
    rw [hH] at this
    simpa using this
  have hnb : (h ++ [Node.modified F b bits1, Node.modified F b bits2]).node b = h.node b :=
    node_append_list hb _
  obtain ⟨fu, bu, cu, au⟩ := modified_node_facts hnu
  obtain ⟨fv, bv, cv, av⟩ := modified_node_facts hnv
  rw [hnb] at cu cv
  have hne : h.length + 1 ≠ h.length := by omega
  rw [type_identical_p]
  cases hA : c_bool (F &&& ATOMIC) with
  | true =>
    have hcat1 : type_category (h ++ [Node.modified F b bits1, Node.modified F b bits2])
        h.length = TC_ATOMIC := by simp [type_category, au, hA]
    have hcat2 : type_category (h ++ [Node.modified F b bits1, Node.modified F b bits2])
        (h.length + 1) = TC_ATOMIC := by simp [type_category, av, hA]
    simp only [hne, if_false, fu, fv, cu, cv, hcat1, hcat2, ne_eq, not_true_eq_false, bu, bv]
    simp [type_identical_p]
  | false =>
    rw [hA] at hk
    have hkind : arithmetic_kind (h.node b).kind = true := by
      rcases hk with h1 | h1
      · cases h1
      · exact h1
    have h1 := category_of_arithmetic (H := h ++ [Node.modified F b bits1,
      Node.modified F b bits2]) (t := h.length) (by rw [au, hA]) (by rw [cu]; exact hkind)
    have h2 := category_of_arithmetic (H := h ++ [Node.modified F b bits1,
      Node.modified F b bits2]) (t := h.length + 1) (by rw [av, hA]) (by rw [cv]; exact hkind)
    simp only [hne, if_false, fu, fv, cu, cv, h1.1, h2.1, h2.2, ne_eq, not_true_eq_false,
      Bool.false_eq_true]

/-- C21: for every term `t` of a heap built by the constructors (children older
than parents, no nested modified node, the flags `Unsigned`, `Complex` and
`Bitfield` only over arithmetic kinds), `type_unqualified(type_unqualified(t))`
is identical (`type_identical_p` returns true) to `type_unqualified(t)`. -/
theorem C21_unqualified_idempotent (h : Heap) (hord : h.ordered = true)
    (hflat : h.flat = true) (hok : h.modifiers_ok = true) (t : type) (ht : t < h.length) :
    Identical (type_unqualified (type_unqualified h t).1 (type_unqualified h t).2).1
      (type_unqualified (type_unqualified h t).1 (type_unqualified h t).2).2
      (type_unqualified h t).2 := by
  have hv := base_view hflat t
  have hu := unqualified_eq hflat t
  by_cases hF0 : type_flags h t = 0
  · simp only [hF0, if_true] at hu
    rw [hu]
    simp only
    rw [hu]
    exact ⟨1, by simp [type_identical_p]⟩
  by_cases hF1 : type_flags h t &&& c_not32 (CONST ||| VOLATILE ||| RESTRICT ||| WIDE) = 0
  · simp only [hF0, hF1, if_true, if_false] at hu
    rw [hu]
    simp only
    have hu2 := unqualified_eq hflat (type_base h t)
    simp only [hv.2.1, if_true] at hu2
    rw [hu2]
    exact ⟨1, by simp [type_identical_p]⟩
  simp only [hF0, hF1, if_false] at hu
  have hbt : type_base h t < h.length := Nat.lt_of_le_of_lt (base_le hord t) ht
  have hf := modified_append_facts hord hflat ht
    (type_flags h t &&& c_not32 (CONST ||| VOLATILE ||| RESTRICT ||| WIDE)) none
  have hu2 := unqualified_eq hf.2.1 h.length
  rw [hf.2.2.1, hf.2.2.2, unqualified_flags_idem] at hu2
  simp only [hF1, if_false] at hu2
  rw [hu]
  simp only
  rw [hu2]
  simp only [List.length_append, List.length_singleton, List.append_assoc,
    List.singleton_append]
  have hxm : ∃ bits, h.node t = .modified (type_flags h t) (type_base h t) bits := by
    cases hnx : h.node t with
    | modified f b bits => exact ⟨bits, by simp [type_flags, type_base, hnx]⟩
    | _ => simp [type_flags, hnx] at hF0
  obtain ⟨bits, hxm⟩ := hxm
  refine ⟨2, fresh_pair_identical hbt _ none none ?_⟩
  rcases modifiers_ok_node hok hxm with h1 | h1 | h1
  · left
    rw [atomic_flag_unqualified]; exact h1
  · exact absurd h1 hF1
  · exact Or.inr h1

/-- Witness for C21: for `const (unsigned : 3)` the first call allocates the
node `Unsigned | Bitfield` over `int`, the second call a second such node, and
the two are identical. -/
theorem C21_witness :
    Identical
      (type_unqualified (type_unqualified scenario_const_bitfield.1 3).1
        (type_unqualified scenario_const_bitfield.1 3).2).1
      (type_unqualified (type_unqualified scenario_const_bitfield.1 3).1
        (type_unqualified scenario_const_bitfield.1 3).2).2
      (type_unqualified scenario_const_bitfield.1 3).2
    ∧ (type_unqualified (type_unqualified scenario_const_bitfield.1 3).1
        (type_unqualified scenario_const_bitfield.1 3).2).2 = 6
    ∧ (type_unqualified scenario_const_bitfield.1 3).2 = 5 :=
  ⟨C21_unqualified_idempotent scenario_const_bitfield.1 rfl rfl rfl 3 (by decide), rfl, rfl⟩

/-! ### `type_usual_conversion` returns (C28) -/

/-- C28: for valid arithmetic terms `a`, `b` that are not bitfields, in a heap
built by the constructors (ordered, no nested modified node),
`type_usual_conversion(a, b)` returns a term (at every call depth from 2 on).
When neither operand is floating, both promotions return, the chain of tests
after them returns one of the two promoted operands in the heap left by the
promotions (so neither the final fallback, which allocates the unsigned
version of the signed operand, nor the trailing `assert(0)` is reached), and
the result has a rank that is at least the rank 4 of `int`. -/
theorem C28_usual_conversion_returns (h : Heap) (hord : h.ordered = true)
    (hflat : h.flat = true) (a b : type) (ha : a < h.length) (hb : b < h.length)
    (haa : type_arithmetic_p h a = true) (hab : type_arithmetic_p h b = true)
    (hba : type_bitfield_p h a = false) (hbb : type_bitfield_p h b = false) (fuel : Nat) :
    ∃ p, type_usual_conversion (fuel + 2) h a b = some p
      ∧ (type_float_p h a = false → type_float_p h b = false →
          ∃ (pa pb : Heap × type) (r : Nat),
            type_int_promotion h a = some pa ∧ type_int_promotion pa.1 b = some pb
            ∧ p.1 = pb.1 ∧ (p.2 = pa.2 ∨ p.2 = pb.2)
            ∧ (usual_integer_chain pb.1 pa.2 pb.2 = some (pb.1, pa.2)
                ∨ usual_integer_chain pb.1 pa.2 pb.2 = some (pb.1, pb.2))
            ∧ type_rank p.1 p.2 = some r
            ∧ type_rank (type_basic p.1 TYPE_INT).1 (type_basic p.1 TYPE_INT).2 = some 4
            ∧ 4 ≤ r) := by
  have hint : ∀ H : Heap,
      type_rank (type_basic H TYPE_INT).1 (type_basic H TYPE_INT).2 = some 4 := by
    intro H
    exact (int_node_facts (h := (type_basic H TYPE_INT).1) (x := (type_basic H TYPE_INT).2)
      (by simp [type_basic, Heap.alloc, node_append_new])).2.2.2.2.2.2
  by_cases hfl : type_float_p h a = true ∨ type_float_p h b = true
  · refine ⟨_, usual_float_eq (fuel + 2) haa hab hfl, ?_⟩
    intro hfa hfb
    rcases hfl with e | e
    · rw [hfa] at e; cases e
    · rw [hfb] at e; cases e
  have hfa : type_float_p h a = false := by
    cases e : type_float_p h a
    · rfl
    · exact absurd (Or.inl e) hfl
  have hfb : type_float_p h b = false := by
    cases e : type_float_p h b
    · rfl
    · exact absurd (Or.inr e) hfl
  have hia : type_integer_p h a = true := by
    simpa [type_arithmetic_p, hfa] using haa
  have hib : type_integer_p h b = true := by
    simpa [type_arithmetic_p, hfb] using hab
  obtain ⟨ra, hra⟩ := rank_defined hflat hia
  obtain ⟨rb, hrb⟩ := rank_defined hflat hib
  obtain ⟨e1, e2, x, y, hpa, hpb, ho2, hf2, hx2, hy2, hrx, hry, hfx, hfy, hcx, hcy, hsx, hsy,
    hux, huy, _, _⟩ := usual_promotions hord hflat ha hb hia hib hba hbb hra hrb
  have hid := identical_integer_kinds hf2 (y := y) (by rw [hcx]; exact promoted_classify hra)
    fuel
  have hchain := usual_integer_chain_eq hrx hry hux huy
  have hor : (type_float_p h a || type_float_p h b) = false := by simp [hfa, hfb]
  have hsel : ∀ z : type, (z = x ∨ z = y) →
      usual_integer_chain (h ++ e1 ++ e2) x y = some (h ++ e1 ++ e2, z) →
      (usual_integer_chain (h ++ e1 ++ e2) x y = some (h ++ e1 ++ e2, x)
        ∨ usual_integer_chain (h ++ e1 ++ e2) x y = some (h ++ e1 ++ e2, y)) := by
    intro z hz hc
    rcases hz with e | e
    · left; rw [hc, e]
    · right; rw [hc, e]
  have hz : ∃ z : type, (z = x ∨ z = y)
      ∧ usual_integer_chain (h ++ e1 ++ e2) x y = some (h ++ e1 ++ e2, z) := by
    refine ⟨_, ?_, hchain⟩
    split
    · split
      · exact Or.inl rfl
      · exact Or.inr rfl
    · split
      · split
        · exact Or.inl rfl
        · exact Or.inr rfl
      · split
        · exact Or.inr rfl
        · exact Or.inl rfl
  obtain ⟨z, hzxy, hzc⟩ := hz
  have hrank : ∀ w : type, (w = x ∨ w = y) →
      ∃ r, type_rank (h ++ e1 ++ e2) w = some r ∧ 4 ≤ r := by
    intro w hw
    rcases hw with e | e
    · exact ⟨_, by rw [e]; exact hrx, Nat.le_max_right _ _⟩
    · exact ⟨_, by rw [e]; exact hry, Nat.le_max_right _ _⟩
  cases hi : (decide (x = y) || (decide (type_flags (h ++ e1 ++ e2) x
      = type_flags (h ++ e1 ++ e2) y)
      && decide (type_classify (h ++ e1 ++ e2) x = type_classify (h ++ e1 ++ e2) y)))
  · -- not identical: the chain decides
    rw [hi] at hid
    refine ⟨(h ++ e1 ++ e2, z), ?_, ?_⟩
    · simp only [type_usual_conversion, haa, hab, hor, Bool.not_true, Bool.false_eq_true,
        if_false, hpa, hpb, Option.some_bind, Option.bind_eq_bind, hid]
      exact hzc
    · intro _ _
      obtain ⟨r, hr, h4⟩ := hrank z hzxy
      exact ⟨(h ++ e1, x), (h ++ e1 ++ e2, y), r, hpa, hpb, rfl, hzxy, hsel z hzxy hzc, hr,
        hint _, h4⟩
  · -- identical: the first promoted operand
    rw [hi] at hid
    refine ⟨(h ++ e1 ++ e2, x), ?_, ?_⟩
    · simp only [type_usual_conversion, haa, hab, hor, Bool.not_true, Bool.false_eq_true,
        if_false, hpa, hpb, Option.some_bind, Option.bind_eq_bind, hid, if_true]
    · intro _ _
      obtain ⟨r, hr, h4⟩ := hrank x (Or.inl rfl)
      exact ⟨(h ++ e1, x), (h ++ e1 ++ e2, y), r, hpa, hpb, rfl, Or.inl rfl,
        hsel z hzxy hzc, hr, hint _, h4⟩

/-- Witness for C28: for `int` and `unsigned long` the conversion returns the
`unsigned long` operand, and for `_Atomic long` and `float` a fresh `float`. -/
theorem C28_witness :
    (∃ p, type_usual_conversion 2 scenario_arith 0 2 = some p
      ∧ (type_float_p scenario_arith 0 = false → type_float_p scenario_arith 2 = false →
          ∃ (pa pb : Heap × type) (r : Nat),
            type_int_promotion scenario_arith 0 = some pa
            ∧ type_int_promotion pa.1 2 = some pb
            ∧ p.1 = pb.1 ∧ (p.2 = pa.2 ∨ p.2 = pb.2)
            ∧ (usual_integer_chain pb.1 pa.2 pb.2 = some (pb.1, pa.2)
                ∨ usual_integer_chain pb.1 pa.2 pb.2 = some (pb.1, pb.2))
            ∧ type_rank p.1 p.2 = some r
            ∧ type_rank (type_basic p.1 TYPE_INT).1 (type_basic p.1 TYPE_INT).2 = some 4
            ∧ 4 ≤ r))
    ∧ (type_usual_conversion 2 scenario_arith 0 2).map (·.2) = some 2
    ∧ type_rank scenario_arith 2 = some 5
    ∧ (type_usual_conversion 2 scenario_arith 5 3).map (·.2) = some 6 :=
  ⟨C28_usual_conversion_returns scenario_arith rfl rfl 0 2 (by decide) (by decide) rfl rfl
    rfl rfl 0, rfl, rfl, rfl⟩

/-! ### Symmetry of `type_identical_p` and `type_compatible_p` (C29) -/

theorem lengths_ok_node {h : Heap} (hl : h.lengths_ok = true) {x : type} {l : Int}
    {e : type} {t : Option Nat} (hx : h.node x = .array l e t) : -2 ≤ l := by
  rcases node_mem_or_void h x with hm | hv
  · simp only [Heap.lengths_ok, List.all_eq_true] at hl
    have := hl _ hm
    rw [hx] at this
    simpa using this
  · rw [hv] at hx; cases hx

/-- In a flat heap a term classified as an array has an array node as base. -/
theorem array_of_classify {h : Heap} (hflat : h.flat = true) {t : type}
    (hc : type_classify h t = TYPE_ARRAY) :
    ∃ l e ta, h.node (type_base h t) = .array l e ta := by
  have hok := node_kind_ok hflat (type_base h t)
  unfold type_classify at hc
  cases hn : h.node (type_base h t) with
  | array l e ta => exact ⟨l, e, ta, rfl⟩
  | basic k =>
    rw [hn] at hc hok
    simp only [Node.kind] at hc
    subst hc
    simp [Node.kind_ok] at hok
  | compound k tag ms =>
    rw [hn] at hc hok
    simp only [Node.kind] at hc
    subst hc
    simp [Node.kind_ok] at hok
  | pointer r => rw [hn] at hc; cases hc
  | function r a => rw [hn] at hc; cases hc
  | arglist ms v => rw [hn] at hc; cases hc
  | arglist_null ms v => rw [hn] at hc; cases hc
  | enum tag ms => rw [hn] at hc; cases hc
  | modified f b bits => rw [hn] at hc; cases hc

theorem all_members_returns {p : type → Option Bool} :
    ∀ (ms : List type_member), (∀ m ∈ ms, ∃ b, p m.typ = some b) →
      ∃ b, all_members p ms = some b := by
  intro ms
  induction ms with
  | nil => intro _; exact ⟨true, rfl⟩
  | cons x rest ih =>
    intro hall
    obtain ⟨b, hb⟩ := hall x (by simp)
    rw [all_members, hb]
    cases b with
    | false => exact ⟨false, rfl⟩
    | true => exact ih (fun m hm => hall m (by simp [hm]))

/-- In an ordered heap the element of an array term is older than the term. -/
theorem element_lt_self {h : Heap} (hord : h.ordered = true) {t e : type}
    (he : type_array_element h t = some e) : e < t := by
  refine Nat.lt_of_lt_of_le (ordered_children hord (p := type_base h t) ?_) (base_le hord t)
  unfold type_array_element at he
  split at he <;> simp_all [Node.children]

/-- In an ordered heap the base of a term with flags is older than the term. -/
theorem base_lt_self {h : Heap} (hord : h.ordered = true) {t : type}
    (hf : type_flags h t ≠ 0) : type_base h t < t := by
  cases hn : h.node t with
  | modified f b bits =>
    have : type_base h t = b := by simp [type_base, hn]
    rw [this]
    apply ordered_children hord (p := t)
    rw [hn]; simp [Node.children]
  | _ => simp [type_flags, hn] at hf

/-- In an ordered flat heap `type_known_const_size_p` returns on every term, at
every depth above the address of the term. -/
theorem kcs_returns {h : Heap} (hord : h.ordered = true) (hflat : h.flat = true) :
    ∀ (t : type) (n : Nat), t < n → ∃ r, type_known_const_size_p n h t = some r := by
  intro t
  induction t using Nat.strong_induction_on with
  | _ t ih =>
    intro n hn
    cases n with
    | zero => cases hn
    | succ n =>
      have hle : t ≤ n := Nat.le_of_lt_succ hn
      rw [type_known_const_size_p]
      cases hc : type_complete_p h t
      · exact ⟨false, by simp⟩
      simp only [Bool.not_true, Bool.false_eq_true, if_false]
      have hmem : ∃ r, (if type_compound_p h t = true then
          all_members (type_known_const_size_p n h) ((base_members h t).getD [])
          else some true) = some r := by
        cases hcp : type_compound_p h t
        · exact ⟨true, by simp⟩
        · simp only [if_true]
          apply all_members_returns
          intro m hm
          have hlt := member_lt_self hord hm
          exact ih m.typ hlt n (Nat.lt_of_lt_of_le hlt hle)
      obtain ⟨r, hr⟩ := hmem
      rw [hr]
      cases r
      · exact ⟨false, by simp⟩
      simp only [Option.pure_def, Option.bind_eq_bind, Option.some_bind, Bool.not_true,
        Bool.false_eq_true, if_false]
      cases ha : type_array_p h t
      · exact ⟨true, by simp⟩
      cases hv : type_array_vla_p h t
      · have hcl : type_classify h t = TYPE_ARRAY := by
          simp only [type_array_p, type_has_class_p, beq_iff_eq] at ha
          exact ha.symm
        obtain ⟨l, e, ta, hnode⟩ := array_of_classify hflat hcl
        have he := (array_base_facts hnode).2.1
        have hlt := element_lt_self hord he
        obtain ⟨r, hr⟩ := ih e hlt n (Nat.lt_of_lt_of_le hlt hle)
        exact ⟨r, by simp [he, hr]⟩
      · exact ⟨false, by simp⟩
/-- In an ordered flat heap with well-formed array lengths, a term of known
constant size and a term that is not of known constant size are found not
identical. -/
theorem identical_false_of_kcs {h : Heap} (hord : h.ordered = true) (hflat : h.flat = true)
    (hlen : h.lengths_ok = true) :
    ∀ (x y : type), KnownConstSize h x → (∃ k, type_known_const_size_p k h y = some false) →
      ∃ m, type_identical_p m h x y = some false := by
  intro x
  induction x using Nat.strong_induction_on with
  | _ x ih =>
    intro y hkx hky
    obtain ⟨n, hn⟩ := hkx
    obtain ⟨k, hk⟩ := hky
    have hxy : x ≠ y := by
      intro e
      subst e
      exact absurd (kcs_det hn hk) (by decide)
    by_cases hf : type_flags h x = type_flags h y
    swap
    · exact ⟨1, by simp [type_identical_p, hxy, hf]⟩
    by_cases hc : type_classify h x = type_classify h y
    swap
    · exact ⟨1, by simp [type_identical_p, hxy, hf, hc]⟩
    have hcat := (same_flags_classify hflat hf hc).1
    by_cases hsimple : type_classify h x ≠ TYPE_ARRAY ∧ type_classify h x ≠ TYPE_STRUCT
        ∧ type_classify h x ≠ TYPE_UNION
    · exfalso
      have e := kcs_eq_simple hflat hf hc hsimple.1 hsimple.2.1 hsimple.2.2 (max n k)
      rw [kcs_steady (Nat.le_max_left n k) h x _ hn,
        kcs_steady (Nat.le_max_right n k) h y _ hk] at e
      cases e
    cases hat : type_atomic_p h x with
    | true =>
      -- atomic: the bases are compared
      have hfx : type_flags h x ≠ 0 := by
        intro e
        simp [type_atomic_p, e, c_bool] at hat
      have hcx : type_category h x = TC_ATOMIC := by simp [type_category, hat]
      have hkbx : KnownConstSize h (type_base h x) := ⟨n, by rw [kcs_base hflat]; exact hn⟩
      obtain ⟨m, hm⟩ := ih (type_base h x) (base_lt_self hord hfx) (type_base h y) hkbx
        ⟨k, by rw [kcs_base hflat]; exact hk⟩
      refine ⟨m + 1, ?_⟩
      rw [type_identical_p]
      simp only [hxy, if_false, hf, hc, ← hcat, hcx, ne_eq, not_true_eq_false]
      exact hm
    | false =>
      by_cases hst : type_classify h x = TYPE_STRUCT
      · refine ⟨1, ?_⟩
        have hcx : type_category h x = TC_STRUCT := by simp [type_category, hat, hst]
        rw [type_identical_p]
        simp only [hxy, if_false, hf, hc, ← hcat, hcx, ne_eq, not_true_eq_false]
      by_cases hun : type_classify h x = TYPE_UNION
      · refine ⟨1, ?_⟩
        have hcx : type_category h x = TC_UNION := by simp [type_category, hat, hun]
        rw [type_identical_p]
        simp only [hxy, if_false, hf, hc, ← hcat, hcx, ne_eq, not_true_eq_false]
      have har : type_classify h x = TYPE_ARRAY := by
        by_contra hna
        exact hsimple ⟨hna, hst, hun⟩
      have hcx : type_category h x = TC_ARRAY := by simp [type_category, hat, har]
      obtain ⟨lx, ex, tx, hnx⟩ := array_of_classify hflat har
      obtain ⟨ly, ey, ty, hny⟩ := array_of_classify hflat (hc ▸ har)
      obtain ⟨_, hex, hvx, hcox, _, _, hlx⟩ := array_base_facts hnx
      obtain ⟨_, hey, hvy, hcoy, _, _, hly⟩ := array_base_facts hny
      have h2x := lengths_ok_node hlen hnx
      have h2y := lengths_ok_node hlen hny
      cases n with
      | zero => simp [type_known_const_size_p] at hn
      | succ n =>
      cases k with
      | zero => simp [type_known_const_size_p] at hk
      | succ k =>
      rw [kcs_array_base hnx] at hn
      rw [kcs_array_base hny] at hk
      have hlx1 : lx ≠ -1 := by
        intro e; simp [e] at hn
      have hlx2 : lx ≠ -2 := by
        intro e; simp [e] at hn
      simp only [hlx1, hlx2, if_false] at hn
      by_cases hly2 : ly = -2
      · refine ⟨1, ?_⟩
        rw [type_identical_p]
        simp only [hxy, if_false, hf, hc, ← hcat, hcx, ne_eq, not_true_eq_false]
        have : type_array_vla_p h x ≠ type_array_vla_p h y := by
          rw [hvx, hvy]; simp [hlx2, hly2]
        simp [this]
      by_cases hly1 : ly = -1
      · refine ⟨1, ?_⟩
        rw [type_identical_p]
        simp only [hxy, if_false, hf, hc, ← hcat, hcx, ne_eq, not_true_eq_false]
        have hv : type_array_vla_p h x = type_array_vla_p h y := by
          rw [hvx, hvy]; simp [hlx2, hly2]
        have : type_complete_p h x ≠ type_complete_p h y := by
          rw [hcox, hcoy]; simp [hlx1, hly1]
        simp [hv, this]
      simp only [hly1, hly2, if_false] at hk
      have hv : type_array_vla_p h x = type_array_vla_p h y := by
        rw [hvx, hvy]; simp [hlx2, hly2]
      have hco : type_complete_p h x = type_complete_p h y := by
        rw [hcox, hcoy]; simp [hlx1, hly1]
      have hlx0 : 0 ≤ lx := by omega
      have hly0 : 0 ≤ ly := by omega
      simp only [hlx0, hly0, if_true] at hlx hly
      obtain ⟨m, hm⟩ := ih ex (element_lt_self hord hex) ey ⟨n, hn⟩ ⟨k, hk⟩
      refine ⟨max n m + 1, ?_⟩
      have hkx : type_known_const_size_p (max n m + 1) h x = some true := by
        rw [kcs_array_base hnx]
        simp only [hlx1, hlx2, if_false]
        exact kcs_steady (Nat.le_max_left n m) h ex _ hn
      rw [type_identical_p]
      simp only [hxy, if_false, hf, hc, ← hcat, hcx, ne_eq, not_true_eq_false, hv, hco, hkx,
        Option.some_bind, Option.bind_eq_bind, Bool.not_true, Bool.false_eq_true, hlx, hly,
        hex, hey]
      by_cases hll : lx = ly
      · simp only [hll, not_true_eq_false, if_false]
        exact identical_steady (Nat.le_max_right n m) h ex ey _ hm
      · simp [hll]

theorem all_identical_swap_false {h : Heap} (hflat : h.flat = true) {n : Nat}
    (ih : ∀ a b, type_identical_p n h a b = some false →
      ∃ m, type_identical_p m h b a = some false) :
    ∀ (as bs : List (Option type)),
      all_identical (type_identical_p n h) as bs = some false →
      ∃ M, all_identical (type_identical_p M h) bs as = some false := by
  intro as
  induction as with
  | nil => intro bs hab; cases bs <;> simp [all_identical] at hab
  | cons x as ihl =>
    intro bs hab
    cases bs with
    | nil => simp [all_identical] at hab
    | cons y bs =>
      rw [all_identical] at hab
      cases x with
      | none =>
        cases y with
        | none =>
          simp only [identical_args] at hab
          obtain ⟨M, hM⟩ := ihl bs hab
          exact ⟨M, by rw [all_identical]; simpa [identical_args] using hM⟩
        | some y => simp [identical_args] at hab
      | some x =>
        cases y with
        | none => simp [identical_args] at hab
        | some y =>
          simp only [identical_args] at hab
          cases hp : type_identical_p n h x y with
          | none => simp [hp] at hab
          | some r =>
            cases r with
            | false =>
              obtain ⟨m, hm⟩ := ih _ _ hp
              exact ⟨m, by rw [all_identical]; simp [identical_args, hm]⟩
            | true =>
              simp only [hp] at hab
              obtain ⟨M, hM⟩ := ihl bs hab
              refine ⟨max n M, ?_⟩
              rw [all_identical]
              simp only [identical_args]
              rw [identical_steady (Nat.le_max_left n M) h _ _ _
                (identical_symm hflat n _ _ hp)]
              exact all_identical_steady
                (fun a b => identical_steady (Nat.le_max_right n M) h a b) _ _ _ hM

/-- In an ordered flat heap with well-formed array lengths: when
`type_identical_p(a, b)` returns false, so does `type_identical_p(b, a)`. -/
theorem identical_swap_false {h : Heap} (hord : h.ordered = true) (hflat : h.flat = true)
    (hlen : h.lengths_ok = true) :
    ∀ (n : Nat) (a b : type), type_identical_p n h a b = some false →
      ∃ m, type_identical_p m h b a = some false := by
  intro n
  induction n with
  | zero => intro a b hid; simp [type_identical_p] at hid
  | succ n ih =>
    intro a b hid
    by_cases hab : a = b
    · subst hab; exact ⟨_, hid⟩
    have hba : ¬ b = a := fun hx => hab hx.symm
    by_cases hf : type_flags h a = type_flags h b
    swap
    · have hf1 : ¬ type_flags h b = type_flags h a := fun e => hf e.symm
      exact ⟨1, by simp [type_identical_p, hba, hf1]⟩
    by_cases hc : type_classify h a = type_classify h b
    swap
    · have hc1 : ¬ type_classify h b = type_classify h a := fun e => hc e.symm
      exact ⟨1, by simp [type_identical_p, hba, hf, hc1]⟩
    have hcat := (same_flags_classify hflat hf hc).1
    rw [type_identical_p] at hid
    simp only [hab, if_false, hf, hc, hcat, ne_eq, not_true_eq_false] at hid
    cases hcb : type_category h b with
    | TC_POINTER =>
      simp only [hcb] at hid
      cases hra : type_pointer_referenced h a with
      | none => simp [hra] at hid
      | some ra =>
        cases hrb : type_pointer_referenced h b with
        | none => simp [hra, hrb] at hid
        | some rb =>
          simp only [hra, hrb, Option.some_bind, Option.bind_eq_bind] at hid
          obtain ⟨m, hm⟩ := ih _ _ hid
          refine ⟨m + 1, ?_⟩
          rw [type_identical_p]
          simp only [hba, if_false, hf, hc, hcat, hcb, ne_eq, not_true_eq_false, hra, hrb,
            Option.some_bind, Option.bind_eq_bind]
          exact hm
    | TC_ARRAY =>
      simp only [hcb] at hid
      by_cases hv : type_array_vla_p h a = type_array_vla_p h b
      swap
      · have hv1 : ¬ type_array_vla_p h b = type_array_vla_p h a := fun e => hv e.symm
        refine ⟨1, ?_⟩
        rw [type_identical_p]
        simp [hba, hf, hc, hcat, hcb, hv1]
      by_cases hco : type_complete_p h a = type_complete_p h b
      swap
      · have hco1 : ¬ type_complete_p h b = type_complete_p h a := fun e => hco e.symm
        refine ⟨1, ?_⟩
        rw [type_identical_p]
        simp [hba, hf, hc, hcat, hcb, hv, hco1]
      simp only [hv, hco, not_true_eq_false, if_false] at hid
      have hclb : type_classify h b = TYPE_ARRAY := classify_of_category.2.1 hcb
      obtain ⟨la, ea, ta, hna⟩ := array_of_classify hflat (hc ▸ hclb)
      obtain ⟨lb, eb, tb, hnb⟩ := array_of_classify hflat hclb
      obtain ⟨_, hea, hva, hcoa, _, _, hla⟩ := array_base_facts hna
      obtain ⟨_, heb, hvb, hcob, _, _, hlb⟩ := array_base_facts hnb
      have h2a := lengths_ok_node hlen hna
      have h2b := lengths_ok_node hlen hnb
      obtain ⟨kb, hkb⟩ := kcs_returns hord hflat b (b + 1) (Nat.lt_succ_self b)
      cases kb with
      | false =>
        refine ⟨b + 1, ?_⟩
        rw [type_identical_p]
        simp [hba, hf, hc, hcat, hcb, hv, hco, hkb]
      | true =>
        have hkb1 := hkb
        rw [kcs_array_base hnb] at hkb1
        have hlb1 : lb ≠ -1 := by
          intro e; simp [e] at hkb1
        have hlb2 : lb ≠ -2 := by
          intro e; simp [e] at hkb1
        simp only [hlb1, hlb2, if_false] at hkb1
        have hla2 : la ≠ -2 := by
          intro e
          rw [hva, hvb] at hv
          simp [e, hlb2] at hv
        have hla1 : la ≠ -1 := by
          intro e
          rw [hcoa, hcob] at hco
          simp [e, hlb1] at hco
        have hla0 : 0 ≤ la := by omega
        have hlb0 : 0 ≤ lb := by omega
        simp only [hla0, hlb0, if_true] at hla hlb
        by_cases hll : lb = la
        swap
        · refine ⟨b + 1, ?_⟩
          rw [type_identical_p]
          simp [hba, hf, hc, hcat, hcb, hv, hco, hkb, hla, hlb, hll]
        have helem : ∃ m0, type_identical_p m0 h eb ea = some false := by
          cases hk : type_known_const_size_p (n + 1) h a with
          | none => simp [hk] at hid
          | some k =>
            cases k with
            | false =>
              rw [kcs_array_base hna] at hk
              simp only [hla1, hla2, if_false] at hk
              exact identical_false_of_kcs hord hflat hlen eb ea ⟨b, hkb1⟩ ⟨n, hk⟩
            | true =>
              simp only [hk, Option.some_bind, Option.bind_eq_bind, Bool.not_true,
                Bool.false_eq_true, if_false, hla, hlb, hll, not_true_eq_false, hea,
                heb] at hid
              exact ih _ _ hid
        obtain ⟨m0, hm0⟩ := helem
        refine ⟨max b m0 + 1, ?_⟩
        have hkb2 : type_known_const_size_p (max b m0 + 1) h b = some true :=
          kcs_steady (Nat.succ_le_succ (Nat.le_max_left b m0)) h b _ hkb
        rw [type_identical_p]
        simp only [hba, if_false, hf, hc, hcat, hcb, ne_eq, not_true_eq_false, hv, hco, hkb2,
          Option.some_bind, Option.bind_eq_bind, Bool.not_true, Bool.false_eq_true, hla, hlb,
          hll, hea, heb]
        exact identical_steady (Nat.le_max_right b m0) h eb ea _ hm0
    | TC_FUNCTION =>
      simp only [hcb] at hid
      cases hra : type_function_return h a with
      | none => simp [hra] at hid
      | some ra =>
        cases hrb : type_function_return h b with
        | none => simp [hra, hrb] at hid
        | some rb =>
          simp only [hra, hrb, Option.some_bind, Option.bind_eq_bind] at hid
          cases hr : type_identical_p n h ra rb with
          | none => simp [hr] at hid
          | some r =>
            cases r with
            | false =>
              obtain ⟨m, hm⟩ := ih _ _ hr
              refine ⟨m + 1, ?_⟩
              rw [type_identical_p]
              simp [hba, hf, hc, hcat, hcb, hra, hrb, hm]
            | true =>
              simp only [hr, Option.some_bind, Bool.not_true, Bool.false_eq_true,
                if_false] at hid
              cases hfa : type_function_arguments h a with
              | none => simp [hfa] at hid
              | some aa =>
                cases hfb : type_function_arguments h b with
                | none => simp [hfa, hfb] at hid
                | some ab =>
                  simp only [hfa, hfb, Option.some_bind] at hid
                  cases aa with
                  | none => cases ab <;> simp [identical_args] at hid
                  | some aa =>
                    cases ab with
                    | none => simp [identical_args] at hid
                    | some ab =>
                      simp only [identical_args] at hid
                      obtain ⟨m, hm⟩ := ih _ _ hid
                      refine ⟨max n m + 1, ?_⟩
                      rw [type_identical_p]
                      simp only [hba, if_false, hf, hc, hcat, hcb, ne_eq, not_true_eq_false,
                        hra, hrb, Option.some_bind, Option.bind_eq_bind, hfa, hfb,
                        identical_steady (Nat.le_max_left n m) h _ _ _
                          (identical_symm hflat n _ _ hr),
                        Bool.not_true, Bool.false_eq_true, identical_args]
                      exact identical_steady (Nat.le_max_right n m) h _ _ _ hm
    | TC_STRUCT =>
      refine ⟨1, ?_⟩
      rw [type_identical_p]
      simp [hba, hf, hc, hcat, hcb]
    | TC_UNION =>
      refine ⟨1, ?_⟩
      rw [type_identical_p]
      simp [hba, hf, hc, hcat, hcb]
    | TC_ATOMIC =>
      simp only [hcb] at hid
      obtain ⟨m, hm⟩ := ih _ _ hid
      refine ⟨m + 1, ?_⟩
      rw [type_identical_p]
      simp only [hba, if_false, hf, hc, hcat, hcb, ne_eq, not_true_eq_false]
      exact hm
    | TC_SELF =>
      simp only [hcb] at hid
      have harg : type_arglist_p h a = type_arglist_p h b := by
        simp [type_arglist_p, type_has_class_p, hc]
      cases hal : type_arglist_p h a with
      | false => simp [hal] at hid
      | true =>
        simp only [hal, if_true] at hid
        cases hna : type_member_count h a with
        | none => simp [hna] at hid
        | some na =>
          cases hnb : type_member_count h b with
          | none => simp [hna, hnb] at hid
          | some nb =>
            simp only [hna, hnb, Option.some_bind, Option.bind_eq_bind] at hid
            by_cases hnn : nb = na
            swap
            · refine ⟨1, ?_⟩
              rw [type_identical_p]
              simp [hba, hf, hc, hcat, hcb, ← harg, hal, hna, hnb, hnn]
            subst hnn
            simp only [not_true_eq_false, if_false] at hid
            obtain ⟨M, hM⟩ := all_identical_swap_false hflat (ih) _ _ hid
            refine ⟨M + 1, ?_⟩
            rw [type_identical_p]
            simp only [hba, if_false, hf, hc, hcat, hcb, ne_eq, not_true_eq_false, ← harg, hal,
              if_true, hna, hnb, Option.some_bind, Option.bind_eq_bind]
            exact hM

/-- In an ordered flat heap with well-formed array lengths: a result of
`type_identical_p(a, b)` is also the result of `type_identical_p(b, a)`. -/
theorem identical_swap {h : Heap} (hord : h.ordered = true) (hflat : h.flat = true)
    (hlen : h.lengths_ok = true) {n : Nat} {a b : type} {r : Bool}
    (hid : type_identical_p n h a b = some r) :
    ∃ m, type_identical_p m h b a = some r := by
  cases r with
  | true => exact ⟨n, identical_symm hflat n a b hid⟩
  | false => exact identical_swap_false hord hflat hlen n a b hid
theorem well_formed_parts {h : Heap} (hwf : h.well_formed = true) :
    h.ordered = true ∧ h.flat = true ∧ h.lengths_ok = true ∧ h.modifiers_ok = true := by
  simp only [Heap.well_formed, Bool.and_eq_true] at hwf
  exact ⟨hwf.1.1.1, hwf.1.1.2, hwf.1.2, hwf.2⟩

theorem lengths_ok_append {h : Heap} (hl : h.lengths_ok = true) {n : Node}
    (hn : ∀ l e t, n = .array l e t → -2 ≤ l) : (h ++ [n]).lengths_ok = true := by
  simp only [Heap.lengths_ok, List.all_eq_true] at hl ⊢
  intro x hx
  rw [List.mem_append] at hx
  rcases hx with hx | hx
  · exact hl x hx
  · simp only [List.mem_singleton] at hx
    subst hx
    cases x with
    | array l e t => simpa using hn l e t rfl
    | _ => rfl

theorem modifiers_ok_append {h : Heap} (hord : h.ordered = true)
    (hok : h.modifiers_ok = true) {n : Node}
    (hn : ∀ f b bits, n = .modified f b bits →
      b < h.length ∧ (c_bool (f &&& ATOMIC) = true
        ∨ f &&& c_not32 (CONST ||| VOLATILE ||| RESTRICT ||| WIDE) = 0
        ∨ arithmetic_kind (h.node b).kind = true)) :
    (h ++ [n]).modifiers_ok = true := by
  simp only [Heap.modifiers_ok, List.all_eq_true] at hok ⊢
  intro x hx
  rw [List.mem_append] at hx
  rcases hx with hx | hx
  · cases x with
    | modified f b bits =>
      have h1 := hok _ hx
      obtain ⟨i, hi, hget⟩ := List.mem_iff_getElem.mp hx
      have hnode : h.node i = .modified f b bits := by
        unfold Heap.node
        rw [List.getD_eq_getElem _ _ hi, hget]
      have hb : b < h.length := by
        have : b < i := ordered_children hord (p := i) (by rw [hnode]; simp [Node.children])
        exact Nat.lt_trans this hi
      simp only [node_append_lt hb]
      exact h1
    | _ => rfl
  · simp only [List.mem_singleton] at hx
    subst hx
    cases x with
    | modified f b bits =>
      obtain ⟨hb, h1⟩ := hn f b bits rfl
      simp only [node_append_lt hb]
      rcases h1 with h1 | h1 | h1
      · simp [h1]
      · simp [h1]
      · simp [h1]
    | _ => rfl

/-- The three outcomes of `type_unqualified` on a valid term of a well-formed
heap: the term or its base in the unchanged heap, or a fresh modified node
without qualifiers over the base, in a heap that is again well-formed. -/
theorem unqualified_cases {H : Heap} (hwf : H.well_formed = true) {x : type}
    (hx : x < H.length) :
    (∃ r, type_unqualified H x = (H, r) ∧ r < H.length
      ∧ (type_flags H x = 0
        ∨ type_flags H x &&& c_not32 (CONST ||| VOLATILE ||| RESTRICT ||| WIDE) = 0))
    ∨ (∃ F b, type_unqualified H x = (H ++ [Node.modified F b none], H.length)
        ∧ F = type_flags H x &&& c_not32 (CONST ||| VOLATILE ||| RESTRICT ||| WIDE)
        ∧ b = type_base H x
        ∧ type_flags H x ≠ 0 ∧ F ≠ 0 ∧ b < H.length
        ∧ (H.node b).kind ≠ TYPE_MODIFIED
        ∧ (c_bool (F &&& ATOMIC) = true ∨ arithmetic_kind (H.node b).kind = true)
        ∧ (H ++ [Node.modified F b none]).well_formed = true) := by
  obtain ⟨hord, hflat, hlen, hok⟩ := well_formed_parts hwf
  have hu := unqualified_eq hflat x
  have hbx : type_base H x < H.length := Nat.lt_of_le_of_lt (base_le hord x) hx
  by_cases hF0 : type_flags H x = 0
  · left
    simp only [hF0, if_true] at hu
    exact ⟨x, hu, hx, Or.inl hF0⟩
  by_cases hF1 : type_flags H x &&& c_not32 (CONST ||| VOLATILE ||| RESTRICT ||| WIDE) = 0
  · left
    simp only [hF0, hF1, if_true, if_false] at hu
    exact ⟨_, hu, hbx, Or.inr hF1⟩
  right
  simp only [hF0, hF1, if_false] at hu
  have hxm : ∃ bits, H.node x = .modified (type_flags H x) (type_base H x) bits := by
    cases hnx : H.node x with
    | modified f b bits => exact ⟨bits, by simp [type_flags, type_base, hnx]⟩
    | _ => simp [type_flags, hnx] at hF0
  obtain ⟨bits, hxm⟩ := hxm
  have hk : c_bool ((type_flags H x &&& c_not32 (CONST ||| VOLATILE ||| RESTRICT ||| WIDE))
      &&& ATOMIC) = true ∨ arithmetic_kind (H.node (type_base H x)).kind = true := by
    rcases modifiers_ok_node hok hxm with h1 | h1 | h1
    · left
      rw [atomic_flag_unqualified]; exact h1
    · exact absurd h1 hF1
    · exact Or.inr h1
  have hf := modified_append_facts hord hflat hx
    (type_flags H x &&& c_not32 (CONST ||| VOLATILE ||| RESTRICT ||| WIDE)) none
  refine ⟨_, _, hu, rfl, rfl, hF0, hF1, hbx, base_not_modified hflat x, hk, ?_⟩
  simp only [Heap.well_formed, Bool.and_eq_true]
  refine ⟨⟨⟨hf.1, hf.2.1⟩, lengths_ok_append hlen (by intro l e t hn; cases hn)⟩,
    modifiers_ok_append hord hok ?_⟩
  intro f b bits hn
  cases hn
  refine ⟨hbx, ?_⟩
  rcases hk with h1 | h1
  · exact Or.inl h1
  · exact Or.inr (Or.inr h1)

/-- The enum rule of `type_compatible_inner` answers false: an enum term is
never found compatible with the fresh basic `int`. -/
theorem enum_bridge_false {h : Heap} (hord : h.ordered = true) {x : type}
    (hx : x < h.length) (he : type_enum_p h x = true) (n : Nat) :
    type_compatible_inner (n + 1) (type_basic h TYPE_INT).1 x (type_basic h TYPE_INT).2 []
      = some false := by
  have hcl := classify_enum_append he (Node.basic TYPE_INT)
  have hfl := frame_flags hord [Node.basic TYPE_INT] hx
  obtain ⟨fi, _, ci, _⟩ := int_node_facts (h := h ++ [Node.basic TYPE_INT]) (x := h.length)
    (node_append_new h _)
  have hne : x ≠ h.length := Nat.ne_of_lt hx
  simp only [type_basic, Heap.alloc]
  rw [type_compatible_inner, type_identical_p]
  by_cases hf : type_flags h x = 0
  · have hbf : type_bitfield_p (h ++ [Node.basic TYPE_INT]) x = false := by
      simp [type_bitfield_p, hfl, hf, c_bool]
    simp [hne, hfl, hf, fi, hcl, ci, bits_differ, hbf]
  · simp [hne, hfl, hf, fi]

/-- The value of `type_compatible_p` on two distinct modified nodes whose field
`bits` is unwritten and which are atomic or lie over a base of an arithmetic
kind, in terms of their flags and bases. -/
theorem compatible_modified_pair {H : Heap} (hord : H.ordered = true) {p q : type} (hpq : p ≠ q) (hq : q < H.length)
    {F1 F2 : Nat} {b1 b2 : type}
    (hnp : H.node p = .modified F1 b1 none) (hnq : H.node q = .modified F2 b2 none)
    (hk1 : c_bool (F1 &&& ATOMIC) = true ∨ arithmetic_kind (H.node b1).kind = true)
    (n : Nat) :
    type_compatible_inner (n + 1) H p q []
      = if F1 ≠ F2 then some false
        else if (H.node b1).kind ≠ (H.node b2).kind then
          (if c_bool (F1 &&& BITFIELD) then none else some false)
        else if c_bool (F1 &&& ATOMIC) then
          match type_identical_p n H b1 b2 with
          | none => none
          | some true => some true
          | some false =>
            if c_bool (F1 &&& BITFIELD) then none
            else if (H.node b1).kind = TYPE_ENUM then (if n = 0 then none else some false)
            else some false
        else some true := by
  obtain ⟨fp, bp, cp, ap⟩ := modified_node_facts hnp
  obtain ⟨fq, bq, cq, aq⟩ := modified_node_facts hnq
  have hbfp : type_bitfield_p H p = c_bool (F1 &&& BITFIELD) := by simp [type_bitfield_p, fp]
  have hbits : type_bitfield_bits H p = none := by
    simp [type_bitfield_bits, hnp]
  have hbd : bits_differ H p q = if c_bool (F1 &&& BITFIELD) then none else some false := by
    simp [bits_differ, hbfp, hbits]
  rw [type_compatible_inner, type_identical_p]
  by_cases hF : F1 = F2
  swap
  · simp [hpq, fp, fq, hF]
  subst hF
  by_cases hK : (H.node b1).kind = (H.node b2).kind
  swap
  · simp only [hpq, if_false, fp, fq, cp, cq, hK, ne_eq, not_true_eq_false, not_false_eq_true,
      if_true, Option.pure_def, Option.bind_eq_bind, Option.some_bind, Bool.false_eq_true,
      hbd]
    cases c_bool (F1 &&& BITFIELD) <;> simp
  have hcat : type_category H p = type_category H q := by
    simp [type_category, ap, aq, cp, cq, hK]
  cases hA : c_bool (F1 &&& ATOMIC) with
  | true =>
    have hcp : type_category H p = TC_ATOMIC := by simp [type_category, ap, hA]
    have hep : type_enum_p H p = (TYPE_ENUM == (H.node b1).kind) := by
      simp [type_enum_p, type_has_class_p, cp]
    have heq : type_enum_p H q = (TYPE_ENUM == (H.node b1).kind) := by
      simp [type_enum_p, type_has_class_p, cq, hK]
    simp only [hpq, if_false, fp, fq, cp, cq, hK, ne_eq, not_true_eq_false, ← hcat, hcp, bp, bq,
      Option.pure_def, Option.bind_eq_bind, hbd, hep, heq, Bool.or_self, if_true]
    cases hid : type_identical_p n H b1 b2 with
    | none => simp
    | some i =>
      cases i with
      | true => simp
      | false =>
        simp only [Option.some_bind, Bool.false_eq_true, if_false]
        cases hB : c_bool (F1 &&& BITFIELD) with
        | true => simp
        | false =>
          simp only [Bool.false_eq_true, if_false, Option.some_bind]
          by_cases hE : (H.node b2).kind = TYPE_ENUM
          · have hE1 : (TYPE_ENUM == (H.node b2).kind) = true := by simp [hE]
            simp only [← hK, ← hK ▸ hE1, hK ▸ hE, if_true, Bool.not_true, Bool.false_eq_true,
              if_false]
            cases n with
            | zero => simp [type_compatible_inner]
            | succ n =>
              have := enum_bridge_false hord hq (x := q) (by rw [heq, hK]; exact hE1) n
              simp [this]
          · have hE1 : (TYPE_ENUM == (H.node b2).kind) = false := by
              simp only [beq_eq_false_iff_ne, ne_eq]
              exact fun e => hE e.symm
            simp [hE, hE1]
  | false =>
    rw [hA] at hk1
    have hkind : arithmetic_kind (H.node b1).kind = true := by
      rcases hk1 with h1 | h1
      · cases h1
      · exact h1
    have h1 := category_of_arithmetic (H := H) (t := p) (by rw [ap, hA]) (by rw [cp]; exact hkind)
    simp only [hpq, if_false, fp, fq, cp, cq, hK, ne_eq, not_true_eq_false, ← hcat, h1.1, h1.2,
      Bool.false_eq_true, Option.pure_def, Option.bind_eq_bind, Option.some_bind, if_true]
/-- The two temporaries of `type_compatible_p(type_unqualified(x),
type_unqualified(y))` in an ordered flat heap: each is the term or its base,
or a fresh modified node over the base. -/
theorem unqualified_pair_eq {H : Heap} (hord : H.ordered = true) (hflat : H.flat = true)
    {x y : type} (hx : x < H.length) (hy : y < H.length) :
    unqualified_pair H x y
      = if type_flags H x = 0
            ∨ type_flags H x &&& c_not32 (CONST ||| VOLATILE ||| RESTRICT ||| WIDE) = 0 then
          (if type_flags H y = 0
              ∨ type_flags H y &&& c_not32 (CONST ||| VOLATILE ||| RESTRICT ||| WIDE) = 0 then
            (H, (if type_flags H x = 0 then x else type_base H x),
              (if type_flags H y = 0 then y else type_base H y))
          else
            (H ++ [Node.modified
                (type_flags H y &&& c_not32 (CONST ||| VOLATILE ||| RESTRICT ||| WIDE))
                (type_base H y) none],
              (if type_flags H x = 0 then x else type_base H x), H.length))
        else
          (if type_flags H y = 0
              ∨ type_flags H y &&& c_not32 (CONST ||| VOLATILE ||| RESTRICT ||| WIDE) = 0 then
            (H ++ [Node.modified
                (type_flags H x &&& c_not32 (CONST ||| VOLATILE ||| RESTRICT ||| WIDE))
                (type_base H x) none],
              H.length, (if type_flags H y = 0 then y else type_base H y))
          else
            (H ++ [Node.modified
                (type_flags H x &&& c_not32 (CONST ||| VOLATILE ||| RESTRICT ||| WIDE))
                (type_base H x) none,
              Node.modified
                (type_flags H y &&& c_not32 (CONST ||| VOLATILE ||| RESTRICT ||| WIDE))
                (type_base H y) none],
              H.length, H.length + 1)) := by
  have hux := unqualified_eq hflat x
  have huy := unqualified_eq hflat y
  have hf1 := modified_append_facts hord hflat hx
    (type_flags H x &&& c_not32 (CONST ||| VOLATILE ||| RESTRICT ||| WIDE)) none
  have huy1 := unqualified_eq hf1.2.1 y
  rw [frame_flags hord _ hy, frame_base hord _ hy] at huy1
  unfold unqualified_pair
  by_cases hx0 : type_flags H x = 0
  · simp only [hx0, if_true] at hux
    rw [hux]
    simp only [huy, hx0, true_or, if_true]
    by_cases hy0 : type_flags H y = 0
    · simp [hy0]
    · by_cases hy1 : type_flags H y
          &&& c_not32 (CONST ||| VOLATILE ||| RESTRICT ||| WIDE) = 0
      · simp [hy0, hy1]
      · simp [hy0, hy1]
  by_cases hx1 : type_flags H x &&& c_not32 (CONST ||| VOLATILE ||| RESTRICT ||| WIDE) = 0
  · simp only [hx0, hx1, if_true, if_false] at hux
    rw [hux]
    simp only [huy, hx0, hx1, or_true, if_true, if_false]
    by_cases hy0 : type_flags H y = 0
    · simp [hy0]
    · by_cases hy1 : type_flags H y
          &&& c_not32 (CONST ||| VOLATILE ||| RESTRICT ||| WIDE) = 0
      · simp [hy0, hy1]
      · simp [hy0, hy1]
  simp only [hx0, hx1, if_false] at hux
  rw [hux]
  simp only [huy1, hx0, hx1, or_self, if_false]
  by_cases hy0 : type_flags H y = 0
  · simp [hy0]
  · by_cases hy1 : type_flags H y &&& c_not32 (CONST ||| VOLATILE ||| RESTRICT ||| WIDE) = 0
    · simp [hy0, hy1]
    · simp [hy0, hy1]

/-- Two modified nodes as `type_unqualified` allocates them, compared in two
extensions of the same heap and in the two orders: the results agree. -/
theorem modified_pair_swap {H : Heap} (hord : H.ordered = true) (hflat : H.flat = true)
    (hlen : H.lengths_ok = true) {e e1 : List Node}
    (ho : (H ++ e).ordered = true) (ho1 : (H ++ e1).ordered = true)
    {p q p1 q1 : type} (hpq : p ≠ q) (hpq1 : p1 ≠ q1)
    (hq : q < (H ++ e).length) (hq1 : q1 < (H ++ e1).length)
    {F1 F2 : Nat} {b1 b2 : type} (hb1 : b1 < H.length) (hb2 : b2 < H.length)
    (hnp : (H ++ e).node p = .modified F1 b1 none)
    (hnq : (H ++ e).node q = .modified F2 b2 none)
    (hnp1 : (H ++ e1).node p1 = .modified F2 b2 none)
    (hnq1 : (H ++ e1).node q1 = .modified F1 b1 none)
    (hk1 : c_bool (F1 &&& ATOMIC) = true ∨ arithmetic_kind (H.node b1).kind = true)
    (hk2 : c_bool (F2 &&& ATOMIC) = true ∨ arithmetic_kind (H.node b2).kind = true)
    {n : Nat} {r : Bool} (hc : type_compatible_inner n (H ++ e) p q [] = some r) :
    ∃ m, type_compatible_inner m (H ++ e1) p1 q1 [] = some r := by
  cases n with
  | zero => simp [type_compatible_inner] at hc
  | succ k =>
    have e1b1 : (H ++ e).node b1 = H.node b1 := node_append_list hb1 e
    have e1b2 : (H ++ e).node b2 = H.node b2 := node_append_list hb2 e
    have e2b1 : (H ++ e1).node b1 = H.node b1 := node_append_list hb1 e1
    have e2b2 : (H ++ e1).node b2 = H.node b2 := node_append_list hb2 e1
    rw [compatible_modified_pair ho hpq hq hnp hnq (by rw [e1b1]; exact hk1) k, e1b1, e1b2,
      frame_identical hord e k b1 b2 hb1 hb2] at hc
    have hgoal : ∀ m, type_compatible_inner (m + 1) (H ++ e1) p1 q1 []
        = if F2 ≠ F1 then some false
          else if (H.node b2).kind ≠ (H.node b1).kind then
            (if c_bool (F2 &&& BITFIELD) then none else some false)
          else if c_bool (F2 &&& ATOMIC) then
            match type_identical_p m H b2 b1 with
            | none => none
            | some true => some true
            | some false =>
              if c_bool (F2 &&& BITFIELD) then none
              else if (H.node b2).kind = TYPE_ENUM then (if m = 0 then none else some false)
              else some false
          else some true := by
      intro m
      rw [compatible_modified_pair ho1 hpq1 hq1 hnp1 hnq1 (by rw [e2b2]; exact hk2) m, e2b1,
        e2b2, frame_identical hord e1 m b2 b1 hb2 hb1]
    by_cases hF : F1 = F2
    swap
    · have hF1 : F2 ≠ F1 := fun e => hF e.symm
      simp only [hF, ne_eq, not_false_eq_true, if_true] at hc
      exact ⟨1, by rw [hgoal]; simp only [hF1, ne_eq, not_false_eq_true, if_true]; exact hc⟩
    subst hF
    by_cases hK : (H.node b1).kind = (H.node b2).kind
    swap
    · have hK1 : (H.node b2).kind ≠ (H.node b1).kind := fun e => hK e.symm
      simp only [ne_eq, not_true_eq_false, if_false, hK, not_false_eq_true, if_true] at hc
      exact ⟨1, by
        rw [hgoal]
        simp only [ne_eq, not_true_eq_false, if_false, hK1, not_false_eq_true, if_true]
        exact hc⟩
    simp only [ne_eq, not_true_eq_false, if_false, hK] at hc
    cases hA : c_bool (F1 &&& ATOMIC) with
    | false =>
      simp only [hA, Bool.false_eq_true, if_false] at hc
      exact ⟨1, by
        rw [hgoal]
        simp only [ne_eq, not_true_eq_false, if_false, hK, hA, Bool.false_eq_true]
        exact hc⟩
    | true =>
      simp only [hA, if_true] at hc
      cases hid : type_identical_p k H b1 b2 with
      | none => simp [hid] at hc
      | some i =>
        obtain ⟨m0, hm0⟩ := identical_swap hord hflat hlen hid
        cases i with
        | true =>
          simp only [hid] at hc
          exact ⟨m0 + 1, by
            rw [hgoal]
            simp only [ne_eq, not_true_eq_false, if_false, hK, hA, if_true, hm0]
            exact hc⟩
        | false =>
          simp only [hid] at hc
          cases hB : c_bool (F1 &&& BITFIELD) with
          | true => simp [hB] at hc
          | false =>
            simp only [hB, Bool.false_eq_true, if_false] at hc
            have hr : r = false := by
              by_cases hE : (H.node b2).kind = TYPE_ENUM
              · simp only [hE, if_true] at hc
                by_cases hk0 : k = 0
                · simp [hk0] at hc
                · simp only [hk0, if_false] at hc
                  exact (Option.some.inj hc).symm
              · simp only [hE, if_false] at hc
                exact (Option.some.inj hc).symm
            subst hr
            refine ⟨max m0 1 + 1, ?_⟩
            rw [hgoal]
            have hm1 : type_identical_p (max m0 1) H b2 b1 = some false :=
              identical_steady (Nat.le_max_left m0 1) H b2 b1 _ hm0
            have hne : max m0 1 ≠ 0 := by omega
            simp only [ne_eq, not_true_eq_false, if_false, hK, hA, if_true, hm1, hB,
              Bool.false_eq_true, hne, ite_self]

theorem node_append_two_fst (H : Heap) (a b : Node) : (H ++ [a, b]).node H.length = a := by
  have h1 : H ++ [a, b] = H ++ [a] ++ [b] := by simp
  rw [h1, node_append_lt (by simp)]
  exact node_append_new H a

theorem node_append_two_snd (H : Heap) (a b : Node) :
    (H ++ [a, b]).node (H.length + 1) = b := by
  have := node_append_new (H ++ [a]) b
  simpa using this

theorem ordered_append_two {H : Heap} (hord : H.ordered = true) {f1 f2 : Nat} {b1 b2 : type}
    (h1 : b1 < H.length) (h2 : b2 < H.length) :
    (H ++ [Node.modified f1 b1 none, Node.modified f2 b2 none]).ordered = true := by
  have ho1 : (H ++ [Node.modified f1 b1 none]).ordered = true :=
    ordered_append hord (by simpa [Node.children] using h1)
  have ho2 := ordered_append ho1 (n := Node.modified f2 b2 none) (by
    simp only [Node.children, List.mem_singleton, List.length_append, List.length_singleton]
    intro q hq
    rw [hq]
    exact Nat.lt_succ_of_lt h2)
  simpa using ho2

/-- The comparison of the two temporaries of
`type_compatible_p(type_unqualified(x), type_unqualified(y))` gives the result
of the comparison with `x` and `y` exchanged, provided `type_compatible_p` at
the depth of the callee has this property on every well-formed heap. -/
theorem unqualified_pair_swap {H : Heap} (hwf : H.well_formed = true) {x y : type}
    (hx : x < H.length) (hy : y < H.length) {n : Nat}
    (ih : ∀ (H1 : Heap), H1.well_formed = true → ∀ (a b : type) (r : Bool),
      a < H1.length → b < H1.length →
      type_compatible_inner n H1 a b [] = some r →
      ∃ m, type_compatible_inner m H1 b a [] = some r)
    {r : Bool}
    (hc : type_compatible_inner n (unqualified_pair H x y).1 (unqualified_pair H x y).2.1
      (unqualified_pair H x y).2.2 [] = some r) :
    ∃ m, type_compatible_inner m (unqualified_pair H y x).1 (unqualified_pair H y x).2.1
      (unqualified_pair H y x).2.2 [] = some r := by
  obtain ⟨hord, hflat, hlen, hok⟩ := well_formed_parts hwf
  have hrx : (if type_flags H x = 0 then x else type_base H x) < H.length := by
    split
    · exact hx
    · exact Nat.lt_of_le_of_lt (base_le hord x) hx
  have hry : (if type_flags H y = 0 then y else type_base H y) < H.length := by
    split
    · exact hy
    · exact Nat.lt_of_le_of_lt (base_le hord y) hy
  rw [unqualified_pair_eq hord hflat hx hy] at hc
  rw [unqualified_pair_eq hord hflat hy hx]
  by_cases cx : type_flags H x = 0
      ∨ type_flags H x &&& c_not32 (CONST ||| VOLATILE ||| RESTRICT ||| WIDE) = 0
  · by_cases cy : type_flags H y = 0
        ∨ type_flags H y &&& c_not32 (CONST ||| VOLATILE ||| RESTRICT ||| WIDE) = 0
    · simp only [cx, cy, if_true] at hc ⊢
      exact ih H hwf _ _ r hrx hry hc
    · simp only [cx, cy, if_true, if_false] at hc ⊢
      rcases unqualified_cases hwf hy with ⟨_, _, _, hcond⟩ | ⟨F, b, _, hF, hb, _, _, _, _, _, hwf1⟩
      · exact absurd hcond cy
      subst hF hb
      exact ih _ hwf1 _ _ r
        (by rw [List.length_append]; exact Nat.lt_add_right _ hrx) (by simp) hc
  · by_cases cy : type_flags H y = 0
        ∨ type_flags H y &&& c_not32 (CONST ||| VOLATILE ||| RESTRICT ||| WIDE) = 0
    · simp only [cx, cy, if_true, if_false] at hc ⊢
      rcases unqualified_cases hwf hx with ⟨_, _, _, hcond⟩ | ⟨F, b, _, hF, hb, _, _, _, _, _, hwf1⟩
      · exact absurd hcond cx
      subst hF hb
      exact ih _ hwf1 _ _ r (by simp)
        (by rw [List.length_append]; exact Nat.lt_add_right _ hry) hc
    · simp only [cx, cy, if_false] at hc ⊢
      rcases unqualified_cases hwf hx with ⟨_, _, _, hcond⟩
        | ⟨Fx, bx, _, hFx, hbx, _, _, hblx, _, hkx, _⟩
      · exact absurd hcond cx
      rcases unqualified_cases hwf hy with ⟨_, _, _, hcond⟩
        | ⟨Fy, bz, _, hFy, hby, _, _, hbly, _, hky, _⟩
      · exact absurd hcond cy
      subst hFx hbx hFy hby
      exact modified_pair_swap hord hflat hlen (ordered_append_two hord hblx hbly)
        (ordered_append_two hord hbly hblx) (Nat.ne_of_lt (Nat.lt_succ_self _))
        (Nat.ne_of_lt (Nat.lt_succ_self _)) (by simp) (by simp) hblx hbly
        (node_append_two_fst _ _ _) (node_append_two_snd _ _ _)
        (node_append_two_fst _ _ _) (node_append_two_snd _ _ _) hkx hky hc

theorem names_differ_comm (x y : Option String) : names_differ x y = names_differ y x := by
  cases x <;> cases y <;> simp [names_differ, bne, eq_comm]

theorem pair_seen_comm (a b : type) (v : Pairs) : pair_seen a b v = pair_seen b a v := by
  unfold pair_seen
  induction v with
  | nil => rfl
  | cons p v ih =>
    simp only [List.any_cons, ih]
    congr 1
    cases a == p.1 <;> cases b == p.2 <;> cases a == p.2 <;> cases b == p.1 <;> rfl

theorem pair_seen_cons_swap {v v1 : Pairs} (hv : ∀ x y, pair_seen x y v = pair_seen x y v1)
    (a b : type) : ∀ x y, pair_seen x y ((a, b) :: v) = pair_seen x y ((b, a) :: v1) := by
  intro x y
  have := hv x y
  simp only [pair_seen] at this
  simp only [pair_seen, List.any_cons, this]
  congr 1
  exact Bool.or_comm _ _

theorem bits_differ_comm {h : Heap} {a b : type} (hf : type_flags h a = type_flags h b) :
    bits_differ h a b = bits_differ h b a := by
  have hb : type_bitfield_p h a = type_bitfield_p h b := by simp [type_bitfield_p, hf]
  unfold bits_differ
  rw [← hb]
  cases type_bitfield_p h a
  · rfl
  · cases type_bitfield_bits h a <;> cases type_bitfield_bits h b <;>
      simp [bne, eq_comm]

/-- The members of a raw argument list are children of its node. -/
theorem raw_members_lt {h : Heap} (hord : h.ordered = true) {x : type}
    {ms : List type_member} (hm : raw_members h x = some ms) :
    ∀ m ∈ ms, m.typ < x := by
  intro m hmem
  apply ordered_children hord (p := x)
  unfold raw_members at hm
  split at hm
  · rename_i ms1 v hn
    cases hm
    rw [hn]
    simp only [Node.children, List.mem_map]
    exact ⟨m, hmem, rfl⟩
  · rename_i k tag ms1 hn
    cases hm
    rw [hn]
    simp only [Node.children, List.mem_map]
    exact ⟨m, hmem, rfl⟩
  · cases hm

/-- The types of the members of a raw argument list are children of its node. -/
theorem raw_types_lt {h : Heap} (hord : h.ordered = true) {x : type}
    {ms : List (Option type)} (hm : raw_types h x = some ms) :
    ∀ m, some m ∈ ms → m < x := by
  intro m hmem
  unfold raw_types at hm
  split at hm
  · rename_i ms1 v hn
    cases hm
    apply ordered_children hord (p := x)
    rw [hn]
    simp only [List.mem_map] at hmem
    obtain ⟨y, hy1, hy2⟩ := hmem
    simp only [Node.children, List.mem_filterMap]
    exact ⟨y, hy1, hy2⟩
  · cases hr : raw_members h x with
    | none => simp [hr] at hm
    | some rs =>
      simp only [hr, Option.map_some'] at hm
      cases hm
      simp only [List.mem_map, Option.some.injEq] at hmem
      obtain ⟨y, hy1, hy2⟩ := hmem
      subst hy2
      exact raw_members_lt hord hr y hy1

/-- The parameter loop of the function case with the operands exchanged. -/
theorem args_compatible_swap {H : Heap} {n : Nat}
    (hsw : ∀ (x y : type) (r : Bool), x < H.length → y < H.length →
      type_compatible_inner n (unqualified_pair H x y).1 (unqualified_pair H x y).2.1
        (unqualified_pair H x y).2.2 [] = some r →
      ∃ m, type_compatible_inner m (unqualified_pair H y x).1 (unqualified_pair H y x).2.1
        (unqualified_pair H y x).2.2 [] = some r) :
    ∀ (as bs : List (Option type)), (∀ m, some m ∈ as → m < H.length) →
      (∀ m, some m ∈ bs → m < H.length) → ∀ (r : Bool),
      args_compatible (fun h1 x y => type_compatible_inner n h1 x y []) H as bs = some r →
      ∃ M, args_compatible (fun h1 x y => type_compatible_inner M h1 x y []) H bs as
        = some r := by
  intro as
  induction as with
  | nil =>
    intro bs _ _ r hr
    cases bs <;> exact ⟨0, by simpa [args_compatible] using hr⟩
  | cons x as ihl =>
    intro bs hva hvb r hr
    cases bs with
    | nil => exact ⟨0, by simpa [args_compatible] using hr⟩
    | cons y bs =>
      rw [args_compatible] at hr
      cases x with
      | none => simp at hr
      | some x =>
      cases y with
      | none => simp at hr
      | some y =>
      simp only [Option.pure_def, Option.bind_eq_bind, Option.some_bind] at hr
      cases h1 : type_compatible_inner n (unqualified_pair H x y).1
          (unqualified_pair H x y).2.1 (unqualified_pair H x y).2.2 [] with
      | none => simp [h1] at hr
      | some r1 =>
        obtain ⟨m1, hm1⟩ := hsw _ _ _ (hva x (by simp)) (hvb y (by simp)) h1
        simp only [h1, Option.some_bind] at hr
        cases r1 with
        | false =>
          simp only [Bool.not_false, if_true] at hr
          have hr1 := Option.some.inj hr
          subst hr1
          exact ⟨m1, by rw [args_compatible]; simp [hm1]⟩
        | true =>
          simp only [Bool.not_true, Bool.false_eq_true, if_false] at hr
          obtain ⟨M, hM⟩ := ihl bs (fun m hm => hva m (by simp [hm]))
            (fun m hm => hvb m (by simp [hm])) r hr
          refine ⟨max m1 M, ?_⟩
          rw [args_compatible]
          simp only [Option.pure_def, Option.bind_eq_bind, Option.some_bind,
            compatible_inner_steady (Nat.le_max_left m1 M) _ _ _ _ _ hm1, Bool.not_true,
            Bool.false_eq_true, if_false]
          exact args_compatible_steady
            (fun h1 a b => compatible_inner_steady (Nat.le_max_right m1 M) h1 a b []) H _ _ _ hM

/-- The member loop of `struct_compatible_p` with the operands exchanged. -/
theorem members_compatible_swap {H : Heap} {n : Nat} {v2 v3 : Pairs}
    (hsw : ∀ (x y : type) (r : Bool), x < H.length → y < H.length →
      type_compatible_inner n H x y v2 = some r →
      ∃ m, type_compatible_inner m H y x v3 = some r) :
    ∀ (as bs : List type_member), (∀ m ∈ as, m.typ < H.length) →
      (∀ m ∈ bs, m.typ < H.length) → ∀ (r : Bool),
      members_compatible (type_compatible_inner n H) v2 as bs = some r →
      ∃ M, members_compatible (type_compatible_inner M H) v3 bs as = some r := by
  intro as
  induction as with
  | nil =>
    intro bs _ _ r hr
    cases bs <;> exact ⟨0, by simpa [members_compatible] using hr⟩
  | cons x as ihl =>
    intro bs hva hvb r hr
    cases bs with
    | nil => exact ⟨0, by simpa [members_compatible] using hr⟩
    | cons y bs =>
      rw [members_compatible] at hr
      cases hd : names_differ x.name y.name with
      | none => simp [hd] at hr
      | some d =>
        have hd1 : names_differ y.name x.name = some d := by rw [names_differ_comm]; exact hd
        simp only [hd, Option.pure_def, Option.bind_eq_bind, Option.some_bind] at hr
        cases d with
        | true =>
          simp only [if_true] at hr
          have hr1 := Option.some.inj hr
          subst hr1
          exact ⟨0, by rw [members_compatible]; simp [hd1]⟩
        | false =>
          simp only [Bool.false_eq_true, if_false] at hr
          cases h1 : type_compatible_inner n H x.typ y.typ v2 with
          | none => simp [h1] at hr
          | some r1 =>
            obtain ⟨m1, hm1⟩ := hsw _ _ _ (hva x (by simp)) (hvb y (by simp)) h1
            simp only [h1, Option.some_bind] at hr
            cases r1 with
            | false =>
              simp only [Bool.not_false, if_true] at hr
              have hr1 := Option.some.inj hr
              subst hr1
              exact ⟨m1, by rw [members_compatible]; simp [hd1, hm1]⟩
            | true =>
              simp only [Bool.not_true, Bool.false_eq_true, if_false] at hr
              obtain ⟨M, hM⟩ := ihl bs (fun m hm => hva m (by simp [hm]))
                (fun m hm => hvb m (by simp [hm])) r hr
              refine ⟨max m1 M, ?_⟩
              rw [members_compatible, hd1]
              simp only [Option.pure_def, Option.bind_eq_bind, Option.some_bind,
                Bool.false_eq_true, if_false,
                compatible_inner_steady (Nat.le_max_left m1 M) _ _ _ _ _ hm1, Bool.not_true]
              exact members_compatible_steady
                (fun a b v => compatible_inner_steady (Nat.le_max_right m1 M) H a b v) v3 _ _ _
                hM

/-- In a well-formed heap, a result of `type_compatible_inner(a, b)` is also the
result of `type_compatible_inner(b, a)`, the chains of visited pairs holding
the same pairs up to their orientation. -/
theorem compatible_swap : ∀ (n : Nat) (H : Heap), H.well_formed = true →
    ∀ (a b : type) (v v1 : Pairs) (r : Bool), a < H.length → b < H.length →
      (∀ x y, pair_seen x y v = pair_seen x y v1) →
      type_compatible_inner n H a b v = some r →
      ∃ m, type_compatible_inner m H b a v1 = some r := by
  intro n
  induction n with
  | zero => intro H _ a b v v1 r _ _ _ hc; simp [type_compatible_inner] at hc
  | succ n ih =>
    intro H hwf a b v v1 r ha hb hv hc
    obtain ⟨hord, hflat, hlen, hok⟩ := well_formed_parts hwf
    rw [type_compatible_inner] at hc
    cases hi : type_identical_p (n + 1) H a b with
    | none => simp [hi] at hc
    | some i =>
    obtain ⟨mi, hmi⟩ := identical_swap hord hflat hlen hi
    have hmi1 : ∀ M, mi ≤ M → type_identical_p M H b a = some i :=
      fun M hM => identical_steady hM H b a _ hmi
    simp only [hi, Option.pure_def, Option.bind_eq_bind, Option.some_bind] at hc
    cases i with
    | true =>
      simp only [if_true] at hc
      exact ⟨mi + 1, by
        rw [type_compatible_inner]
        simp only [hmi1 (mi + 1) (Nat.le_succ _), Option.pure_def, Option.bind_eq_bind,
          Option.some_bind, if_true]
        exact hc⟩
    | false =>
    simp only [Bool.false_eq_true, if_false] at hc
    by_cases hf : type_flags H a = type_flags H b
    swap
    · have hf1 : ¬ type_flags H b = type_flags H a := fun e => hf e.symm
      simp only [hf, ne_eq, not_false_eq_true, if_true] at hc
      exact ⟨mi + 1, by
        rw [type_compatible_inner]
        simp only [hmi1 (mi + 1) (Nat.le_succ _), Option.pure_def, Option.bind_eq_bind,
          Option.some_bind, Bool.false_eq_true, if_false, hf1, ne_eq, not_false_eq_true,
          if_true]
        exact hc⟩
    simp only [hf, ne_eq, not_true_eq_false, if_false] at hc
    cases hbd : bits_differ H a b with
    | none => simp [hbd] at hc
    | some d =>
    have hbd1 : bits_differ H b a = some d := by rw [← bits_differ_comm hf]; exact hbd
    simp only [hbd, Option.some_bind] at hc
    cases d with
    | true =>
      simp only [if_true] at hc
      exact ⟨mi + 1, by
        rw [type_compatible_inner]
        simp only [hmi1 (mi + 1) (Nat.le_succ _), Option.pure_def, Option.bind_eq_bind,
          Option.some_bind, Bool.false_eq_true, if_false, hf, ne_eq, not_true_eq_false,
          hbd1, if_true]
        exact hc⟩
    | false =>
    simp only [Bool.false_eq_true, if_false] at hc
    by_cases hcl : type_classify H a = type_classify H b
    swap
    · have hcl1 : ¬ type_classify H b = type_classify H a := fun e => hcl e.symm
      simp only [hcl, not_false_eq_true, if_true] at hc
      exact ⟨mi + 1, by
        rw [type_compatible_inner]
        simp only [hmi1 (mi + 1) (Nat.le_succ _), Option.pure_def, Option.bind_eq_bind,
          Option.some_bind, Bool.false_eq_true, if_false, hf, ne_eq, not_true_eq_false,
          hbd1, hcl1, not_false_eq_true, if_true]
        exact hc⟩
    have hcat := (same_flags_classify hflat hf hcl).1
    simp only [hcl, hcat, not_true_eq_false, if_false] at hc
    -- the common part of the exchanged call, at every sufficient depth
    have hpre : ∀ M, mi ≤ M + 1 → ∀ X : Option Bool,
        (match type_category H b with
          | TC_ARRAY => do
            let ea ← type_array_element H b
            let eb ← type_array_element H a
            let ie ← type_identical_p (M + 1) H ea eb
            if !ie then some false
            else do
              let ka ← type_known_const_size_p (M + 1) H b
              if !ka then some true
              else do
                let kb ← type_known_const_size_p (M + 1) H a
                if !kb then some true
                else do
                  let la ← type_array_length H b
                  let lb ← type_array_length H a
                  some (la == lb)
          | TC_FUNCTION => do
            let ra ← type_function_return H b
            let rb ← type_function_return H a
            let r ← type_compatible_inner M (unqualified_pair H ra rb).1
              (unqualified_pair H ra rb).2.1 (unqualified_pair H ra rb).2.2 []
            if !r then some false
            else do
              let argsa ← type_function_arguments H b
              let argsb ← type_function_arguments H a
              function_args_compatible
                (fun h1 x y => type_compatible_inner M h1 x y []) H argsa argsb
          | TC_STRUCT => struct_compatible_p (type_compatible_inner M H) H b a v1
          | TC_UNION => do
            let ta ← type_compound_tag H b
            let tb ← type_compound_tag H a
            some (ta == tb)
          | _ =>
            if type_enum_p H b || type_enum_p H a then
              type_compatible_inner M (type_basic H TYPE_INT).1
                (if !type_enum_p H b then b else a) (type_basic H TYPE_INT).2 []
            else some false) = X →
        type_compatible_inner (M + 1) H b a v1 = X := by
      intro M hM X hX
      rw [type_compatible_inner]
      simp only [hmi1 (M + 1) hM, Option.pure_def, Option.bind_eq_bind,
        Option.some_bind, Bool.false_eq_true, if_false, hf, ne_eq, not_true_eq_false,
        hbd1, hcl, hcat]
      simpa only [Option.pure_def, Option.bind_eq_bind] using hX
    have ih0 : ∀ (H1 : Heap), H1.well_formed = true → ∀ (x y : type) (r : Bool),
        x < H1.length → y < H1.length →
        type_compatible_inner n H1 x y [] = some r →
        ∃ m, type_compatible_inner m H1 y x [] = some r :=
      fun H1 hw x y r hx hy h1 => ih H1 hw x y [] [] r hx hy (fun _ _ => rfl) h1
    have hen : type_enum_p H a = type_enum_p H b := by
      simp [type_enum_p, type_has_class_p, hcl]
    -- the rule shared by the pointer, atomic and basic categories
    have hother : (if (type_enum_p H b || type_enum_p H b) = true then
          type_compatible_inner n (type_basic H TYPE_INT).1
            (if (!type_enum_p H b) = true then a else b) (type_basic H TYPE_INT).2 []
        else some false) = some r →
        ∃ m, (if (type_enum_p H b || type_enum_p H a) = true then
            type_compatible_inner m (type_basic H TYPE_INT).1
              (if (!type_enum_p H b) = true then b else a) (type_basic H TYPE_INT).2 []
          else some false) = some r ∧ mi ≤ m + 1 := by
      intro h1
      rw [hen]
      cases he : type_enum_p H b with
      | false =>
        simp only [he, Bool.or_self, Bool.false_eq_true, if_false] at h1 ⊢
        exact ⟨mi, h1, Nat.le_succ _⟩
      | true =>
        simp only [he, Bool.or_self, if_true, Bool.not_true, Bool.false_eq_true,
          if_false] at h1 ⊢
        cases n with
        | zero => simp [type_compatible_inner] at h1
        | succ k =>
          rw [enum_bridge_false hord hb he k] at h1
          exact ⟨mi + 1, by rw [enum_bridge_false hord ha (hen ▸ he) mi]; exact h1,
            Nat.le_succ_of_le (Nat.le_succ _)⟩
    cases hcb : type_category H b with
    | TC_POINTER =>
      simp only [hcb, hen] at hc
      obtain ⟨m, hm, hle⟩ := hother hc
      exact ⟨m + 1, hpre m hle _ (by simp only [hcb]; exact hm)⟩
    | TC_ATOMIC =>
      simp only [hcb, hen] at hc
      obtain ⟨m, hm, hle⟩ := hother hc
      exact ⟨m + 1, hpre m hle _ (by simp only [hcb]; exact hm)⟩
    | TC_SELF =>
      simp only [hcb, hen] at hc
      obtain ⟨m, hm, hle⟩ := hother hc
      exact ⟨m + 1, hpre m hle _ (by simp only [hcb]; exact hm)⟩
    | TC_UNION =>
      simp only [hcb] at hc
      cases hta : type_compound_tag H a with
      | none => simp [hta] at hc
      | some ta =>
        cases htb : type_compound_tag H b with
        | none => simp [hta, htb] at hc
        | some tb =>
          simp only [hta, htb, Option.some_bind] at hc
          refine ⟨mi + 1, hpre mi (Nat.le_succ _) _ ?_⟩
          simp only [hcb, hta, htb, Option.bind_eq_bind, Option.some_bind]
          rw [← hc]
          simp [eq_comm]
    | TC_STRUCT =>
      simp only [hcb] at hc
      unfold struct_compatible_p at hc
      have hps : pair_seen b a v1 = pair_seen a b v := by rw [pair_seen_comm, ← hv]
      cases hseen : pair_seen a b v with
      | true =>
        simp only [hseen, if_true] at hc
        refine ⟨mi + 1, hpre mi (Nat.le_succ _) _ ?_⟩
        simp only [hcb, struct_compatible_p, hps, hseen, if_true]
        exact hc
      | false =>
        simp only [hseen, Bool.false_eq_true, if_false] at hc
        cases hca : raw_compound H a with
        | none => simp [hca] at hc
        | some ca =>
        cases hcb2 : raw_compound H b with
        | none => simp [hca, hcb2] at hc
        | some cb =>
        simp only [hca, hcb2, Option.pure_def, Option.bind_eq_bind, Option.some_bind] at hc
        have hcc : (!type_complete_p H b || !type_complete_p H a)
            = (!type_complete_p H a || !type_complete_p H b) := Bool.or_comm _ _
        by_cases htag : ca.1 = cb.1
        swap
        · have htag1 : ¬ cb.1 = ca.1 := fun e => htag e.symm
          simp only [htag, ne_eq, not_false_eq_true, if_true] at hc
          refine ⟨mi + 1, hpre mi (Nat.le_succ _) _ ?_⟩
          simp only [hcb, struct_compatible_p, hps, hseen, Bool.false_eq_true, if_false, hca,
            hcb2, Option.pure_def, Option.bind_eq_bind, Option.some_bind, htag1, ne_eq,
            not_false_eq_true, if_true]
          exact hc
        simp only [htag, ne_eq, not_true_eq_false, if_false] at hc
        by_cases hcomp : (!type_complete_p H a || !type_complete_p H b) = true
        · simp only [hcomp, if_true] at hc
          refine ⟨mi + 1, hpre mi (Nat.le_succ _) _ ?_⟩
          simp only [hcb, struct_compatible_p, hps, hseen, Bool.false_eq_true, if_false, hca,
            hcb2, Option.pure_def, Option.bind_eq_bind, Option.some_bind, htag, ne_eq,
            not_true_eq_false, hcc, hcomp, if_true]
          exact hc
        simp only [hcomp, if_false] at hc
        by_cases hl : (ca.2.getD []).length = (cb.2.getD []).length
        swap
        · have hl1 : ¬ (cb.2.getD []).length = (ca.2.getD []).length := fun e => hl e.symm
          simp only [hl, ne_eq, not_false_eq_true, if_true] at hc
          refine ⟨mi + 1, hpre mi (Nat.le_succ _) _ ?_⟩
          simp only [hcb, struct_compatible_p, hps, hseen, Bool.false_eq_true, if_false, hca,
            hcb2, Option.pure_def, Option.bind_eq_bind, Option.some_bind, htag, ne_eq,
            not_true_eq_false, hcc, hcomp, hl1, not_false_eq_true, if_true]
          exact hc
        simp only [hl, ne_eq, not_true_eq_false, if_false] at hc
        have hva : ∀ m ∈ ca.2.getD [], m.typ < H.length := fun m hm =>
          Nat.lt_trans (ordered_children hord (raw_compound_children hca m hm)) ha
        have hvb : ∀ m ∈ cb.2.getD [], m.typ < H.length := fun m hm =>
          Nat.lt_trans (ordered_children hord (raw_compound_children hcb2 m hm)) hb
        obtain ⟨M, hM⟩ := members_compatible_swap
          (fun x y r hx hy h1 => ih H hwf x y _ _ r hx hy (pair_seen_cons_swap hv a b) h1)
          _ _ hva hvb r hc
        refine ⟨max mi M + 1, hpre (max mi M)
          (Nat.le_succ_of_le (Nat.le_max_left mi M)) _ ?_⟩
        simp only [hcb, struct_compatible_p, hps, hseen, Bool.false_eq_true, if_false, hca,
          hcb2, Option.pure_def, Option.bind_eq_bind, Option.some_bind, htag, ne_eq,
          not_true_eq_false, hcc, hcomp, hl]
        exact members_compatible_steady
          (fun x y w => compatible_inner_steady (Nat.le_max_right mi M) H x y w) _ _ _ _ hM
    | TC_ARRAY =>
      simp only [hcb] at hc
      cases hea : type_array_element H a with
      | none => simp [hea] at hc
      | some ea =>
      cases heb : type_array_element H b with
      | none => simp [hea, heb] at hc
      | some eb =>
      simp only [hea, heb, Option.some_bind] at hc
      cases hie : type_identical_p (n + 1) H ea eb with
      | none => simp [hie] at hc
      | some ie =>
      obtain ⟨me, hme⟩ := identical_swap hord hflat hlen hie
      simp only [hie, Option.some_bind] at hc
      cases ie with
      | false =>
        simp only [Bool.not_false, if_true] at hc
        refine ⟨max mi me + 1, hpre (max mi me)
          (Nat.le_succ_of_le (Nat.le_max_left mi me)) _ ?_⟩
        simp only [hcb, hea, heb, Option.pure_def, Option.bind_eq_bind, Option.some_bind,
          identical_steady (Nat.le_succ_of_le (Nat.le_max_right mi me)) H eb ea _ hme,
          Bool.not_false, if_true]
        exact hc
      | true =>
      simp only [Bool.not_true, Bool.false_eq_true, if_false] at hc
      obtain ⟨kb, hkb⟩ := kcs_returns hord hflat b (b + 1) (Nat.lt_succ_self b)
      cases hka : type_known_const_size_p (n + 1) H a with
      | none => simp [hka] at hc
      | some ka =>
      simp only [hka, Option.some_bind] at hc
      have hM1 : mi ≤ max (max mi me) (max n b) + 1 :=
        Nat.le_succ_of_le (Nat.le_trans (Nat.le_max_left mi me) (Nat.le_max_left _ _))
      have hM2 : me ≤ max (max mi me) (max n b) + 1 :=
        Nat.le_succ_of_le (Nat.le_trans (Nat.le_max_right mi me) (Nat.le_max_left _ _))
      have hM3 : n + 1 ≤ max (max mi me) (max n b) + 1 :=
        Nat.succ_le_succ (Nat.le_trans (Nat.le_max_left n b) (Nat.le_max_right _ _))
      have hM4 : b + 1 ≤ max (max mi me) (max n b) + 1 :=
        Nat.succ_le_succ (Nat.le_trans (Nat.le_max_right n b) (Nat.le_max_right _ _))
      refine ⟨max (max mi me) (max n b) + 1, hpre _ hM1 _ ?_⟩
      simp only [hcb, hea, heb, Option.pure_def, Option.bind_eq_bind, Option.some_bind,
        identical_steady hM2 H eb ea _ hme, Bool.not_true, Bool.false_eq_true, if_false,
        kcs_steady hM4 H b _ hkb, kcs_steady hM3 H a _ hka]
      cases kb with
      | false =>
        simp only [Bool.not_false, if_true]
        cases ka with
        | false => simpa using hc
        | true =>
          simp only [Bool.not_true, Bool.false_eq_true, if_false] at hc
          cases hkb2 : type_known_const_size_p (n + 1) H b with
          | none => simp [hkb2] at hc
          | some kb2 =>
            have := kcs_det hkb hkb2
            subst this
            simpa [hkb2] using hc
      | true =>
        simp only [Bool.not_true, Bool.false_eq_true, if_false]
        cases ka with
        | false => simpa using hc
        | true =>
          simp only [Bool.not_true, Bool.false_eq_true, if_false] at hc ⊢
          cases hkb2 : type_known_const_size_p (n + 1) H b with
          | none => simp [hkb2] at hc
          | some kb2 =>
            have := kcs_det hkb hkb2
            subst this
            simp only [hkb2, Option.some_bind, Bool.not_true, Bool.false_eq_true,
              if_false] at hc
            cases hla : type_array_length H a with
            | none => simp [hla] at hc
            | some la =>
              cases hlb : type_array_length H b with
              | none => simp [hla, hlb] at hc
              | some lb =>
                simp only [hla, hlb, Option.some_bind] at hc ⊢
                rw [← hc]
                simp [eq_comm]
    | TC_FUNCTION =>
      simp only [hcb] at hc
      cases hra : type_function_return H a with
      | none => simp [hra] at hc
      | some ra =>
      cases hrb : type_function_return H b with
      | none => simp [hra, hrb] at hc
      | some rb =>
      simp only [hra, hrb, Option.some_bind] at hc
      have hvra : ra < H.length := return_lt hord ha hra
      have hvrb : rb < H.length := return_lt hord hb hrb
      cases h1 : type_compatible_inner n (unqualified_pair H ra rb).1
          (unqualified_pair H ra rb).2.1 (unqualified_pair H ra rb).2.2 [] with
      | none => simp [h1] at hc
      | some r1 =>
      obtain ⟨m1, hm1⟩ := unqualified_pair_swap hwf hvra hvrb ih0 h1
      simp only [h1, Option.some_bind] at hc
      cases r1 with
      | false =>
        simp only [Bool.not_false, if_true] at hc
        refine ⟨max mi m1 + 1, hpre (max mi m1)
          (Nat.le_succ_of_le (Nat.le_max_left mi m1)) _ ?_⟩
        simp only [hcb, hra, hrb, Option.pure_def, Option.bind_eq_bind, Option.some_bind,
          compatible_inner_steady (Nat.le_max_right mi m1) _ _ _ _ _ hm1,
          Bool.not_false, if_true]
        exact hc
      | true =>
      simp only [Bool.not_true, Bool.false_eq_true, if_false] at hc
      cases hfa : type_function_arguments H a with
      | none => simp [hfa] at hc
      | some aa =>
      cases hfb : type_function_arguments H b with
      | none => simp [hfa, hfb] at hc
      | some ab =>
      simp only [hfa, hfb, Option.some_bind] at hc
      have hargs : ∃ M, function_args_compatible
          (fun h1 x y => type_compatible_inner M h1 x y []) H ab aa = some r := by
        cases aa with
        | none =>
          cases ab <;> exact ⟨0, by simpa [function_args_compatible] using hc⟩
        | some aa =>
          cases ab with
          | none => exact ⟨0, by simpa [function_args_compatible] using hc⟩
          | some ab =>
            simp only [function_args_compatible] at hc ⊢
            cases hma : raw_types H aa with
            | none => simp [hma] at hc
            | some msa =>
              cases hmb : raw_types H ab with
              | none => simp [hma, hmb] at hc
              | some msb =>
                simp only [hma, hmb, Option.pure_def, Option.bind_eq_bind,
                  Option.some_bind] at hc ⊢
                by_cases hl : msa.length = msb.length
                swap
                · have hl1 : ¬ msb.length = msa.length := fun e => hl e.symm
                  simp only [hl, ne_eq, not_false_eq_true, if_true] at hc
                  exact ⟨0, by simpa [hl1] using hc⟩
                simp only [hl, ne_eq, not_true_eq_false, if_false] at hc ⊢
                have hvaa : aa < H.length := arguments_lt hord ha hfa
                have hvab : ab < H.length := arguments_lt hord hb hfb
                exact args_compatible_swap
                  (fun x y r hx hy h2 => unqualified_pair_swap hwf hx hy ih0 h2) _ _
                  (fun m hm => Nat.lt_trans (raw_types_lt hord hma m hm) hvaa)
                  (fun m hm => Nat.lt_trans (raw_types_lt hord hmb m hm) hvab) r hc
      obtain ⟨M, hM⟩ := hargs
      refine ⟨max (max mi m1) M + 1, hpre _
        (Nat.le_succ_of_le (Nat.le_trans (Nat.le_max_left mi m1) (Nat.le_max_left _ _))) _ ?_⟩
      simp only [hcb, hra, hrb, Option.pure_def, Option.bind_eq_bind, Option.some_bind,
        compatible_inner_steady
          (Nat.le_trans (Nat.le_max_right mi m1) (Nat.le_max_left _ M)) _ _ _ _ _ hm1,
        Bool.not_true, Bool.false_eq_true, if_false, hfa, hfb]
      exact function_args_compatible_steady
        (fun h1 x y => compatible_inner_steady (Nat.le_max_right (max mi m1) M) h1 x y [])
        H _ _ _ hM

/-- C29: for terms `a`, `b` of a heap built by the constructors that satisfies
the invariants of the data model (children older than parents, no nested
modified node, array lengths at least `-2`, the flags `Unsigned`, `Complex`,
`Bitfield` only over arithmetic kinds), `type_compatible_p(a, b)` and
`type_compatible_p(b, a)` have the same result: one call returns the value `r`
exactly when the other does; likewise `type_identical_p`. -/
theorem C29_symmetric (h : Heap) (hord : h.ordered = true) (hflat : h.flat = true)
    (hlen : h.lengths_ok = true) (hok : h.modifiers_ok = true) (a b : type)
    (ha : a < h.length) (hb : b < h.length) (r : Bool) :
    ((∃ n, type_compatible_p n h a b = some r) ↔ (∃ n, type_compatible_p n h b a = some r))
    ∧ ((∃ n, type_identical_p n h a b = some r)
        ↔ (∃ n, type_identical_p n h b a = some r)) := by
  have hwf : h.well_formed = true := by
    simp [Heap.well_formed, hord, hflat, hlen, hok]
  refine ⟨⟨?_, ?_⟩, ⟨?_, ?_⟩⟩
  · rintro ⟨n, hn⟩
    exact compatible_swap n h hwf a b [] [] r ha hb (fun _ _ => rfl) hn
  · rintro ⟨n, hn⟩
    exact compatible_swap n h hwf b a [] [] r hb ha (fun _ _ => rfl) hn
  · rintro ⟨n, hn⟩
    exact identical_swap hord hflat hlen hn
  · rintro ⟨n, hn⟩
    exact identical_swap hord hflat hlen hn

/-- Witness for C29: the function terms `int (const int)` (address 3) and
`int (int)` (address 5) are compatible and not identical in the given order,
hence also in the other order. -/
theorem C29_witness :
    type_compatible_p 3 scenario_const_parameter.1 3 5 = some true
    ∧ (∃ n, type_compatible_p n scenario_const_parameter.1 5 3 = some true)
    ∧ type_identical_p 3 scenario_const_parameter.1 3 5 = some false
    ∧ (∃ n, type_identical_p n scenario_const_parameter.1 5 3 = some false) :=
  ⟨rfl,
    (C29_symmetric scenario_const_parameter.1 rfl rfl rfl rfl 3 5 (by decide) (by decide)
      true).1.1 ⟨3, rfl⟩,
    rfl,
    (C29_symmetric scenario_const_parameter.1 rfl rfl rfl rfl 3 5 (by decide) (by decide)
      false).2.1 ⟨3, rfl⟩⟩

/-- Witness for C24: `struct S { int a; char b; void* c; }` is of known
constant size, so it is complete, is no variable-length array, and each of its
members is of known constant size. -/
theorem C24_witness :
    KnownConstSize scenario_S.1 scenario_S.2
    ∧ type_complete_p scenario_S.1 scenario_S.2 = true
    ∧ type_array_vla_p scenario_S.1 scenario_S.2 = false
    ∧ (∀ m ∈ (base_members scenario_S.1 scenario_S.2).getD [],
        KnownConstSize scenario_S.1 m.typ) :=
  ⟨⟨2, rfl⟩,
    ((C24_known_const_size_iff scenario_S.1 scenario_S.2).1 ⟨2, rfl⟩).1,
    ((C24_known_const_size_iff scenario_S.1 scenario_S.2).1 ⟨2, rfl⟩).2.1,
    ((C24_known_const_size_iff scenario_S.1 scenario_S.2).1 ⟨2, rfl⟩).2.2.1 rfl⟩

/-! ### Dependencies along the chain of a term (C23) -/

/-- The count of `type_dependencies`: the walk adds the number of terms of
variable length on the chain to the counter. -/
theorem walk_dependencies {h : Heap} : ∀ (fuel : Nat) (t : type) (d : Int) (l : List type),
    vla_chain fuel h t = some l → d + (l.length : Int) ≤ INT_MAX →
    walk (dependencies_fun h) fuel h d t = some (d + (l.length : Int)) := by
  intro fuel
  induction fuel with
  | zero => intro t d l hl; simp [vla_chain] at hl
  | succ fuel ih =>
    intro t d l hl hb
    rw [vla_chain] at hl
    rw [walk]
    cases hcp : type_compound_p h t
    swap
    · simp only [hcp, if_true] at hl
      cases hl
      simp [dependencies_fun, hcp]
    simp only [hcp, Bool.false_eq_true, if_false] at hl
    have harr : type_array_p h t = (TYPE_ARRAY == type_classify h t) := rfl
    cases hcl : type_classify h t
    case TYPE_FUNCTION =>
      cases hx : type_function_return h t with
      | none => simp [hcl, hx] at hl
      | some x =>
        cases hr : vla_chain fuel h x with
        | none => simp [hcl, hx, hr] at hl
        | some rest =>
          simp only [hcl, hx, hr, harr, Option.pure_def, Option.bind_eq_bind, Option.some_bind,
            Bool.false_and, Bool.false_eq_true, if_false, Option.some.injEq,
            show (TYPE_ARRAY == TYPE_FUNCTION) = false from rfl] at hl
          subst hl
          simp only [dependencies_fun, hcp, harr, hcl, Bool.false_eq_true, if_false,
            Bool.false_and, Option.pure_def, Option.bind_eq_bind, Option.some_bind,
            Bool.not_true, hx, show (TYPE_ARRAY == TYPE_FUNCTION) = false from rfl]
          exact ih x d rest hr hb
    case TYPE_POINTER =>
      cases hx : type_pointer_referenced h t with
      | none => simp [hcl, hx] at hl
      | some x =>
        cases hr : vla_chain fuel h x with
        | none => simp [hcl, hx, hr] at hl
        | some rest =>
          simp only [hcl, hx, hr, harr, Option.pure_def, Option.bind_eq_bind, Option.some_bind,
            Bool.false_and, Bool.false_eq_true, if_false, Option.some.injEq,
            show (TYPE_ARRAY == TYPE_POINTER) = false from rfl] at hl
          subst hl
          simp only [dependencies_fun, hcp, harr, hcl, Bool.false_eq_true, if_false,
            Bool.false_and, Option.pure_def, Option.bind_eq_bind, Option.some_bind,
            Bool.not_true, hx, show (TYPE_ARRAY == TYPE_POINTER) = false from rfl]
          exact ih x d rest hr hb
    case TYPE_ARRAY =>
      cases hx : type_array_element h t with
      | none => simp [hcl, hx] at hl
      | some x =>
        cases hr : vla_chain fuel h x with
        | none => simp [hcl, hx, hr] at hl
        | some rest =>
          simp only [hcl, hx, hr, harr, Option.pure_def, Option.bind_eq_bind, Option.some_bind,
            Bool.true_and, show (TYPE_ARRAY == TYPE_ARRAY) = true from rfl] at hl
          simp only [dependencies_fun, hcp, harr, hcl, Bool.false_eq_true, if_false,
            Bool.true_and, Option.pure_def, Option.bind_eq_bind,
            show (TYPE_ARRAY == TYPE_ARRAY) = true from rfl]
          cases hv : type_array_vla_p h t
          · simp only [hv, Bool.false_eq_true, if_false, Option.some.injEq] at hl
            subst hl
            simp only [Bool.false_eq_true, if_false, Option.some_bind, Bool.not_true, hx]
            exact ih x d rest hr hb
          · simp only [hv, if_true, Option.some.injEq] at hl
            subst hl
            have hlen : ((t :: rest).length : Int) = (rest.length : Int) + 1 := by simp
            have hb1 : d + 1 ≤ INT_MAX := by omega
            simp only [if_true, hb1, Option.some_bind, Bool.not_true, Bool.false_eq_true,
              if_false, hx]
            rw [ih x (d + 1) rest hr (by omega), hlen]
            congr 1
            omega
    all_goals
      simp [harr, hcl] at hl
      subst hl
      simp [dependencies_fun, hcp, harr, hcl]

/-- The walk of `type_get_dependency` from the counter value `d` on: it stops at
the term number `n - d` of the chain with the raw field `targ` of that term,
or passes the whole chain. -/
theorem walk_get_dependency {h : Heap} (n : Int) :
    ∀ (fuel : Nat) (t : type) (d : Int) (p : Option Nat) (l : List type),
      vla_chain fuel h t = some l → d + (l.length : Int) ≤ INT_MAX → d ≤ n →
      walk (get_dependency_fun h n) fuel h (d, p) t
        = match l[(n - d).toNat]? with
          | some x => (raw_targ h x).map fun q => (n + 1, q)
          | none => some (d + (l.length : Int), p) := by
  intro fuel
  induction fuel with
  | zero => intro t d p l hl; simp [vla_chain] at hl
  | succ fuel ih =>
    intro t d p l hl hb hdn
    rw [vla_chain] at hl
    rw [walk]
    cases hcp : type_compound_p h t
    swap
    · simp only [hcp, if_true] at hl
      cases hl
      simp [get_dependency_fun, hcp]
    simp only [hcp, Bool.false_eq_true, if_false] at hl
    have harr : type_array_p h t = (TYPE_ARRAY == type_classify h t) := rfl
    cases hcl : type_classify h t
    case TYPE_FUNCTION =>
      cases hx : type_function_return h t with
      | none => simp [hcl, hx] at hl
      | some x =>
        cases hr : vla_chain fuel h x with
        | none => simp [hcl, hx, hr] at hl
        | some rest =>
          simp only [hcl, hx, hr, harr, Option.pure_def, Option.bind_eq_bind, Option.some_bind,
            Bool.false_and, Bool.false_eq_true, if_false, Option.some.injEq,
            show (TYPE_ARRAY == TYPE_FUNCTION) = false from rfl] at hl
          subst hl
          simp only [get_dependency_fun, hcp, harr, hcl, Bool.false_eq_true, if_false,
            Bool.false_and, Option.pure_def, Option.bind_eq_bind, Option.some_bind,
            Bool.not_true, hx, show (TYPE_ARRAY == TYPE_FUNCTION) = false from rfl]
          exact ih x d p rest hr hb hdn
    case TYPE_POINTER =>
      cases hx : type_pointer_referenced h t with
      | none => simp [hcl, hx] at hl
      | some x =>
        cases hr : vla_chain fuel h x with
        | none => simp [hcl, hx, hr] at hl
        | some rest =>
          simp only [hcl, hx, hr, harr, Option.pure_def, Option.bind_eq_bind, Option.some_bind,
            Bool.false_and, Bool.false_eq_true, if_false, Option.some.injEq,
            show (TYPE_ARRAY == TYPE_POINTER) = false from rfl] at hl
          subst hl
          simp only [get_dependency_fun, hcp, harr, hcl, Bool.false_eq_true, if_false,
            Bool.false_and, Option.pure_def, Option.bind_eq_bind, Option.some_bind,
            Bool.not_true, hx, show (TYPE_ARRAY == TYPE_POINTER) = false from rfl]
          exact ih x d p rest hr hb hdn
    case TYPE_ARRAY =>
      cases hx : type_array_element h t with
      | none => simp [hcl, hx] at hl
      | some x =>
        cases hr : vla_chain fuel h x with
        | none => simp [hcl, hx, hr] at hl
        | some rest =>
          simp only [hcl, hx, hr, harr, Option.pure_def, Option.bind_eq_bind, Option.some_bind,
            Bool.true_and, show (TYPE_ARRAY == TYPE_ARRAY) = true from rfl] at hl
          simp only [get_dependency_fun, hcp, harr, hcl, Bool.false_eq_true, if_false,
            Bool.true_and, Option.pure_def, Option.bind_eq_bind,
            show (TYPE_ARRAY == TYPE_ARRAY) = true from rfl]
          cases hv : type_array_vla_p h t
          · simp only [hv, Bool.false_eq_true, if_false, Option.some.injEq] at hl
            subst hl
            simp only [Bool.false_eq_true, if_false, Option.some_bind, Bool.not_true, hx]
            exact ih x d p rest hr hb hdn
          · simp only [hv, if_true, Option.some.injEq] at hl
            subst hl
            have hlen : ((t :: rest).length : Int) = (rest.length : Int) + 1 := by simp
            have hb1 : d + 1 ≤ INT_MAX := by omega
            simp only [if_true, hb1]
            by_cases hnd : n = d
            · subst hnd
              have h0 : (n - n).toNat = 0 := by omega
              simp only [if_true, h0, List.getElem?_cons_zero]
              cases raw_targ h t <;> simp
            · have hk : (n - d).toNat = (n - (d + 1)).toNat + 1 := by omega
              simp only [hnd, if_false, Option.some_bind, Bool.not_true, Bool.false_eq_true, hx,
                hk, List.getElem?_cons_succ]
              rw [ih x (d + 1) p rest hr (by omega) (by omega), hlen]
              have e : d + 1 + (rest.length : Int) = d + ((rest.length : Int) + 1) := by omega
              rw [e]
    all_goals
      simp [harr, hcl] at hl
      subst hl
      simp [get_dependency_fun, hcp, harr, hcl]

/-- In a flat heap a term classified as a function has a function node as base,
and one classified as a pointer a pointer node. -/
theorem function_pointer_of_classify {h : Heap} (hflat : h.flat = true) {t : type} :
    (type_classify h t = TYPE_FUNCTION → ∃ r a, h.node (type_base h t) = .function r a)
    ∧ (type_classify h t = TYPE_POINTER → ∃ r, h.node (type_base h t) = .pointer r) := by
  have hok := node_kind_ok hflat (type_base h t)
  unfold type_classify
  cases hn : h.node (type_base h t) with
  | function r a => exact ⟨fun _ => ⟨r, a, rfl⟩, fun hc => (by cases hc)⟩
  | pointer r => exact ⟨fun hc => (by cases hc), fun _ => ⟨r, rfl⟩⟩
  | basic k =>
    rw [hn] at hok
    refine ⟨fun hc => ?_, fun hc => ?_⟩ <;>
      · simp only [Node.kind] at hc
        subst hc
        simp [Node.kind_ok] at hok
  | compound k tag ms =>
    rw [hn] at hok
    refine ⟨fun hc => ?_, fun hc => ?_⟩ <;>
      · simp only [Node.kind] at hc
        subst hc
        simp [Node.kind_ok] at hok
  | array l e ta => exact ⟨fun hc => (by cases hc), fun hc => (by cases hc)⟩
  | arglist ms v => exact ⟨fun hc => (by cases hc), fun hc => (by cases hc)⟩
  | arglist_null ms v => exact ⟨fun hc => (by cases hc), fun hc => (by cases hc)⟩
  | enum tag ms => exact ⟨fun hc => (by cases hc), fun hc => (by cases hc)⟩
  | modified f b bits => exact ⟨fun hc => (by cases hc), fun hc => (by cases hc)⟩

/-- In an ordered flat heap the chain of a term exists, at every depth above
the address of the term. -/
theorem vla_chain_returns {h : Heap} (hord : h.ordered = true) (hflat : h.flat = true) :
    ∀ (t : type) (n : Nat), t < n → ∃ l, vla_chain n h t = some l := by
  intro t
  induction t using Nat.strong_induction_on with
  | _ t ih =>
    intro n hn
    cases n with
    | zero => cases hn
    | succ n =>
      have hle : t ≤ n := Nat.le_of_lt_succ hn
      have hstep : ∀ x, x ∈ (h.node (type_base h t)).children →
          ∃ l, vla_chain n h x = some l := by
        intro x hx
        have hlt : x < t := Nat.lt_of_lt_of_le (ordered_children hord hx) (base_le hord t)
        exact ih x hlt n (Nat.lt_of_lt_of_le hlt hle)
      rw [vla_chain]
      cases hcp : type_compound_p h t
      swap
      · exact ⟨[], by simp⟩
      simp only [Bool.false_eq_true, if_false]
      have hrest : ∃ rest, (match type_classify h t with
          | TYPE_FUNCTION => do
            let x ← type_function_return h t
            vla_chain n h x
          | TYPE_POINTER => do
            let x ← type_pointer_referenced h t
            vla_chain n h x
          | TYPE_ARRAY => do
            let x ← type_array_element h t
            vla_chain n h x
          | _ => some []) = some rest := by
        cases hcl : type_classify h t
        case TYPE_FUNCTION =>
          obtain ⟨r, a, hnode⟩ := (function_pointer_of_classify hflat).1 hcl
          obtain ⟨l, hl⟩ := hstep r (by rw [hnode]; simp [Node.children])
          exact ⟨l, by simp [type_function_return, hnode, hl]⟩
        case TYPE_POINTER =>
          obtain ⟨r, hnode⟩ := (function_pointer_of_classify hflat).2 hcl
          obtain ⟨l, hl⟩ := hstep r (by rw [hnode]; simp [Node.children])
          exact ⟨l, by simp [type_pointer_referenced, hnode, hl]⟩
        case TYPE_ARRAY =>
          obtain ⟨la, e, ta, hnode⟩ := array_of_classify hflat hcl
          obtain ⟨l, hl⟩ := hstep e (by rw [hnode]; simp [Node.children])
          exact ⟨l, by simp [type_array_element, hnode, hl]⟩
        all_goals exact ⟨[], rfl⟩
      obtain ⟨rest, hr⟩ := hrest
      simp only [Option.pure_def, Option.bind_eq_bind] at hr ⊢
      rw [hr]
      cases type_array_p h t && type_array_vla_p h t
      · exact ⟨rest, by simp⟩
      · exact ⟨t :: rest, by simp⟩

/-- The results of `type_dependencies` and `type_get_dependency` on a term with
the chain `l` of fewer than `2^31` terms of variable length: the count is the
length of `l`, and the dependency number `i` is the raw field `targ` of the
term number `i` of `l`; beyond the chain the result is `NULL`. -/
theorem dependencies_of_chain {h : Heap} {fuel : Nat} {t : type} {l : List type}
    (hl : vla_chain fuel h t = some l) (hb : (l.length : Int) ≤ INT_MAX) :
    type_dependencies fuel h t = some (l.length : Int)
    ∧ (∀ (i : Nat) (hi : i < l.length),
        type_get_dependency fuel h t (i : Int) = raw_targ h (l.get ⟨i, hi⟩))
    ∧ (∀ (i : Nat), l.length ≤ i → type_get_dependency fuel h t (i : Int) = some none) := by
  refine ⟨?_, ?_, ?_⟩
  · have := walk_dependencies fuel t 0 l hl (by omega)
    simpa [type_dependencies] using this
  · intro i hi
    have := walk_get_dependency (i : Int) fuel t 0 none l hl (by omega) (by omega)
    have hk : ((i : Int) - 0).toNat = i := by omega
    rw [hk, List.getElem?_eq_getElem hi] at this
    simp only [type_get_dependency, this, Option.pure_def, Option.bind_eq_bind]
    cases raw_targ h (l.get ⟨i, hi⟩) <;> simp_all
  · intro i hi
    have := walk_get_dependency (i : Int) fuel t 0 none l hl (by omega) (by omega)
    have hk : ((i : Int) - 0).toNat = i := by omega
    rw [hk, List.getElem?_eq_none hi] at this
    simp [type_get_dependency, this]

/-! ### The composite of two compatible terms (C14) -/

theorem frame_bits_differ {h : Heap} (hord : h.ordered = true) (e : List Node) {a b : type}
    (ha : a < h.length) (hb : b < h.length) :
    bits_differ (h ++ e) a b = bits_differ h a b := by
  simp only [bits_differ, frame_bitfield_p hord e ha, frame_bitfield_bits hord e ha,
    frame_bitfield_bits hord e hb]

/-- Two distinct terms with different flags are not compatible. -/
theorem compatible_flags_differ {K : Heap} {p q : type} (hpq : p ≠ q)
    (hf : type_flags K p ≠ type_flags K q) (n : Nat) (v : Pairs) :
    type_compatible_inner (n + 1) K p q v = some false := by
  rw [type_compatible_inner, type_identical_p]
  simp [hpq, hf]

/-- The term that `type_unqualified` returns without an allocation has no
flags. -/
theorem unqualified_old_flags {H : Heap} (hflat : H.flat = true) (x : type) :
    type_flags H (if type_flags H x = 0 then x else type_base H x) = 0 := by
  split
  · assumption
  · exact (base_view hflat x).2.1

theorem unqualified_old_lt {H : Heap} (hord : H.ordered = true) {x : type}
    (hx : x < H.length) :
    (if type_flags H x = 0 then x else type_base H x) < H.length := by
  split
  · exact hx
  · exact Nat.lt_of_le_of_lt (base_le hord x) hx

/-- The comparison of the two temporaries of
`type_compatible_p(type_unqualified(x), type_unqualified(y))` does not depend
on nodes allocated after `x` and `y`, provided `type_compatible_p` at the depth
of the callee has this property. -/
theorem unqualified_pair_frame {H : Heap} (hwf : H.well_formed = true) {e : List Node}
    (hoe : (H ++ e).ordered = true) (hfe : (H ++ e).flat = true) {x y : type}
    (hx : x < H.length) (hy : y < H.length) {n : Nat}
    (ih : ∀ a b, a < H.length → b < H.length →
      type_compatible_inner n (H ++ e) a b [] = type_compatible_inner n H a b []) :
    type_compatible_inner n (unqualified_pair (H ++ e) x y).1
        (unqualified_pair (H ++ e) x y).2.1 (unqualified_pair (H ++ e) x y).2.2 []
      = type_compatible_inner n (unqualified_pair H x y).1 (unqualified_pair H x y).2.1
        (unqualified_pair H x y).2.2 [] := by
  obtain ⟨hord, hflat, hlen, hok⟩ := well_formed_parts hwf
  have hle : H.length ≤ (H ++ e).length := by rw [List.length_append]; omega
  have hxe : x < (H ++ e).length := Nat.lt_of_lt_of_le hx hle
  have hye : y < (H ++ e).length := Nat.lt_of_lt_of_le hy hle
  have hrx := unqualified_old_lt hord hx
  have hry := unqualified_old_lt hord hy
  have hfx := unqualified_old_flags hflat x
  have hfy := unqualified_old_flags hflat y
  rw [unqualified_pair_eq hoe hfe hxe hye, unqualified_pair_eq hord hflat hx hy]
  simp only [frame_flags hord e hx, frame_flags hord e hy, frame_base hord e hx,
    frame_base hord e hy]
  by_cases cx : type_flags H x = 0
      ∨ type_flags H x &&& c_not32 (CONST ||| VOLATILE ||| RESTRICT ||| WIDE) = 0
  · by_cases cy : type_flags H y = 0
        ∨ type_flags H y &&& c_not32 (CONST ||| VOLATILE ||| RESTRICT ||| WIDE) = 0
    · simp only [cx, cy, if_true]
      exact ih _ _ hrx hry
    · simp only [cx, cy, if_true, if_false]
      have hF : type_flags H y &&& c_not32 (CONST ||| VOLATILE ||| RESTRICT ||| WIDE) ≠ 0 :=
        fun h0 => cy (Or.inr h0)
      cases n with
      | zero => rw [type_compatible_inner, type_compatible_inner]
      | succ k =>
        rw [compatible_flags_differ (Nat.ne_of_lt (Nat.lt_of_lt_of_le hrx hle)) ?_ k [],
          compatible_flags_differ (Nat.ne_of_lt hrx) ?_ k []]
        · rw [frame_flags hord _ hrx, hfx]
          simp only [type_flags, node_append_new]
          exact fun h0 => hF h0.symm
        · rw [List.append_assoc, frame_flags hord _ hrx, hfx, ← List.append_assoc]
          simp only [type_flags, node_append_new]
          exact fun h0 => hF h0.symm
  · by_cases cy : type_flags H y = 0
        ∨ type_flags H y &&& c_not32 (CONST ||| VOLATILE ||| RESTRICT ||| WIDE) = 0
    · simp only [cx, cy, if_true, if_false]
      have hF : type_flags H x &&& c_not32 (CONST ||| VOLATILE ||| RESTRICT ||| WIDE) ≠ 0 :=
        fun h0 => cx (Or.inr h0)
      cases n with
      | zero => rw [type_compatible_inner, type_compatible_inner]
      | succ k =>
        rw [compatible_flags_differ (Nat.ne_of_gt (Nat.lt_of_lt_of_le hry hle)) ?_ k [],
          compatible_flags_differ (Nat.ne_of_gt hry) ?_ k []]
        · rw [frame_flags hord _ hry, hfy]
          simp only [type_flags, node_append_new]
          exact hF
        · rw [List.append_assoc, frame_flags hord _ hry, hfy, ← List.append_assoc]
          simp only [type_flags, node_append_new]
          exact hF
    · simp only [cx, cy, if_false]
      rcases unqualified_cases hwf hx with ⟨_, _, _, hcond⟩
        | ⟨Fx, bx, _, hFx, hbx, _, _, hblx, _, hkx, _⟩
      · exact absurd hcond cx
      rcases unqualified_cases hwf hy with ⟨_, _, _, hcond⟩
        | ⟨Fy, bz, _, hFy, hby, _, _, hbly, _, hky, _⟩
      · exact absurd hcond cy
      subst hFx hbx hFy hby
      cases n with
      | zero => rw [type_compatible_inner, type_compatible_inner]
      | succ k =>
        have hblxe := Nat.lt_of_lt_of_le hblx hle
        have hblye := Nat.lt_of_lt_of_le hbly hle
        have e1 : ∀ (l : List Node) (b : type), b < H.length →
            (H ++ e ++ l).node b = H.node b := fun l b hb => by
          rw [List.append_assoc]; exact node_append_list hb _
        rw [compatible_modified_pair (ordered_append_two hoe hblxe hblye)
            (Nat.ne_of_lt (Nat.lt_succ_self _))
            (by rw [List.length_append (H ++ e)]; simp)
            (node_append_two_fst _ _ _)
            (node_append_two_snd _ _ _) (by rw [e1 _ _ hblx]; exact hkx) k,
          compatible_modified_pair (ordered_append_two hord hblx hbly)
            (Nat.ne_of_lt (Nat.lt_succ_self _)) (by simp) (node_append_two_fst _ _ _)
            (node_append_two_snd _ _ _) (by rw [node_append_list hblx]; exact hkx) k]
        rw [e1 _ _ hblx, e1 _ _ hbly, node_append_list hblx, node_append_list hbly,
          frame_identical hord _ k _ _ hblx hbly, List.append_assoc,
          frame_identical hord _ k _ _ hblx hbly]

/-- The parameter loop of the function case on an extended heap. -/
theorem args_compatible_frame {H : Heap} {e : List Node} {n : Nat}
    (hp : ∀ x y, x < H.length → y < H.length →
      type_compatible_inner n (unqualified_pair (H ++ e) x y).1
        (unqualified_pair (H ++ e) x y).2.1 (unqualified_pair (H ++ e) x y).2.2 []
      = type_compatible_inner n (unqualified_pair H x y).1 (unqualified_pair H x y).2.1
        (unqualified_pair H x y).2.2 []) :
    ∀ (as bs : List (Option type)), (∀ m, some m ∈ as → m < H.length) →
      (∀ m, some m ∈ bs → m < H.length) →
      args_compatible (fun h1 x y => type_compatible_inner n h1 x y []) (H ++ e) as bs
        = args_compatible (fun h1 x y => type_compatible_inner n h1 x y []) H as bs := by
  intro as
  induction as with
  | nil => intro bs _ _; cases bs <;> rfl
  | cons x as ihl =>
    intro bs hva hvb
    cases bs with
    | nil => rfl
    | cons y bs =>
      rw [args_compatible, args_compatible]
      cases x with
      | none => rfl
      | some x =>
        cases y with
        | none => rfl
        | some y =>
          simp only [Option.pure_def, Option.bind_eq_bind, Option.some_bind]
          rw [hp x y (hva x (by simp)) (hvb y (by simp)),
            ihl bs (fun m hm => hva m (by simp [hm])) (fun m hm => hvb m (by simp [hm]))]

/-- The struct rule on an extended heap. -/
theorem struct_compatible_frame {H : Heap} (hord : H.ordered = true) (e : List Node)
    {a b : type} (ha : a < H.length) (hb : b < H.length) (v : Pairs)
    {p q : type → type → Pairs → Option Bool}
    (hpq : ∀ x y w, x < H.length → y < H.length → p x y w = q x y w) :
    struct_compatible_p p (H ++ e) a b v = struct_compatible_p q H a b v := by
  unfold struct_compatible_p
  simp only [frame_raw_compound hord e ha, frame_raw_compound hord e hb,
    frame_complete_p hord e ha, frame_complete_p hord e hb]
  cases hca : raw_compound H a with
  | none => rfl
  | some ca =>
    cases hcb : raw_compound H b with
    | none => rfl
    | some cb =>
      have hva : ∀ m ∈ ca.2.getD [], m.typ < H.length := fun m hm =>
        Nat.lt_trans (ordered_children hord (raw_compound_children hca m hm)) ha
      have hvb : ∀ m ∈ cb.2.getD [], m.typ < H.length := fun m hm =>
        Nat.lt_trans (ordered_children hord (raw_compound_children hcb m hm)) hb
      simp only [Option.pure_def, Option.bind_eq_bind, Option.some_bind]
      rw [members_compatible_congr (p := p) (q := q) (v := (a, b) :: v) (w := (a, b) :: v) _ _
        (fun x hx y hy => hpq _ _ _ (hva x hx) (hvb y hy))]


theorem option_bind_congr {α β : Type} {f g : α → Option β} {x : Option α}
    (h : ∀ a, x = some a → f a = g a) : x.bind f = x.bind g := by
  cases x with
  | none => simp only [Option.none_bind]
  | some a => simp only [Option.some_bind]; exact h a rfl

/-- Allocation does not change `type_compatible_inner` of two valid terms of a
well-formed heap. -/
theorem frame_compatible : ∀ (n : Nat) (H : Heap), H.well_formed = true → ∀ (e : List Node),
    (H ++ e).ordered = true → (H ++ e).flat = true →
    ∀ (a b : type) (v : Pairs), a < H.length → b < H.length →
      type_compatible_inner n (H ++ e) a b v = type_compatible_inner n H a b v := by
  intro n
  induction n with
  | zero => intro H _ e _ _ a b v _ _; rw [type_compatible_inner, type_compatible_inner]
  | succ n ih =>
    intro H hwf e hoe hfe a b v ha hb
    obtain ⟨hord, hflat, hlen, hok⟩ := well_formed_parts hwf
    have hle : H.length ≤ (H ++ e).length := by rw [List.length_append]; omega
    rw [type_compatible_inner, type_compatible_inner]
    simp only [frame_identical hord e (n + 1) a b ha hb, frame_flags hord e ha,
      frame_flags hord e hb, frame_bits_differ hord e ha hb, frame_classify hord e ha,
      frame_classify hord e hb, frame_category hord e ha, frame_category hord e hb,
      frame_array_element hord e ha, frame_array_element hord e hb,
      frame_kcs hord e (n + 1) a ha, frame_kcs hord e (n + 1) b hb,
      frame_array_length hord e ha, frame_array_length hord e hb,
      frame_function_return hord e ha, frame_function_return hord e hb,
      frame_function_arguments hord e ha, frame_function_arguments hord e hb,
      frame_compound_tag hord e ha, frame_compound_tag hord e hb,
      frame_enum_p hord e ha, frame_enum_p hord e hb, Option.pure_def, Option.bind_eq_bind]
    apply option_bind_congr
    intro i _
    by_cases hit : i = true
    · simp only [hit, if_true]
    simp only [hit, if_false]
    by_cases hf : type_flags H a = type_flags H b
    swap
    · simp only [hf, ne_eq, not_false_eq_true, if_true]
    simp only [hf, ne_eq, not_true_eq_false, if_false]
    apply option_bind_congr
    intro d _
    by_cases hdt : d = true
    · simp only [hdt, if_true]
    simp only [hdt, if_false]
    by_cases hcl : type_classify H a = type_classify H b
    swap
    · simp only [hcl, not_false_eq_true, if_true]
    simp only [hcl, not_true_eq_false, if_false]
    by_cases hcat : type_category H a = type_category H b
    swap
    · simp only [hcat, not_false_eq_true, if_true]
    simp only [hcat, not_true_eq_false, if_false]
    have hen : type_enum_p H a = type_enum_p H b := by
      simp [type_enum_p, type_has_class_p, hcl]
    have hother : (if (type_enum_p H a || type_enum_p H b) = true then
          type_compatible_inner n (type_basic (H ++ e) TYPE_INT).1
            (if (!type_enum_p H a) = true then a else b) (type_basic (H ++ e) TYPE_INT).2 []
        else some false)
        = (if (type_enum_p H a || type_enum_p H b) = true then
          type_compatible_inner n (type_basic H TYPE_INT).1
            (if (!type_enum_p H a) = true then a else b) (type_basic H TYPE_INT).2 []
        else some false) := by
      rw [hen]
      cases he : type_enum_p H b with
      | false => simp only [Bool.or_self, Bool.false_eq_true, if_false]
      | true =>
        simp only [Bool.or_self, if_true, Bool.not_true, Bool.false_eq_true, if_false]
        cases n with
        | zero => rw [type_compatible_inner, type_compatible_inner]
        | succ k =>
          rw [enum_bridge_false hord hb he k,
            enum_bridge_false hoe (Nat.lt_of_lt_of_le hb hle)
              (by rw [frame_enum_p hord e hb]; exact he) k]
    cases hcb : type_category H b with
    | TC_POINTER => simp only [hother]
    | TC_ATOMIC => simp only [hother]
    | TC_SELF => simp only [hother]
    | TC_UNION => simp only []
    | TC_STRUCT =>
      simp only []
      exact struct_compatible_frame hord e ha hb v
        (fun x y w hx hy => ih H hwf e hoe hfe x y w hx hy)
    | TC_ARRAY =>
      simp only []
      apply option_bind_congr
      intro ea hea
      apply option_bind_congr
      intro eb heb
      rw [frame_identical hord e (n + 1) ea eb (element_lt hord ha hea)
        (element_lt hord hb heb)]
    | TC_FUNCTION =>
      simp only []
      have hpair : ∀ x y, x < H.length → y < H.length →
          type_compatible_inner n (unqualified_pair (H ++ e) x y).1
            (unqualified_pair (H ++ e) x y).2.1 (unqualified_pair (H ++ e) x y).2.2 []
          = type_compatible_inner n (unqualified_pair H x y).1 (unqualified_pair H x y).2.1
            (unqualified_pair H x y).2.2 [] :=
        fun x y hx hy => unqualified_pair_frame hwf hoe hfe hx hy
          (fun a1 b1 ha1 hb1 => ih H hwf e hoe hfe a1 b1 [] ha1 hb1)
      apply option_bind_congr
      intro ra hra
      apply option_bind_congr
      intro rb hrb
      rw [hpair ra rb (return_lt hord ha hra) (return_lt hord hb hrb)]
      apply option_bind_congr
      intro r _
      by_cases hrt : r = true
      swap
      · simp only [hrt, Bool.not_eq_true, Bool.not_false, if_true]
      simp only [hrt, Bool.not_true, Bool.false_eq_true, if_false]
      apply option_bind_congr
      intro aa hfa
      apply option_bind_congr
      intro ab hfb
      cases aa with
      | none => cases ab <;> simp only [function_args_compatible]
      | some aa =>
      cases ab with
      | none => simp only [function_args_compatible]
      | some ab =>
      have hvaa : aa < H.length := arguments_lt hord ha hfa
      have hvab : ab < H.length := arguments_lt hord hb hfb
      simp only [function_args_compatible, frame_raw_types hord e hvaa,
        frame_raw_types hord e hvab, Option.pure_def, Option.bind_eq_bind]
      apply option_bind_congr
      intro msa hma
      apply option_bind_congr
      intro msb hmb
      rw [args_compatible_frame hpair msa msb
        (fun m hm => Nat.lt_trans (raw_types_lt hord hma m hm) hvaa)
        (fun m hm => Nat.lt_trans (raw_types_lt hord hmb m hm) hvab)]
theorem flags_ok_append (h e : Heap) : (h ++ e).flags_ok = (h.flags_ok && e.flags_ok) := by
  simp [Heap.flags_ok, List.all_append]

theorem flags_ok_prefix {h : Heap} {e : List Node} (hf : (h ++ e).flags_ok = true) :
    h.flags_ok = true := by
  rw [flags_ok_append] at hf
  simp only [Bool.and_eq_true] at hf
  exact hf.1

theorem compatible_frame {H : Heap} (hwf : H.well_formed = true) {e : List Node}
    (hoe : (H ++ e).ordered = true) (hfe : (H ++ e).flat = true) {x y : type}
    (hx : x < H.length) (hy : y < H.length) (hc : Compatible H x y) :
    Compatible (H ++ e) x y := by
  obtain ⟨n, hn⟩ := hc
  exact ⟨n, by rw [type_compatible_p, frame_compatible n H hwf e hoe hfe x y [] hx hy]; exact hn⟩

end Muc
